import Mathlib

/-!
# MediaResourceIndex: the block cache in front of a media resource

A shallow embedding of `MediaResourceIndex` from `dom/media/MediaResource.cpp`
(`Read`, `ReadAt`, `CacheOrReadAt`, `UncachedReadAt`, `UncachedRangedReadAt`,
`Seek`) and theorems about it.

Conventions of the embedding

* `int64_t` values are `Int`, `uint32_t` values are `Nat`; every arithmetic
  operation of the source is followed by the wrap of its C++ type
  (`int64_t`, `uint32_t` below), so overflow is wraparound.
* A `char*` is a memory (`Nat → Byte`) together with a position in it; pointer
  advance `aBuffer += n` is `aPos + n`.
* The resource behind `mResource` is a state machine over an arbitrary state
  type `ρ`; each of its three operations may change that state.
* The field `trace` is a ghost field: it records, in order, every call made to
  the resource, every entry into one of the internal read functions and every
  `MOZ_ASSERT` whose condition was false.  It influences nothing.
-/

namespace mozilla

/-- A `char` of a buffer. -/
abbrev Byte := UInt8

/-- The result codes the code distinguishes.  `other failed code` is any other
`nsresult` a resource may hand back, with the verdict of `NS_FAILED` on it. -/
inductive nsresult
  | NS_OK
  | NS_ERROR_ILLEGAL_VALUE
  | NS_ERROR_FAILURE
  | other (failed : Bool) (code : Nat)
  deriving DecidableEq, Repr

open nsresult

/-- The check `NS_FAILED(rv)`. -/
def NS_FAILED : nsresult → Bool
  | nsresult.NS_OK => false
  | nsresult.NS_ERROR_ILLEGAL_VALUE => true
  | nsresult.NS_ERROR_FAILURE => true
  | nsresult.other failed _ => failed

/-- The check `NS_SUCCEEDED(rv)`. -/
def NS_SUCCEEDED (rv : nsresult) : Bool := !NS_FAILED rv

/-- Wraparound to the range of `int64_t`. -/
def int64_t (n : Int) : Int :=
  (n + 9223372036854775808) % 18446744073709551616 - 9223372036854775808

/-- Wraparound to the range of `uint32_t`. -/
def uint32_t (n : Int) : Nat := (n % 4294967296).toNat

/-- The value lies in the range of `int64_t`. -/
def InInt64 (n : Int) : Prop := -9223372036854775808 ≤ n ∧ n < 9223372036854775808

/-- The value lies in the range of `uint32_t`. -/
def InUInt32 (n : Nat) : Prop := n < 4294967296

instance (n : Int) : Decidable (InInt64 n) := by unfold InInt64; infer_instance

instance (n : Nat) : Decidable (InUInt32 n) := by unfold InUInt32; infer_instance

/-- What the trace records. -/
inductive Event
  | ResourceReadAt (aOffset : Int) (aCount : Nat)
  | ResourceGetLength
  | ResourceGetCachedDataEnd (aOffset : Int)
  | UncachedReadAt (aOffset : Int) (aCount : Nat)
  | UncachedRangedReadAt (aOffset : Int) (aRequestedCount aExtraCount : Nat)
  | CacheOrReadAt (aOffset : Int) (aCount : Nat)
  | AssertFailed (line : Nat)
  deriving DecidableEq, Repr

/-- The three operations `MediaResourceIndex` uses of a `MediaResource`, over
the resource state `ρ`.  `ReadAt r aOffset aCount` gives the result code, the
bytes stored at the start of the buffer handed in (their number is
`bytesRead`; a resource may have stored bytes also when it reports a failure)
and the next state. -/
structure MediaResource (ρ : Type) where
  ReadAt : ρ → Int → Nat → nsresult × List Byte × ρ
  GetLength : ρ → Int × ρ
  GetCachedDataEnd : ρ → Int → Int × ρ

/-- The members of `MediaResourceIndex`, and the ghost trace. -/
structure MediaResourceIndex (ρ : Type) where
  mResource : ρ
  mOffset : Int
  mCacheBlockSize : Nat
  mCachedOffset : Int
  mCachedBytes : Nat
  mCachedBlock : Nat → Byte
  trace : List Event

/-- What a read function leaves behind: its return value, the memory of the
buffer it was given, `*aBytes`, and the index afterwards. -/
structure Outcome (ρ : Type) where
  rv : nsresult
  aBuffer : Nat → Byte
  aBytes : Nat
  index : MediaResourceIndex ρ

/-- Bytes stored by a resource read at `aBuffer + aPos`. -/
def store (aBuffer : Nat → Byte) (aPos : Nat) (bytes : List Byte) : Nat → Byte :=
  fun j => if aPos ≤ j ∧ j < aPos + bytes.length then bytes.getD (j - aPos) 0 else aBuffer j

/-- The call `memcpy(dst + dPos, src + sPos, n)`. -/
def memcpy (dst : Nat → Byte) (dPos : Nat) (src : Nat → Byte) (sPos : Nat) (n : Nat) :
    Nat → Byte :=
  fun j => if dPos ≤ j ∧ j < dPos + n then src (sPos + (j - dPos)) else dst j

namespace MediaResourceIndex

variable {ρ : Type}

/-- Ghost: append an event to the trace. -/
def emit (self : MediaResourceIndex ρ) (e : Event) : MediaResourceIndex ρ :=
  { self with trace := self.trace ++ [e] }

/-- The statement `MOZ_ASSERT(cond)` of the given source line: no effect on
the run, a false condition is recorded in the trace. -/
def MOZ_ASSERT (line : Nat) (cond : Bool) (self : MediaResourceIndex ρ) :
    MediaResourceIndex ρ :=
  if cond then self else self.emit (Event.AssertFailed line)

/-- Modelled from the spec: the constructor is in MediaResource.h, which is not
among the sources; the spec has the cache `Empty` initially, a capacity fixed
at construction and the cursor at the start. -/
def init (aCacheBlockSize : Nat) (aResource : ρ) : MediaResourceIndex ρ :=
  { mResource := aResource, mOffset := 0, mCacheBlockSize := aCacheBlockSize,
    mCachedOffset := 0, mCachedBytes := 0, mCachedBlock := fun _ => 0, trace := [] }

/-- Modelled from the spec: `IndexInCache` is defined in MediaResource.h, which
is not among the sources; the spec calls it `index_in_block(offset)`, the
position of a resource offset inside the capacity-aligned block holding it. -/
def IndexInCache (self : MediaResourceIndex ρ) (aOffsetInFile : Int) : Nat :=
  uint32_t (aOffsetInFile % (self.mCacheBlockSize : Int))

/-- Modelled from the spec: `CacheOffsetContaining` is defined in
MediaResource.h, which is not among the sources; the spec calls it
`align_down(offset, capacity)`, the start of the capacity-aligned block holding
the offset. -/
def CacheOffsetContaining (self : MediaResourceIndex ρ) (aOffsetInFile : Int) : Int :=
  aOffsetInFile - aOffsetInFile % (self.mCacheBlockSize : Int)

/-- The call `mResource->ReadAt(aOffset, ·, aCount, &bytesRead)`. -/
def mResource_ReadAt (R : MediaResource ρ) (self : MediaResourceIndex ρ) (aOffset : Int)
    (aCount : Nat) : nsresult × List Byte × MediaResourceIndex ρ :=
  let r := R.ReadAt self.mResource aOffset aCount
  (r.1, r.2.1,
    { self with mResource := r.2.2,
                trace := self.trace ++ [Event.ResourceReadAt aOffset aCount] })

/-- The call `mResource->GetLength()`. -/
def mResource_GetLength (R : MediaResource ρ) (self : MediaResourceIndex ρ) :
    Int × MediaResourceIndex ρ :=
  let r := R.GetLength self.mResource
  (r.1, { self with mResource := r.2, trace := self.trace ++ [Event.ResourceGetLength] })

/-- Modelled from the spec: `MediaResourceIndex::GetLength` is defined in
MediaResource.h, which is not among the sources; the spec has it as the
`length()` of the resource. -/
def GetLength (R : MediaResource ρ) (self : MediaResourceIndex ρ) :
    Int × MediaResourceIndex ρ :=
  mResource_GetLength R self

/-- The call `mResource->GetCachedDataEnd(aOffset)`. -/
def mResource_GetCachedDataEnd (R : MediaResource ρ) (self : MediaResourceIndex ρ)
    (aOffset : Int) : Int × MediaResourceIndex ρ :=
  let r := R.GetCachedDataEnd self.mResource aOffset
  (r.1, { self with mResource := r.2,
                    trace := self.trace ++ [Event.ResourceGetCachedDataEnd aOffset] })

/-- The number of iterations after which a loop that advances a non-negative
`int64_t` offset by at least one each time has left the range of `int64_t`. -/
def loopFuel (aOffset : Int) : Nat := (9223372036854775808 - aOffset).toNat

/-- The `for (;;)` loop of `UncachedReadAt` (lines 582-602), entered with the
current `aOffset`, `aBuffer`, `aCount` and `*aBytes`.  The first argument
bounds the iterations; with `loopFuel aOffset` it is never used up
(`UncachedReadAt_loop_fuel`), each iteration that continues having advanced
`aOffset` without leaving `int64_t`. -/
def UncachedReadAt_loop (R : MediaResource ρ) :
    Nat → MediaResourceIndex ρ → Int → (Nat → Byte) → Nat → Nat → Nat → Outcome ρ
  | 0, self, _, aBuffer, _, _, aBytes => ⟨NS_ERROR_FAILURE, aBuffer, aBytes, self⟩
  | fuel + 1, self, aOffset, aBuffer, aPos, aCount, aBytes =>
    let r := mResource_ReadAt R self aOffset aCount
    let rv := r.1
    let bytesRead := uint32_t r.2.1.length
    let aBuffer := store aBuffer aPos r.2.1
    let self := r.2.2
    if NS_FAILED rv then ⟨rv, aBuffer, aBytes, self⟩
    else if bytesRead = 0 then ⟨NS_OK, aBuffer, aBytes, self⟩
    else
      let aBytes := uint32_t (aBytes + bytesRead)
      let aCount := uint32_t (aCount - bytesRead)
      if aCount = 0 then ⟨NS_OK, aBuffer, aBytes, self⟩
      else
        let aOffset := int64_t (aOffset + bytesRead)
        if aOffset < 0 then ⟨NS_ERROR_FAILURE, aBuffer, aBytes, self⟩
        else UncachedReadAt_loop R fuel self aOffset aBuffer (aPos + bytesRead) aCount aBytes

/-- `MediaResourceIndex::UncachedReadAt` (lines 571-605). -/
def UncachedReadAt (R : MediaResource ρ) (self : MediaResourceIndex ρ) (aOffset : Int)
    (aBuffer : Nat → Byte) (aPos : Nat) (aCount : Nat) : Outcome ρ :=
  let self := self.emit (Event.UncachedReadAt aOffset aCount)
  if aOffset < 0 then ⟨NS_ERROR_ILLEGAL_VALUE, aBuffer, 0, self⟩
  else if aCount ≠ 0 then
    UncachedReadAt_loop R (loopFuel aOffset) self aOffset aBuffer aPos aCount 0
  else ⟨NS_OK, aBuffer, 0, self⟩

/-- The `for (;;)` loop of `UncachedRangedReadAt` (lines 620-641), entered with
the current `aOffset`, `aBuffer`, `count` and `*aBytes`; the first argument as
in `UncachedReadAt_loop`. -/
def UncachedRangedReadAt_loop (R : MediaResource ρ) (aExtraCount : Nat) :
    Nat → MediaResourceIndex ρ → Int → (Nat → Byte) → Nat → Nat → Nat → Outcome ρ
  | 0, self, _, aBuffer, _, _, aBytes => ⟨NS_ERROR_FAILURE, aBuffer, aBytes, self⟩
  | fuel + 1, self, aOffset, aBuffer, aPos, count, aBytes =>
    let r := mResource_ReadAt R self aOffset count
    let rv := r.1
    let bytesRead := uint32_t r.2.1.length
    let aBuffer := store aBuffer aPos r.2.1
    let self := r.2.2
    if NS_FAILED rv then ⟨rv, aBuffer, aBytes, self⟩
    else if bytesRead = 0 then ⟨NS_OK, aBuffer, aBytes, self⟩
    else
      let aBytes := uint32_t (aBytes + bytesRead)
      let count := uint32_t (count - bytesRead)
      if count ≤ aExtraCount then ⟨NS_OK, aBuffer, aBytes, self⟩
      else
        let aOffset := int64_t (aOffset + bytesRead)
        if aOffset < 0 then ⟨NS_ERROR_FAILURE, aBuffer, aBytes, self⟩
        else
          UncachedRangedReadAt_loop R aExtraCount fuel self aOffset aBuffer (aPos + bytesRead)
            count aBytes

/-- `MediaResourceIndex::UncachedRangedReadAt` (lines 607-644). -/
def UncachedRangedReadAt (R : MediaResource ρ) (self : MediaResourceIndex ρ) (aOffset : Int)
    (aBuffer : Nat → Byte) (aPos : Nat) (aRequestedCount aExtraCount : Nat) : Outcome ρ :=
  let self := self.emit (Event.UncachedRangedReadAt aOffset aRequestedCount aExtraCount)
  let count := uint32_t (aRequestedCount + aExtraCount)
  if aOffset < 0 ∨ count < aRequestedCount then ⟨NS_ERROR_ILLEGAL_VALUE, aBuffer, 0, self⟩
  else if count ≠ 0 then
    UncachedRangedReadAt_loop R aExtraCount (loopFuel aOffset) self aOffset aBuffer aPos count 0
  else ⟨NS_OK, aBuffer, 0, self⟩

/-- The fallback of `CacheOrReadAt` (lines 549-568): a blocking uncached read
into the caller buffer, added to `*aBytes` when it succeeds. -/
def CacheOrReadAt_fallback (R : MediaResource ρ) (self : MediaResourceIndex ρ) (aOffset : Int)
    (aBuffer : Nat → Byte) (aPos : Nat) (aCount : Nat) (aBytes : Nat) : Outcome ρ :=
  let r := UncachedReadAt R self aOffset aBuffer aPos aCount
  if NS_SUCCEEDED r.rv then ⟨r.rv, r.aBuffer, uint32_t (aBytes + r.aBytes), r.index⟩
  else ⟨r.rv, r.aBuffer, aBytes, r.index⟩

/-- Lines 448-534 of `CacheOrReadAt`: the resource has cached data up to
`cachedDataEnd`, which covers the request; read into the cache block as much of
it as the block can take, and copy the requested part to the caller.  When the
ranged read fails, fall back to the blocking read. -/
def CacheOrReadAt_ranged (R : MediaResource ρ) (self : MediaResourceIndex ρ) (aOffset : Int)
    (aBuffer : Nat → Byte) (aPos : Nat) (aCount : Nat) (aBytes : Nat) (cachedDataEnd : Int) :
    Outcome ρ :=
  let cacheIndex := self.IndexInCache aOffset
  let toRead := uint32_t (min (int64_t (cachedDataEnd - aOffset))
    (uint32_t (self.mCacheBlockSize - cacheIndex) : Int))
  let self := MOZ_ASSERT 454 (decide (toRead ≥ aCount)) self
  let r := UncachedRangedReadAt R self aOffset self.mCachedBlock cacheIndex aCount
    (uint32_t (toRead - aCount))
  let read := r.aBytes
  let self := { r.index with mCachedBlock := r.aBuffer }
  if NS_SUCCEEDED r.rv then
    if read = 0 then ⟨NS_OK, aBuffer, aBytes, self⟩
    else
      let self :=
        if int64_t (self.mCachedOffset + self.mCachedBytes) = aOffset then
          { self with mCachedBytes := uint32_t (self.mCachedBytes + read) }
        else { self with mCachedOffset := aOffset, mCachedBytes := read }
      let toCopy := min aCount read
      ⟨NS_OK, memcpy aBuffer aPos self.mCachedBlock cacheIndex toCopy,
        uint32_t (aBytes + toCopy), self⟩
  else
    let self :=
      if int64_t (self.mCachedOffset + self.mCachedBytes) = aOffset then self
      else { self with mCachedBytes := 0 }
    CacheOrReadAt_fallback R self aOffset aBuffer aPos aCount aBytes

/-- `MediaResourceIndex::CacheOrReadAt` (lines 426-569); `aBytes` is the value
of `*aBytes` on entry. -/
def CacheOrReadAt (R : MediaResource ρ) (self : MediaResourceIndex ρ) (aOffset : Int)
    (aBuffer : Nat → Byte) (aPos : Nat) (aCount : Nat) (aBytes : Nat) : Outcome ρ :=
  let self := self.emit (Event.CacheOrReadAt aOffset aCount)
  let self := MOZ_ASSERT 433 (decide (aCount > 0)) self
  let self := MOZ_ASSERT 435
    (decide (uint32_t (self.IndexInCache aOffset + aCount) ≤ self.mCacheBlockSize)) self
  let l := GetLength R self
  let length := l.1
  let self := l.2
  if length < 0 ∨ length ≥ int64_t (aOffset + aCount) then
    let c := mResource_GetCachedDataEnd R self aOffset
    let cachedDataEnd := c.1
    let self := c.2
    if cachedDataEnd ≥ int64_t (aOffset + aCount) then
      CacheOrReadAt_ranged R self aOffset aBuffer aPos aCount aBytes cachedDataEnd
    else CacheOrReadAt_fallback R self aOffset aBuffer aPos aCount aBytes
  else CacheOrReadAt_fallback R self aOffset aBuffer aPos aCount aBytes

/-- The end of `ReadAt` (lines 418-423): the cache is invalidated and the rest
goes to `CacheOrReadAt`. -/
def ReadAt_lastBlock (R : MediaResource ρ) (self : MediaResourceIndex ρ) (aOffset : Int)
    (aBuffer : Nat → Byte) (aPos : Nat) (aCount : Nat) (aBytes : Nat) (lastBlockOffset : Int) :
    Outcome ρ :=
  let self := MOZ_ASSERT 419 (decide (aOffset = lastBlockOffset)) self
  let self := MOZ_ASSERT 420 (decide (aCount ≤ self.mCacheBlockSize)) self
  let self := { self with mCachedBytes := 0 }
  CacheOrReadAt R self aOffset aBuffer aPos aCount aBytes

/-- Lines 368-423 of `ReadAt`: the uncached read of what lies before the last
block, when there is such a part, and then the last block. -/
def ReadAt_beforeLastBlock (R : MediaResource ρ) (self : MediaResourceIndex ρ) (aOffset : Int)
    (aBuffer : Nat → Byte) (aPos : Nat) (aCount : Nat) (aBytes : Nat) (lastBlockOffset : Int) :
    Outcome ρ :=
  if aOffset < lastBlockOffset then
    let toRead := uint32_t (int64_t (lastBlockOffset - aOffset))
    let self := MOZ_ASSERT 375 (decide (toRead > 0)) self
    let self := MOZ_ASSERT 376 (decide (toRead < aCount)) self
    let r := UncachedReadAt R self aOffset aBuffer aPos toRead
    let read := r.aBytes
    if NS_FAILED r.rv then ⟨r.rv, r.aBuffer, aBytes, r.index⟩
    else if read = 0 then ⟨NS_OK, r.aBuffer, aBytes, r.index⟩
    else
      let aBytes := uint32_t (aBytes + read)
      if read < toRead then ⟨NS_OK, r.aBuffer, aBytes, r.index⟩
      else
        ReadAt_lastBlock R r.index (int64_t (aOffset + read)) r.aBuffer (aPos + read)
          (uint32_t (aCount - read)) aBytes lastBlockOffset
  else ReadAt_lastBlock R self aOffset aBuffer aPos aCount aBytes lastBlockOffset

/-- Lines 349-359 of `ReadAt`: after the copy from the cache, top up the cache
when the position is already inside the last block, else go on before it. -/
def ReadAt_afterCache (R : MediaResource ρ) (self : MediaResourceIndex ρ) (aOffset : Int)
    (aBuffer : Nat → Byte) (aPos : Nat) (aCount : Nat) (aBytes : Nat)
    (endOffset lastBlockOffset : Int) : Outcome ρ :=
  if int64_t (aOffset - 1) ≥ lastBlockOffset then
    let self := MOZ_ASSERT 352
      (decide (aOffset = int64_t (self.mCachedOffset + self.mCachedBytes))) self
    let self := MOZ_ASSERT 353
      (decide (endOffset ≤ int64_t (lastBlockOffset + self.mCacheBlockSize))) self
    CacheOrReadAt R self aOffset aBuffer aPos aCount aBytes
  else
    let self := MOZ_ASSERT 358 (decide (aOffset ≤ lastBlockOffset)) self
    ReadAt_beforeLastBlock R self aOffset aBuffer aPos aCount aBytes lastBlockOffset

/-- Lines 312-359 of `ReadAt`: the position has reached the cache; copy what the
cache has of the request. -/
def ReadAt_fromCache (R : MediaResource ρ) (self : MediaResourceIndex ρ) (aOffset : Int)
    (aBuffer : Nat → Byte) (aPos : Nat) (aCount : Nat) (aBytes : Nat)
    (endOffset lastBlockOffset : Int) : Outcome ρ :=
  let self := MOZ_ASSERT 312 (decide (aOffset ≥ self.mCachedOffset)) self
  let toCopy := min aCount
    (uint32_t (int64_t (int64_t (self.mCachedOffset + self.mCachedBytes) - aOffset)))
  if toCopy ≠ 0 then
    let aBuffer := memcpy aBuffer aPos self.mCachedBlock (self.IndexInCache aOffset) toCopy
    let aBytes := uint32_t (aBytes + toCopy)
    let aCount := uint32_t (aCount - toCopy)
    if aCount = 0 then ⟨NS_OK, aBuffer, aBytes, self⟩
    else
      ReadAt_afterCache R self (int64_t (aOffset + toCopy)) aBuffer (aPos + toCopy) aCount
        aBytes endOffset lastBlockOffset
  else ReadAt_afterCache R self aOffset aBuffer aPos aCount aBytes endOffset lastBlockOffset

/-- `MediaResourceIndex::ReadAt` (lines 245-424). -/
def ReadAt (R : MediaResource ρ) (self : MediaResourceIndex ρ) (aOffset : Int)
    (aBuffer : Nat → Byte) (aPos : Nat) (aCount : Nat) : Outcome ρ :=
  if self.mCacheBlockSize = 0 then UncachedReadAt R self aOffset aBuffer aPos aCount
  else if aCount = 0 then ⟨NS_OK, aBuffer, 0, self⟩
  else
    let endOffset := int64_t (aOffset + aCount)
    if aOffset < 0 ∨ endOffset < aOffset then ⟨NS_ERROR_ILLEGAL_VALUE, aBuffer, 0, self⟩
    else
      let lastBlockOffset := self.CacheOffsetContaining (int64_t (endOffset - 1))
      if self.mCachedBytes ≠ 0 ∧
          int64_t (self.mCachedOffset + self.mCachedBytes) ≥ aOffset ∧
          self.mCachedOffset < endOffset then
        if aOffset < self.mCachedOffset then
          let toRead := uint32_t (int64_t (self.mCachedOffset - aOffset))
          let self := MOZ_ASSERT 275 (decide (toRead > 0)) self
          let self := MOZ_ASSERT 276 (decide (toRead < aCount)) self
          let r := UncachedReadAt R self aOffset aBuffer aPos toRead
          let read := r.aBytes
          if NS_FAILED r.rv then ⟨r.rv, r.aBuffer, 0, r.index⟩
          else if read < toRead then ⟨NS_OK, r.aBuffer, read, r.index⟩
          else
            let self := MOZ_ASSERT 310
              (decide (int64_t (aOffset + read) = r.index.mCachedOffset)) r.index
            ReadAt_fromCache R self (int64_t (aOffset + read)) r.aBuffer (aPos + read)
              (uint32_t (aCount - read)) read endOffset lastBlockOffset
        else ReadAt_fromCache R self aOffset aBuffer aPos aCount 0 endOffset lastBlockOffset
      else if aOffset ≥ lastBlockOffset then
        let self := { self with mCachedBytes := 0 }
        CacheOrReadAt R self aOffset aBuffer aPos aCount 0
      else ReadAt_beforeLastBlock R self aOffset aBuffer aPos aCount 0 lastBlockOffset

/-- `MediaResourceIndex::Read` (lines 217-235). -/
def Read (R : MediaResource ρ) (self : MediaResourceIndex ρ) (aBuffer : Nat → Byte)
    (aPos : Nat) (aCount : Nat) : Outcome ρ :=
  let r := ReadAt R self self.mOffset aBuffer aPos aCount
  if NS_FAILED r.rv then r
  else
    let mOffset := int64_t (r.index.mOffset + r.aBytes)
    let mOffset := if mOffset < 0 then 0 else mOffset
    ⟨NS_OK, r.aBuffer, r.aBytes, { r.index with mOffset := mOffset }⟩

/-- The `whence` values of `Seek`, from the C library. -/
def SEEK_SET : Int := 0

/-- See `SEEK_SET`. -/
def SEEK_CUR : Int := 1

/-- See `SEEK_SET`. -/
def SEEK_END : Int := 2

/-- The end of `Seek` (lines 668-673). -/
def Seek_finish (self : MediaResourceIndex ρ) (aOffset : Int) :
    nsresult × MediaResourceIndex ρ :=
  if aOffset < 0 then (NS_ERROR_ILLEGAL_VALUE, self)
  else (NS_OK, { self with mOffset := aOffset })

/-- `MediaResourceIndex::Seek` (lines 646-674). -/
def Seek (R : MediaResource ρ) (self : MediaResourceIndex ρ) (aWhence : Int) (aOffset : Int) :
    nsresult × MediaResourceIndex ρ :=
  if aWhence = SEEK_SET then Seek_finish self aOffset
  else if aWhence = SEEK_CUR then Seek_finish self (int64_t (aOffset + self.mOffset))
  else if aWhence = SEEK_END then
    let l := mResource_GetLength R self
    let length := l.1
    if length = -1 ∨ int64_t (length - aOffset) < 0 then (NS_ERROR_FAILURE, l.2)
    else
      let l2 := mResource_GetLength R l.2
      Seek_finish l2.2 (int64_t (l2.1 - aOffset))
  else (NS_ERROR_FAILURE, self)

/-! ## Predicates used in the statements -/

/-- The members other than the resource and the trace agree. -/
def SameMembers (s t : MediaResourceIndex ρ) : Prop :=
  t.mOffset = s.mOffset ∧ t.mCacheBlockSize = s.mCacheBlockSize ∧
  t.mCachedOffset = s.mCachedOffset ∧ t.mCachedBytes = s.mCachedBytes ∧
  t.mCachedBlock = s.mCachedBlock

/-- The cursor and the capacity agree. -/
def SameConfig (s t : MediaResourceIndex ρ) : Prop :=
  t.mOffset = s.mOffset ∧ t.mCacheBlockSize = s.mCacheBlockSize

/-- A return value is `NS_OK` or a failure. -/
def OkOrFailed (rv : nsresult) : Prop := rv = NS_OK ∨ NS_FAILED rv = true

/-! ## Resources used as concrete instances -/

/-- A resource over the fixed bytes `data`: a read at `aOffset` hands back the
bytes from there on, at most `chunk` of them at a time; the length it reports
is `len` and its cached-data hint is `cde`. -/
def dataResource (data : List Byte) (chunk : Nat) (len : Int) (cde : Int → Int) :
    MediaResource Unit where
  ReadAt := fun r aOffset aCount =>
    (NS_OK, if aOffset < 0 then [] else (data.drop aOffset.toNat).take (min aCount chunk), r)
  GetLength := fun r => (len, r)
  GetCachedDataEnd := fun r aOffset => (cde aOffset, r)

/-- The bytes `0, 1, 2, …, 99`. -/
def hundredBytes : List Byte := (List.range 100).map UInt8.ofNat

/-- A resource of unknown length that hands back every byte asked for (the byte
at offset `o` is `o` modulo 256) and reports everything as cached. -/
def streamResource : MediaResource Unit where
  ReadAt := fun r aOffset aCount =>
    (NS_OK, (List.range aCount).map (fun i => UInt8.ofNat (aOffset.toNat + i)), r)
  GetLength := fun r => (-1, r)
  GetCachedDataEnd := fun r _ => (9223372036854775807, r)

/-- A caller buffer filled with `0xFF`. -/
def blankBuffer : Nat → Byte := fun _ => 255

/-- A resource of unknown length that shrinks: its first read hands back every
byte asked for (the byte at offset `o` is `o` modulo 256), every later read
finds the data ending at offset 15.  The state counts the reads. -/
def shrinkingResource : MediaResource Nat where
  ReadAt := fun r aOffset aCount =>
    (NS_OK,
      (List.range (if r = 0 then aCount else min aCount (15 - aOffset).toNat)).map
        (fun i => UInt8.ofNat (aOffset.toNat + i)),
      r + 1)
  GetLength := fun r => (-1, r)
  GetCachedDataEnd := fun r _ => (9223372036854775807, r)

/-- The index with a 16-byte cache block after `ReadAt(0, buf, 4)` on
`streamResource`: the cache holds `[0, 16)`. -/
def warmIndex : MediaResourceIndex Unit :=
  (ReadAt streamResource (init 16 ()) 0 blankBuffer 0 4).index

/-- The index with a 16-byte cache block after `ReadAt(20, buf, 4)` on
`shrinkingResource`: the cache holds `[20, 32)`. -/
def shrunkIndex : MediaResourceIndex Nat :=
  (ReadAt shrinkingResource (init 16 0) 20 blankBuffer 0 4).index

/-! ## Reading the trace -/

/-- The event is an entry into `CacheOrReadAt`. -/
def isCacheOrReadAt : Event → Bool
  | Event.CacheOrReadAt _ _ => true
  | _ => false

/-- The event is an entry into `UncachedReadAt`. -/
def isUncachedReadAt : Event → Bool
  | Event.UncachedReadAt _ _ => true
  | _ => false

/-- The event is a raw read of the resource, `mResource->ReadAt`. -/
def isResourceReadAt : Event → Bool
  | Event.ResourceReadAt _ _ => true
  | _ => false

/-- The events that were recorded between two indexes. -/
def newEvents {ρ : Type} (before after : MediaResourceIndex ρ) : List Event :=
  after.trace.drop before.trace.length

/-- The number of entries into `CacheOrReadAt` among the events. -/
def cacheOrReads (d : List Event) : Nat := d.countP isCacheOrReadAt

/-- The number of entries into `UncachedReadAt` among the events that precede
the first entry into `CacheOrReadAt`.  For the events of one `ReadAt`, these are
the uncached reads `ReadAt` issues itself (lines 278 and 378), as opposed to the
fallback inside `CacheOrReadAt` (line 550), which `ReadAt` only calls last. -/
def directUncachedReads (d : List Event) : Nat :=
  (d.takeWhile (fun e => !isCacheOrReadAt e)).countP isUncachedReadAt

/-- The number of raw resource reads among the events. -/
def resourceReads (d : List Event) : Nat := d.countP isResourceReadAt

/-- From `s` to `t` the trace grew by events with no entry into `CacheOrReadAt`
and at most `j` entries into `UncachedReadAt`. -/
def Quiet {ρ : Type} (j : Nat) (s t : MediaResourceIndex ρ) : Prop :=
  ∃ d, t.trace = s.trace ++ d ∧ d.countP isCacheOrReadAt = 0 ∧
    d.countP isUncachedReadAt ≤ j

/-- From `s` to `t` the trace grew by events with at most `j` entries into
`UncachedReadAt` and none into `CacheOrReadAt`, followed by nothing or by one
entry into `CacheOrReadAt` and events with no further such entry. -/
def Shape {ρ : Type} (j : Nat) (s t : MediaResourceIndex ρ) : Prop :=
  ∃ pre post, t.trace = s.trace ++ (pre ++ post) ∧ pre.countP isCacheOrReadAt = 0 ∧
    pre.countP isUncachedReadAt ≤ j ∧
    (post = [] ∨ ∃ e d, post = e :: d ∧ isCacheOrReadAt e = true ∧
      d.countP isCacheOrReadAt = 0)

/-! ## The resources of the call-minimisation claim, and sequential reading -/

/-- The resource of the call-minimisation claim, for cache capacity `c`: every
raw read succeeds with all the bytes asked for, the cached-data end reported for
an offset is at least the end of the `c`-aligned block holding the offset (as
far as that end is an `int64_t`), and the length is unknown (negative) or at
least `bound`. -/
structure FullResource {ρ : Type} (R : MediaResource ρ) (c : Nat) (bound : Int) : Prop where
  read_ok : ∀ (r : ρ) (o : Int) (n : Nat), (R.ReadAt r o n).1 = NS_OK
  read_all : ∀ (r : ρ) (o : Int) (n : Nat), (R.ReadAt r o n).2.1.length = n
  cached : ∀ (r : ρ) (o : Int), 0 ≤ o → InInt64 (o - o % (c : Int) + c) →
    o - o % (c : Int) + c ≤ (R.GetCachedDataEnd r o).1 ∧ InInt64 (R.GetCachedDataEnd r o).1
  length : ∀ (r : ρ), (R.GetLength r).1 < 0 ∨ bound ≤ (R.GetLength r).1

/-- The index after the `n` calls `ReadAt(0, s)`, `ReadAt(s, s)`, …,
`ReadAt((n - 1) s, s)`, each into the buffer `aBuffer`. -/
def sequentialReads {ρ : Type} (R : MediaResource ρ) (aBuffer : Nat → Byte) (s : Nat) :
    Nat → MediaResourceIndex ρ → MediaResourceIndex ρ
  | 0, self => self
  | n + 1, self =>
    (ReadAt R (sequentialReads R aBuffer s n self) ((n * s : Nat) : Int) aBuffer 0 s).index

/-- The number of `c`-aligned blocks that meet the range `[0, len)`. -/
def blocksTouched (c len : Nat) : Nat := (len + c - 1) / c

/-- The cache holds the whole block at `o` and one raw read was added to the
trace of `s`. -/
def Refilled {ρ : Type} (c : Nat) (o : Int) (s t : MediaResourceIndex ρ) : Prop :=
  t.mCachedOffset = o ∧ t.mCachedBytes = c ∧ resourceReads t.trace = resourceReads s.trace + 1

/-- The state of the cache after `n` sequential reads of `s` bytes with capacity
`c`: empty before the first read; afterwards the whole block `q` that holds the
last byte read, `q + 1` raw reads having been made. -/
def SeqInv {ρ : Type} (c s n : Nat) (t : MediaResourceIndex ρ) : Prop :=
  t.mCacheBlockSize = c ∧ InInt64 t.mCachedOffset ∧
    ((n = 0 ∧ t.mCachedBytes = 0 ∧ resourceReads t.trace = 0) ∨
      ∃ q : Nat, t.mCachedBytes = c ∧ t.mCachedOffset = ((q * c : Nat) : Int) ∧
        q * c + 1 ≤ n * s ∧ n * s ≤ q * c + c ∧ resourceReads t.trace = q + 1)

/-! ## The resource over fixed bytes, and the coherence of the cache with it -/

/-- The resource model of the cached-read claim: the resource is the fixed byte
sequence `data` (addressable by `int64_t` offsets); a raw read at an offset
`o ≥ 0` for `n` bytes never fails and hands back at most `n` bytes of `data`
starting at `o`, at least one when `o < |data|` and `n > 0` (hence none when
`o ≥ |data|`); the length it reports is arbitrary and the cached-data end it
reports is an arbitrary `int64_t`. -/
structure Serves {ρ : Type} (R : MediaResource ρ) (data : List Byte) : Prop where
  size : InInt64 data.length
  read_ok : ∀ (r : ρ) (o : Int) (n : Nat), (R.ReadAt r o n).1 = NS_OK
  read_le : ∀ (r : ρ) (o : Int) (n : Nat), (R.ReadAt r o n).2.1.length ≤ n
  read_bytes : ∀ (r : ρ) (o : Int) (n : Nat), 0 ≤ o →
    (R.ReadAt r o n).2.1 = (data.drop o.toNat).take (R.ReadAt r o n).2.1.length
  read_some : ∀ (r : ρ) (o : Int) (n : Nat), 0 ≤ o → o < (data.length : Int) → 0 < n → (R.ReadAt r o n).2.1 ≠ []
  cached_i64 : ∀ (r : ρ) (o : Int), InInt64 (R.GetCachedDataEnd r o).1

/-- The number of bytes of `data` from the offset `o` on. -/
def avail (data : List Byte) (o : Int) : Nat := data.length - o.toNat

/-- The memory `b2` is `b` with the `n` bytes of `data` from offset `o` on stored
at position `p`. -/
def Delivers (data : List Byte) (b : Nat → Byte) (p : Nat) (o : Int) (n : Nat)
    (b2 : Nat → Byte) : Prop :=
  ∀ j, b2 j = if p ≤ j ∧ j < p + n then data.getD (o.toNat + (j - p)) 0 else b j

/-- The cache agrees with `data`: the capacity is a positive `uint32_t`, the
cursor is an `int64_t`, `mCachedOffset` is a non-negative `int64_t`, and when the
cached range is not empty it lies inside `data` and inside one capacity-aligned
block, and `mCachedBlock` holds, at the in-block position of each cached offset,
the byte of `data` at that offset. -/
structure Coherent {ρ : Type} (data : List Byte) (t : MediaResourceIndex ρ) : Prop where
  cap_pos : 0 < t.mCacheBlockSize
  cap_u32 : InUInt32 t.mCacheBlockSize
  cursor_i64 : InInt64 t.mOffset
  off_nonneg : 0 ≤ t.mCachedOffset
  off_i64 : InInt64 t.mCachedOffset
  in_data : t.mCachedBytes ≠ 0 → t.mCachedOffset + t.mCachedBytes ≤ data.length
  in_block : t.mCachedBytes ≠ 0 →
    t.mCachedOffset % (t.mCacheBlockSize : Int) + t.mCachedBytes ≤ t.mCacheBlockSize
  content : ∀ i, i < t.mCachedBytes →
    t.mCachedBlock ((t.mCachedOffset % (t.mCacheBlockSize : Int)).toNat + i) =
      data.getD (t.mCachedOffset.toNat + i) 0

/-- What a read of `n` bytes at offset `o` into `b` at position `p`, entered
with `*aBytes = a`, has to leave: `NS_OK`, the bytes of `data` that exist in
`[o, o + n)` stored at `p`, their number added to `a`, and a coherent cache. -/
def Correct {ρ : Type} (data : List Byte) (b : Nat → Byte) (p : Nat) (o : Int) (n a : Nat)
    (r : Outcome ρ) : Prop :=
  r.rv = NS_OK ∧ r.aBytes = a + min n (avail data o) ∧
    Delivers data b p o (min n (avail data o)) r.aBuffer ∧ Coherent data r.index

/-- The states the index can be in: the initial one for capacity `c` and
resource state `r0`, and those reached from it by calls of `Read`, `ReadAt` and
`Seek` with arguments of the C++ types. -/
inductive Reachable {ρ : Type} (R : MediaResource ρ) (c : Nat) (r0 : ρ) :
    MediaResourceIndex ρ → Prop
  | init : Reachable R c r0 (init c r0)
  | Read (t : MediaResourceIndex ρ) (aBuffer : Nat → Byte) (aPos aCount : Nat) :
      Reachable R c r0 t → InUInt32 aCount →
      Reachable R c r0 (Read R t aBuffer aPos aCount).index
  | ReadAt (t : MediaResourceIndex ρ) (aOffset : Int) (aBuffer : Nat → Byte)
      (aPos aCount : Nat) :
      Reachable R c r0 t → InInt64 aOffset → InUInt32 aCount →
      Reachable R c r0 (ReadAt R t aOffset aBuffer aPos aCount).index
  | Seek (t : MediaResourceIndex ρ) (aWhence aOffset : Int) :
      Reachable R c r0 t → InInt64 aOffset →
      Reachable R c r0 (Seek R t aWhence aOffset).2

/-- The first `n` bytes of a buffer from position `p` on. -/
def bufferBytes (b : Nat → Byte) (p n : Nat) : List Byte :=
  (List.range n).map (fun j => b (p + j))

/-! ## The raw reads of the uncached read functions, one after the other -/

/-- One raw read of the resource as issued: `mResource->ReadAt(aOffset, ·, aCount,
&bytesRead)`, with the result code and the bytes it handed back. -/
structure RawRead where
  aOffset : Int
  aCount : Nat
  rv : nsresult
  bytes : List Byte

/-- The `uint32_t` value of `bytesRead` after the raw read. -/
def RawRead.bytesRead (e : RawRead) : Nat := uint32_t e.bytes.length

/-- The raw reads of `UncachedReadAt`, in the words of the specification: single
resource reads, each at the offset advanced by the bytes read so far and for the
bytes still missing, until the count is satisfied, or a read hands back 0 bytes,
or a read fails, or the advanced offset leaves `int64_t`.  The first argument
bounds their number. -/
def uncachedReads {ρ : Type} (R : MediaResource ρ) : Nat → ρ → Int → Nat → List RawRead
  | 0, _, _, _ => []
  | fuel + 1, r, aOffset, aCount =>
    let x := R.ReadAt r aOffset aCount
    let e : RawRead := ⟨aOffset, aCount, x.1, x.2.1⟩
    if NS_FAILED e.rv then [e]
    else if e.bytesRead = 0 then [e]
    else if uint32_t (aCount - e.bytesRead) = 0 then [e]
    else if int64_t (aOffset + e.bytesRead) < 0 then [e]
    else e :: uncachedReads R fuel x.2.2 (int64_t (aOffset + e.bytesRead))
      (uint32_t (aCount - e.bytesRead))

/-- The raw reads of `UncachedReadAt(aOffset, ·, aCount)` from the resource state
`r`: none for a negative offset or an empty count. -/
def UncachedReadAt_reads {ρ : Type} (R : MediaResource ρ) (r : ρ) (aOffset : Int)
    (aCount : Nat) : List RawRead :=
  if aOffset < 0 ∨ aCount = 0 then [] else uncachedReads R (loopFuel aOffset) r aOffset aCount

/-- The raw reads of `UncachedRangedReadAt`, in the words of the specification:
as for `UncachedReadAt` with `count` bytes aimed at, but no further read once no
more than `aExtraCount` of them are missing. -/
def uncachedRangedReads {ρ : Type} (R : MediaResource ρ) (aExtraCount : Nat) :
    Nat → ρ → Int → Nat → List RawRead
  | 0, _, _, _ => []
  | fuel + 1, r, aOffset, count =>
    let x := R.ReadAt r aOffset count
    let e : RawRead := ⟨aOffset, count, x.1, x.2.1⟩
    if NS_FAILED e.rv then [e]
    else if e.bytesRead = 0 then [e]
    else if uint32_t (count - e.bytesRead) ≤ aExtraCount then [e]
    else if int64_t (aOffset + e.bytesRead) < 0 then [e]
    else e :: uncachedRangedReads R aExtraCount fuel x.2.2 (int64_t (aOffset + e.bytesRead))
      (uint32_t (count - e.bytesRead))

/-- The raw reads of `UncachedRangedReadAt(aOffset, ·, aRequestedCount,
aExtraCount)` from the resource state `r`: none for a negative offset, for a sum
of the counts that leaves `uint32_t`, or for a sum of 0. -/
def UncachedRangedReadAt_reads {ρ : Type} (R : MediaResource ρ) (r : ρ) (aOffset : Int)
    (aRequestedCount aExtraCount : Nat) : List RawRead :=
  if aOffset < 0 ∨ uint32_t (aRequestedCount + aExtraCount) < aRequestedCount ∨
      uint32_t (aRequestedCount + aExtraCount) = 0 then []
  else uncachedRangedReads R aExtraCount (loopFuel aOffset) r aOffset
    (uint32_t (aRequestedCount + aExtraCount))

/-- The trace events of a list of raw reads. -/
def readEvents (l : List RawRead) : List Event :=
  l.map (fun e => Event.ResourceReadAt e.aOffset e.aCount)

/-- The sum of the `bytesRead` of a list of raw reads. -/
def bytesReadSum (l : List RawRead) : Nat := (l.map RawRead.bytesRead).sum

/-- The bytes of a list of raw reads, one after the other. -/
def allBytes (l : List RawRead) : List Byte := (l.map RawRead.bytes).flatten

/-- The raw reads of the resource never hand back more bytes than asked for. -/
def NeverMore {ρ : Type} (R : MediaResource ρ) : Prop :=
  ∀ (r : ρ) (o : Int) (n : Nat), (R.ReadAt r o n).2.1.length ≤ n

/-- A resource that hands back, at most `chunk` bytes at a time, the bytes asked
for (the byte at offset `o` is `o` modulo 256) in its first `good` reads and
fails with `NS_ERROR_FAILURE` in every later read; its length is unknown and its
cached-data end is `cde`.  The state counts the reads. -/
def flakyResource (chunk good : Nat) (cde : Int) : MediaResource Nat where
  ReadAt := fun r aOffset aCount =>
    if r < good then
      (NS_OK, (List.range (min aCount chunk)).map (fun i => UInt8.ofNat (aOffset.toNat + i)),
        r + 1)
    else (NS_ERROR_FAILURE, [], r + 1)
  GetLength := fun r => (-1, r)
  GetCachedDataEnd := fun r _ => (cde, r)

/-- A resource of unknown length that never fails and hands back, at most `chunk`
bytes at a time, the bytes asked for (the byte at offset `o` is `o` modulo 256);
it reports everything as cached. -/
def trickleResource (chunk : Nat) : MediaResource Unit where
  ReadAt := fun r aOffset aCount =>
    (NS_OK, (List.range (min aCount chunk)).map (fun i => UInt8.ofNat (aOffset.toNat + i)), r)
  GetLength := fun r => (-1, r)
  GetCachedDataEnd := fun r _ => (9223372036854775807, r)

/-- A resource whose reads follow a script: the read number `k` (from 0) hands
back at most `m` of the bytes asked for (the byte at offset `o` is `o` modulo
256) when the script has `some m` at `k`, and fails with `NS_ERROR_FAILURE` when
it has `none` there or has ended.  The length is unknown and the cached-data
end is `cde`.  The state counts the reads. -/
def scriptedResource (script : List (Option Nat)) (cde : Int) : MediaResource Nat where
  ReadAt := fun r aOffset aCount =>
    match script.getD r none with
    | some m =>
      (NS_OK, (List.range (min aCount m)).map (fun i => UInt8.ofNat (aOffset.toNat + i)), r + 1)
    | none => (NS_ERROR_FAILURE, [], r + 1)
  GetLength := fun r => (-1, r)
  GetCachedDataEnd := fun r _ => (cde, r)

/-- The event is an entry into `UncachedRangedReadAt`. -/
def isUncachedRangedReadAt : Event → Bool
  | Event.UncachedRangedReadAt _ _ _ => true
  | _ => false

/-- From `s` to `t` the trace grew by events that all satisfy `P`. -/
def Grows {ρ : Type} (P : Event → Prop) (s t : MediaResourceIndex ρ) : Prop :=
  ∃ d, t.trace = s.trace ++ d ∧ ∀ e ∈ d, P e

/-- A resource of unknown length that never fails and hands back every byte
asked for (the byte at offset `o` is `o` modulo 256), with the cached-data end
`cde` for every offset. -/
def steadyResource (cde : Int) : MediaResource Unit where
  ReadAt := fun r aOffset aCount =>
    (NS_OK, (List.range aCount).map (fun i => UInt8.ofNat (aOffset.toNat + i)), r)
  GetLength := fun r => (-1, r)
  GetCachedDataEnd := fun r _ => (cde, r)

/-- The index with a 200-byte cache block that holds `[1000, 1100)`. -/
def topUpIndex : MediaResourceIndex Unit :=
  { init 200 () with mCachedOffset := 1000, mCachedBytes := 100 }

/-! ## The cache bounds on any well-behaved resource -/

/-- The resources of the cache-bounds claims: a raw read never hands back more
bytes than asked for (it may fail, and hand back anything up to that), and the
cached-data end reported is an `int64_t`. -/
structure WellBehaved {ρ : Type} (R : MediaResource ρ) : Prop where
  read_le : NeverMore R
  cached_i64 : ∀ (r : ρ) (o : Int), InInt64 (R.GetCachedDataEnd r o).1

/-- The cache bounds: the capacity is a positive `uint32_t`, the cursor is an
`int64_t`, `mCachedOffset` is not negative, the end of the cached range is an
`int64_t`, and a cached range that is not empty ends inside the
capacity-aligned block it starts in. -/
structure Bounded {ρ : Type} (t : MediaResourceIndex ρ) : Prop where
  cap_pos : 0 < t.mCacheBlockSize
  cap_u32 : InUInt32 t.mCacheBlockSize
  cursor_i64 : InInt64 t.mOffset
  off_nonneg : 0 ≤ t.mCachedOffset
  end_i64 : InInt64 (t.mCachedOffset + t.mCachedBytes)
  in_block : t.mCachedBytes ≠ 0 →
    t.mCachedOffset % (t.mCacheBlockSize : Int) + t.mCachedBytes ≤ t.mCacheBlockSize

/-- What the events of a run with capacity `c` have to be like: an entry into
`CacheOrReadAt` has a count above 0 that fits into the block of its (not
negative) offset; an entry into `UncachedRangedReadAt`, which writes to the
cache block from the in-block position of its offset on, has counts that fit
into the block together; no assertion other than the one of line 353 has
failed. -/
def EventOK (c : Nat) : Event → Prop
  | Event.CacheOrReadAt aOffset aCount =>
    0 ≤ aOffset ∧ 0 < aCount ∧ aOffset % (c : Int) + aCount ≤ c
  | Event.UncachedRangedReadAt aOffset aRequestedCount aExtraCount =>
    0 ≤ aOffset ∧ aOffset % (c : Int) + (aRequestedCount + aExtraCount : Nat) ≤ c
  | Event.AssertFailed line => line = 353
  | _ => True

/-- The index is sound for capacity `c`: the cache bounds hold, the capacity is
`c`, and every event recorded so far is as it has to be. -/
def Sound {ρ : Type} (c : Nat) (t : MediaResourceIndex ρ) : Prop :=
  Bounded t ∧ t.mCacheBlockSize = c ∧ ∀ e ∈ t.trace, EventOK c e


/-- The cache of `u` at an entry into `CacheOrReadAt` at `aOffset`, as `ReadAt`
called from `t` leaves it: the cache of `t`, either invalidated first (lines
364 and 422) or, at the top-up of line 354, unchanged and ending at `aOffset`
with the in-block position of `aOffset` not below the end of the cached
range. -/
def EntryState {ρ : Type} (t u : MediaResourceIndex ρ) (aOffset : Int) : Prop :=
  u.mCacheBlockSize = t.mCacheBlockSize ∧ u.mCachedOffset = t.mCachedOffset ∧
  u.mCachedBlock = t.mCachedBlock ∧
  (u.mCachedBytes = 0 ∨
    (u.mCachedBytes = t.mCachedBytes ∧ t.mCachedBytes ≠ 0 ∧
      int64_t (u.mCachedOffset + u.mCachedBytes) = aOffset ∧
      u.IndexInCache u.mCachedOffset + u.mCachedBytes = u.IndexInCache aOffset))

/-- The outcome `x` of a part of `ReadAt` entered in the state `t`: either no
entry into `CacheOrReadAt` was made, or `x` is what a call of `CacheOrReadAt`
returned (lines 354, 365 and 423 return what `CacheOrReadAt` returns), entered
in an `EntryState`. -/
def TailCall {ρ : Type} (R : MediaResource ρ) (t : MediaResourceIndex ρ) (x : Outcome ρ) :
    Prop :=
  Grows (fun e => isCacheOrReadAt e = false) t x.index ∨
  ∃ (u : MediaResourceIndex ρ) (aOffset : Int) (aBuffer : Nat → Byte) (aPos aCount aBytes : Nat),
    x = CacheOrReadAt R u aOffset aBuffer aPos aCount aBytes ∧ EntryState t u aOffset

/-! ## Arithmetic of the machine integers -/

theorem int64_t_eq {n : Int} (h : InInt64 n) : int64_t n = n := by
  unfold InInt64 at h; unfold int64_t; omega

theorem uint32_t_eq {n : Nat} (h : InUInt32 n) : uint32_t (n : Int) = n := by
  unfold InUInt32 at h; unfold uint32_t; omega

/-! ## What the read functions leave alone -/

theorem SameMembers_refl (s : MediaResourceIndex ρ) : SameMembers s s :=
  ⟨rfl, rfl, rfl, rfl, rfl⟩

theorem SameMembers_trans {s t u : MediaResourceIndex ρ} (h1 : SameMembers s t)
    (h2 : SameMembers t u) : SameMembers s u := by
  obtain ⟨a1, a2, a3, a4, a5⟩ := h1
  obtain ⟨b1, b2, b3, b4, b5⟩ := h2
  exact ⟨b1.trans a1, b2.trans a2, b3.trans a3, b4.trans a4, b5.trans a5⟩

theorem SameMembers_emit (s : MediaResourceIndex ρ) (e : Event) : SameMembers s (s.emit e) :=
  ⟨rfl, rfl, rfl, rfl, rfl⟩

theorem SameMembers_MOZ_ASSERT (line : Nat) (c : Bool) (s : MediaResourceIndex ρ) :
    SameMembers s (MOZ_ASSERT line c s) := by
  unfold MOZ_ASSERT; split
  · exact SameMembers_refl s
  · exact SameMembers_emit s _

theorem SameMembers_mResource_ReadAt (R : MediaResource ρ) (s : MediaResourceIndex ρ)
    (o : Int) (n : Nat) : SameMembers s (mResource_ReadAt R s o n).2.2 :=
  ⟨rfl, rfl, rfl, rfl, rfl⟩

theorem SameMembers_GetLength (R : MediaResource ρ) (s : MediaResourceIndex ρ) :
    SameMembers s (GetLength R s).2 :=
  ⟨rfl, rfl, rfl, rfl, rfl⟩

theorem SameMembers_mResource_GetLength (R : MediaResource ρ) (s : MediaResourceIndex ρ) :
    SameMembers s (mResource_GetLength R s).2 :=
  ⟨rfl, rfl, rfl, rfl, rfl⟩

theorem SameMembers_mResource_GetCachedDataEnd (R : MediaResource ρ)
    (s : MediaResourceIndex ρ) (o : Int) :
    SameMembers s (mResource_GetCachedDataEnd R s o).2 :=
  ⟨rfl, rfl, rfl, rfl, rfl⟩

theorem UncachedReadAt_loop_members (R : MediaResource ρ) (fuel : Nat) :
    ∀ (s : MediaResourceIndex ρ) (o : Int) (b : Nat → Byte) (p n a : Nat),
      SameMembers s (UncachedReadAt_loop R fuel s o b p n a).index := by
  induction fuel with
  | zero => intro s o b p n a; exact SameMembers_refl s
  | succ k ih =>
    intro s o b p n a
    have h0 := SameMembers_mResource_ReadAt R s o n
    simp only [UncachedReadAt_loop]
    split
    · exact h0
    · split
      · exact h0
      · split
        · exact h0
        · split
          · exact h0
          · exact SameMembers_trans h0 (ih _ _ _ _ _ _)

theorem UncachedReadAt_members (R : MediaResource ρ) (s : MediaResourceIndex ρ) (o : Int)
    (b : Nat → Byte) (p n : Nat) : SameMembers s (UncachedReadAt R s o b p n).index := by
  unfold UncachedReadAt
  simp only []
  split
  · exact SameMembers_emit s _
  · split
    · exact SameMembers_trans (SameMembers_emit s _) (UncachedReadAt_loop_members R _ _ _ _ _ _ _)
    · exact SameMembers_emit s _

theorem UncachedRangedReadAt_loop_members (R : MediaResource ρ) (x : Nat) (fuel : Nat) :
    ∀ (s : MediaResourceIndex ρ) (o : Int) (b : Nat → Byte) (p n a : Nat),
      SameMembers s (UncachedRangedReadAt_loop R x fuel s o b p n a).index := by
  induction fuel with
  | zero => intro s o b p n a; exact SameMembers_refl s
  | succ k ih =>
    intro s o b p n a
    have h0 := SameMembers_mResource_ReadAt R s o n
    simp only [UncachedRangedReadAt_loop]
    split
    · exact h0
    · split
      · exact h0
      · split
        · exact h0
        · split
          · exact h0
          · exact SameMembers_trans h0 (ih _ _ _ _ _ _)

theorem UncachedRangedReadAt_members (R : MediaResource ρ) (s : MediaResourceIndex ρ)
    (o : Int) (b : Nat → Byte) (p n x : Nat) :
    SameMembers s (UncachedRangedReadAt R s o b p n x).index := by
  unfold UncachedRangedReadAt
  simp only []
  split
  · exact SameMembers_emit s _
  · split
    · exact SameMembers_trans (SameMembers_emit s _) (UncachedRangedReadAt_loop_members R _ _ _ _ _ _ _ _)
    · exact SameMembers_emit s _

@[simp]
theorem emit_mOffset (s : MediaResourceIndex ρ) (e : Event) :
    (s.emit e).mOffset = s.mOffset :=
  rfl

@[simp]
theorem emit_mCacheBlockSize (s : MediaResourceIndex ρ) (e : Event) :
    (s.emit e).mCacheBlockSize = s.mCacheBlockSize :=
  rfl

@[simp]
theorem emit_mCachedOffset (s : MediaResourceIndex ρ) (e : Event) :
    (s.emit e).mCachedOffset = s.mCachedOffset :=
  rfl

@[simp]
theorem emit_mCachedBytes (s : MediaResourceIndex ρ) (e : Event) :
    (s.emit e).mCachedBytes = s.mCachedBytes :=
  rfl

@[simp]
theorem emit_mCachedBlock (s : MediaResourceIndex ρ) (e : Event) :
    (s.emit e).mCachedBlock = s.mCachedBlock :=
  rfl

@[simp]
theorem MOZ_ASSERT_mOffset (line : Nat) (c : Bool) (s : MediaResourceIndex ρ) :
    (MOZ_ASSERT line c s).mOffset = s.mOffset :=
  (SameMembers_MOZ_ASSERT line c s).1

@[simp]
theorem MOZ_ASSERT_mCacheBlockSize (line : Nat) (c : Bool) (s : MediaResourceIndex ρ) :
    (MOZ_ASSERT line c s).mCacheBlockSize = s.mCacheBlockSize :=
  (SameMembers_MOZ_ASSERT line c s).2.1

@[simp]
theorem MOZ_ASSERT_mCachedOffset (line : Nat) (c : Bool) (s : MediaResourceIndex ρ) :
    (MOZ_ASSERT line c s).mCachedOffset = s.mCachedOffset :=
  (SameMembers_MOZ_ASSERT line c s).2.2.1

@[simp]
theorem MOZ_ASSERT_mCachedBytes (line : Nat) (c : Bool) (s : MediaResourceIndex ρ) :
    (MOZ_ASSERT line c s).mCachedBytes = s.mCachedBytes :=
  (SameMembers_MOZ_ASSERT line c s).2.2.2.1

@[simp]
theorem MOZ_ASSERT_mCachedBlock (line : Nat) (c : Bool) (s : MediaResourceIndex ρ) :
    (MOZ_ASSERT line c s).mCachedBlock = s.mCachedBlock :=
  (SameMembers_MOZ_ASSERT line c s).2.2.2.2

@[simp]
theorem mResource_ReadAt_mOffset (R : MediaResource ρ) (s : MediaResourceIndex ρ) (o : Int) (n : Nat) :
    (mResource_ReadAt R s o n).2.2.mOffset = s.mOffset :=
  rfl

@[simp]
theorem mResource_ReadAt_mCacheBlockSize (R : MediaResource ρ) (s : MediaResourceIndex ρ) (o : Int) (n : Nat) :
    (mResource_ReadAt R s o n).2.2.mCacheBlockSize = s.mCacheBlockSize :=
  rfl

@[simp]
theorem mResource_ReadAt_mCachedOffset (R : MediaResource ρ) (s : MediaResourceIndex ρ) (o : Int) (n : Nat) :
    (mResource_ReadAt R s o n).2.2.mCachedOffset = s.mCachedOffset :=
  rfl

@[simp]
theorem mResource_ReadAt_mCachedBytes (R : MediaResource ρ) (s : MediaResourceIndex ρ) (o : Int) (n : Nat) :
    (mResource_ReadAt R s o n).2.2.mCachedBytes = s.mCachedBytes :=
  rfl

@[simp]
theorem mResource_ReadAt_mCachedBlock (R : MediaResource ρ) (s : MediaResourceIndex ρ) (o : Int) (n : Nat) :
    (mResource_ReadAt R s o n).2.2.mCachedBlock = s.mCachedBlock :=
  rfl

@[simp]
theorem GetLength_mOffset (R : MediaResource ρ) (s : MediaResourceIndex ρ) :
    (GetLength R s).2.mOffset = s.mOffset :=
  rfl

@[simp]
theorem GetLength_mCacheBlockSize (R : MediaResource ρ) (s : MediaResourceIndex ρ) :
    (GetLength R s).2.mCacheBlockSize = s.mCacheBlockSize :=
  rfl

@[simp]
theorem GetLength_mCachedOffset (R : MediaResource ρ) (s : MediaResourceIndex ρ) :
    (GetLength R s).2.mCachedOffset = s.mCachedOffset :=
  rfl

@[simp]
theorem GetLength_mCachedBytes (R : MediaResource ρ) (s : MediaResourceIndex ρ) :
    (GetLength R s).2.mCachedBytes = s.mCachedBytes :=
  rfl

@[simp]
theorem GetLength_mCachedBlock (R : MediaResource ρ) (s : MediaResourceIndex ρ) :
    (GetLength R s).2.mCachedBlock = s.mCachedBlock :=
  rfl

@[simp]
theorem mResource_GetLength_mOffset (R : MediaResource ρ) (s : MediaResourceIndex ρ) :
    (mResource_GetLength R s).2.mOffset = s.mOffset :=
  rfl

@[simp]
theorem mResource_GetLength_mCacheBlockSize (R : MediaResource ρ) (s : MediaResourceIndex ρ) :
    (mResource_GetLength R s).2.mCacheBlockSize = s.mCacheBlockSize :=
  rfl

@[simp]
theorem mResource_GetLength_mCachedOffset (R : MediaResource ρ) (s : MediaResourceIndex ρ) :
    (mResource_GetLength R s).2.mCachedOffset = s.mCachedOffset :=
  rfl

@[simp]
theorem mResource_GetLength_mCachedBytes (R : MediaResource ρ) (s : MediaResourceIndex ρ) :
    (mResource_GetLength R s).2.mCachedBytes = s.mCachedBytes :=
  rfl

@[simp]
theorem mResource_GetLength_mCachedBlock (R : MediaResource ρ) (s : MediaResourceIndex ρ) :
    (mResource_GetLength R s).2.mCachedBlock = s.mCachedBlock :=
  rfl

@[simp]
theorem mResource_GetCachedDataEnd_mOffset (R : MediaResource ρ) (s : MediaResourceIndex ρ) (o : Int) :
    (mResource_GetCachedDataEnd R s o).2.mOffset = s.mOffset :=
  rfl

@[simp]
theorem mResource_GetCachedDataEnd_mCacheBlockSize (R : MediaResource ρ) (s : MediaResourceIndex ρ) (o : Int) :
    (mResource_GetCachedDataEnd R s o).2.mCacheBlockSize = s.mCacheBlockSize :=
  rfl

@[simp]
theorem mResource_GetCachedDataEnd_mCachedOffset (R : MediaResource ρ) (s : MediaResourceIndex ρ) (o : Int) :
    (mResource_GetCachedDataEnd R s o).2.mCachedOffset = s.mCachedOffset :=
  rfl

@[simp]
theorem mResource_GetCachedDataEnd_mCachedBytes (R : MediaResource ρ) (s : MediaResourceIndex ρ) (o : Int) :
    (mResource_GetCachedDataEnd R s o).2.mCachedBytes = s.mCachedBytes :=
  rfl

@[simp]
theorem mResource_GetCachedDataEnd_mCachedBlock (R : MediaResource ρ) (s : MediaResourceIndex ρ) (o : Int) :
    (mResource_GetCachedDataEnd R s o).2.mCachedBlock = s.mCachedBlock :=
  rfl

@[simp]
theorem UncachedReadAt_mOffset (R : MediaResource ρ) (s : MediaResourceIndex ρ) (o : Int)
    (b : Nat → Byte) (p n : Nat) :
    (UncachedReadAt R s o b p n).index.mOffset = s.mOffset :=
  (UncachedReadAt_members R s o b p n).1

@[simp]
theorem UncachedReadAt_mCacheBlockSize (R : MediaResource ρ) (s : MediaResourceIndex ρ) (o : Int)
    (b : Nat → Byte) (p n : Nat) :
    (UncachedReadAt R s o b p n).index.mCacheBlockSize = s.mCacheBlockSize :=
  (UncachedReadAt_members R s o b p n).2.1

@[simp]
theorem UncachedReadAt_mCachedOffset (R : MediaResource ρ) (s : MediaResourceIndex ρ) (o : Int)
    (b : Nat → Byte) (p n : Nat) :
    (UncachedReadAt R s o b p n).index.mCachedOffset = s.mCachedOffset :=
  (UncachedReadAt_members R s o b p n).2.2.1

@[simp]
theorem UncachedReadAt_mCachedBytes (R : MediaResource ρ) (s : MediaResourceIndex ρ) (o : Int)
    (b : Nat → Byte) (p n : Nat) :
    (UncachedReadAt R s o b p n).index.mCachedBytes = s.mCachedBytes :=
  (UncachedReadAt_members R s o b p n).2.2.2.1

@[simp]
theorem UncachedRangedReadAt_mOffset (R : MediaResource ρ) (s : MediaResourceIndex ρ) (o : Int)
    (b : Nat → Byte) (p n x : Nat) :
    (UncachedRangedReadAt R s o b p n x).index.mOffset = s.mOffset :=
  (UncachedRangedReadAt_members R s o b p n x).1

@[simp]
theorem UncachedRangedReadAt_mCacheBlockSize (R : MediaResource ρ) (s : MediaResourceIndex ρ) (o : Int)
    (b : Nat → Byte) (p n x : Nat) :
    (UncachedRangedReadAt R s o b p n x).index.mCacheBlockSize = s.mCacheBlockSize :=
  (UncachedRangedReadAt_members R s o b p n x).2.1

@[simp]
theorem UncachedRangedReadAt_mCachedOffset (R : MediaResource ρ) (s : MediaResourceIndex ρ) (o : Int)
    (b : Nat → Byte) (p n x : Nat) :
    (UncachedRangedReadAt R s o b p n x).index.mCachedOffset = s.mCachedOffset :=
  (UncachedRangedReadAt_members R s o b p n x).2.2.1

@[simp]
theorem UncachedRangedReadAt_mCachedBytes (R : MediaResource ρ) (s : MediaResourceIndex ρ) (o : Int)
    (b : Nat → Byte) (p n x : Nat) :
    (UncachedRangedReadAt R s o b p n x).index.mCachedBytes = s.mCachedBytes :=
  (UncachedRangedReadAt_members R s o b p n x).2.2.2.1

@[simp]
theorem UncachedRangedReadAt_mCachedBlock (R : MediaResource ρ) (s : MediaResourceIndex ρ) (o : Int)
    (b : Nat → Byte) (p n x : Nat) :
    (UncachedRangedReadAt R s o b p n x).index.mCachedBlock = s.mCachedBlock :=
  (UncachedRangedReadAt_members R s o b p n x).2.2.2.2

theorem SameMembers_config {s t : MediaResourceIndex ρ} (h : SameMembers s t) :
    SameConfig s t := ⟨h.1, h.2.1⟩

theorem SameConfig_refl (s : MediaResourceIndex ρ) : SameConfig s s := ⟨rfl, rfl⟩

theorem SameConfig_trans {s t u : MediaResourceIndex ρ} (h1 : SameConfig s t)
    (h2 : SameConfig t u) : SameConfig s u :=
  ⟨h2.1.trans h1.1, h2.2.trans h1.2⟩

theorem OkOrFailed_of_not {rv : nsresult} (h : ¬ NS_FAILED rv = true) (g : OkOrFailed rv) :
    rv = NS_OK := by
  cases g with
  | inl g => exact g
  | inr g => exact absurd g h

theorem UncachedReadAt_loop_rv (R : MediaResource ρ) (fuel : Nat) :
    ∀ (s : MediaResourceIndex ρ) (o : Int) (b : Nat → Byte) (p n a : Nat),
      OkOrFailed (UncachedReadAt_loop R fuel s o b p n a).rv := by
  induction fuel with
  | zero => intro s o b p n a; exact Or.inr rfl
  | succ k ih =>
    intro s o b p n a
    simp only [UncachedReadAt_loop]
    split
    · rename_i h; exact Or.inr h
    · split
      · exact Or.inl rfl
      · split
        · exact Or.inl rfl
        · split
          · exact Or.inr rfl
          · exact ih _ _ _ _ _ _

@[simp]
theorem UncachedReadAt_rv (R : MediaResource ρ) (s : MediaResourceIndex ρ) (o : Int)
    (b : Nat → Byte) (p n : Nat) : OkOrFailed (UncachedReadAt R s o b p n).rv := by
  unfold UncachedReadAt
  simp only []
  split
  · exact Or.inr rfl
  · split
    · exact UncachedReadAt_loop_rv R _ _ _ _ _ _ _
    · exact Or.inl rfl

@[simp]
theorem OkOrFailed_NS_OK : OkOrFailed NS_OK := Or.inl rfl

@[simp]
theorem OkOrFailed_NS_ERROR_ILLEGAL_VALUE : OkOrFailed NS_ERROR_ILLEGAL_VALUE := Or.inr rfl

@[simp]
theorem OkOrFailed_NS_ERROR_FAILURE : OkOrFailed NS_ERROR_FAILURE := Or.inr rfl

theorem OkOrFailed_of_failed {rv : nsresult} (h : NS_FAILED rv = true) : OkOrFailed rv :=
  Or.inr h

@[simp]
theorem CacheOrReadAt_fallback_mOffset (R : MediaResource ρ) (s : MediaResourceIndex ρ)
    (o : Int) (b : Nat → Byte) (p n a : Nat) :
    (CacheOrReadAt_fallback R s o b p n a).index.mOffset = s.mOffset := by
  unfold CacheOrReadAt_fallback
  simp only []
  split <;> simp

@[simp]
theorem CacheOrReadAt_fallback_mCacheBlockSize (R : MediaResource ρ) (s : MediaResourceIndex ρ)
    (o : Int) (b : Nat → Byte) (p n a : Nat) :
    (CacheOrReadAt_fallback R s o b p n a).index.mCacheBlockSize = s.mCacheBlockSize := by
  unfold CacheOrReadAt_fallback
  simp only []
  split <;> simp

@[simp]
theorem CacheOrReadAt_fallback_rv (R : MediaResource ρ) (s : MediaResourceIndex ρ)
    (o : Int) (b : Nat → Byte) (p n a : Nat) :
    OkOrFailed (CacheOrReadAt_fallback R s o b p n a).rv := by
  unfold CacheOrReadAt_fallback
  simp only []
  split <;> simp

@[simp]
theorem CacheOrReadAt_ranged_mOffset (R : MediaResource ρ) (s : MediaResourceIndex ρ)
    (o : Int) (b : Nat → Byte) (p n a : Nat) (e : Int) :
    (CacheOrReadAt_ranged R s o b p n a e).index.mOffset = s.mOffset := by
  unfold CacheOrReadAt_ranged
  simp only []
  repeat' split
  all_goals simp

@[simp]
theorem CacheOrReadAt_ranged_mCacheBlockSize (R : MediaResource ρ) (s : MediaResourceIndex ρ)
    (o : Int) (b : Nat → Byte) (p n a : Nat) (e : Int) :
    (CacheOrReadAt_ranged R s o b p n a e).index.mCacheBlockSize = s.mCacheBlockSize := by
  unfold CacheOrReadAt_ranged
  simp only []
  repeat' split
  all_goals simp

@[simp]
theorem CacheOrReadAt_ranged_rv (R : MediaResource ρ) (s : MediaResourceIndex ρ)
    (o : Int) (b : Nat → Byte) (p n a : Nat) (e : Int) :
    OkOrFailed (CacheOrReadAt_ranged R s o b p n a e).rv := by
  unfold CacheOrReadAt_ranged
  simp only []
  repeat' split
  all_goals simp

@[simp]
theorem CacheOrReadAt_mOffset (R : MediaResource ρ) (s : MediaResourceIndex ρ)
    (o : Int) (b : Nat → Byte) (p n a : Nat) :
    (CacheOrReadAt R s o b p n a).index.mOffset = s.mOffset := by
  unfold CacheOrReadAt
  simp only []
  repeat' split
  all_goals simp

@[simp]
theorem CacheOrReadAt_mCacheBlockSize (R : MediaResource ρ) (s : MediaResourceIndex ρ)
    (o : Int) (b : Nat → Byte) (p n a : Nat) :
    (CacheOrReadAt R s o b p n a).index.mCacheBlockSize = s.mCacheBlockSize := by
  unfold CacheOrReadAt
  simp only []
  repeat' split
  all_goals simp

@[simp]
theorem CacheOrReadAt_rv (R : MediaResource ρ) (s : MediaResourceIndex ρ)
    (o : Int) (b : Nat → Byte) (p n a : Nat) :
    OkOrFailed (CacheOrReadAt R s o b p n a).rv := by
  unfold CacheOrReadAt
  simp only []
  repeat' split
  all_goals simp

@[simp]
theorem ReadAt_lastBlock_mOffset (R : MediaResource ρ) (s : MediaResourceIndex ρ)
    (o : Int) (b : Nat → Byte) (p n a : Nat) (l : Int) :
    (ReadAt_lastBlock R s o b p n a l).index.mOffset = s.mOffset := by
  unfold ReadAt_lastBlock
  simp only []
  simp

@[simp]
theorem ReadAt_lastBlock_mCacheBlockSize (R : MediaResource ρ) (s : MediaResourceIndex ρ)
    (o : Int) (b : Nat → Byte) (p n a : Nat) (l : Int) :
    (ReadAt_lastBlock R s o b p n a l).index.mCacheBlockSize = s.mCacheBlockSize := by
  unfold ReadAt_lastBlock
  simp only []
  simp

@[simp]
theorem ReadAt_lastBlock_rv (R : MediaResource ρ) (s : MediaResourceIndex ρ)
    (o : Int) (b : Nat → Byte) (p n a : Nat) (l : Int) :
    OkOrFailed (ReadAt_lastBlock R s o b p n a l).rv := by
  unfold ReadAt_lastBlock
  simp only []
  simp

@[simp]
theorem ReadAt_beforeLastBlock_mOffset (R : MediaResource ρ) (s : MediaResourceIndex ρ)
    (o : Int) (b : Nat → Byte) (p n a : Nat) (l : Int) :
    (ReadAt_beforeLastBlock R s o b p n a l).index.mOffset = s.mOffset := by
  unfold ReadAt_beforeLastBlock
  simp only []
  repeat' split
  all_goals simp [*]

@[simp]
theorem ReadAt_beforeLastBlock_mCacheBlockSize (R : MediaResource ρ) (s : MediaResourceIndex ρ)
    (o : Int) (b : Nat → Byte) (p n a : Nat) (l : Int) :
    (ReadAt_beforeLastBlock R s o b p n a l).index.mCacheBlockSize = s.mCacheBlockSize := by
  unfold ReadAt_beforeLastBlock
  simp only []
  repeat' split
  all_goals simp [*]

@[simp]
theorem ReadAt_beforeLastBlock_rv (R : MediaResource ρ) (s : MediaResourceIndex ρ)
    (o : Int) (b : Nat → Byte) (p n a : Nat) (l : Int) :
    OkOrFailed (ReadAt_beforeLastBlock R s o b p n a l).rv := by
  unfold ReadAt_beforeLastBlock
  simp only []
  repeat' split
  all_goals simp [*, OkOrFailed_of_failed]

@[simp]
theorem ReadAt_afterCache_mOffset (R : MediaResource ρ) (s : MediaResourceIndex ρ)
    (o : Int) (b : Nat → Byte) (p n a : Nat) (e l : Int) :
    (ReadAt_afterCache R s o b p n a e l).index.mOffset = s.mOffset := by
  unfold ReadAt_afterCache
  simp only []
  split <;> simp

@[simp]
theorem ReadAt_afterCache_mCacheBlockSize (R : MediaResource ρ) (s : MediaResourceIndex ρ)
    (o : Int) (b : Nat → Byte) (p n a : Nat) (e l : Int) :
    (ReadAt_afterCache R s o b p n a e l).index.mCacheBlockSize = s.mCacheBlockSize := by
  unfold ReadAt_afterCache
  simp only []
  split <;> simp

@[simp]
theorem ReadAt_afterCache_rv (R : MediaResource ρ) (s : MediaResourceIndex ρ)
    (o : Int) (b : Nat → Byte) (p n a : Nat) (e l : Int) :
    OkOrFailed (ReadAt_afterCache R s o b p n a e l).rv := by
  unfold ReadAt_afterCache
  simp only []
  split <;> simp

@[simp]
theorem ReadAt_fromCache_mOffset (R : MediaResource ρ) (s : MediaResourceIndex ρ)
    (o : Int) (b : Nat → Byte) (p n a : Nat) (e l : Int) :
    (ReadAt_fromCache R s o b p n a e l).index.mOffset = s.mOffset := by
  unfold ReadAt_fromCache
  simp only []
  repeat' split
  all_goals simp

@[simp]
theorem ReadAt_fromCache_mCacheBlockSize (R : MediaResource ρ) (s : MediaResourceIndex ρ)
    (o : Int) (b : Nat → Byte) (p n a : Nat) (e l : Int) :
    (ReadAt_fromCache R s o b p n a e l).index.mCacheBlockSize = s.mCacheBlockSize := by
  unfold ReadAt_fromCache
  simp only []
  repeat' split
  all_goals simp

@[simp]
theorem ReadAt_fromCache_rv (R : MediaResource ρ) (s : MediaResourceIndex ρ)
    (o : Int) (b : Nat → Byte) (p n a : Nat) (e l : Int) :
    OkOrFailed (ReadAt_fromCache R s o b p n a e l).rv := by
  unfold ReadAt_fromCache
  simp only []
  repeat' split
  all_goals simp

@[simp]
theorem ReadAt_mOffset (R : MediaResource ρ) (s : MediaResourceIndex ρ)
    (o : Int) (b : Nat → Byte) (p n : Nat) :
    (ReadAt R s o b p n).index.mOffset = s.mOffset := by
  unfold ReadAt
  simp only []
  repeat' split
  all_goals simp [*]

@[simp]
theorem ReadAt_mCacheBlockSize (R : MediaResource ρ) (s : MediaResourceIndex ρ)
    (o : Int) (b : Nat → Byte) (p n : Nat) :
    (ReadAt R s o b p n).index.mCacheBlockSize = s.mCacheBlockSize := by
  unfold ReadAt
  simp only []
  repeat' split
  all_goals simp [*]

@[simp]
theorem ReadAt_rv (R : MediaResource ρ) (s : MediaResourceIndex ρ)
    (o : Int) (b : Nat → Byte) (p n : Nat) :
    OkOrFailed (ReadAt R s o b p n).rv := by
  unfold ReadAt
  simp only []
  repeat' split
  all_goals simp [*, OkOrFailed_of_failed]
/-! ## The loops never use up their iteration bound -/

theorem loopFuel_pos {o : Int} (h : o < 9223372036854775808) : 0 < loopFuel o := by
  unfold loopFuel; omega

/-- An offset advanced by a non-zero `uint32_t` that is still non-negative after
the wrap to `int64_t` is closer to the end of `int64_t`. -/
theorem loopFuel_advance {o : Int} {br fuel : Nat} (ho : 0 ≤ o) (hr : InInt64 o)
    (hbr : br ≠ 0) (hlt : br < 4294967296) (hnn : ¬ int64_t (o + br) < 0)
    (hf : loopFuel o ≤ fuel + 1) :
    0 ≤ int64_t (o + br) ∧ InInt64 (int64_t (o + br)) ∧ loopFuel (int64_t (o + br)) ≤ fuel := by
  unfold InInt64 at *
  unfold loopFuel at *
  unfold int64_t at *
  omega

theorem uint32_t_lt (n : Int) : uint32_t n < 4294967296 := by
  unfold uint32_t; omega

/-- The bound `loopFuel aOffset` on the iterations of the loop of `UncachedReadAt`
is never used up: for every resource, from an offset that is a non-negative
`int64_t`, any bound at least that large gives the same outcome.  (Each
iteration that continues has advanced the offset by at least one byte without
leaving `int64_t`.) -/
theorem UncachedReadAt_loop_fuel (R : MediaResource ρ) (f1 : Nat) :
    ∀ (f2 : Nat) (s : MediaResourceIndex ρ) (o : Int) (b : Nat → Byte) (p n a : Nat),
      0 ≤ o → InInt64 o → loopFuel o ≤ f1 → loopFuel o ≤ f2 →
      UncachedReadAt_loop R f1 s o b p n a = UncachedReadAt_loop R f2 s o b p n a := by
  induction f1 with
  | zero =>
    intro f2 s o b p n a ho hr h1 _
    have := loopFuel_pos (o := o) hr.2
    omega
  | succ k ih =>
    intro f2 s o b p n a ho hr h1 h2
    cases f2 with
    | zero =>
      have := loopFuel_pos (o := o) hr.2
      omega
    | succ k2 =>
      simp only [UncachedReadAt_loop]
      split
      · rfl
      · split
        · rfl
        · split
          · rfl
          · split
            · rfl
            · rename_i hbr _ hnn
              obtain ⟨g1, g2, g3⟩ := loopFuel_advance ho hr hbr (uint32_t_lt _) hnn h1
              obtain ⟨_, _, g4⟩ := loopFuel_advance ho hr hbr (uint32_t_lt _) hnn h2
              exact ih k2 _ _ _ _ _ _ g1 g2 g3 g4

/-- The same for the loop of `UncachedRangedReadAt`. -/
theorem UncachedRangedReadAt_loop_fuel (R : MediaResource ρ) (x : Nat) (f1 : Nat) :
    ∀ (f2 : Nat) (s : MediaResourceIndex ρ) (o : Int) (b : Nat → Byte) (p n a : Nat),
      0 ≤ o → InInt64 o → loopFuel o ≤ f1 → loopFuel o ≤ f2 →
      UncachedRangedReadAt_loop R x f1 s o b p n a =
        UncachedRangedReadAt_loop R x f2 s o b p n a := by
  induction f1 with
  | zero =>
    intro f2 s o b p n a ho hr h1 _
    have := loopFuel_pos (o := o) hr.2
    omega
  | succ k ih =>
    intro f2 s o b p n a ho hr h1 h2
    cases f2 with
    | zero =>
      have := loopFuel_pos (o := o) hr.2
      omega
    | succ k2 =>
      simp only [UncachedRangedReadAt_loop]
      split
      · rfl
      · split
        · rfl
        · split
          · rfl
          · split
            · rfl
            · rename_i hbr _ hnn
              obtain ⟨g1, g2, g3⟩ := loopFuel_advance ho hr hbr (uint32_t_lt _) hnn h1
              obtain ⟨_, _, g4⟩ := loopFuel_advance ho hr hbr (uint32_t_lt _) hnn h2
              exact ih k2 _ _ _ _ _ _ g1 g2 g3 g4

/-- The loop of `UncachedReadAt` satisfies the equation of the source loop body:
one pass, then the loop again from the advanced offset. -/
theorem UncachedReadAt_loop_unfold (R : MediaResource ρ) (s : MediaResourceIndex ρ)
    (o : Int) (b : Nat → Byte) (p n a : Nat) (ho : 0 ≤ o) (hr : InInt64 o) :
    UncachedReadAt_loop R (loopFuel o) s o b p n a =
      if NS_FAILED (mResource_ReadAt R s o n).1 then
        ⟨(mResource_ReadAt R s o n).1, store b p (mResource_ReadAt R s o n).2.1, a,
          (mResource_ReadAt R s o n).2.2⟩
      else if uint32_t (mResource_ReadAt R s o n).2.1.length = 0 then
        ⟨NS_OK, store b p (mResource_ReadAt R s o n).2.1, a, (mResource_ReadAt R s o n).2.2⟩
      else if uint32_t (n - uint32_t (mResource_ReadAt R s o n).2.1.length) = 0 then
        ⟨NS_OK, store b p (mResource_ReadAt R s o n).2.1,
          uint32_t (a + uint32_t (mResource_ReadAt R s o n).2.1.length),
          (mResource_ReadAt R s o n).2.2⟩
      else if int64_t (o + uint32_t (mResource_ReadAt R s o n).2.1.length) < 0 then
        ⟨NS_ERROR_FAILURE, store b p (mResource_ReadAt R s o n).2.1,
          uint32_t (a + uint32_t (mResource_ReadAt R s o n).2.1.length),
          (mResource_ReadAt R s o n).2.2⟩
      else
        UncachedReadAt_loop R
          (loopFuel (int64_t (o + uint32_t (mResource_ReadAt R s o n).2.1.length)))
          (mResource_ReadAt R s o n).2.2
          (int64_t (o + uint32_t (mResource_ReadAt R s o n).2.1.length))
          (store b p (mResource_ReadAt R s o n).2.1)
          (p + uint32_t (mResource_ReadAt R s o n).2.1.length)
          (uint32_t (n - uint32_t (mResource_ReadAt R s o n).2.1.length))
          (uint32_t (a + uint32_t (mResource_ReadAt R s o n).2.1.length)) := by
  obtain ⟨f, hf⟩ : ∃ f, loopFuel o = f + 1 :=
    ⟨loopFuel o - 1, by have := loopFuel_pos (o := o) hr.2; omega⟩
  rw [hf]
  simp only [UncachedReadAt_loop]
  split
  · rfl
  · split
    · rfl
    · split
      · rfl
      · split
        · rfl
        · rename_i hbr _ hnn
          obtain ⟨g1, g2, g3⟩ := loopFuel_advance ho hr hbr (uint32_t_lt _) hnn (Nat.le_of_eq hf)
          exact UncachedReadAt_loop_fuel R f _ _ _ _ _ _ _ g1 g2 g3 (Nat.le_refl _)
/-! ## C2: with the cache disabled `ReadAt` is `UncachedReadAt` -/

/-- Claim C2. When `mCacheBlockSize` is 0, `ReadAt` is `UncachedReadAt` on the
same arguments, for every resource, offset, buffer and count: the same return
value, byte count and buffer memory, the same resource state and the same trace
(hence the same sequence of raw resource reads), and the cursor, the capacity,
`mCachedOffset`, `mCachedBytes` and `mCachedBlock` are the ones before the
call. -/
theorem ReadAt_cache_disabled (R : MediaResource ρ) (self : MediaResourceIndex ρ)
    (aOffset : Int) (aBuffer : Nat → Byte) (aPos aCount : Nat)
    (h : self.mCacheBlockSize = 0) :
    ReadAt R self aOffset aBuffer aPos aCount =
        UncachedReadAt R self aOffset aBuffer aPos aCount ∧
      SameMembers self (ReadAt R self aOffset aBuffer aPos aCount).index := by
  have e : ReadAt R self aOffset aBuffer aPos aCount =
      UncachedReadAt R self aOffset aBuffer aPos aCount := by
    unfold ReadAt; rw [if_pos h]
  exact ⟨e, e ▸ UncachedReadAt_members R self aOffset aBuffer aPos aCount⟩

/-- Claim C2 at a resource of 100 bytes that serves 3 bytes per read, cache
disabled, `ReadAt(5, buf, 7)`. -/
theorem ReadAt_cache_disabled_witness :
    (init 0 () : MediaResourceIndex Unit).mCacheBlockSize = 0 ∧
    (ReadAt (dataResource hundredBytes 3 100 (fun _ => 100)) (init 0 ()) 5 blankBuffer 0 7 =
        UncachedReadAt (dataResource hundredBytes 3 100 (fun _ => 100)) (init 0 ()) 5
          blankBuffer 0 7 ∧
      SameMembers (init 0 ())
        (ReadAt (dataResource hundredBytes 3 100 (fun _ => 100)) (init 0 ()) 5
          blankBuffer 0 7).index) :=
  ⟨rfl, ReadAt_cache_disabled _ _ 5 blankBuffer 0 7 rfl⟩

/-! ## C3: negative offsets -/

/-- Negative offsets are rejected before any resource call whenever the count is
not 0 or the cache is disabled. -/
theorem ReadAt_negative_offset_rejected (R : MediaResource ρ) (self : MediaResourceIndex ρ)
    (aOffset : Int) (aBuffer : Nat → Byte) (aPos aCount : Nat) (hneg : aOffset < 0)
    (h : aCount ≠ 0 ∨ self.mCacheBlockSize = 0) :
    (ReadAt R self aOffset aBuffer aPos aCount).rv = NS_ERROR_ILLEGAL_VALUE ∧
      (ReadAt R self aOffset aBuffer aPos aCount).aBytes = 0 ∧
      (ReadAt R self aOffset aBuffer aPos aCount).aBuffer = aBuffer ∧
      (ReadAt R self aOffset aBuffer aPos aCount).index.mResource = self.mResource ∧
      ∀ o n, Event.ResourceReadAt o n ∉
        (ReadAt R self aOffset aBuffer aPos aCount).index.trace.drop self.trace.length := by
  by_cases hc : self.mCacheBlockSize = 0
  · simp [ReadAt, hc, UncachedReadAt, hneg, emit]
  · have hn : aCount ≠ 0 := by
      cases h with
      | inl h => exact h
      | inr h => exact absurd h hc
    simp [ReadAt, hc, hn, hneg]

/-- Claim C3, the code at the failing input: with a cache block of 16 bytes,
`ReadAt(-1, buf, 0)` returns `NS_OK` (the empty-count return of line 257 comes
before the offset check of line 262), whereas `UncachedReadAt(-1, buf, 0)`, and
with it `ReadAt(-1, buf, 0)` when the cache is disabled, returns
`NS_ERROR_ILLEGAL_VALUE`. -/
theorem ReadAt_negative_offset_zero_count :
    (ReadAt streamResource (init 16 ()) (-1) blankBuffer 0 0).rv = NS_OK ∧
      (UncachedReadAt streamResource (init 16 ()) (-1) blankBuffer 0 0).rv =
        NS_ERROR_ILLEGAL_VALUE ∧
      (ReadAt streamResource (init 0 ()) (-1) blankBuffer 0 0).rv = NS_ERROR_ILLEGAL_VALUE := by
  decide

/-! ## C4: offset + count beyond `int64_t` -/

/-- Claim C4, as stated, fails with the cache disabled: `ReadAt(INT64_MAX - 1,
buf, 10)` on a resource of 100 bytes is not rejected; it issues the raw read
`mResource->ReadAt(INT64_MAX - 1, ·, 10)` and returns `NS_OK` with 0 bytes. -/
theorem ReadAt_overflow_cache_disabled :
    (ReadAt (dataResource hundredBytes 100 100 (fun _ => 100)) (init 0 ())
        9223372036854775806 blankBuffer 0 10).rv = NS_OK ∧
      (ReadAt (dataResource hundredBytes 100 100 (fun _ => 100)) (init 0 ())
        9223372036854775806 blankBuffer 0 10).index.trace =
        [Event.UncachedReadAt 9223372036854775806 10,
         Event.ResourceReadAt 9223372036854775806 10] := by
  decide

/-- Claim C4, amended. With a cache (`mCacheBlockSize ≠ 0`), in every state, for
every offset ≥ 0 and count whose sum leaves the range of `int64_t`, `ReadAt`
returns `NS_ERROR_ILLEGAL_VALUE` with `*aBytes = 0`, the buffer untouched and the
index, its resource and its trace unchanged (no resource call at all). -/
theorem ReadAt_overflow_rejected (R : MediaResource ρ) (self : MediaResourceIndex ρ)
    (aOffset : Int) (aBuffer : Nat → Byte) (aPos aCount : Nat)
    (hcache : self.mCacheBlockSize ≠ 0) (h0 : 0 ≤ aOffset) (hoff : InInt64 aOffset)
    (hcount : InUInt32 aCount) (hover : ¬ InInt64 (aOffset + aCount)) :
    ReadAt R self aOffset aBuffer aPos aCount =
      ⟨NS_ERROR_ILLEGAL_VALUE, aBuffer, 0, self⟩ := by
  unfold InInt64 at hoff hover
  unfold InUInt32 at hcount
  have hn : aCount ≠ 0 := by
    intro h; subst h; apply hover; simpa using hoff
  have hwrap : int64_t (aOffset + aCount) < aOffset := by
    unfold int64_t; omega
  simp [ReadAt, hcache, hn, hwrap]

/-- Claim C4 amended, at the input of the specification: `ReadAt(INT64_MAX - 1,
buf, 10)` with a cache block of 16 bytes. -/
theorem ReadAt_overflow_rejected_witness :
    (init 16 () : MediaResourceIndex Unit).mCacheBlockSize ≠ 0 ∧
      (0 : Int) ≤ 9223372036854775806 ∧ InInt64 9223372036854775806 ∧ InUInt32 10 ∧
      ¬ InInt64 (9223372036854775806 + (10 : Nat)) ∧
      ReadAt streamResource (init 16 ()) 9223372036854775806 blankBuffer 0 10 =
        ⟨NS_ERROR_ILLEGAL_VALUE, blankBuffer, 0, init 16 ()⟩ :=
  ⟨by decide, by decide, by decide, by decide, by decide,
    ReadAt_overflow_rejected streamResource (init 16 ()) 9223372036854775806 blankBuffer 0 10
      (by decide) (by decide) (by decide) (by decide) (by decide)⟩
/-! ## C5: `Seek` -/

theorem Seek_finish_eq (self : MediaResourceIndex ρ) (t : Int) :
    Seek_finish self t =
      if t < 0 then (NS_ERROR_ILLEGAL_VALUE, self) else (NS_OK, { self with mOffset := t }) :=
  rfl

/-- Claim C5. For a resource whose `GetLength` answers `L` (`-1` for unknown),
every state with cursor `p` and every `whence` and offset `o`, with the target
`t = o` for `SEEK_SET`, `t = p + o` for `SEEK_CUR` and `t = L - o` for
`SEEK_END`, computed in `int64_t`: `Seek` returns `NS_ERROR_FAILURE` when
`whence` is `SEEK_END` and `L` is unknown or `L - o < 0`, and when `whence` is
none of the three; otherwise it returns `NS_ERROR_ILLEGAL_VALUE` when `t < 0`
and else `NS_OK` with the cursor equal to `t`.  Whenever the return value is
not `NS_OK` the cursor is `p` as before.  The scenarios of the specification
follow: after `Seek(SET, 100)` the cursor is 100 and `Read` is `ReadAt(100, …)`;
`Seek(END, 10)` with `L = 1000` puts the cursor at 990; `Seek(END, o)` with
unknown length fails; `Seek(CUR, -5)` at cursor 3 is `NS_ERROR_ILLEGAL_VALUE`. -/
theorem Seek_spec (R : MediaResource ρ) (L : Int) (hL : ∀ r, (R.GetLength r).1 = L)
    (self : MediaResourceIndex ρ) (aWhence o : Int) :
    (aWhence = SEEK_SET →
        (o < 0 → (Seek R self aWhence o).1 = NS_ERROR_ILLEGAL_VALUE) ∧
        (0 ≤ o → (Seek R self aWhence o).1 = NS_OK ∧ (Seek R self aWhence o).2.mOffset = o)) ∧
      (aWhence = SEEK_CUR →
        (int64_t (self.mOffset + o) < 0 →
          (Seek R self aWhence o).1 = NS_ERROR_ILLEGAL_VALUE) ∧
        (0 ≤ int64_t (self.mOffset + o) →
          (Seek R self aWhence o).1 = NS_OK ∧
          (Seek R self aWhence o).2.mOffset = int64_t (self.mOffset + o))) ∧
      (aWhence = SEEK_END →
        (L = -1 ∨ int64_t (L - o) < 0 → (Seek R self aWhence o).1 = NS_ERROR_FAILURE) ∧
        (L ≠ -1 → 0 ≤ int64_t (L - o) →
          (Seek R self aWhence o).1 = NS_OK ∧
          (Seek R self aWhence o).2.mOffset = int64_t (L - o))) ∧
      (aWhence ≠ SEEK_SET → aWhence ≠ SEEK_CUR → aWhence ≠ SEEK_END →
        (Seek R self aWhence o).1 = NS_ERROR_FAILURE) ∧
      ((Seek R self aWhence o).1 ≠ NS_OK → (Seek R self aWhence o).2.mOffset = self.mOffset) ∧
      ((Seek R self SEEK_SET 100).1 = NS_OK ∧ (Seek R self SEEK_SET 100).2.mOffset = 100 ∧
        ∀ b p n, (Read R (Seek R self SEEK_SET 100).2 b p n).rv =
            (ReadAt R (Seek R self SEEK_SET 100).2 100 b p n).rv ∧
          (Read R (Seek R self SEEK_SET 100).2 b p n).aBytes =
            (ReadAt R (Seek R self SEEK_SET 100).2 100 b p n).aBytes ∧
          (Read R (Seek R self SEEK_SET 100).2 b p n).aBuffer =
            (ReadAt R (Seek R self SEEK_SET 100).2 100 b p n).aBuffer) ∧
      (L = 1000 → (Seek R self SEEK_END 10).1 = NS_OK ∧
        (Seek R self SEEK_END 10).2.mOffset = 990) ∧
      (L = -1 → (Seek R self SEEK_END o).1 = NS_ERROR_FAILURE) ∧
      (self.mOffset = 3 → (Seek R self SEEK_CUR (-5)).1 = NS_ERROR_ILLEGAL_VALUE) := by
  have hl1 : ∀ s : MediaResourceIndex ρ, (mResource_GetLength R s).1 = L := fun s => hL _
  have hcomm : int64_t (o + self.mOffset) = int64_t (self.mOffset + o) := by
    rw [Int.add_comm]
  refine ⟨?_, ?_, ?_, ?_, ?_, ?_, ?_, ?_, ?_⟩
  · intro hw; subst hw
    constructor
    · intro h; simp [Seek, Seek_finish_eq, h]
    · intro h; simp [Seek, Seek_finish_eq, Int.not_lt.mpr h]
  · intro hw; subst hw
    have : SEEK_CUR ≠ SEEK_SET := by decide
    constructor
    · intro h; simp [Seek, Seek_finish_eq, this, hcomm, h]
    · intro h; simp [Seek, Seek_finish_eq, this, hcomm, Int.not_lt.mpr h]
  · intro hw; subst hw
    have h1 : SEEK_END ≠ SEEK_SET := by decide
    have h2 : SEEK_END ≠ SEEK_CUR := by decide
    constructor
    · intro h; simp [Seek, h1, h2, hl1, h]
    · intro hk h
      have : ¬ (L = -1 ∨ int64_t (L - o) < 0) := by
        rintro (h' | h')
        · exact hk h'
        · omega
      simp [Seek, Seek_finish_eq, h1, h2, hl1, hk, Int.not_lt.mpr h]
  · intro h1 h2 h3; simp [Seek, h1, h2, h3]
  · unfold Seek
    simp only [Seek_finish_eq, hl1]
    repeat' split
    all_goals simp
  · refine ⟨by simp [Seek, Seek_finish_eq], by simp [Seek, Seek_finish_eq], ?_⟩
    intro b p n
    have hm : (Seek R self SEEK_SET 100).2.mOffset = 100 := by simp [Seek, Seek_finish_eq]
    unfold Read
    simp only [hm]
    split
    · exact ⟨rfl, rfl, rfl⟩
    · rename_i h
      exact ⟨(OkOrFailed_of_not h (ReadAt_rv R _ _ _ _ _)).symm, rfl, rfl⟩
  · intro h; subst h
    have h1 : SEEK_END ≠ SEEK_SET := by decide
    have h2 : SEEK_END ≠ SEEK_CUR := by decide
    have h3 : int64_t 990 = 990 := by decide
    simp [Seek, Seek_finish_eq, h1, h2, hl1, h3]
  · intro h; subst h
    have h1 : SEEK_END ≠ SEEK_SET := by decide
    have h2 : SEEK_END ≠ SEEK_CUR := by decide
    simp [Seek, h1, h2, hl1]
  · intro h
    have h1 : SEEK_CUR ≠ SEEK_SET := by decide
    have h3 : int64_t (-2) < 0 := by decide
    simp [Seek, Seek_finish_eq, h1, h, h3]

/-- Claim C5 at a resource of 100 bytes with length 1000 reported, from the
initial index with a 16-byte cache block, `Seek(SEEK_END, 10)`. -/
theorem Seek_spec_witness :
    (∀ r, ((dataResource hundredBytes 100 1000 (fun _ => 100)).GetLength r).1 = 1000) ∧
      (Seek (dataResource hundredBytes 100 1000 (fun _ => 100)) (init 16 ()) SEEK_END 10).1 =
        NS_OK ∧
      (Seek (dataResource hundredBytes 100 1000 (fun _ => 100)) (init 16 ())
        SEEK_END 10).2.mOffset = 990 :=
  ⟨fun _ => rfl,
    (Seek_spec (dataResource hundredBytes 100 1000 (fun _ => 100)) 1000 (fun _ => rfl)
      (init 16 ()) SEEK_END 10).2.2.2.2.2.2.1 rfl⟩

/-! ## C6: `Read` -/

/-- Claim C6. In every state, with cursor `p`, `Read(buf, count)` returns the
return value, the byte count and the buffer memory of `ReadAt(p, buf, count)`,
and leaves the index that `ReadAt` leaves (cache, resource, trace) except for
the cursor: `p` when `ReadAt` failed; when it succeeded with `n` bytes,
`p + n` computed in `int64_t`, replaced by 0 when that is negative. -/
theorem Read_spec (R : MediaResource ρ) (self : MediaResourceIndex ρ) (aBuffer : Nat → Byte)
    (aPos aCount : Nat) :
    (Read R self aBuffer aPos aCount).rv =
        (ReadAt R self self.mOffset aBuffer aPos aCount).rv ∧
      (Read R self aBuffer aPos aCount).aBytes =
        (ReadAt R self self.mOffset aBuffer aPos aCount).aBytes ∧
      (Read R self aBuffer aPos aCount).aBuffer =
        (ReadAt R self self.mOffset aBuffer aPos aCount).aBuffer ∧
      (Read R self aBuffer aPos aCount).index =
        { (ReadAt R self self.mOffset aBuffer aPos aCount).index with
          mOffset :=
            if NS_FAILED (ReadAt R self self.mOffset aBuffer aPos aCount).rv then self.mOffset
            else if int64_t (self.mOffset +
                (ReadAt R self self.mOffset aBuffer aPos aCount).aBytes) < 0 then 0
            else int64_t (self.mOffset +
                (ReadAt R self self.mOffset aBuffer aPos aCount).aBytes) } := by
  have hm := ReadAt_mOffset R self self.mOffset aBuffer aPos aCount
  have hrv := ReadAt_rv R self self.mOffset aBuffer aPos aCount
  by_cases h : NS_FAILED (ReadAt R self self.mOffset aBuffer aPos aCount).rv = true
  · simp only [Read, h, if_true, true_and]
    revert hm
    generalize (ReadAt R self self.mOffset aBuffer aPos aCount).index = t
    intro hm
    cases t
    simp only at hm
    simp [hm]
  · have hok := OkOrFailed_of_not h hrv
    simp only [Read, h, if_false, hm, hok, true_and]
    trivial
/-! ## C9 and C10: the gap before the cache, and the cache hit -/

theorem MOZ_ASSERT_true (line : Nat) (self : MediaResourceIndex ρ) :
    MOZ_ASSERT line true self = self := rfl

theorem MOZ_ASSERT_of {c : Prop} [Decidable c] (line : Nat) (self : MediaResourceIndex ρ)
    (h : c) : MOZ_ASSERT line (decide c) self = self := by
  simp [MOZ_ASSERT, h]

/-- Claim C9. With a cache, when the cached range overlaps the request
(`mCachedBytes ≠ 0`, `aOffset ≤ mCachedOffset + mCachedBytes`,
`mCachedOffset < aOffset + aCount`), the request starts before it
(`aOffset < mCachedOffset`) and the uncached read of the gap
`[aOffset, mCachedOffset)` succeeds with fewer bytes than the gap, `ReadAt`
returns `NS_OK` with exactly the bytes, the buffer and the index that this
uncached read left: nothing is copied from the cache, no further resource call
is made, and `mCachedOffset`, `mCachedBytes` and `mCachedBlock` are unchanged. -/
theorem ReadAt_gap_short_read (R : MediaResource ρ) (self : MediaResourceIndex ρ)
    (aOffset : Int) (aBuffer : Nat → Byte) (aPos aCount : Nat)
    (hcap : self.mCacheBlockSize ≠ 0) (h0 : 0 ≤ aOffset) (hcount : InUInt32 aCount)
    (hend : InInt64 (aOffset + aCount)) (hvalid : self.mCachedBytes ≠ 0)
    (hcend : InInt64 (self.mCachedOffset + self.mCachedBytes))
    (hover1 : aOffset ≤ self.mCachedOffset + self.mCachedBytes)
    (hover2 : self.mCachedOffset < aOffset + aCount)
    (hgap : aOffset < self.mCachedOffset)
    (hok : NS_FAILED (UncachedReadAt R self aOffset aBuffer aPos
      (self.mCachedOffset - aOffset).toNat).rv = false)
    (hshort : (UncachedReadAt R self aOffset aBuffer aPos
      (self.mCachedOffset - aOffset).toNat).aBytes < (self.mCachedOffset - aOffset).toNat) :
    ReadAt R self aOffset aBuffer aPos aCount =
        ⟨NS_OK,
          (UncachedReadAt R self aOffset aBuffer aPos
            (self.mCachedOffset - aOffset).toNat).aBuffer,
          (UncachedReadAt R self aOffset aBuffer aPos
            (self.mCachedOffset - aOffset).toNat).aBytes,
          (UncachedReadAt R self aOffset aBuffer aPos
            (self.mCachedOffset - aOffset).toNat).index⟩ ∧
      SameMembers self (ReadAt R self aOffset aBuffer aPos aCount).index := by
  unfold InUInt32 at hcount
  unfold InInt64 at hend hcend
  have hn : aCount ≠ 0 := by omega
  have e1 : int64_t (aOffset + aCount) = aOffset + aCount := int64_t_eq hend
  have e2 : int64_t (self.mCachedOffset + self.mCachedBytes) =
      self.mCachedOffset + self.mCachedBytes := int64_t_eq hcend
  have e3 : uint32_t (int64_t (self.mCachedOffset - aOffset)) =
      (self.mCachedOffset - aOffset).toNat := by
    unfold uint32_t int64_t; omega
  have c1 : ¬ (aOffset < 0 ∨ aOffset + (aCount : Int) < aOffset) := by omega
  have c2 : self.mCachedBytes ≠ 0 ∧ self.mCachedOffset + (self.mCachedBytes : Int) ≥ aOffset ∧
      self.mCachedOffset < aOffset + (aCount : Int) := ⟨hvalid, hover1, hover2⟩
  have a1 : (self.mCachedOffset - aOffset).toNat > 0 := by omega
  have a2 : (self.mCachedOffset - aOffset).toNat < aCount := by omega
  have key : ReadAt R self aOffset aBuffer aPos aCount =
        ⟨NS_OK,
          (UncachedReadAt R self aOffset aBuffer aPos
            (self.mCachedOffset - aOffset).toNat).aBuffer,
          (UncachedReadAt R self aOffset aBuffer aPos
            (self.mCachedOffset - aOffset).toNat).aBytes,
          (UncachedReadAt R self aOffset aBuffer aPos
            (self.mCachedOffset - aOffset).toNat).index⟩ := by
    unfold ReadAt
    simp only [if_neg hcap, if_neg hn, e1, if_neg c1, e2, if_pos c2, if_pos hgap, e3,
      MOZ_ASSERT_of _ _ a1, MOZ_ASSERT_of _ _ a2, hok, if_pos hshort]
    simp
  refine ⟨key, ?_⟩
  rw [key]
  exact UncachedReadAt_members R self aOffset aBuffer aPos _

/-- A request inside the cached range is copied from the cache and the index is
left as it was. -/
theorem ReadAt_fromCache_only (R : MediaResource ρ) (self : MediaResourceIndex ρ)
    (aOffset : Int) (aBuffer : Nat → Byte) (aPos aCount : Nat)
    (hcap : self.mCacheBlockSize ≠ 0) (hvalid : 0 < self.mCachedBytes)
    (hbytes : InUInt32 self.mCachedBytes) (hstart : 0 ≤ self.mCachedOffset)
    (hcend : InInt64 (self.mCachedOffset + self.mCachedBytes))
    (hn : 0 < aCount) (hlo : self.mCachedOffset ≤ aOffset)
    (hhi : aOffset + aCount ≤ self.mCachedOffset + self.mCachedBytes) :
    ReadAt R self aOffset aBuffer aPos aCount =
      ⟨NS_OK, memcpy aBuffer aPos self.mCachedBlock (self.IndexInCache aOffset) aCount,
        aCount, self⟩ := by
  unfold InUInt32 at hbytes
  unfold InInt64 at hcend
  have hn0 : aCount ≠ 0 := by omega
  have e1 : int64_t (aOffset + aCount) = aOffset + aCount := by unfold int64_t; omega
  have e2 : int64_t (self.mCachedOffset + self.mCachedBytes) =
      self.mCachedOffset + self.mCachedBytes := int64_t_eq hcend
  have c1 : ¬ (aOffset < 0 ∨ aOffset + (aCount : Int) < aOffset) := by omega
  have c2 : self.mCachedBytes ≠ 0 ∧ self.mCachedOffset + (self.mCachedBytes : Int) ≥ aOffset ∧
      self.mCachedOffset < aOffset + (aCount : Int) := ⟨by omega, by omega, by omega⟩
  have c3 : ¬ aOffset < self.mCachedOffset := by omega
  have e3 : min aCount (uint32_t (int64_t (self.mCachedOffset + self.mCachedBytes - aOffset))) =
      aCount := by
    unfold uint32_t int64_t; omega
  have e4 : uint32_t ((0 : Nat) + aCount) = aCount := by unfold uint32_t; omega
  have e5 : uint32_t ((aCount : Int) - aCount) = 0 := by unfold uint32_t; omega
  have a1 : aOffset ≥ self.mCachedOffset := hlo
  unfold ReadAt
  simp only [if_neg hcap, if_neg hn0, e1, if_neg c1, e2, if_pos c2, if_neg c3]
  unfold ReadAt_fromCache
  simp only [MOZ_ASSERT_of _ _ a1, e2, e3, e4, e5, if_pos hn0, ne_eq, not_false_eq_true,
    if_true]

/-- Claim C10. With a cache, in a state whose cached range is not empty, starts
at an offset ≥ 0 and ends inside `int64_t`, a request of `aCount > 0` bytes that
lies inside the cached range (`mCachedOffset ≤ aOffset`,
`aOffset + aCount ≤ mCachedOffset + mCachedBytes`) returns `NS_OK` with exactly
`aCount` bytes, which are the bytes of `mCachedBlock` from `IndexInCache(aOffset)`
on, and the index afterwards is the index before: no resource read, no query
of the length or of the cached-data end, the cache unchanged. -/
theorem ReadAt_cache_hit (R : MediaResource ρ) (self : MediaResourceIndex ρ)
    (aOffset : Int) (aBuffer : Nat → Byte) (aPos aCount : Nat)
    (hcap : self.mCacheBlockSize ≠ 0) (hvalid : 0 < self.mCachedBytes)
    (hbytes : InUInt32 self.mCachedBytes) (hstart : 0 ≤ self.mCachedOffset)
    (hcend : InInt64 (self.mCachedOffset + self.mCachedBytes))
    (hn : 0 < aCount) (hlo : self.mCachedOffset ≤ aOffset)
    (hhi : aOffset + aCount ≤ self.mCachedOffset + self.mCachedBytes) :
    ReadAt R self aOffset aBuffer aPos aCount =
      ⟨NS_OK, memcpy aBuffer aPos self.mCachedBlock (self.IndexInCache aOffset) aCount,
        aCount, self⟩ :=
  ReadAt_fromCache_only R self aOffset aBuffer aPos aCount hcap hvalid hbytes hstart hcend hn hlo
    hhi

/-- Claim C9 at `shrunkIndex` (cache `[20, 32)`), `ReadAt(10, buf, 14)`: the read
of the gap `[10, 20)` ends after 5 bytes, and so does `ReadAt`. -/
theorem ReadAt_gap_short_read_witness :
    (shrunkIndex.mCacheBlockSize ≠ 0 ∧ (0 : Int) ≤ 10 ∧ InUInt32 14 ∧
      InInt64 (10 + (14 : Nat)) ∧ shrunkIndex.mCachedBytes ≠ 0 ∧
      InInt64 (shrunkIndex.mCachedOffset + shrunkIndex.mCachedBytes) ∧
      10 ≤ shrunkIndex.mCachedOffset + shrunkIndex.mCachedBytes ∧
      shrunkIndex.mCachedOffset < 10 + (14 : Nat) ∧ 10 < shrunkIndex.mCachedOffset ∧
      NS_FAILED (UncachedReadAt shrinkingResource shrunkIndex 10 blankBuffer 0
        (shrunkIndex.mCachedOffset - 10).toNat).rv = false ∧
      (UncachedReadAt shrinkingResource shrunkIndex 10 blankBuffer 0
        (shrunkIndex.mCachedOffset - 10).toNat).aBytes <
          (shrunkIndex.mCachedOffset - 10).toNat) ∧
    (ReadAt shrinkingResource shrunkIndex 10 blankBuffer 0 14).rv = NS_OK ∧
    (ReadAt shrinkingResource shrunkIndex 10 blankBuffer 0 14).aBytes = 5 ∧
    (ReadAt shrinkingResource shrunkIndex 10 blankBuffer 0 14).index.mCachedBytes = 12 :=
  have h := ReadAt_gap_short_read shrinkingResource shrunkIndex 10 blankBuffer 0 14
    (by decide) (by decide) (by decide) (by decide) (by decide) (by decide) (by decide)
    (by decide) (by decide) (by decide) (by decide)
  ⟨⟨by decide, by decide, by decide, by decide, by decide, by decide, by decide, by decide,
      by decide, by decide, by decide⟩,
    by rw [h.1], by rw [h.1]; decide, by rw [h.2.2.2.2.1]; decide⟩

/-- Claim C10 at `warmIndex` (cache `[0, 16)`), `ReadAt(4, buf, 8)`. -/
theorem ReadAt_cache_hit_witness :
    (warmIndex.mCacheBlockSize ≠ 0 ∧ 0 < warmIndex.mCachedBytes ∧
      InUInt32 warmIndex.mCachedBytes ∧ 0 ≤ warmIndex.mCachedOffset ∧
      InInt64 (warmIndex.mCachedOffset + warmIndex.mCachedBytes) ∧ 0 < 8 ∧
      warmIndex.mCachedOffset ≤ 4 ∧
      (4 : Int) + (8 : Nat) ≤ warmIndex.mCachedOffset + warmIndex.mCachedBytes) ∧
    ReadAt streamResource warmIndex 4 blankBuffer 0 8 =
      ⟨NS_OK, memcpy blankBuffer 0 warmIndex.mCachedBlock (warmIndex.IndexInCache 4) 8,
        8, warmIndex⟩ :=
  ⟨⟨by decide, by decide, by decide, by decide, by decide, by decide, by decide, by decide⟩,
    ReadAt_cache_hit streamResource warmIndex 4 blankBuffer 0 8
      (by decide) (by decide) (by decide) (by decide) (by decide) (by decide) (by decide)
      (by decide)⟩
/-! ## C7: the read operations of one `ReadAt` -/

theorem Quiet_refl (j : Nat) (s : MediaResourceIndex ρ) : Quiet j s s :=
  ⟨[], by simp, by simp, by simp⟩

theorem Quiet_same {j : Nat} {s t u : MediaResourceIndex ρ} (h : u.trace = t.trace)
    (q : Quiet j s t) : Quiet j s u := by
  obtain ⟨d, h1, h2, h3⟩ := q
  exact ⟨d, h.trans h1, h2, h3⟩

theorem Quiet_append {j : Nat} {s t u : MediaResourceIndex ρ} (d : List Event)
    (h : u.trace = t.trace ++ d) (hc : d.countP isCacheOrReadAt = 0)
    (hu : d.countP isUncachedReadAt = 0) (q : Quiet j s t) : Quiet j s u := by
  obtain ⟨d0, h1, h2, h3⟩ := q
  refine ⟨d0 ++ d, ?_, ?_, ?_⟩
  · rw [h, h1, List.append_assoc]
  · rw [List.countP_append, h2, hc]
  · rw [List.countP_append, hu]; exact h3

theorem Quiet_MOZ_ASSERT {j : Nat} {s t : MediaResourceIndex ρ} (line : Nat) (c : Bool)
    (q : Quiet j s t) : Quiet j s (MOZ_ASSERT line c t) := by
  cases c
  · exact Quiet_append [Event.AssertFailed line] rfl rfl rfl q
  · exact q

theorem Quiet_mResource_ReadAt {j : Nat} {s t : MediaResourceIndex ρ} (R : MediaResource ρ)
    (o : Int) (n : Nat) (q : Quiet j s t) : Quiet j s (mResource_ReadAt R t o n).2.2 :=
  Quiet_append [Event.ResourceReadAt o n] rfl rfl rfl q

theorem Quiet_GetLength {j : Nat} {s t : MediaResourceIndex ρ} (R : MediaResource ρ)
    (q : Quiet j s t) : Quiet j s (GetLength R t).2 :=
  Quiet_append [Event.ResourceGetLength] rfl rfl rfl q

theorem Quiet_mResource_GetCachedDataEnd {j : Nat} {s t : MediaResourceIndex ρ}
    (R : MediaResource ρ) (o : Int) (q : Quiet j s t) :
    Quiet j s (mResource_GetCachedDataEnd R t o).2 :=
  Quiet_append [Event.ResourceGetCachedDataEnd o] rfl rfl rfl q

theorem Quiet_UncachedReadAt_loop (R : MediaResource ρ) (fuel : Nat) :
    ∀ {j : Nat} {s t : MediaResourceIndex ρ} (o : Int) (b : Nat → Byte) (p n a : Nat),
      Quiet j s t → Quiet j s (UncachedReadAt_loop R fuel t o b p n a).index := by
  induction fuel with
  | zero => intro j s t o b p n a q; exact q
  | succ k ih =>
    intro j s t o b p n a q
    have h0 := Quiet_mResource_ReadAt R o n q
    simp only [UncachedReadAt_loop]
    split
    · exact h0
    · split
      · exact h0
      · split
        · exact h0
        · split
          · exact h0
          · exact ih _ _ _ _ _ h0

theorem Quiet_UncachedRangedReadAt_loop (R : MediaResource ρ) (x : Nat) (fuel : Nat) :
    ∀ {j : Nat} {s t : MediaResourceIndex ρ} (o : Int) (b : Nat → Byte) (p n a : Nat),
      Quiet j s t → Quiet j s (UncachedRangedReadAt_loop R x fuel t o b p n a).index := by
  induction fuel with
  | zero => intro j s t o b p n a q; exact q
  | succ k ih =>
    intro j s t o b p n a q
    have h0 := Quiet_mResource_ReadAt R o n q
    simp only [UncachedRangedReadAt_loop]
    split
    · exact h0
    · split
      · exact h0
      · split
        · exact h0
        · split
          · exact h0
          · exact ih _ _ _ _ _ h0

theorem Quiet_UncachedReadAt {j : Nat} {s t : MediaResourceIndex ρ} (R : MediaResource ρ)
    (o : Int) (b : Nat → Byte) (p n : Nat) (q : Quiet j s t) :
    Quiet (j + 1) s (UncachedReadAt R t o b p n).index := by
  have q1 : Quiet (j + 1) s (t.emit (Event.UncachedReadAt o n)) := by
    obtain ⟨d0, h1, h2, h3⟩ := q
    refine ⟨d0 ++ [Event.UncachedReadAt o n], ?_, ?_, ?_⟩
    · simp [emit, h1]
    · rw [List.countP_append, h2]; rfl
    · rw [List.countP_append]
      have : List.countP isUncachedReadAt [Event.UncachedReadAt o n] = 1 := rfl
      omega
  unfold UncachedReadAt
  simp only []
  split
  · exact q1
  · split
    · exact Quiet_UncachedReadAt_loop R _ _ _ _ _ _ q1
    · exact q1

theorem Quiet_UncachedRangedReadAt {j : Nat} {s t : MediaResourceIndex ρ}
    (R : MediaResource ρ) (o : Int) (b : Nat → Byte) (p n x : Nat) (q : Quiet j s t) :
    Quiet j s (UncachedRangedReadAt R t o b p n x).index := by
  have q1 : Quiet j s (t.emit (Event.UncachedRangedReadAt o n x)) :=
    Quiet_append [Event.UncachedRangedReadAt o n x] rfl rfl rfl q
  unfold UncachedRangedReadAt
  simp only []
  split
  · exact q1
  · split
    · exact Quiet_UncachedRangedReadAt_loop R _ _ _ _ _ _ _ q1
    · exact q1

theorem Quiet_CacheOrReadAt_fallback {j : Nat} {s t : MediaResourceIndex ρ}
    (R : MediaResource ρ) (o : Int) (b : Nat → Byte) (p n a : Nat) (q : Quiet j s t) :
    Quiet (j + 1) s (CacheOrReadAt_fallback R t o b p n a).index := by
  unfold CacheOrReadAt_fallback
  simp only []
  split <;> exact Quiet_UncachedReadAt R o b p n q

theorem Quiet_mono {j k : Nat} {s t : MediaResourceIndex ρ} (h : j ≤ k) (q : Quiet j s t) :
    Quiet k s t := by
  obtain ⟨d, h1, h2, h3⟩ := q
  exact ⟨d, h1, h2, Nat.le_trans h3 h⟩

theorem Quiet_CacheOrReadAt_ranged {j : Nat} {s t : MediaResourceIndex ρ}
    (R : MediaResource ρ) (o : Int) (b : Nat → Byte) (p n a : Nat) (e : Int)
    (q : Quiet j s t) : Quiet (j + 1) s (CacheOrReadAt_ranged R t o b p n a e).index := by
  unfold CacheOrReadAt_ranged
  simp only []
  split
  · split
    · exact Quiet_mono (Nat.le_succ j) (Quiet_same rfl
        (Quiet_UncachedRangedReadAt R _ _ _ _ _ (Quiet_MOZ_ASSERT 454 _ q)))
    · split
      · exact Quiet_mono (Nat.le_succ j) (Quiet_same rfl
          (Quiet_UncachedRangedReadAt R _ _ _ _ _ (Quiet_MOZ_ASSERT 454 _ q)))
      · exact Quiet_mono (Nat.le_succ j) (Quiet_same rfl
          (Quiet_UncachedRangedReadAt R _ _ _ _ _ (Quiet_MOZ_ASSERT 454 _ q)))
  · split
    · exact Quiet_CacheOrReadAt_fallback R _ _ _ _ _ (Quiet_same rfl
        (Quiet_UncachedRangedReadAt R _ _ _ _ _ (Quiet_MOZ_ASSERT 454 _ q)))
    · exact Quiet_CacheOrReadAt_fallback R _ _ _ _ _ (Quiet_same rfl
        (Quiet_UncachedRangedReadAt R _ _ _ _ _ (Quiet_MOZ_ASSERT 454 _ q)))

/-- Inside `CacheOrReadAt`, after its entry was recorded, there is no further
entry into `CacheOrReadAt`. -/
theorem Quiet_CacheOrReadAt_body (R : MediaResource ρ) (s : MediaResourceIndex ρ) (o : Int)
    (b : Nat → Byte) (p n a : Nat) :
    Quiet 1 (s.emit (Event.CacheOrReadAt o n)) (CacheOrReadAt R s o b p n a).index := by
  have q0 := Quiet_refl 0 (s.emit (Event.CacheOrReadAt o n))
  have q1 := Quiet_MOZ_ASSERT 433 (decide (n > 0)) q0
  have q2 := Quiet_MOZ_ASSERT 435
    (decide (uint32_t ((MOZ_ASSERT 433 (decide (n > 0))
      (s.emit (Event.CacheOrReadAt o n))).IndexInCache o + n) ≤
      (MOZ_ASSERT 433 (decide (n > 0)) (s.emit (Event.CacheOrReadAt o n))).mCacheBlockSize)) q1
  have q3 := Quiet_GetLength R q2
  have q4 := Quiet_mResource_GetCachedDataEnd R o q3
  unfold CacheOrReadAt
  simp only []
  split
  · split
    · exact Quiet_CacheOrReadAt_ranged R _ _ _ _ _ _ q4
    · exact Quiet_CacheOrReadAt_fallback R _ _ _ _ _ q4
  · exact Quiet_CacheOrReadAt_fallback R _ _ _ _ _ q3

theorem Shape_of_Quiet {j : Nat} {s t : MediaResourceIndex ρ} (q : Quiet j s t) :
    Shape j s t := by
  obtain ⟨d, h1, h2, h3⟩ := q
  exact ⟨d, [], by simpa using h1, h2, h3, Or.inl rfl⟩

theorem Shape_mono {j k : Nat} {s t : MediaResourceIndex ρ} (h : j ≤ k) (q : Shape j s t) :
    Shape k s t := by
  obtain ⟨pre, post, h1, h2, h3, h4⟩ := q
  exact ⟨pre, post, h1, h2, Nat.le_trans h3 h, h4⟩

theorem Shape_CacheOrReadAt {j : Nat} {s t : MediaResourceIndex ρ} (R : MediaResource ρ)
    (o : Int) (b : Nat → Byte) (p n a : Nat) (q : Quiet j s t) :
    Shape j s (CacheOrReadAt R t o b p n a).index := by
  obtain ⟨d, h1, h2, h3⟩ := q
  obtain ⟨d1, g1, g2, _⟩ := Quiet_CacheOrReadAt_body R t o b p n a
  refine ⟨d, Event.CacheOrReadAt o n :: d1, ?_, h2, h3, Or.inr ⟨_, _, rfl, rfl, g2⟩⟩
  rw [g1]
  simp [emit, h1]

theorem Shape_ReadAt_lastBlock {j : Nat} {s t : MediaResourceIndex ρ} (R : MediaResource ρ)
    (o : Int) (b : Nat → Byte) (p n a : Nat) (l : Int) (q : Quiet j s t) :
    Shape j s (ReadAt_lastBlock R t o b p n a l).index := by
  unfold ReadAt_lastBlock
  exact Shape_CacheOrReadAt R _ _ _ _ _
    (Quiet_same rfl (Quiet_MOZ_ASSERT 420 _ (Quiet_MOZ_ASSERT 419 _ q)))

theorem Shape_ReadAt_beforeLastBlock {j : Nat} {s t : MediaResourceIndex ρ}
    (R : MediaResource ρ) (o : Int) (b : Nat → Byte) (p n a : Nat) (l : Int)
    (q : Quiet j s t) : Shape (j + 1) s (ReadAt_beforeLastBlock R t o b p n a l).index := by
  unfold ReadAt_beforeLastBlock
  simp only []
  split
  · have q1 := Quiet_UncachedReadAt R o b p (uint32_t (int64_t (l - o)))
      (Quiet_MOZ_ASSERT 376 (decide (uint32_t (int64_t (l - o)) < n))
        (Quiet_MOZ_ASSERT 375 (decide (uint32_t (int64_t (l - o)) > 0)) q))
    split
    · exact Shape_of_Quiet q1
    · split
      · exact Shape_of_Quiet q1
      · split
        · exact Shape_of_Quiet q1
        · exact Shape_ReadAt_lastBlock R _ _ _ _ _ _ q1
  · exact Shape_mono (Nat.le_succ j) (Shape_ReadAt_lastBlock R _ _ _ _ _ _ q)

theorem Shape_ReadAt_afterCache {j : Nat} {s t : MediaResourceIndex ρ}
    (R : MediaResource ρ) (o : Int) (b : Nat → Byte) (p n a : Nat) (e l : Int)
    (q : Quiet j s t) : Shape (j + 1) s (ReadAt_afterCache R t o b p n a e l).index := by
  unfold ReadAt_afterCache
  simp only []
  split
  · exact Shape_mono (Nat.le_succ j) (Shape_CacheOrReadAt R _ _ _ _ _
      (Quiet_MOZ_ASSERT 353 _ (Quiet_MOZ_ASSERT 352 _ q)))
  · exact Shape_ReadAt_beforeLastBlock R _ _ _ _ _ _ (Quiet_MOZ_ASSERT 358 _ q)

theorem Shape_ReadAt_fromCache {j : Nat} {s t : MediaResourceIndex ρ}
    (R : MediaResource ρ) (o : Int) (b : Nat → Byte) (p n a : Nat) (e l : Int)
    (q : Quiet j s t) : Shape (j + 1) s (ReadAt_fromCache R t o b p n a e l).index := by
  have q1 := Quiet_MOZ_ASSERT 312 (decide (o ≥ t.mCachedOffset)) q
  unfold ReadAt_fromCache
  simp only []
  split
  · split
    · exact Shape_of_Quiet (Quiet_mono (Nat.le_succ j) q1)
    · exact Shape_ReadAt_afterCache R _ _ _ _ _ _ _ q1
  · exact Shape_ReadAt_afterCache R _ _ _ _ _ _ _ q1

theorem Shape_ReadAt (R : MediaResource ρ) (s : MediaResourceIndex ρ) (o : Int)
    (b : Nat → Byte) (p n : Nat) : Shape 2 s (ReadAt R s o b p n).index := by
  have q0 := Quiet_refl 0 s
  unfold ReadAt
  simp only []
  split
  · exact Shape_of_Quiet (Quiet_mono (by decide) (Quiet_UncachedReadAt R o b p n q0))
  · split
    · exact Shape_of_Quiet (Quiet_refl 2 s)
    · split
      · exact Shape_of_Quiet (Quiet_refl 2 s)
      · split
        · split
          · have q1 := Quiet_UncachedReadAt R o b p
              (uint32_t (int64_t (s.mCachedOffset - o)))
              (Quiet_MOZ_ASSERT 276
                (decide (uint32_t (int64_t (s.mCachedOffset - o)) < n))
                (Quiet_MOZ_ASSERT 275
                  (decide (uint32_t (int64_t (s.mCachedOffset - o)) > 0)) q0))
            split
            · exact Shape_of_Quiet (Quiet_mono (by decide) q1)
            · split
              · exact Shape_of_Quiet (Quiet_mono (by decide) q1)
              · exact Shape_ReadAt_fromCache R _ _ _ _ _ _ _ (Quiet_MOZ_ASSERT 310 _ q1)
          · exact Shape_mono (by decide) (Shape_ReadAt_fromCache R _ _ _ _ _ _ _ q0)
        · split
          · exact Shape_mono (by decide)
              (Shape_CacheOrReadAt R _ _ _ _ _ (Quiet_same (t := s) rfl q0))
          · exact Shape_mono (by decide) (Shape_ReadAt_beforeLastBlock R _ _ _ _ _ _ q0)

theorem takeWhile_append_of_countP (pre post : List Event)
    (h : pre.countP isCacheOrReadAt = 0)
    (hp : post = [] ∨ ∃ e d, post = e :: d ∧ isCacheOrReadAt e = true ∧
      d.countP isCacheOrReadAt = 0) :
    (pre ++ post).takeWhile (fun e => !isCacheOrReadAt e) = pre := by
  induction pre with
  | nil =>
    rcases hp with hp | ⟨e, d, hp, he, _⟩
    · subst hp; rfl
    · subst hp; simp [List.takeWhile, he]
  | cons x xs ih =>
    have hx : isCacheOrReadAt x = false := by
      cases hx : isCacheOrReadAt x
      · rfl
      · simp [List.countP_cons, hx] at h
    have hxs : xs.countP isCacheOrReadAt = 0 := by
      simpa [List.countP_cons, hx] using h
    simp [List.takeWhile, hx, ih hxs]

/-- Claim C7, as stated, fails: from the initial index with a 16-byte cache
block, after `ReadAt(20, buf, 4)` (cache `[20, 32)`), the call
`ReadAt(10, buf, 60)` issues three read operations: `UncachedReadAt` for the gap
`[10, 20)`, `UncachedReadAt` again for the middle region `[32, 64)`, and
`CacheOrReadAt` for `[64, 70)`. -/
theorem ReadAt_three_read_operations :
    directUncachedReads (newEvents
        (ReadAt streamResource (init 16 ()) 20 blankBuffer 0 4).index
        (ReadAt streamResource (ReadAt streamResource (init 16 ()) 20 blankBuffer 0 4).index
          10 blankBuffer 0 60).index) = 2 ∧
      cacheOrReads (newEvents
        (ReadAt streamResource (init 16 ()) 20 blankBuffer 0 4).index
        (ReadAt streamResource (ReadAt streamResource (init 16 ()) 20 blankBuffer 0 4).index
          10 blankBuffer 0 60).index) = 1 ∧
      newEvents (ReadAt streamResource (init 16 ()) 20 blankBuffer 0 4).index
        (ReadAt streamResource (ReadAt streamResource (init 16 ()) 20 blankBuffer 0 4).index
          10 blankBuffer 0 60).index =
        [Event.UncachedReadAt 10 10, Event.ResourceReadAt 10 10,
         Event.UncachedReadAt 32 32, Event.ResourceReadAt 32 32,
         Event.CacheOrReadAt 64 6, Event.ResourceGetLength,
         Event.ResourceGetCachedDataEnd 64, Event.UncachedRangedReadAt 64 6 10,
         Event.ResourceReadAt 64 16] := by
  decide

/-- Claim C7, amended. In every state, for every resource and request, one call
of `ReadAt` issues at most three read operations: itself at most two calls of
`UncachedReadAt` (one for the gap before the cache, one for the region before
the last block), and at most one call of `CacheOrReadAt`. -/
theorem ReadAt_read_operations (R : MediaResource ρ) (self : MediaResourceIndex ρ)
    (aOffset : Int) (aBuffer : Nat → Byte) (aPos aCount : Nat) :
    directUncachedReads
        (newEvents self (ReadAt R self aOffset aBuffer aPos aCount).index) ≤ 2 ∧
      cacheOrReads (newEvents self (ReadAt R self aOffset aBuffer aPos aCount).index) ≤ 1 := by
  obtain ⟨pre, post, h1, h2, h3, h4⟩ := Shape_ReadAt R self aOffset aBuffer aPos aCount
  have hd : newEvents self (ReadAt R self aOffset aBuffer aPos aCount).index = pre ++ post := by
    unfold newEvents; rw [h1]; simp
  rw [hd]
  constructor
  · unfold directUncachedReads
    rw [takeWhile_append_of_countP pre post h2 h4]
    exact h3
  · unfold cacheOrReads
    rw [List.countP_append, h2]
    rcases h4 with h4 | ⟨e, d, h4, he, hc⟩
    · subst h4; simp
    · subst h4
      rw [List.countP_cons, hc]
      simp [he]
/-! ## C8: sequential forward reads -/

theorem alignDown_eq {c B x : Int} (hB : B % c = 0) (h1 : B ≤ x)
    (h2 : x < B + c) : x - x % c = B := by
  have h3 : x % c = x - B := by
    have : x = (x - B) + c * (B / c) := by
      have := Int.ediv_add_emod B c
      rw [hB] at this
      omega
    rw [this, Int.add_mul_emod_self_left]
    rw [← this]
    exact Int.emod_eq_of_lt (by omega) (by omega)
  omega

/-- One ranged read on a resource that hands back everything asked for. -/
theorem UncachedRangedReadAt_full {R : MediaResource ρ} {c : Nat} {bound : Int}
    (F : FullResource R c bound) (s : MediaResourceIndex ρ) (o : Int) (b : Nat → Byte)
    (p k x : Nat) (ho : 0 ≤ o) (ho2 : InInt64 o) (hk : 0 < k) (hkx : InUInt32 (k + x)) :
    (UncachedRangedReadAt R s o b p k x).rv = NS_OK ∧
      (UncachedRangedReadAt R s o b p k x).aBytes = k + x ∧
      (UncachedRangedReadAt R s o b p k x).index.trace =
        s.trace ++ [Event.UncachedRangedReadAt o k x, Event.ResourceReadAt o (k + x)] := by
  unfold InInt64 at ho2
  unfold InUInt32 at hkx
  have e1 : uint32_t ((k : Int) + x) = k + x := by unfold uint32_t; omega
  have c1 : ¬ (o < 0 ∨ k + x < k) := by omega
  have c2 : k + x ≠ 0 := by omega
  obtain ⟨f, hf⟩ : ∃ f, loopFuel o = f + 1 := ⟨loopFuel o - 1, by unfold loopFuel; omega⟩
  have e2 : uint32_t ((0 : Nat) + (uint32_t ((k + x : Nat) : Int) : Int)) = k + x := by
    unfold uint32_t; omega
  have e3 : uint32_t (((k + x : Nat) : Int) - (uint32_t ((k + x : Nat) : Int) : Int)) = 0 := by
    unfold uint32_t; omega
  have e4 : uint32_t ((k + x : Nat) : Int) = k + x := by unfold uint32_t; omega
  unfold UncachedRangedReadAt
  simp only [e1, if_neg c1, c2, ne_eq, not_false_eq_true, if_true, hf, UncachedRangedReadAt_loop,
    mResource_ReadAt, F.read_ok, F.read_all, NS_FAILED, e2, e3, e4]
  have e0 : uint32_t 0 = 0 := by decide
  simp [emit, e0, e1]
@[simp]
theorem emit_trace (s : MediaResourceIndex ρ) (e : Event) :
    (s.emit e).trace = s.trace ++ [e] := rfl

@[simp]
theorem MOZ_ASSERT_trace (line : Nat) (c : Bool) (s : MediaResourceIndex ρ) :
    (MOZ_ASSERT line c s).trace = s.trace ++ if c then [] else [Event.AssertFailed line] := by
  cases c <;> simp [MOZ_ASSERT]

@[simp]
theorem mResource_ReadAt_trace (R : MediaResource ρ) (s : MediaResourceIndex ρ) (o : Int)
    (n : Nat) : (mResource_ReadAt R s o n).2.2.trace = s.trace ++ [Event.ResourceReadAt o n] :=
  rfl

@[simp]
theorem GetLength_trace (R : MediaResource ρ) (s : MediaResourceIndex ρ) :
    (GetLength R s).2.trace = s.trace ++ [Event.ResourceGetLength] := rfl

@[simp]
theorem mResource_GetLength_trace (R : MediaResource ρ) (s : MediaResourceIndex ρ) :
    (mResource_GetLength R s).2.trace = s.trace ++ [Event.ResourceGetLength] := rfl

@[simp]
theorem mResource_GetCachedDataEnd_trace (R : MediaResource ρ) (s : MediaResourceIndex ρ)
    (o : Int) :
    (mResource_GetCachedDataEnd R s o).2.trace =
      s.trace ++ [Event.ResourceGetCachedDataEnd o] := rfl

@[simp]
theorem resourceReads_append (d e : List Event) :
    resourceReads (d ++ e) = resourceReads d + resourceReads e := by
  unfold resourceReads; exact List.countP_append _ _ _

@[simp]
theorem resourceReads_nil : resourceReads [] = 0 := rfl

@[simp]
theorem resourceReads_cons (e : Event) (d : List Event) :
    resourceReads (e :: d) = resourceReads d + if isResourceReadAt e then 1 else 0 := by
  unfold resourceReads; exact List.countP_cons _ _ _

@[simp]
theorem resourceReads_assert (c : Prop) [Decidable c] (line : Nat) :
    resourceReads (if c then [] else [Event.AssertFailed line]) = 0 := by
  split <;> rfl

@[simp]
theorem IndexInCache_aligned (s : MediaResourceIndex ρ) (o : Int)
    (h : o % (s.mCacheBlockSize : Int) = 0) : s.IndexInCache o = 0 := by
  unfold IndexInCache; rw [h]; rfl

/-- On a resource of the call-minimisation claim, the ranged part of
`CacheOrReadAt`, at the start of a block with the cache invalidated, fills the
whole block with one raw read. -/
theorem CacheOrReadAt_ranged_fill {R : MediaResource ρ} {c : Nat} {bound : Int}
    (F : FullResource R c bound) (s : MediaResourceIndex ρ) (o : Int) (b : Nat → Byte)
    (p k a : Nat) (e : Int) (hcap : s.mCacheBlockSize = c) (hc : InUInt32 c)
    (hbytes : s.mCachedBytes = 0) (hoff : InInt64 s.mCachedOffset) (ho : 0 ≤ o)
    (halign : o % (c : Int) = 0) (hk : 0 < k) (hkc : k ≤ c) (hoc : InInt64 (o + c))
    (he : o + c ≤ e) (he2 : InInt64 e) :
    (CacheOrReadAt_ranged R s o b p k a e).index.mCachedOffset = o ∧
      (CacheOrReadAt_ranged R s o b p k a e).index.mCachedBytes = c ∧
      resourceReads (CacheOrReadAt_ranged R s o b p k a e).index.trace =
        resourceReads s.trace + 1 := by
  unfold InUInt32 at hc
  have hoc2 := hoc
  unfold InInt64 at hoc he2
  have hidx : s.IndexInCache o = 0 := IndexInCache_aligned s o (by rw [hcap]; exact halign)
  have htoRead : uint32_t (min (int64_t (e - o)) ((uint32_t ((c : Int) - (0 : Nat)) : Nat) : Int))
      = c := by
    unfold uint32_t int64_t; omega
  have hextra : uint32_t ((c : Int) - k) = c - k := by unfold uint32_t; omega
  have hck : k + (c - k) = c := by omega
  have hge : c ≥ k := hkc
  obtain ⟨r1, r2, r3⟩ := UncachedRangedReadAt_full F s o s.mCachedBlock 0 k (c - k) ho
    (by unfold InInt64; omega) hk (by unfold InUInt32; omega)
  rw [hck] at r2 r3
  have hc0 : c ≠ 0 := by omega
  have e5 : uint32_t (((0 : Nat) : Int) + (c : Nat)) = c := by unfold uint32_t; omega
  have e6 : int64_t (s.mCachedOffset + (0 : Nat)) = s.mCachedOffset := by
    rw [Int.natCast_zero, Int.add_zero]; exact int64_t_eq hoff
  unfold CacheOrReadAt_ranged
  simp only [hidx, hcap, htoRead, hextra, MOZ_ASSERT_of _ _ hge, r1, r2, NS_SUCCEEDED, NS_FAILED,
    Bool.not_false, if_true, hc0, if_false, UncachedRangedReadAt_mCachedOffset,
    UncachedRangedReadAt_mCachedBytes, hbytes, e5, e6]
  split <;> simp_all [isResourceReadAt]

/-- On a resource of the call-minimisation claim, `CacheOrReadAt` at the start of
a block with the cache invalidated fills the whole block with one raw read. -/
theorem CacheOrReadAt_fill {R : MediaResource ρ} {c : Nat} {bound : Int}
    (F : FullResource R c bound) (s : MediaResourceIndex ρ) (o : Int) (b : Nat → Byte)
    (p k a : Nat) (hcap : s.mCacheBlockSize = c) (hc : InUInt32 c)
    (hbytes : s.mCachedBytes = 0) (hoff : InInt64 s.mCachedOffset) (ho : 0 ≤ o)
    (halign : o % (c : Int) = 0) (hk : 0 < k) (hkc : k ≤ c) (hoc : InInt64 (o + c))
    (hbound : o + k ≤ bound) :
    (CacheOrReadAt R s o b p k a).index.mCachedOffset = o ∧
      (CacheOrReadAt R s o b p k a).index.mCachedBytes = c ∧
      resourceReads (CacheOrReadAt R s o b p k a).index.trace = resourceReads s.trace + 1 := by
  have hoc2 := hoc
  unfold InUInt32 at hc
  unfold InInt64 at hoc
  have e1 : int64_t (o + k) = o + k := by unfold int64_t; omega
  have hlen : ∀ X : MediaResourceIndex ρ, (GetLength R X).1 < 0 ∨ (GetLength R X).1 ≥ o + k := by
    intro X
    have e : (GetLength R X).1 = (R.GetLength X.mResource).1 := rfl
    rcases F.length X.mResource with h | h
    · exact Or.inl (e ▸ h)
    · exact Or.inr (by omega)
  have hcde : ∀ X : MediaResourceIndex ρ,
      o + c ≤ (mResource_GetCachedDataEnd R X o).1 ∧
        InInt64 (mResource_GetCachedDataEnd R X o).1 := by
    intro X
    have := F.cached X.mResource o ho (by rw [halign]; simpa using hoc2)
    rw [halign] at this
    simpa [mResource_GetCachedDataEnd] using this
  have h2 : ∀ X : MediaResourceIndex ρ, (mResource_GetCachedDataEnd R X o).1 ≥ o + k := by
    intro X; have := (hcde X).1; omega
  unfold CacheOrReadAt
  simp only [e1, hlen, h2, if_true]
  have key : ∀ (X : MediaResourceIndex ρ) (e : Int), X.mCacheBlockSize = c →
      X.mCachedBytes = 0 → InInt64 X.mCachedOffset →
      resourceReads X.trace = resourceReads s.trace → o + c ≤ e → InInt64 e →
      (CacheOrReadAt_ranged R X o b p k a e).index.mCachedOffset = o ∧
        (CacheOrReadAt_ranged R X o b p k a e).index.mCachedBytes = c ∧
        resourceReads (CacheOrReadAt_ranged R X o b p k a e).index.trace =
          resourceReads s.trace + 1 := by
    intro X e g1 g2 g3 g4 g5 g6
    have := CacheOrReadAt_ranged_fill F X o b p k a e g1 (by unfold InUInt32; exact hc) g2 g3
      ho halign hk hkc hoc2 g5 g6
    rw [g4] at this
    exact this
  apply key
  · simpa using hcap
  · simpa using hbytes
  · simpa using hoff
  · simp [isResourceReadAt]
  · exact (hcde _).1
  · exact (hcde _).2
theorem ReadAt_lastBlock_fill {R : MediaResource ρ} {c : Nat} {bound : Int}
    (F : FullResource R c bound) (s : MediaResourceIndex ρ) (o : Int) (b : Nat → Byte)
    (p k a : Nat) (l : Int) (hcap : s.mCacheBlockSize = c) (hc : InUInt32 c)
    (hoff : InInt64 s.mCachedOffset) (ho : 0 ≤ o)
    (halign : o % (c : Int) = 0) (hk : 0 < k) (hkc : k ≤ c) (hoc : InInt64 (o + c))
    (hbound : o + k ≤ bound) :
    Refilled c o s (ReadAt_lastBlock R s o b p k a l).index := by
  unfold ReadAt_lastBlock
  have := CacheOrReadAt_fill F
    { MOZ_ASSERT 420 (decide (k ≤ (MOZ_ASSERT 419 (decide (o = l)) s).mCacheBlockSize))
        (MOZ_ASSERT 419 (decide (o = l)) s) with mCachedBytes := 0 }
    o b p k a (by simpa using hcap) hc rfl (by simpa using hoff) ho halign hk hkc hoc hbound
  refine ⟨this.1, this.2.1, ?_⟩
  rw [this.2.2]
  simp

theorem ReadAt_beforeLastBlock_fill {R : MediaResource ρ} {c : Nat} {bound : Int}
    (F : FullResource R c bound) (s : MediaResourceIndex ρ) (o : Int) (b : Nat → Byte)
    (p k a : Nat) (hcap : s.mCacheBlockSize = c) (hc : InUInt32 c)
    (hoff : InInt64 s.mCachedOffset) (ho : 0 ≤ o)
    (halign : o % (c : Int) = 0) (hk : 0 < k) (hkc : k ≤ c) (hoc : InInt64 (o + c))
    (hbound : o + k ≤ bound) :
    Refilled c o s (ReadAt_beforeLastBlock R s o b p k a o).index := by
  unfold ReadAt_beforeLastBlock
  rw [if_neg (Int.lt_irrefl o)]
  exact ReadAt_lastBlock_fill F s o b p k a o hcap hc hoff ho halign hk hkc hoc hbound

theorem ReadAt_afterCache_fill {R : MediaResource ρ} {c : Nat} {bound : Int}
    (F : FullResource R c bound) (s : MediaResourceIndex ρ) (o : Int) (b : Nat → Byte)
    (p k a : Nat) (e : Int) (hcap : s.mCacheBlockSize = c) (hc : InUInt32 c)
    (hoff : InInt64 s.mCachedOffset) (ho : 0 ≤ o)
    (halign : o % (c : Int) = 0) (hk : 0 < k) (hkc : k ≤ c) (hoc : InInt64 (o + c))
    (hbound : o + k ≤ bound) :
    Refilled c o s (ReadAt_afterCache R s o b p k a e o).index := by
  unfold InInt64 at hoc
  have h1 : ¬ int64_t (o - 1) ≥ o := by unfold int64_t; omega
  unfold ReadAt_afterCache
  rw [if_neg h1]
  have := ReadAt_beforeLastBlock_fill F (MOZ_ASSERT 358 (decide (o ≤ o)) s) o b p k a
    (by simpa using hcap) hc (by simpa using hoff) ho halign hk hkc
    (by unfold InInt64; exact hoc) hbound
  refine ⟨this.1, this.2.1, ?_⟩
  rw [this.2.2]
  simp
theorem ReadAt_fromCache_fill {R : MediaResource ρ} {c : Nat} {bound : Int}
    (F : FullResource R c bound) (s : MediaResourceIndex ρ) (o : Int) (b : Nat → Byte)
    (p k a : Nat) (e : Int) (hcap : s.mCacheBlockSize = c) (hc : InUInt32 c)
    (hbytes : s.mCachedBytes = c) (hB : 0 ≤ s.mCachedOffset)
    (halign : s.mCachedOffset % (c : Int) = 0) (hlo : s.mCachedOffset ≤ o)
    (hhi : o ≤ s.mCachedOffset + c) (hk : k < c) (hend : s.mCachedOffset + c < o + k)
    (hoc : InInt64 (s.mCachedOffset + c + c)) (hbound : o + k ≤ bound) :
    Refilled c (s.mCachedOffset + c) s
      (ReadAt_fromCache R s o b p k a e (s.mCachedOffset + c)).index := by
  unfold InUInt32 at hc
  unfold InInt64 at hoc
  have hc0 : (0 : Int) < c := by omega
  have halign2 : (s.mCachedOffset + c) % (c : Int) = 0 := by
    rw [Int.add_emod_self]; exact halign
  have key : ∀ (X : MediaResourceIndex ρ) (b2 : Nat → Byte) (p2 k2 a2 : Nat),
      X.mCacheBlockSize = c → X.mCachedOffset = s.mCachedOffset →
      resourceReads X.trace = resourceReads s.trace → 0 < k2 → k2 ≤ c →
      s.mCachedOffset + c + k2 ≤ bound →
      Refilled c (s.mCachedOffset + c) s
        (ReadAt_afterCache R X (s.mCachedOffset + c) b2 p2 k2 a2 e
          (s.mCachedOffset + c)).index := by
    intro X b2 p2 k2 a2 g1 g2 g3 g4 g5 g6
    have := ReadAt_afterCache_fill F X (s.mCachedOffset + c) b2 p2 k2 a2 e g1
      (by unfold InUInt32; exact hc) (by unfold InInt64; omega) (by omega) halign2 g4 g5
      (by unfold InInt64; omega) g6
    refine ⟨this.1, this.2.1, ?_⟩
    rw [this.2.2, g3]
  have e1 : int64_t (s.mCachedOffset + (c : Nat)) = s.mCachedOffset + c := by
    unfold int64_t; omega
  have e2 : min k (uint32_t (int64_t (s.mCachedOffset + c - o))) =
      (s.mCachedOffset + c - o).toNat := by
    unfold uint32_t int64_t; omega
  unfold ReadAt_fromCache
  simp only [MOZ_ASSERT_mCachedOffset, MOZ_ASSERT_mCachedBytes, hbytes, e1, e2]
  by_cases ht : (s.mCachedOffset + c - o).toNat = 0
  · have ho : o = s.mCachedOffset + c := by omega
    simp only [ht, ne_eq, not_true_eq_false, if_false]
    rw [ho]
    apply key
    · simpa using hcap
    · simp
    · simp
    · omega
    · omega
    · omega
  · have e3 : uint32_t ((k : Int) - ((s.mCachedOffset + c - o).toNat : Nat)) =
        (o + k - (s.mCachedOffset + c)).toNat := by
      unfold uint32_t; omega
    have e4 : int64_t (o + ((s.mCachedOffset + c - o).toNat : Nat)) = s.mCachedOffset + c := by
      unfold int64_t; omega
    have e5 : (o + k - (s.mCachedOffset + c)).toNat ≠ 0 := by omega
    simp only [ht, ne_eq, not_false_eq_true, if_true, e3, e4, e5, if_false]
    apply key
    · simpa using hcap
    · simp
    · simp
    · omega
    · omega
    · omega
theorem ReadAt_straddle_fill {R : MediaResource ρ} {c : Nat} {bound : Int}
    (F : FullResource R c bound) (s : MediaResourceIndex ρ) (o : Int) (b : Nat → Byte)
    (p k : Nat) (hcap : s.mCacheBlockSize = c) (hc : InUInt32 c)
    (hbytes : s.mCachedBytes = c) (hB : 0 ≤ s.mCachedOffset)
    (halign : s.mCachedOffset % (c : Int) = 0) (hlo : s.mCachedOffset ≤ o)
    (hhi : o ≤ s.mCachedOffset + c) (hk : k < c) (hend : s.mCachedOffset + c < o + k)
    (hoc : InInt64 (s.mCachedOffset + c + c)) (hbound : o + k ≤ bound) :
    Refilled c (s.mCachedOffset + c) s (ReadAt R s o b p k).index := by
  have hc2 := hc
  have hoc2 := hoc
  unfold InUInt32 at hc
  unfold InInt64 at hoc
  have hc0 : c ≠ 0 := by omega
  have hk0 : k ≠ 0 := by omega
  have halign2 : (s.mCachedOffset + c) % (c : Int) = 0 := by
    rw [Int.add_emod_self]; exact halign
  have e1 : int64_t (o + k) = o + k := by unfold int64_t; omega
  have e2 : int64_t (o + k - 1) = o + k - 1 := by unfold int64_t; omega
  have e3 : s.CacheOffsetContaining (o + k - 1) = s.mCachedOffset + c := by
    unfold CacheOffsetContaining
    rw [hcap]
    exact alignDown_eq halign2 (by omega) (by omega)
  have e4 : int64_t (s.mCachedOffset + s.mCachedBytes) = s.mCachedOffset + c := by
    rw [hbytes]; unfold int64_t; omega
  have c1 : ¬ (o < 0 ∨ o + (k : Int) < o) := by omega
  have c2 : s.mCachedBytes ≠ 0 ∧ s.mCachedOffset + (c : Int) ≥ o ∧
      s.mCachedOffset < o + (k : Int) := ⟨by omega, by omega, by omega⟩
  have c3 : ¬ o < s.mCachedOffset := by omega
  unfold ReadAt
  simp only [hcap, if_neg hc0, if_neg hk0, e1, if_neg c1, e2, e3, e4, if_pos c2, if_neg c3]
  exact ReadAt_fromCache_fill F s o b p k 0 (o + k) hcap hc2 hbytes hB halign hlo hhi hk hend
    hoc2 hbound

theorem ReadAt_first_fill {R : MediaResource ρ} {c : Nat} {bound : Int}
    (F : FullResource R c bound) (s : MediaResourceIndex ρ) (b : Nat → Byte)
    (p k : Nat) (hcap : s.mCacheBlockSize = c) (hc : InUInt32 c)
    (hbytes : s.mCachedBytes = 0) (hoff : InInt64 s.mCachedOffset) (hk0 : 0 < k) (hk : k < c)
    (hbound : (k : Int) ≤ bound) :
    Refilled c 0 s (ReadAt R s 0 b p k).index := by
  have hc2 := hc
  unfold InUInt32 at hc
  have hc0 : c ≠ 0 := by omega
  have hk1 : k ≠ 0 := by omega
  have e1 : int64_t (0 + k) = k := by unfold int64_t; omega
  have e2 : int64_t (k - 1) = k - 1 := by unfold int64_t; omega
  have e3 : s.CacheOffsetContaining ((k : Int) - 1) = 0 := by
    unfold CacheOffsetContaining
    rw [hcap]
    exact alignDown_eq (Int.zero_emod _) (by omega) (by omega)
  have c1 : ¬ ((0 : Int) < 0 ∨ (k : Int) < 0) := by omega
  have c2 : ¬ (s.mCachedBytes ≠ 0 ∧ int64_t (s.mCachedOffset + s.mCachedBytes) ≥ 0 ∧
      s.mCachedOffset < (k : Int)) := by
    intro h; exact h.1 hbytes
  have hc0' : s.mCacheBlockSize ≠ 0 := by rw [hcap]; exact hc0
  unfold ReadAt
  simp only [if_neg hc0', if_neg hk1, e1, if_neg c1, e2, e3, if_neg c2, ge_iff_le,
    Int.le_refl, if_true]
  have := CacheOrReadAt_fill F { s with mCachedBytes := 0 } 0 b p k 0 hcap hc2 rfl hoff
    (Int.le_refl 0) (Int.zero_emod _) hk0 (by omega) (by unfold InInt64; omega) (by omega)
  exact this

theorem SeqInv_step {R : MediaResource ρ} {c : Nat} {bound : Int}
    (F : FullResource R c bound) (t : MediaResourceIndex ρ) (b : Nat → Byte) (s n : Nat)
    (hc : InUInt32 c) (hs0 : 0 < s) (hsc : s < c)
    (hbound : (((n + 1) * s : Nat) : Int) ≤ bound)
    (hrange : InInt64 ((((n + 1) * s : Nat) : Int) + 2 * c)) (inv : SeqInv c s n t) :
    SeqInv c s (n + 1) (ReadAt R t ((n * s : Nat) : Int) b 0 s).index := by
  have hc2 := hc
  unfold InUInt32 at hc
  unfold InInt64 at hrange
  have hmul : (n + 1) * s = n * s + s := Nat.succ_mul n s
  rw [hmul] at hbound hrange
  obtain ⟨hcap, hoff, hcase⟩ := inv
  rcases hcase with ⟨hn, hbytes, hreads⟩ | ⟨q, hbytes, hq, hlo, hhi, hreads⟩
  · subst hn
    have h0 : ((0 * s : Nat) : Int) = 0 := by simp
    rw [h0]
    obtain ⟨r1, r2, r3⟩ := ReadAt_first_fill F t b 0 s hcap hc2 hbytes hoff hs0 hsc
      (by push_cast at hbound; omega)
    refine ⟨by simp [hcap], by rw [r1]; decide, Or.inr ⟨0, r2, by simp [r1], ?_, ?_, ?_⟩⟩
    · omega
    · omega
    · rw [r3, hreads]
  · by_cases hit : n * s + s ≤ q * c + c
    · have hcache : ReadAt R t ((n * s : Nat) : Int) b 0 s =
          ⟨NS_OK, memcpy b 0 t.mCachedBlock (t.IndexInCache ((n * s : Nat) : Int)) s, s, t⟩ :=
        ReadAt_fromCache_only R t _ b 0 s (by omega) (by omega)
          (by unfold InUInt32; omega) (by omega) (by unfold InInt64; push_cast at *; omega) hs0
          (by push_cast at *; omega) (by push_cast at *; omega)
      rw [hcache]
      refine ⟨hcap, hoff, Or.inr ⟨q, hbytes, hq, ?_, ?_, hreads⟩⟩
      · omega
      · omega
    · have hal : t.mCachedOffset % (c : Int) = 0 := by
        rw [hq]; push_cast; exact Int.mul_emod_left _ _
      obtain ⟨r1, r2, r3⟩ := ReadAt_straddle_fill F t ((n * s : Nat) : Int) b 0 s hcap hc2
        hbytes (by omega) hal (by push_cast at *; omega) (by push_cast at *; omega) hsc
        (by push_cast at *; omega) (by unfold InInt64; push_cast at *; omega)
        (by push_cast at *; omega)
      have hq1 : (q + 1) * c = q * c + c := Nat.succ_mul q c
      refine ⟨by simp [hcap], by rw [r1]; unfold InInt64; push_cast at *; omega,
        Or.inr ⟨q + 1, r2, ?_, ?_, ?_, ?_⟩⟩
      · rw [r1, hq, hq1]; push_cast; rfl
      · omega
      · omega
      · rw [r3, hreads]
theorem SeqInv_sequentialReads {R : MediaResource ρ} {c : Nat} {bound : Int}
    (F : FullResource R c bound) (r0 : ρ) (b : Nat → Byte) (s : Nat) (hc : InUInt32 c)
    (hs0 : 0 < s) (hsc : s < c) :
    ∀ n : Nat, (((n * s : Nat) : Int) ≤ bound) → InInt64 (((n * s : Nat) : Int) + 2 * c) →
      SeqInv c s n (sequentialReads R b s n (init c r0)) := by
  intro n
  induction n with
  | zero =>
    intro _ _
    exact ⟨rfl, by unfold InInt64; simp [sequentialReads, init], Or.inl ⟨rfl, rfl, rfl⟩⟩
  | succ n ih =>
    intro hbound hrange
    have hmul : (n + 1) * s = n * s + s := Nat.succ_mul n s
    have h1 : ((n * s : Nat) : Int) ≤ bound := by
      rw [hmul] at hbound; push_cast at *; omega
    have h2 : InInt64 (((n * s : Nat) : Int) + 2 * c) := by
      unfold InInt64 at *; rw [hmul] at hrange; push_cast at *; omega
    exact SeqInv_step F _ b s n hc hs0 hsc hbound hrange (ih h1 h2)

theorem streamResource_full (c : Nat) (bound : Int) : FullResource streamResource c bound where
  read_ok := fun _ _ _ => rfl
  read_all := fun _ _ n => by simp [streamResource]
  cached := fun r o _ h => by
    unfold InInt64 at *
    have : (streamResource.GetCachedDataEnd r o).1 = 9223372036854775807 := rfl
    rw [this]
    constructor <;> omega
  length := fun r => Or.inl (by
    have : (streamResource.GetLength r).1 = -1 := rfl
    omega)

/-- Claim C8. With capacity `c`, on a resource whose every raw read succeeds with
all the bytes asked for, whose cached-data end for an offset is at least the end
of the `c`-aligned block holding it, and whose length is unknown or at least
`n * s`: starting from the initial index (empty cache), after the `n` reads
`ReadAt(0, s)`, `ReadAt(s, s)`, …, `ReadAt((n - 1) s, s)` with `0 < s < c`, the
number of raw resource reads issued is at most the number of `c`-aligned blocks
that meet `[0, n s)`, the reads that straddle a block boundary included. -/
theorem sequential_reads_one_fetch_per_block {R : MediaResource ρ} {c : Nat} {bound : Int}
    (F : FullResource R c bound) (r0 : ρ) (aBuffer : Nat → Byte) (s n : Nat)
    (hc : InUInt32 c) (hs0 : 0 < s) (hsc : s < c) (hbound : ((n * s : Nat) : Int) ≤ bound)
    (hrange : InInt64 (((n * s : Nat) : Int) + 2 * c)) :
    resourceReads (sequentialReads R aBuffer s n (init c r0)).trace ≤ blocksTouched c (n * s) := by
  obtain ⟨_, _, hcase⟩ := SeqInv_sequentialReads F r0 aBuffer s hc hs0 hsc n hbound hrange
  rcases hcase with ⟨_, _, hreads⟩ | ⟨q, _, _, hlo, _, hreads⟩
  · rw [hreads]; exact Nat.zero_le _
  · rw [hreads]
    unfold blocksTouched
    have hq1 : (q + 1) * c = q * c + c := Nat.succ_mul q c
    exact (Nat.le_div_iff_mul_le (by omega)).mpr (by omega)

/-- Claim C8 on `streamResource` with a 16-byte cache block: the 8 reads of 10
bytes `ReadAt(0, 10)`, …, `ReadAt(70, 10)` cover 5 blocks and issue 5 raw reads. -/
theorem sequential_reads_one_fetch_per_block_witness :
    (FullResource streamResource 16 80 ∧ InUInt32 16 ∧ 0 < 10 ∧ 10 < 16 ∧
      (((8 * 10 : Nat) : Int) ≤ 80) ∧ InInt64 (((8 * 10 : Nat) : Int) + 2 * (16 : Nat))) ∧
    resourceReads (sequentialReads streamResource blankBuffer 10 8 (init 16 ())).trace ≤
      blocksTouched 16 (8 * 10) ∧
    resourceReads (sequentialReads streamResource blankBuffer 10 8 (init 16 ())).trace = 5 ∧
    blocksTouched 16 (8 * 10) = 5 :=
  ⟨⟨streamResource_full 16 80, by decide, by decide, by decide, by decide, by decide⟩,
    sequential_reads_one_fetch_per_block (streamResource_full 16 80) () blankBuffer 10 8
      (by decide) (by decide) (by decide) (by decide) (by decide),
    by decide, by decide⟩
/-! ## C1: cached reads return the bytes of the resource -/

theorem getD_take_drop (data : List Byte) (o k i : Nat) (h : i < k) :
    ((data.drop o).take k).getD i 0 = data.getD (o + i) 0 := by
  simp [List.getD_eq_getElem?_getD, List.getElem?_take, h, List.getElem?_drop]

theorem length_take_drop_le (data : List Byte) (o k : Nat)
    (h : ((data.drop o).take k).length = k) : k ≤ data.length - o := by
  simp [List.length_take, List.length_drop] at h
  omega

theorem Delivers_zero (data : List Byte) (b : Nat → Byte) (p : Nat) (o : Int) :
    Delivers data b p o 0 b := by
  intro j
  have : ¬ (p ≤ j ∧ j < p + 0) := by omega
  rw [if_neg this]

theorem Delivers_eq_of_zero {data : List Byte} {b b2 : Nat → Byte} {p : Nat} {o : Int}
    (h : Delivers data b p o 0 b2) : b2 = b := by
  funext j
  have := h j
  have hn : ¬ (p ≤ j ∧ j < p + 0) := by omega
  rw [if_neg hn] at this
  exact this

theorem Delivers_append {data : List Byte} {b b1 b2 : Nat → Byte} {p : Nat} {o : Int}
    {g m : Nat} (ho : 0 ≤ o) (h1 : Delivers data b p o g b1)
    (h2 : Delivers data b1 (p + g) (o + g) m b2) : Delivers data b p o (g + m) b2 := by
  intro j
  have a1 := h1 j
  have a2 := h2 j
  rw [a2]
  by_cases c2 : p + g ≤ j ∧ j < p + g + m
  · rw [if_pos c2, if_pos (by omega)]
    congr 1
    omega
  · rw [if_neg c2, a1]
    by_cases c1 : p ≤ j ∧ j < p + g
    · rw [if_pos c1, if_pos (by omega)]
    · rw [if_neg c1, if_neg (by omega)]

theorem Delivers_store (data : List Byte) (b : Nat → Byte) (p : Nat) (o : Int) (k : Nat) :
    Delivers data b p o k (store b p ((data.drop o.toNat).take k)) ∨
      ((data.drop o.toNat).take k).length ≠ k := by
  by_cases hk : ((data.drop o.toNat).take k).length = k
  · left
    intro j
    unfold store
    rw [hk]
    by_cases c : p ≤ j ∧ j < p + k
    · rw [if_pos c, if_pos c]
      exact getD_take_drop data o.toNat k (j - p) (by omega)
    · rw [if_neg c, if_neg c]
  · right; exact hk

/-- What one raw read of a resource over `data` hands back. -/
theorem Serves_read {R : MediaResource ρ} {data : List Byte} (S : Serves R data)
    (s : MediaResourceIndex ρ) (b : Nat → Byte) (p : Nat) (o : Int) (n : Nat) (ho : 0 ≤ o) :
    (mResource_ReadAt R s o n).1 = NS_OK ∧
      (mResource_ReadAt R s o n).2.1.length ≤ n ∧
      (mResource_ReadAt R s o n).2.1.length ≤ avail data o ∧
      (0 < n → 0 < avail data o → 0 < (mResource_ReadAt R s o n).2.1.length) ∧
      Delivers data b p o (mResource_ReadAt R s o n).2.1.length
        (store b p (mResource_ReadAt R s o n).2.1) := by
  have e1 : (mResource_ReadAt R s o n).1 = (R.ReadAt s.mResource o n).1 := rfl
  have e2 : (mResource_ReadAt R s o n).2.1 = (R.ReadAt s.mResource o n).2.1 := rfl
  rw [e1, e2]
  have hb := S.read_bytes s.mResource o n ho
  refine ⟨S.read_ok _ _ _, S.read_le _ _ _, ?_, ?_, ?_⟩
  · unfold avail
    exact length_take_drop_le data o.toNat _ (by rw [← hb])
  · intro hn ha
    unfold avail at ha
    have := S.read_some s.mResource o n ho (by omega) hn
    exact List.length_pos.mpr this
  · rcases Delivers_store data b p o (R.ReadAt s.mResource o n).2.1.length with h | h
    · rw [← hb] at h; exact h
    · rw [← hb] at h; exact absurd rfl h
theorem UncachedReadAt_loop_serves {R : MediaResource ρ} {data : List Byte}
    (S : Serves R data) (fuel : Nat) :
    ∀ (s : MediaResourceIndex ρ) (o : Int) (b : Nat → Byte) (p n a : Nat),
      0 ≤ o → InInt64 (o + n) → loopFuel o ≤ fuel → 0 < n → InUInt32 (a + n) →
      (UncachedReadAt_loop R fuel s o b p n a).rv = NS_OK ∧
        (UncachedReadAt_loop R fuel s o b p n a).aBytes = a + min n (avail data o) ∧
        Delivers data b p o (min n (avail data o))
          (UncachedReadAt_loop R fuel s o b p n a).aBuffer := by
  induction fuel with
  | zero =>
    intro s o b p n a ho hend hfuel hn ha
    unfold InInt64 at hend
    have := loopFuel_pos (o := o) (by omega)
    omega
  | succ f ih =>
    intro s o b p n a ho hend hfuel hn ha
    obtain ⟨h1, h2, h3, h4, h5⟩ := Serves_read S s b p o n ho
    unfold InInt64 at hend
    unfold InUInt32 at ha
    have e1 : uint32_t ((mResource_ReadAt R s o n).2.1.length : Int) =
        (mResource_ReadAt R s o n).2.1.length := by unfold uint32_t; omega
    simp only [UncachedReadAt_loop, h1, NS_FAILED, e1]
    by_cases hk : (mResource_ReadAt R s o n).2.1.length = 0
    · have hav : avail data o = 0 := by
        by_contra hne
        have := h4 hn (by omega)
        omega
      simp only [hk, if_true, Bool.false_eq_true, if_false]
      rw [hav]
      rw [hk] at h5
      exact ⟨by trivial, by simp, by simpa using h5⟩
    · simp only [hk, Bool.false_eq_true, if_false]
      have e2 : uint32_t ((a : Int) + ((mResource_ReadAt R s o n).2.1.length : Nat)) =
          a + (mResource_ReadAt R s o n).2.1.length := by unfold uint32_t; omega
      have e3 : uint32_t ((n : Int) - ((mResource_ReadAt R s o n).2.1.length : Nat)) =
          n - (mResource_ReadAt R s o n).2.1.length := by unfold uint32_t; omega
      simp only [e2, e3]
      by_cases hdone : n - (mResource_ReadAt R s o n).2.1.length = 0
      · simp only [hdone, if_true]
        have hmin : min n (avail data o) = (mResource_ReadAt R s o n).2.1.length := by omega
        rw [hmin]
        exact ⟨by trivial, by trivial, h5⟩
      · simp only [hdone, if_false]
        have e4 : int64_t (o + ((mResource_ReadAt R s o n).2.1.length : Nat)) =
            o + (mResource_ReadAt R s o n).2.1.length := by unfold int64_t; omega
        have c1 : ¬ o + ((mResource_ReadAt R s o n).2.1.length : Int) < 0 := by omega
        simp only [e4, if_neg c1]
        obtain ⟨g1, g2, g3⟩ := ih (mResource_ReadAt R s o n).2.2
          (o + (mResource_ReadAt R s o n).2.1.length) (store b p (mResource_ReadAt R s o n).2.1)
          (p + (mResource_ReadAt R s o n).2.1.length)
          (n - (mResource_ReadAt R s o n).2.1.length)
          (a + (mResource_ReadAt R s o n).2.1.length) (by omega)
          (by unfold InInt64; omega) (by unfold loopFuel at *; omega) (by omega)
          (by unfold InUInt32; omega)
        have hav : avail data (o + (mResource_ReadAt R s o n).2.1.length) =
            avail data o - (mResource_ReadAt R s o n).2.1.length := by
          unfold avail; omega
        have hmin : min n (avail data o) = (mResource_ReadAt R s o n).2.1.length +
            min (n - (mResource_ReadAt R s o n).2.1.length)
              (avail data (o + (mResource_ReadAt R s o n).2.1.length)) := by
          rw [hav]; omega
        refine ⟨g1, ?_, ?_⟩
        · rw [g2, hmin]; omega
        · rw [hmin]
          exact Delivers_append ho h5 g3

/-- An uncached read on a resource over `data` hands back the bytes of `data`
that exist in the range asked for. -/
theorem UncachedReadAt_serves {R : MediaResource ρ} {data : List Byte} (S : Serves R data)
    (s : MediaResourceIndex ρ) (o : Int) (b : Nat → Byte) (p n : Nat) (ho : 0 ≤ o)
    (hend : InInt64 (o + n)) (hn : InUInt32 n) :
    (UncachedReadAt R s o b p n).rv = NS_OK ∧
      (UncachedReadAt R s o b p n).aBytes = min n (avail data o) ∧
      Delivers data b p o (min n (avail data o)) (UncachedReadAt R s o b p n).aBuffer := by
  unfold UncachedReadAt
  simp only [if_neg (Int.not_lt.mpr ho)]
  by_cases h0 : n = 0
  · subst h0
    simp only [ne_eq, not_true_eq_false, if_false]
    exact ⟨by trivial, by simp, by simpa using Delivers_zero data b p o⟩
  · simp only [ne_eq, h0, not_false_eq_true, if_true]
    have := UncachedReadAt_loop_serves S (loopFuel o) (s.emit (Event.UncachedReadAt o n)) o b p n
      0 ho hend (Nat.le_refl _) (by omega) (by unfold InUInt32 at *; omega)
    simpa using this
theorem UncachedRangedReadAt_loop_serves {R : MediaResource ρ} {data : List Byte}
    (S : Serves R data) (x : Nat) (fuel : Nat) :
    ∀ (s : MediaResourceIndex ρ) (o : Int) (b : Nat → Byte) (p n a : Nat),
      0 ≤ o → x < n → InInt64 (o + (n - x : Nat)) → loopFuel o ≤ fuel → InUInt32 (a + n) →
      (UncachedRangedReadAt_loop R x fuel s o b p n a).rv = NS_OK ∧
        ∃ m, (UncachedRangedReadAt_loop R x fuel s o b p n a).aBytes = a + m ∧ m ≤ n ∧
          m ≤ avail data o ∧ (n - x ≤ m ∨ m = avail data o) ∧
          Delivers data b p o m (UncachedRangedReadAt_loop R x fuel s o b p n a).aBuffer := by
  induction fuel with
  | zero =>
    intro s o b p n a ho hn hend hfuel ha
    unfold InInt64 at hend
    have := loopFuel_pos (o := o) (by omega)
    omega
  | succ f ih =>
    intro s o b p n a ho hn hend hfuel ha
    obtain ⟨h1, h2, h3, h4, h5⟩ := Serves_read S s b p o n ho
    unfold InInt64 at hend
    unfold InUInt32 at ha
    have e1 : uint32_t ((mResource_ReadAt R s o n).2.1.length : Int) =
        (mResource_ReadAt R s o n).2.1.length := by unfold uint32_t; omega
    simp only [UncachedRangedReadAt_loop, h1, NS_FAILED, e1]
    by_cases hk : (mResource_ReadAt R s o n).2.1.length = 0
    · have hav : avail data o = 0 := by
        by_contra hne
        have := h4 (by omega) (by omega)
        omega
      simp only [hk, if_true, Bool.false_eq_true, if_false]
      rw [hk] at h5
      exact ⟨by trivial, 0, by simp, by omega, by omega, Or.inr hav.symm, by simpa using h5⟩
    · simp only [hk, Bool.false_eq_true, if_false]
      have e2 : uint32_t ((a : Int) + ((mResource_ReadAt R s o n).2.1.length : Nat)) =
          a + (mResource_ReadAt R s o n).2.1.length := by unfold uint32_t; omega
      have e3 : uint32_t ((n : Int) - ((mResource_ReadAt R s o n).2.1.length : Nat)) =
          n - (mResource_ReadAt R s o n).2.1.length := by unfold uint32_t; omega
      simp only [e2, e3]
      by_cases hdone : n - (mResource_ReadAt R s o n).2.1.length ≤ x
      · simp only [hdone, if_true]
        exact ⟨by trivial, _, rfl, h2, h3, Or.inl (by omega), h5⟩
      · simp only [hdone, if_false]
        have e4 : int64_t (o + ((mResource_ReadAt R s o n).2.1.length : Nat)) =
            o + (mResource_ReadAt R s o n).2.1.length := by unfold int64_t; omega
        have c1 : ¬ o + ((mResource_ReadAt R s o n).2.1.length : Int) < 0 := by omega
        simp only [e4, if_neg c1]
        obtain ⟨g1, m, g2, g3, g4, g5, g6⟩ := ih (mResource_ReadAt R s o n).2.2
          (o + (mResource_ReadAt R s o n).2.1.length) (store b p (mResource_ReadAt R s o n).2.1)
          (p + (mResource_ReadAt R s o n).2.1.length)
          (n - (mResource_ReadAt R s o n).2.1.length)
          (a + (mResource_ReadAt R s o n).2.1.length) (by omega) (by omega)
          (by unfold InInt64; omega) (by unfold loopFuel at *; omega)
          (by unfold InUInt32; omega)
        have hav : avail data (o + (mResource_ReadAt R s o n).2.1.length) =
            avail data o - (mResource_ReadAt R s o n).2.1.length := by
          unfold avail; omega
        rw [hav] at g4 g5
        refine ⟨g1, (mResource_ReadAt R s o n).2.1.length + m, ?_, by omega, by omega, ?_,
          Delivers_append ho h5 g6⟩
        · rw [g2]; omega
        · rcases g5 with g5 | g5
          · left; omega
          · right; omega

/-- A ranged read on a resource over `data` hands back bytes of `data` from the
offset on: at most `n + x` of them, and at least `n` unless the data ends. -/
theorem UncachedRangedReadAt_serves {R : MediaResource ρ} {data : List Byte}
    (S : Serves R data) (s : MediaResourceIndex ρ) (o : Int) (b : Nat → Byte) (p n x : Nat)
    (ho : 0 ≤ o) (hn : 0 < n) (hend : InInt64 (o + n)) (hnx : InUInt32 (n + x)) :
    (UncachedRangedReadAt R s o b p n x).rv = NS_OK ∧
      ∃ m, (UncachedRangedReadAt R s o b p n x).aBytes = m ∧ m ≤ n + x ∧
        m ≤ avail data o ∧ (n ≤ m ∨ m = avail data o) ∧
        Delivers data b p o m (UncachedRangedReadAt R s o b p n x).aBuffer := by
  unfold InUInt32 at hnx
  have e1 : uint32_t ((n : Int) + x) = n + x := by unfold uint32_t; omega
  have c1 : ¬ (o < 0 ∨ n + x < n) := by omega
  have c2 : n + x ≠ 0 := by omega
  unfold UncachedRangedReadAt
  simp only [e1, if_neg c1, c2, ne_eq, not_false_eq_true, if_true]
  obtain ⟨g1, m, g2, g3, g4, g5, g6⟩ := UncachedRangedReadAt_loop_serves S x (loopFuel o)
    (s.emit (Event.UncachedRangedReadAt o n x)) o b p (n + x) 0 ho (by omega)
    (by simpa using hend) (Nat.le_refl _) (by unfold InUInt32; omega)
  refine ⟨g1, m, by simpa using g2, g3, g4, ?_, g6⟩
  rcases g5 with g5 | g5
  · left; omega
  · right; exact g5
theorem Coherent_of_SameMembers {data : List Byte} {t u : MediaResourceIndex ρ}
    (h : SameMembers t u) (C : Coherent data t) : Coherent data u := by
  obtain ⟨h1, h2, h3, h4, h5⟩ := h
  constructor
  · rw [h2]; exact C.cap_pos
  · rw [h2]; exact C.cap_u32
  · rw [h1]; exact C.cursor_i64
  · rw [h3]; exact C.off_nonneg
  · rw [h3]; exact C.off_i64
  · rw [h3, h4]; exact C.in_data
  · rw [h2, h3, h4]; exact C.in_block
  · rw [h2, h3, h4, h5]; exact C.content

theorem emod_bounds (o : Int) {c : Nat} (hc : 0 < c) :
    0 ≤ o % (c : Int) ∧ o % (c : Int) < c :=
  ⟨Int.emod_nonneg _ (by omega), Int.emod_lt_of_pos _ (by omega)⟩

theorem IndexInCache_eq {data : List Byte} {t : MediaResourceIndex ρ} (C : Coherent data t)
    (o : Int) : t.IndexInCache o = (o % (t.mCacheBlockSize : Int)).toNat := by
  have := emod_bounds o C.cap_pos
  have := C.cap_u32
  unfold InUInt32 at this
  unfold IndexInCache uint32_t
  omega

theorem alignDown_emod (o : Int) (c : Int) : (o - o % c) % c = 0 := by
  rw [Int.sub_emod, Int.emod_emod, Int.sub_self, Int.zero_emod]

/-- Offsets of one block: the in-block position advances with the offset. -/
theorem emod_same_block {c : Nat} {B o : Int} (h1 : o - o % (c : Int) ≤ B)
    (h2 : B ≤ o) (hc : 0 < c) : o % (c : Int) = B % (c : Int) + (o - B) := by
  have hb := emod_bounds o hc
  have := alignDown_eq (alignDown_emod o c) h1 (by omega)
  omega

/-- A cache freshly filled with `m` bytes of `data` at offset `o` is coherent. -/
theorem Coherent_fill {data : List Byte} {t u : MediaResourceIndex ρ} (C : Coherent data t)
    (blk : Nat → Byte) (o : Int) (m : Nat) (h1 : u.mCacheBlockSize = t.mCacheBlockSize)
    (h2 : u.mOffset = t.mOffset) (h3 : u.mCachedOffset = o) (h4 : u.mCachedBytes = m)
    (ho : 0 ≤ o) (ho2 : InInt64 o) (hdata : m ≤ avail data o) (hav : 0 < avail data o)
    (hblock : o % (t.mCacheBlockSize : Int) + m ≤ t.mCacheBlockSize)
    (hd : Delivers data blk (o % (t.mCacheBlockSize : Int)).toNat o m u.mCachedBlock) :
    Coherent data u := by
  have hb := emod_bounds o C.cap_pos
  constructor
  · rw [h1]; exact C.cap_pos
  · rw [h1]; exact C.cap_u32
  · rw [h2]; exact C.cursor_i64
  · rw [h3]; exact ho
  · rw [h3]; exact ho2
  · intro _; rw [h3, h4]; unfold avail at hdata hav; omega
  · intro _; rw [h1, h3, h4]; exact hblock
  · intro i hi
    rw [h1, h3, hd]
    rw [h4] at hi
    rw [if_pos (by omega)]
    congr 1
    omega

/-- A coherent cache topped up with `m` bytes of `data` at its end `o`, inside
the block of its last byte, is coherent. -/
theorem Coherent_topup {data : List Byte} {t u : MediaResourceIndex ρ} (C : Coherent data t)
    (o : Int) (m : Nat) (h1 : u.mCacheBlockSize = t.mCacheBlockSize)
    (h2 : u.mOffset = t.mOffset) (h3 : u.mCachedOffset = t.mCachedOffset)
    (h4 : u.mCachedBytes = t.mCachedBytes + m)
    (hend : t.mCachedOffset + t.mCachedBytes = o)
    (hsame : o - o % (t.mCacheBlockSize : Int) ≤ t.mCachedOffset)
    (hdata : m ≤ avail data o) (hav : 0 < avail data o)
    (hblock : o % (t.mCacheBlockSize : Int) + m ≤ t.mCacheBlockSize)
    (hd : Delivers data t.mCachedBlock (o % (t.mCacheBlockSize : Int)).toNat o m
      u.mCachedBlock) :
    Coherent data u := by
  have hb := emod_bounds o C.cap_pos
  have hB := emod_bounds t.mCachedOffset C.cap_pos
  have hpos := emod_same_block hsame (by omega) C.cap_pos
  have hnn := C.off_nonneg
  constructor
  · rw [h1]; exact C.cap_pos
  · rw [h1]; exact C.cap_u32
  · rw [h2]; exact C.cursor_i64
  · rw [h3]; exact C.off_nonneg
  · rw [h3]; exact C.off_i64
  · intro _; rw [h3, h4]; unfold avail at hdata hav; push_cast; omega
  · intro _; rw [h1, h3, h4]; push_cast; omega
  · intro i hi
    rw [h1, h3, hd]
    rw [h4] at hi
    by_cases hold : i < t.mCachedBytes
    · rw [if_neg (by omega)]
      exact C.content i hold
    · rw [if_pos (by omega)]
      congr 1
      omega
theorem CacheOrReadAt_fallback_serves {R : MediaResource ρ} {data : List Byte}
    (S : Serves R data) (t : MediaResourceIndex ρ) (o : Int) (b : Nat → Byte) (p n a : Nat)
    (C : Coherent data t) (ho : 0 ≤ o) (hend : InInt64 (o + n)) (ha : InUInt32 (a + n)) :
    Correct data b p o n a (CacheOrReadAt_fallback R t o b p n a) := by
  unfold InUInt32 at ha
  obtain ⟨h1, h2, h3⟩ := UncachedReadAt_serves S t o b p n ho hend (by unfold InUInt32; omega)
  have hm := UncachedReadAt_members R t o b p n
  have e1 : uint32_t ((a : Int) + (min n (avail data o) : Nat)) = a + min n (avail data o) := by
    unfold uint32_t; omega
  unfold CacheOrReadAt_fallback
  simp only [h1, h2, NS_SUCCEEDED, NS_FAILED, Bool.not_false, if_true, e1]
  exact ⟨rfl, rfl, h3, Coherent_of_SameMembers hm C⟩

theorem CacheOrReadAt_ranged_serves {R : MediaResource ρ} {data : List Byte}
    (S : Serves R data) (t : MediaResourceIndex ρ) (o : Int) (b : Nat → Byte) (p n a : Nat)
    (e : Int) (C : Coherent data t)
    (hpre : t.mCachedBytes = 0 ∨ (t.mCachedOffset + t.mCachedBytes = o ∧
      o - o % (t.mCacheBlockSize : Int) ≤ t.mCachedOffset))
    (ho : 0 ≤ o) (hn : 0 < n) (hfit : o % (t.mCacheBlockSize : Int) + n ≤ t.mCacheBlockSize)
    (hend : InInt64 (o + n)) (ha : InUInt32 (a + n)) (he : InInt64 e) (hcov : o + n ≤ e) :
    Correct data b p o n a (CacheOrReadAt_ranged R t o b p n a e) := by
  have hb := emod_bounds o C.cap_pos
  have hcap := C.cap_u32
  have hoff := C.off_i64
  have hnn := C.off_nonneg
  unfold InUInt32 at ha hcap
  unfold InInt64 at hend he hoff
  have hidx := IndexInCache_eq C o
  -- the number of bytes the ranged read asks for
  obtain ⟨T, hT, hT1, hT2⟩ : ∃ T : Nat,
      uint32_t (min (int64_t (e - o))
        ((uint32_t ((t.mCacheBlockSize : Int) -
          ((o % (t.mCacheBlockSize : Int)).toNat : Nat)) : Nat) : Int)) = T ∧
      n ≤ T ∧ o % (t.mCacheBlockSize : Int) + T ≤ t.mCacheBlockSize := by
    refine ⟨_, rfl, ?_, ?_⟩
    · unfold uint32_t int64_t; omega
    · unfold uint32_t int64_t; omega
  have hx : uint32_t ((T : Int) - n) = T - n := by unfold uint32_t; omega
  obtain ⟨r1, m, r2, r3, r4, r5, r6⟩ := UncachedRangedReadAt_serves S
    (MOZ_ASSERT 454 (decide (T ≥ n)) t) o t.mCachedBlock (o % (t.mCacheBlockSize : Int)).toNat
    n (T - n) ho hn (by unfold InInt64; omega) (by unfold InUInt32; omega)
  have hmem := SameMembers_trans (SameMembers_MOZ_ASSERT 454 (decide (T ≥ n)) t)
    (UncachedRangedReadAt_members R (MOZ_ASSERT 454 (decide (T ≥ n)) t) o t.mCachedBlock
      (o % (t.mCacheBlockSize : Int)).toNat n (T - n))
  obtain ⟨m1, m2, m3, m4, m5⟩ := hmem
  unfold CacheOrReadAt_ranged
  simp only [hidx, hT, hx, MOZ_ASSERT_mCachedBlock, r1, r2, NS_SUCCEEDED, NS_FAILED,
    Bool.not_false, if_true]
  by_cases hm0 : m = 0
  · subst hm0
    have hav : avail data o = 0 := by
      rcases r5 with r5 | r5
      · omega
      · exact r5.symm
    simp only [if_true]
    refine ⟨rfl, by rw [hav]; simp, by rw [hav]; simpa using Delivers_zero data b p o, ?_⟩
    have hblk := Delivers_eq_of_zero r6
    exact Coherent_of_SameMembers ⟨m1, m2, m3, m4, hblk⟩ C
  · have hav : 0 < avail data o := by omega
    have hmin : min n m = min n (avail data o) := by
      rcases r5 with r5 | r5
      · omega
      · rw [r5]
    have e1 : uint32_t ((a : Int) + (min n m : Nat)) = a + min n m := by
      unfold uint32_t; omega
    simp only [hm0, if_false, e1, m3, m4]
    have hdel : ∀ blk : Nat → Byte,
        Delivers data t.mCachedBlock (o % (t.mCacheBlockSize : Int)).toNat o m blk →
        Delivers data b p o (min n (avail data o))
          (memcpy b p blk (o % (t.mCacheBlockSize : Int)).toNat (min n m)) := by
      intro blk hblk j
      unfold memcpy
      rw [hmin]
      by_cases c : p ≤ j ∧ j < p + min n (avail data o)
      · rw [if_pos c, if_pos c, hblk, if_pos (by omega)]
        congr 1
        omega
      · rw [if_neg c, if_neg c]
    split
    · rename_i htop
      refine ⟨rfl, by rw [hmin], hdel _ r6, ?_⟩
      by_cases hk : t.mCachedBytes = 0
      · have hBo : t.mCachedOffset = o := by
          rw [hk] at htop
          rw [← htop]; unfold int64_t; omega
        have e2 : uint32_t (((t.mCachedBytes : Nat) : Int) + (m : Nat)) = m := by
          rw [hk]; unfold uint32_t; omega
        exact Coherent_fill C t.mCachedBlock o m m2 m1 hBo e2 ho (by unfold InInt64; omega) r4
          hav (by omega) r6
      · rcases hpre with hpre | ⟨hp1, hp2⟩
        · exact absurd hpre hk
        · have hbl := C.in_block hk
          have hpos := emod_same_block hp2 (by omega) C.cap_pos
          have e2 : uint32_t (((t.mCachedBytes : Nat) : Int) + (m : Nat)) =
              t.mCachedBytes + m := by
            unfold uint32_t; omega
          exact Coherent_topup C o m m2 m1 rfl e2 hp1 hp2 r4 hav (by omega) r6
    · refine ⟨rfl, by rw [hmin], hdel _ r6, ?_⟩
      exact Coherent_fill C t.mCachedBlock o m m2 m1 rfl rfl ho (by unfold InInt64; omega) r4
        hav (by omega) r6
theorem Coherent_invalidate {data : List Byte} {t u : MediaResourceIndex ρ}
    (C : Coherent data t) (h1 : u.mCacheBlockSize = t.mCacheBlockSize)
    (h2 : u.mOffset = t.mOffset) (h3 : u.mCachedOffset = t.mCachedOffset)
    (h4 : u.mCachedBytes = 0) : Coherent data u := by
  constructor
  · rw [h1]; exact C.cap_pos
  · rw [h1]; exact C.cap_u32
  · rw [h2]; exact C.cursor_i64
  · rw [h3]; exact C.off_nonneg
  · rw [h3]; exact C.off_i64
  · intro h; exact absurd h4 h
  · intro h; exact absurd h4 h
  · intro i hi; rw [h4] at hi; omega

/-- A part delivered in full followed by a correct read of the rest is a correct
read of the whole. -/
theorem Correct_append {data : List Byte} {b b1 : Nat → Byte} {p : Nat} {o : Int}
    {n a g : Nat} {r : Outcome ρ} (ho : 0 ≤ o) (hg : g ≤ n) (hav : g ≤ avail data o)
    (h1 : Delivers data b p o g b1)
    (h2 : Correct data b1 (p + g) (o + g) (n - g) (a + g) r) : Correct data b p o n a r := by
  obtain ⟨c1, c2, c3, c4⟩ := h2
  have hav2 : avail data (o + g) = avail data o - g := by unfold avail; omega
  have hmin : min n (avail data o) = g + min (n - g) (avail data (o + g)) := by
    rw [hav2]; omega
  refine ⟨c1, ?_, ?_, c4⟩
  · rw [c2, hmin]; omega
  · rw [hmin]; exact Delivers_append ho h1 c3

theorem CacheOrReadAt_serves {R : MediaResource ρ} {data : List Byte}
    (S : Serves R data) (t : MediaResourceIndex ρ) (o : Int) (b : Nat → Byte) (p n a : Nat)
    (C : Coherent data t)
    (hpre : t.mCachedBytes = 0 ∨ (t.mCachedOffset + t.mCachedBytes = o ∧
      o - o % (t.mCacheBlockSize : Int) ≤ t.mCachedOffset))
    (ho : 0 ≤ o) (hn : 0 < n) (hfit : o % (t.mCacheBlockSize : Int) + n ≤ t.mCacheBlockSize)
    (hend : InInt64 (o + n)) (ha : InUInt32 (a + n)) :
    Correct data b p o n a (CacheOrReadAt R t o b p n a) := by
  have e1 : int64_t (o + n) = o + n := int64_t_eq hend
  have key : ∀ X : MediaResourceIndex ρ, SameMembers t X →
      (∀ e, InInt64 e → o + n ≤ e →
        Correct data b p o n a (CacheOrReadAt_ranged R X o b p n a e)) ∧
      Correct data b p o n a (CacheOrReadAt_fallback R X o b p n a) := by
    intro X hX
    have CX := Coherent_of_SameMembers hX C
    obtain ⟨x1, x2, x3, x4, x5⟩ := hX
    refine ⟨fun e he hcov => ?_, CacheOrReadAt_fallback_serves S X o b p n a CX ho hend ha⟩
    exact CacheOrReadAt_ranged_serves S X o b p n a e CX (by rw [x2, x3, x4]; exact hpre) ho hn
      (by rw [x2]; exact hfit) hend ha he hcov
  have s1 := SameMembers_emit t (Event.CacheOrReadAt o n)
  have s2 := SameMembers_trans s1 (SameMembers_MOZ_ASSERT 433 (decide (n > 0)) _)
  have s3 := SameMembers_trans s2 (SameMembers_MOZ_ASSERT 435
    (decide (uint32_t ((MOZ_ASSERT 433 (decide (n > 0))
      (t.emit (Event.CacheOrReadAt o n))).IndexInCache o + n) ≤
      (MOZ_ASSERT 433 (decide (n > 0)) (t.emit (Event.CacheOrReadAt o n))).mCacheBlockSize)) _)
  have s4 := SameMembers_trans s3 (SameMembers_GetLength R _)
  have s5 := SameMembers_trans s4 (SameMembers_mResource_GetCachedDataEnd R _ o)
  unfold CacheOrReadAt
  simp only [e1]
  split
  · split
    · rename_i hcov
      exact (key _ s5).1 _ (S.cached_i64 _ _) hcov
    · exact (key _ s5).2
  · exact (key _ s4).2
/-- The in-block position of an offset of the block that starts at `l`. -/
theorem emod_of_block {c : Nat} {l o : Int} (hl : l % (c : Int) = 0) (h1 : l ≤ o)
    (h2 : o < l + c) : o % (c : Int) = o - l := by
  have := alignDown_eq hl h1 h2
  omega

theorem ReadAt_lastBlock_serves {R : MediaResource ρ} {data : List Byte}
    (S : Serves R data) (t : MediaResourceIndex ρ) (o : Int) (b : Nat → Byte) (p n a : Nat)
    (l : Int) (C : Coherent data t) (ho : 0 ≤ o) (hn : 0 < n) (hend : InInt64 (o + n))
    (ha : InUInt32 (a + n)) (hl1 : l % (t.mCacheBlockSize : Int) = 0) (hl2 : l ≤ o)
    (hl3 : o + n - 1 < l + t.mCacheBlockSize) :
    Correct data b p o n a (ReadAt_lastBlock R t o b p n a l) := by
  have hpos := emod_of_block hl1 hl2 (by omega)
  unfold ReadAt_lastBlock
  have CX : Coherent data
      { MOZ_ASSERT 420 (decide (n ≤ (MOZ_ASSERT 419 (decide (o = l)) t).mCacheBlockSize))
          (MOZ_ASSERT 419 (decide (o = l)) t) with mCachedBytes := 0 } :=
    Coherent_invalidate C (by simp) (by simp) (by simp) rfl
  exact CacheOrReadAt_serves S _ o b p n a CX (Or.inl rfl) ho hn
    (by simp only [MOZ_ASSERT_mCacheBlockSize]; omega) hend ha

theorem ReadAt_beforeLastBlock_serves {R : MediaResource ρ} {data : List Byte}
    (S : Serves R data) (t : MediaResourceIndex ρ) (o : Int) (b : Nat → Byte) (p n a : Nat)
    (l : Int) (C : Coherent data t) (ho : 0 ≤ o) (hn : 0 < n) (hend : InInt64 (o + n))
    (ha : InUInt32 (a + n)) (hl1 : l % (t.mCacheBlockSize : Int) = 0) (hl2 : l ≤ o + n - 1)
    (hl3 : o + n - 1 < l + t.mCacheBlockSize) (hol : o ≤ l) :
    Correct data b p o n a (ReadAt_beforeLastBlock R t o b p n a l) := by
  have hend2 := hend
  have ha2 := ha
  unfold InInt64 at hend
  unfold InUInt32 at ha
  unfold ReadAt_beforeLastBlock
  by_cases hlt : o < l
  · have e1 : uint32_t (int64_t (l - o)) = (l - o).toNat := by
      unfold uint32_t int64_t; omega
    simp only [if_pos hlt, e1]
    obtain ⟨h1, h2, h3⟩ := UncachedReadAt_serves S
      (MOZ_ASSERT 376 (decide ((l - o).toNat < n))
        (MOZ_ASSERT 375 (decide ((l - o).toNat > 0)) t)) o b p (l - o).toNat ho
      (by unfold InInt64; omega) (by unfold InUInt32; omega)
    have hm := SameMembers_trans (SameMembers_trans
      (SameMembers_MOZ_ASSERT 375 (decide ((l - o).toNat > 0)) t)
      (SameMembers_MOZ_ASSERT 376 (decide ((l - o).toNat < n)) _))
      (UncachedReadAt_members R (MOZ_ASSERT 376 (decide ((l - o).toNat < n))
        (MOZ_ASSERT 375 (decide ((l - o).toNat > 0)) t)) o b p (l - o).toNat)
    have CX := Coherent_of_SameMembers hm C
    simp only [h1, h2, NS_FAILED, Bool.false_eq_true, if_false]
    by_cases hz : min (l - o).toNat (avail data o) = 0
    · have hav : avail data o = 0 := by omega
      simp only [hz, if_true]
      rw [hz] at h3
      refine ⟨rfl, by rw [hav]; simp, ?_, CX⟩
      rw [hav]; simpa using h3
    · simp only [hz, if_false]
      have e2 : uint32_t ((a : Int) + (min (l - o).toNat (avail data o) : Nat)) =
          a + min (l - o).toNat (avail data o) := by unfold uint32_t; omega
      simp only [e2]
      by_cases hshort : min (l - o).toNat (avail data o) < (l - o).toNat
      · simp only [if_pos hshort]
        have hmin : min n (avail data o) = min (l - o).toNat (avail data o) := by omega
        exact ⟨rfl, by rw [hmin], by rw [hmin]; exact h3, CX⟩
      · simp only [if_neg hshort]
        have hfull : min (l - o).toNat (avail data o) = (l - o).toNat := by omega
        rw [hfull] at h3 ⊢
        have e3 : int64_t (o + ((l - o).toNat : Nat)) = l := by unfold int64_t; omega
        have e4 : uint32_t ((n : Int) - ((l - o).toNat : Nat)) = n - (l - o).toNat := by
          unfold uint32_t; omega
        simp only [e3, e4]
        have hrest := ReadAt_lastBlock_serves S _ l
          (UncachedReadAt R (MOZ_ASSERT 376 (decide ((l - o).toNat < n))
            (MOZ_ASSERT 375 (decide ((l - o).toNat > 0)) t)) o b p (l - o).toNat).aBuffer
          (p + (l - o).toNat) (n - (l - o).toNat) (a + (l - o).toNat) l CX (by omega)
          (by omega) (by unfold InInt64; omega) (by unfold InUInt32; omega)
          (by rw [hm.2.1]; exact hl1) (Int.le_refl l) (by rw [hm.2.1]; omega)
        have hol2 : o + ((l - o).toNat : Nat) = l := by omega
        refine Correct_append ho (by omega) (by omega) h3 ?_
        rw [hol2]
        exact hrest
  · have hol2 : o = l := by omega
    simp only [if_neg hlt]
    exact ReadAt_lastBlock_serves S t o b p n a l C ho hn hend2 ha2 hl1 (by omega) hl3
theorem ReadAt_afterCache_serves {R : MediaResource ρ} {data : List Byte}
    (S : Serves R data) (t : MediaResourceIndex ρ) (o : Int) (b : Nat → Byte) (p n a : Nat)
    (e l : Int) (C : Coherent data t) (hk : t.mCachedBytes ≠ 0)
    (hpos : o = t.mCachedOffset + t.mCachedBytes) (hn : 0 < n) (hend : InInt64 (o + n))
    (ha : InUInt32 (a + n)) (hl1 : l % (t.mCacheBlockSize : Int) = 0) (hl2 : l ≤ o + n - 1)
    (hl3 : o + n - 1 < l + t.mCacheBlockSize) :
    Correct data b p o n a (ReadAt_afterCache R t o b p n a e l) := by
  have hnn := C.off_nonneg
  have hbl := C.in_block hk
  have hB := emod_bounds t.mCachedOffset C.cap_pos
  have hend2 := hend
  unfold InInt64 at hend
  have e1 : int64_t (o - 1) = o - 1 := by unfold int64_t; omega
  unfold ReadAt_afterCache
  simp only [e1]
  by_cases htop : o - 1 ≥ l
  · simp only [if_pos htop]
    have hm := SameMembers_trans
      (SameMembers_MOZ_ASSERT 352 (decide (o = int64_t (t.mCachedOffset + t.mCachedBytes))) t)
      (SameMembers_MOZ_ASSERT 353 (decide (e ≤ int64_t (l +
        (MOZ_ASSERT 352 (decide (o = int64_t (t.mCachedOffset + t.mCachedBytes)))
          t).mCacheBlockSize))) _)
    have CX := Coherent_of_SameMembers hm C
    obtain ⟨x1, x2, x3, x4, x5⟩ := hm
    have ho1 : o % (t.mCacheBlockSize : Int) = o - l := emod_of_block hl1 (by omega) (by omega)
    have hlast : (o - 1) % (t.mCacheBlockSize : Int) = o - 1 - l :=
      emod_of_block hl1 (by omega) (by omega)
    have hlast2 := emod_same_block (c := t.mCacheBlockSize) (B := t.mCachedOffset) (o := o - 1)
    have hBl : l ≤ t.mCachedOffset := by
      have h1 := alignDown_eq (alignDown_emod t.mCachedOffset t.mCacheBlockSize)
        (B := t.mCachedOffset - t.mCachedOffset % (t.mCacheBlockSize : Int)) (x := o - 1)
        (by omega) (by omega)
      omega
    exact CacheOrReadAt_serves S _ o b p n a CX
      (Or.inr ⟨by rw [x3, x4]; exact hpos.symm, by rw [x2, x3]; omega⟩) (by omega) hn
      (by rw [x2]; omega) hend2 ha
  · simp only [if_neg htop]
    have hm := SameMembers_MOZ_ASSERT 358 (decide (o ≤ l)) t
    have CX := Coherent_of_SameMembers hm C
    exact ReadAt_beforeLastBlock_serves S _ o b p n a l CX (by omega) hn hend2 ha
      (by rw [hm.2.1]; exact hl1) hl2 (by rw [hm.2.1]; exact hl3) (by omega)

theorem ReadAt_fromCache_serves {R : MediaResource ρ} {data : List Byte}
    (S : Serves R data) (t : MediaResourceIndex ρ) (o : Int) (b : Nat → Byte) (p n a : Nat)
    (e l : Int) (C : Coherent data t) (hk : t.mCachedBytes ≠ 0) (hlo : t.mCachedOffset ≤ o)
    (hhi : o ≤ t.mCachedOffset + t.mCachedBytes) (hn : 0 < n) (hend : InInt64 (o + n))
    (ha : InUInt32 (a + n)) (hl1 : l % (t.mCacheBlockSize : Int) = 0) (hl2 : l ≤ o + n - 1)
    (hl3 : o + n - 1 < l + t.mCacheBlockSize) :
    Correct data b p o n a (ReadAt_fromCache R t o b p n a e l) := by
  have hnn := C.off_nonneg
  have hbl := C.in_block hk
  have hdat := C.in_data hk
  have hcap := C.cap_u32
  have hsz := S.size
  unfold InInt64 at hsz
  have hB := emod_bounds t.mCachedOffset C.cap_pos
  have hend2 := hend
  have ha2 := ha
  unfold InInt64 at hend
  unfold InUInt32 at ha hcap
  have hm := SameMembers_MOZ_ASSERT 312 (decide (o ≥ t.mCachedOffset)) t
  have CX := Coherent_of_SameMembers hm C
  obtain ⟨x1, x2, x3, x4, x5⟩ := hm
  have e1 : int64_t (t.mCachedOffset + t.mCachedBytes) = t.mCachedOffset + t.mCachedBytes := by
    unfold int64_t; omega
  have e2 : uint32_t (int64_t (t.mCachedOffset + t.mCachedBytes - o)) =
      (t.mCachedOffset + t.mCachedBytes - o).toNat := by
    unfold uint32_t int64_t; omega
  unfold ReadAt_fromCache
  simp only [x3, x4, x5, e1, e2]
  by_cases hz : min n (t.mCachedOffset + t.mCachedBytes - o).toNat = 0
  · have hoe : o = t.mCachedOffset + t.mCachedBytes := by omega
    simp only [hz, ne_eq, not_true_eq_false, if_false]
    exact ReadAt_afterCache_serves S _ o b p n a e l CX (by rw [x4]; exact hk)
      (by rw [x3, x4]; exact hoe) hn hend2 ha2 (by rw [x2]; exact hl1) hl2
      (by rw [x2]; exact hl3)
  · simp only [hz, ne_eq, not_false_eq_true, if_true]
    have hidx : (MOZ_ASSERT 312 (decide (o ≥ t.mCachedOffset)) t).IndexInCache o =
        (t.mCachedOffset % (t.mCacheBlockSize : Int)).toNat + (o - t.mCachedOffset).toNat := by
      rw [IndexInCache_eq CX, x2]
      have hpos := emod_same_block (c := t.mCacheBlockSize) (B := t.mCachedOffset) (o := o)
      have hA := alignDown_eq (alignDown_emod t.mCachedOffset t.mCacheBlockSize)
        (B := t.mCachedOffset - t.mCachedOffset % (t.mCacheBlockSize : Int)) (x := o)
        (by omega) (by omega)
      omega
    have hdel : Delivers data b p o (min n (t.mCachedOffset + t.mCachedBytes - o).toNat)
        (memcpy b p t.mCachedBlock ((MOZ_ASSERT 312 (decide (o ≥ t.mCachedOffset)) t).IndexInCache o)
          (min n (t.mCachedOffset + t.mCachedBytes - o).toNat)) := by
      intro j
      unfold memcpy
      by_cases c : p ≤ j ∧ j < p + min n (t.mCachedOffset + t.mCachedBytes - o).toNat
      · rw [if_pos c, if_pos c, hidx]
        have := C.content ((o - t.mCachedOffset).toNat + (j - p)) (by omega)
        rw [← Nat.add_assoc] at this
        rw [this]
        congr 1
        omega
      · rw [if_neg c, if_neg c]
    have e3 : uint32_t ((a : Int) + (min n (t.mCachedOffset + t.mCachedBytes - o).toNat : Nat)) =
        a + min n (t.mCachedOffset + t.mCachedBytes - o).toNat := by
      unfold uint32_t; omega
    have e4 : uint32_t ((n : Int) - (min n (t.mCachedOffset + t.mCachedBytes - o).toNat : Nat)) =
        n - min n (t.mCachedOffset + t.mCachedBytes - o).toNat := by
      unfold uint32_t; omega
    simp only [e3, e4]
    have hav : (t.mCachedOffset + t.mCachedBytes - o).toNat ≤ avail data o := by
      unfold avail; omega
    by_cases hdone : n - min n (t.mCachedOffset + t.mCachedBytes - o).toNat = 0
    · simp only [hdone, if_true]
      have hmin : min n (t.mCachedOffset + t.mCachedBytes - o).toNat = min n (avail data o) := by
        omega
      rw [hmin] at hdel ⊢
      exact ⟨rfl, rfl, hdel, CX⟩
    · simp only [hdone, if_false]
      have hmin : min n (t.mCachedOffset + t.mCachedBytes - o).toNat =
          (t.mCachedOffset + t.mCachedBytes - o).toNat := by omega
      rw [hmin] at hdel ⊢
      have e5 : int64_t (o + ((t.mCachedOffset + t.mCachedBytes - o).toNat : Nat)) =
          t.mCachedOffset + t.mCachedBytes := by unfold int64_t; omega
      have hoe : o + ((t.mCachedOffset + t.mCachedBytes - o).toNat : Nat) =
          t.mCachedOffset + t.mCachedBytes := by omega
      simp only [e5]
      refine Correct_append (by omega) (by omega) hav hdel ?_
      rw [hoe]
      exact ReadAt_afterCache_serves S _ _ _ _ _ _ e l CX (by rw [x4]; exact hk)
        (by rw [x3, x4]) (by omega) (by unfold InInt64; omega) (by unfold InUInt32; omega)
        (by rw [x2]; exact hl1) (by omega) (by rw [x2]; omega)
theorem ReadAt_serves {R : MediaResource ρ} {data : List Byte}
    (S : Serves R data) (t : MediaResourceIndex ρ) (o : Int) (b : Nat → Byte) (p n : Nat)
    (C : Coherent data t) (ho : 0 ≤ o) (hend : InInt64 (o + n)) (hn : InUInt32 n) :
    Correct data b p o n 0 (ReadAt R t o b p n) := by
  have hcpos := C.cap_pos
  have hnn := C.off_nonneg
  have hoff := C.off_i64
  have hsz := S.size
  have hend2 := hend
  have hn2 := hn
  unfold InInt64 at hend hsz hoff
  unfold InUInt32 at hn
  have hc0 : t.mCacheBlockSize ≠ 0 := by omega
  unfold ReadAt
  simp only [if_neg hc0]
  by_cases hz : n = 0
  · subst hz
    simp only [if_true]
    exact ⟨rfl, by simp, by simpa using Delivers_zero data b p o, C⟩
  · have hnpos : 0 < n := by omega
    have e1 : int64_t (o + n) = o + n := by unfold int64_t; omega
    have e2 : int64_t (o + n - 1) = o + n - 1 := by unfold int64_t; omega
    have c1 : ¬ (o < 0 ∨ o + (n : Int) < o) := by omega
    simp only [if_neg hz, e1, e2, if_neg c1]
    have hE := emod_bounds (o + n - 1) hcpos
    have hl1 : (t.CacheOffsetContaining (o + n - 1)) % (t.mCacheBlockSize : Int) = 0 := by
      unfold CacheOffsetContaining; exact alignDown_emod _ _
    have hl2 : t.CacheOffsetContaining (o + n - 1) ≤ o + n - 1 := by
      unfold CacheOffsetContaining; omega
    have hl3 : o + n - 1 < t.CacheOffsetContaining (o + n - 1) + t.mCacheBlockSize := by
      unfold CacheOffsetContaining; omega
    generalize t.CacheOffsetContaining (o + n - 1) = l at hl1 hl2 hl3
    by_cases hcache : t.mCachedBytes ≠ 0 ∧
        int64_t (t.mCachedOffset + t.mCachedBytes) ≥ o ∧ t.mCachedOffset < o + (n : Int)
    · obtain ⟨hk, hc2, hc3⟩ := hcache
      have hdat := C.in_data hk
      have e3 : int64_t (t.mCachedOffset + t.mCachedBytes) =
          t.mCachedOffset + t.mCachedBytes := by unfold int64_t; omega
      rw [e3] at hc2
      simp only [e3, if_pos (And.intro hk (And.intro hc2 hc3))]
      by_cases hgap : o < t.mCachedOffset
      · have e4 : uint32_t (int64_t (t.mCachedOffset - o)) = (t.mCachedOffset - o).toNat := by
          unfold uint32_t int64_t; omega
        simp only [if_pos hgap, e4]
        obtain ⟨h1, h2, h3⟩ := UncachedReadAt_serves S
          (MOZ_ASSERT 276 (decide ((t.mCachedOffset - o).toNat < n))
            (MOZ_ASSERT 275 (decide ((t.mCachedOffset - o).toNat > 0)) t)) o b p
          (t.mCachedOffset - o).toNat ho (by unfold InInt64; omega) (by unfold InUInt32; omega)
        have hm := SameMembers_trans (SameMembers_trans
          (SameMembers_MOZ_ASSERT 275 (decide ((t.mCachedOffset - o).toNat > 0)) t)
          (SameMembers_MOZ_ASSERT 276 (decide ((t.mCachedOffset - o).toNat < n)) _))
          (UncachedReadAt_members R (MOZ_ASSERT 276 (decide ((t.mCachedOffset - o).toNat < n))
            (MOZ_ASSERT 275 (decide ((t.mCachedOffset - o).toNat > 0)) t)) o b p
            (t.mCachedOffset - o).toNat)
        have hav : (t.mCachedOffset - o).toNat < avail data o := by unfold avail; omega
        have hfull : min (t.mCachedOffset - o).toNat (avail data o) =
            (t.mCachedOffset - o).toNat := by omega
        rw [hfull] at h2 h3
        have e5 : int64_t (o + ((t.mCachedOffset - o).toNat : Nat)) = t.mCachedOffset := by
          unfold int64_t; omega
        have e6 : uint32_t ((n : Int) - ((t.mCachedOffset - o).toNat : Nat)) =
            n - (t.mCachedOffset - o).toNat := by unfold uint32_t; omega
        simp only [h1, h2, NS_FAILED, Bool.false_eq_true, if_false, Nat.lt_irrefl, e5, e6]
        have hm2 := SameMembers_trans hm (SameMembers_MOZ_ASSERT 310
          (decide (t.mCachedOffset = (UncachedReadAt R
            (MOZ_ASSERT 276 (decide ((t.mCachedOffset - o).toNat < n))
              (MOZ_ASSERT 275 (decide ((t.mCachedOffset - o).toNat > 0)) t)) o b p
            (t.mCachedOffset - o).toNat).index.mCachedOffset)) _)
        have CX := Coherent_of_SameMembers hm2 C
        obtain ⟨x1, x2, x3, x4, x5⟩ := hm2
        have hoe : o + ((t.mCachedOffset - o).toNat : Nat) = t.mCachedOffset := by omega
        have hrest := ReadAt_fromCache_serves S _ t.mCachedOffset
          (UncachedReadAt R (MOZ_ASSERT 276 (decide ((t.mCachedOffset - o).toNat < n))
            (MOZ_ASSERT 275 (decide ((t.mCachedOffset - o).toNat > 0)) t)) o b p
            (t.mCachedOffset - o).toNat).aBuffer
          (p + (t.mCachedOffset - o).toNat) (n - (t.mCachedOffset - o).toNat)
          (t.mCachedOffset - o).toNat (o + n) l CX (by rw [x4]; exact hk)
          (by rw [x3]) (by rw [x3, x4]; omega) (by omega) (by unfold InInt64; omega)
          (by unfold InUInt32; omega) (by rw [x2]; exact hl1) (by omega) (by rw [x2]; omega)
        refine Correct_append ho (by omega) (by omega) h3 ?_
        rw [hoe, Nat.zero_add]
        exact hrest
      · simp only [if_neg hgap]
        exact ReadAt_fromCache_serves S t o b p n 0 (o + n) l C hk (by omega) hc2 hnpos hend2
          (by simpa using hn2) hl1 hl2 hl3
    · simp only [if_neg hcache]
      by_cases hlast : o ≥ l
      · simp only [if_pos hlast]
        have CX : Coherent data { t with mCachedBytes := 0 } :=
          Coherent_invalidate C rfl rfl rfl rfl
        have hpos := emod_of_block hl1 hlast (by omega)
        exact CacheOrReadAt_serves S _ o b p n 0 CX (Or.inl rfl) ho hnpos (by simp only; omega)
          hend2 (by simpa using hn2)
      · simp only [if_neg hlast]
        exact ReadAt_beforeLastBlock_serves S t o b p n 0 l C ho hnpos hend2
          (by simpa using hn2) hl1 hl2 hl3 (by omega)
theorem InInt64_int64_t (n : Int) : InInt64 (int64_t n) := by
  unfold InInt64 int64_t; omega

/-- On a resource over `data`, `ReadAt` with arguments of the C++ types keeps the
cache coherent. -/
theorem ReadAt_coherent {R : MediaResource ρ} {data : List Byte} (S : Serves R data)
    (t : MediaResourceIndex ρ) (o : Int) (b : Nat → Byte) (p n : Nat) (C : Coherent data t)
    (ho : InInt64 o) (hn : InUInt32 n) : Coherent data (ReadAt R t o b p n).index := by
  by_cases hvalid : 0 ≤ o ∧ InInt64 (o + n)
  · exact (ReadAt_serves S t o b p n C hvalid.1 hvalid.2 hn).2.2.2
  · have hc0 : t.mCacheBlockSize ≠ 0 := by have := C.cap_pos; omega
    unfold ReadAt
    simp only [if_neg hc0]
    by_cases hz : n = 0
    · simp only [if_pos hz]; exact C
    · have c1 : o < 0 ∨ int64_t (o + n) < o := by
        unfold InInt64 at ho hvalid
        unfold InUInt32 at hn
        unfold int64_t
        omega
      simp only [if_neg hz, if_pos c1]; exact C

theorem Coherent_init (data : List Byte) (c : Nat) (r0 : ρ) (hc : 0 < c) (hc2 : InUInt32 c) :
    Coherent data (init c r0) := by
  constructor
  · exact hc
  · exact hc2
  · unfold InInt64; simp [init]
  · exact Int.le_refl 0
  · unfold InInt64; simp [init]
  · intro h; exact absurd rfl h
  · intro h; exact absurd rfl h
  · intro i hi; exact absurd hi (Nat.not_lt_zero i)

theorem Coherent_cursor {data : List Byte} {t : MediaResourceIndex ρ} (C : Coherent data t)
    (u : MediaResourceIndex ρ) (h1 : u.mCacheBlockSize = t.mCacheBlockSize)
    (h3 : u.mCachedOffset = t.mCachedOffset) (h4 : u.mCachedBytes = t.mCachedBytes)
    (h5 : u.mCachedBlock = t.mCachedBlock) (h2 : InInt64 u.mOffset) : Coherent data u := by
  constructor
  · rw [h1]; exact C.cap_pos
  · rw [h1]; exact C.cap_u32
  · exact h2
  · rw [h3]; exact C.off_nonneg
  · rw [h3]; exact C.off_i64
  · rw [h3, h4]; exact C.in_data
  · rw [h1, h3, h4]; exact C.in_block
  · rw [h1, h3, h4, h5]; exact C.content

theorem Read_coherent {R : MediaResource ρ} {data : List Byte} (S : Serves R data)
    (t : MediaResourceIndex ρ) (b : Nat → Byte) (p n : Nat) (C : Coherent data t)
    (hn : InUInt32 n) : Coherent data (Read R t b p n).index := by
  have CR := ReadAt_coherent S t t.mOffset b p n C C.cursor_i64 hn
  unfold Read
  simp only []
  split
  · exact CR
  · refine Coherent_cursor CR _ rfl rfl rfl rfl ?_
    simp only []
    split
    · decide
    · exact InInt64_int64_t _

theorem Seek_coherent {R : MediaResource ρ} {data : List Byte}
    (t : MediaResourceIndex ρ) (w o : Int) (C : Coherent data t) (ho : InInt64 o) :
    Coherent data (Seek R t w o).2 := by
  unfold Seek
  simp only [Seek_finish_eq]
  repeat' split
  all_goals first
    | exact C
    | exact Coherent_cursor C _ rfl rfl rfl rfl ho
    | exact Coherent_cursor C _ rfl rfl rfl rfl (InInt64_int64_t _)
    | exact Coherent_cursor C _ rfl rfl rfl rfl C.cursor_i64

theorem Reachable_coherent {R : MediaResource ρ} {data : List Byte} (S : Serves R data)
    {c : Nat} {r0 : ρ} (hc : 0 < c) (hc2 : InUInt32 c) {t : MediaResourceIndex ρ}
    (h : Reachable R c r0 t) : Coherent data t := by
  induction h with
  | init => exact Coherent_init data c r0 hc hc2
  | Read t b p n _ hn ih => exact Read_coherent S t b p n ih hn
  | ReadAt t o b p n _ ho hn ih => exact ReadAt_coherent S t o b p n ih ho hn
  | Seek t w o _ ho ih => exact Seek_coherent t w o ih ho

theorem bufferBytes_of_Delivers {data : List Byte} {b b2 : Nat → Byte} {p : Nat} {o : Int}
    {n : Nat} (hd : Delivers data b p o (min n (avail data o)) b2) :
    bufferBytes b2 p (min n (avail data o)) = (data.drop o.toNat).take n := by
  apply List.ext_getElem?
  intro i
  unfold bufferBytes avail at *
  by_cases hi : i < min n (data.length - o.toNat)
  · have h1 := hd (p + i)
    rw [if_pos (by omega)] at h1
    have h2 : p + i - p = i := by omega
    rw [h2] at h1
    have h3 : o.toNat + i < data.length := by omega
    simp only [List.getElem?_map, List.getElem?_range hi, Option.map_some', h1,
      List.getElem?_take, List.getElem?_drop]
    rw [if_pos (by omega), List.getD_eq_getElem?_getD, List.getElem?_eq_getElem h3]
    rfl
  · have h1 : ((List.range (min n (data.length - o.toNat))).map (fun j => b2 (p + j)))[i]? =
        none := by
      apply List.getElem?_eq_none
      simp; omega
    have h2 : ((data.drop o.toNat).take n)[i]? = none := by
      apply List.getElem?_eq_none
      simp [List.length_take, List.length_drop]; omega
    rw [h1, h2]
theorem take_length_self (l : List Byte) (k : Nat) : l.take k = l.take (l.take k).length := by
  rw [List.length_take]
  by_cases h : k ≤ l.length
  · rw [Nat.min_eq_left h]
  · rw [Nat.min_eq_right (by omega), List.take_length, List.take_of_length_le (by omega)]

theorem dataResource_serves (data : List Byte) (chunk : Nat) (len : Int) (cde : Int → Int)
    (hchunk : 0 < chunk) (hsize : InInt64 data.length) (hcde : ∀ o, InInt64 (cde o)) :
    Serves (dataResource data chunk len cde) data where
  size := hsize
  read_ok := fun _ _ _ => rfl
  read_le := fun _ o n => by
    simp only [dataResource]
    split
    · simp
    · simp only [List.length_take]; omega
  read_bytes := fun _ o n ho => by
    simp only [dataResource, if_neg (Int.not_lt.mpr ho)]
    exact take_length_self _ _
  read_some := fun _ o n ho hlt hn => by
    simp only [dataResource, if_neg (Int.not_lt.mpr ho)]
    intro h
    have := congrArg List.length h
    simp only [List.length_take, List.length_drop, List.length_nil] at this
    omega
  cached_i64 := fun _ o => hcde o

/-- Claim C1. Let the resource be the fixed byte sequence `data`: a raw read at
`(o, n)` never fails and hands back between 1 and `n` bytes of `data` starting at
`o` when `o < |data|`, and none beyond; its length report is arbitrary and its
cached-data end an arbitrary `int64_t`.  Then for every capacity `c > 0`, every
index state reachable from the initial empty cache by calls of `Read`, `ReadAt`
and `Seek`, and every offset `≥ 0` and count with `offset + count` inside
`int64_t`, `ReadAt(offset, buf, count)` returns `NS_OK`, `*aBytes` is the length
of `data[offset .. min(offset + count, |data|))`, and the bytes placed in the
caller buffer are exactly that part of `data`, so none of them comes from a stale
or never-filled part of the cache block; and the same call made again right
after, into any buffer, returns the same bytes. -/
theorem ReadAt_returns_resource_bytes {R : MediaResource ρ} {data : List Byte}
    (S : Serves R data) (c : Nat) (r0 : ρ) (hc : 0 < c) (hc2 : InUInt32 c)
    (t : MediaResourceIndex ρ) (hreach : Reachable R c r0 t) (aOffset : Int)
    (aBuffer : Nat → Byte) (aPos aCount : Nat) (ho : 0 ≤ aOffset)
    (hend : InInt64 (aOffset + aCount)) (hn : InUInt32 aCount) :
    (ReadAt R t aOffset aBuffer aPos aCount).rv = NS_OK ∧
      (ReadAt R t aOffset aBuffer aPos aCount).aBytes =
        ((data.drop aOffset.toNat).take aCount).length ∧
      bufferBytes (ReadAt R t aOffset aBuffer aPos aCount).aBuffer aPos
          (ReadAt R t aOffset aBuffer aPos aCount).aBytes =
        (data.drop aOffset.toNat).take aCount ∧
      ∀ (aBuffer2 : Nat → Byte) (aPos2 : Nat),
        (ReadAt R (ReadAt R t aOffset aBuffer aPos aCount).index aOffset aBuffer2 aPos2
            aCount).rv = NS_OK ∧
          bufferBytes
              (ReadAt R (ReadAt R t aOffset aBuffer aPos aCount).index aOffset aBuffer2 aPos2
                aCount).aBuffer aPos2
              (ReadAt R (ReadAt R t aOffset aBuffer aPos aCount).index aOffset aBuffer2 aPos2
                aCount).aBytes =
            bufferBytes (ReadAt R t aOffset aBuffer aPos aCount).aBuffer aPos
              (ReadAt R t aOffset aBuffer aPos aCount).aBytes := by
  have C := Reachable_coherent S hc hc2 hreach
  obtain ⟨h1, h2, h3, h4⟩ := ReadAt_serves S t aOffset aBuffer aPos aCount C ho hend hn
  have hlen : ((data.drop aOffset.toNat).take aCount).length = min aCount (avail data aOffset) := by
    simp [List.length_take, List.length_drop, avail]
  have hfirst : bufferBytes (ReadAt R t aOffset aBuffer aPos aCount).aBuffer aPos
      (ReadAt R t aOffset aBuffer aPos aCount).aBytes = (data.drop aOffset.toNat).take aCount := by
    rw [h2, Nat.zero_add]; exact bufferBytes_of_Delivers h3
  refine ⟨h1, by rw [h2, hlen, Nat.zero_add], hfirst, ?_⟩
  intro aBuffer2 aPos2
  obtain ⟨g1, g2, g3, _⟩ := ReadAt_serves S (ReadAt R t aOffset aBuffer aPos aCount).index aOffset
    aBuffer2 aPos2 aCount h4 ho hend hn
  refine ⟨g1, ?_⟩
  rw [hfirst, g2, Nat.zero_add]
  exact bufferBytes_of_Delivers g3

/-- Claim C1 on the 100 bytes `0, …, 99` served 3 at a time, with a 16-byte cache
block, in the state reached by `ReadAt(20, buf, 4)`: `ReadAt(18, buf, 30)`
returns the 30 bytes `18, …, 47`. -/
theorem ReadAt_returns_resource_bytes_witness :
    (Serves (dataResource hundredBytes 3 100 (fun _ => 100)) hundredBytes ∧ 0 < 16 ∧
      InUInt32 16 ∧
      Reachable (dataResource hundredBytes 3 100 (fun _ => 100)) 16 ()
        (ReadAt (dataResource hundredBytes 3 100 (fun _ => 100)) (init 16 ()) 20
          blankBuffer 0 4).index ∧
      (0 : Int) ≤ 18 ∧ InInt64 (18 + (30 : Nat)) ∧ InUInt32 30) ∧
    (ReadAt (dataResource hundredBytes 3 100 (fun _ => 100))
        (ReadAt (dataResource hundredBytes 3 100 (fun _ => 100)) (init 16 ()) 20
          blankBuffer 0 4).index 18 blankBuffer 0 30).rv = NS_OK ∧
    bufferBytes
        (ReadAt (dataResource hundredBytes 3 100 (fun _ => 100))
          (ReadAt (dataResource hundredBytes 3 100 (fun _ => 100)) (init 16 ()) 20
            blankBuffer 0 4).index 18 blankBuffer 0 30).aBuffer 0
        (ReadAt (dataResource hundredBytes 3 100 (fun _ => 100))
          (ReadAt (dataResource hundredBytes 3 100 (fun _ => 100)) (init 16 ()) 20
            blankBuffer 0 4).index 18 blankBuffer 0 30).aBytes =
      (hundredBytes.drop (18 : Int).toNat).take 30 :=
  have h100 : InInt64 100 := by decide
  have hcde : ∀ o : Int, InInt64 ((fun _ : Int => (100 : Int)) o) := fun _ => h100
  have S := dataResource_serves hundredBytes 3 100 (fun _ => 100) (by decide) (by decide) hcde
  have hreach : Reachable (dataResource hundredBytes 3 100 (fun _ => 100)) 16 ()
      (ReadAt (dataResource hundredBytes 3 100 (fun _ => 100)) (init 16 ()) 20
        blankBuffer 0 4).index :=
    Reachable.ReadAt _ 20 blankBuffer 0 4 Reachable.init (by decide) (by decide)
  have h := ReadAt_returns_resource_bytes S 16 () (by decide) (by decide) _ hreach 18
    blankBuffer 0 30 (by decide) (by decide) (by decide)
  ⟨⟨S, by decide, by decide, hreach, by decide, by decide, by decide⟩, h.1, h.2.2.1⟩
/-! ## C18, C19, C20: the raw reads of `UncachedReadAt` and `UncachedRangedReadAt` -/

theorem int64_t_advance {o : Int} {br : Nat} (ho : 0 ≤ o) (hr : InInt64 o)
    (hlt : br < 4294967296) (hnn : ¬ int64_t (o + br) < 0) : int64_t (o + br) = o + br := by
  unfold InInt64 at hr
  unfold int64_t at *
  omega

@[simp] theorem bytesReadSum_nil : bytesReadSum [] = 0 := rfl

@[simp] theorem bytesReadSum_cons (e : RawRead) (l : List RawRead) :
    bytesReadSum (e :: l) = e.bytesRead + bytesReadSum l := by
  simp [bytesReadSum]

@[simp] theorem readEvents_nil : readEvents [] = [] := rfl

@[simp] theorem readEvents_cons (e : RawRead) (l : List RawRead) :
    readEvents (e :: l) = Event.ResourceReadAt e.aOffset e.aCount :: readEvents l := rfl

theorem bytesRead_lt (e : RawRead) : e.bytesRead < 4294967296 := uint32_t_lt _

theorem singleton_eq_append_cons {α : Type} {x e : α} {pre post : List α}
    (h : [x] = pre ++ e :: post) : pre = [] ∧ e = x ∧ post = [] := by
  cases pre with
  | nil => simp at h; exact ⟨rfl, h.1.symm, h.2⟩
  | cons y ys => simp at h

theorem cons_eq_append_cons {α : Type} {x e : α} {l pre post : List α}
    (h : x :: l = pre ++ e :: post) :
    (pre = [] ∧ e = x ∧ post = l) ∨ ∃ pre2, pre = x :: pre2 ∧ l = pre2 ++ e :: post := by
  cases pre with
  | nil => simp at h; exact Or.inl ⟨rfl, h.1.symm, h.2.symm⟩
  | cons y ys => simp at h; exact Or.inr ⟨ys, by rw [h.1], h.2⟩

/-- What the loop of `UncachedReadAt` makes of its raw reads, for every resource. -/
theorem UncachedReadAt_loop_reads (R : MediaResource ρ) (f : Nat) :
    ∀ (s : MediaResourceIndex ρ) (o : Int) (b : Nat → Byte) (p n a : Nat),
      0 ≤ o → InInt64 o → loopFuel o ≤ f → InUInt32 n → InUInt32 a →
      (UncachedReadAt_loop R f s o b p n a).index.trace =
        s.trace ++ readEvents (uncachedReads R f s.mResource o n) ∧
      ∀ pre e post, uncachedReads R f s.mResource o n = pre ++ e :: post →
        (e.aOffset = o + bytesReadSum pre ∧ e.aCount = uint32_t (n - bytesReadSum pre)) ∧
        (NS_FAILED e.rv = true → post = [] ∧
          (UncachedReadAt_loop R f s o b p n a).rv = e.rv ∧
          (UncachedReadAt_loop R f s o b p n a).aBytes = uint32_t (a + bytesReadSum pre)) ∧
        (NS_FAILED e.rv = false → e.bytesRead ≠ 0 → uint32_t (e.aCount - e.bytesRead) ≠ 0 →
          int64_t (e.aOffset + e.bytesRead) < 0 → post = [] ∧
          (UncachedReadAt_loop R f s o b p n a).rv = NS_ERROR_FAILURE ∧
          (UncachedReadAt_loop R f s o b p n a).aBytes =
            uint32_t (a + bytesReadSum pre + e.bytesRead)) := by
  induction f with
  | zero =>
    intro s o b p n a ho hr hf
    have := loopFuel_pos (o := o) hr.2
    omega
  | succ k ih =>
    intro s o b p n a ho hr hf hn ha
    have hn0 : uint32_t (n : Int) = n := by unfold InUInt32 at hn; unfold uint32_t; omega
    have ha0 : uint32_t (a : Int) = a := by unfold InUInt32 at ha; unfold uint32_t; omega
    have ex1 : (mResource_ReadAt R s o n).1 = (R.ReadAt s.mResource o n).1 := rfl
    have ex2 : (mResource_ReadAt R s o n).2.1 = (R.ReadAt s.mResource o n).2.1 := rfl
    have ex3 : (mResource_ReadAt R s o n).2.2.mResource = (R.ReadAt s.mResource o n).2.2 := rfl
    simp only [UncachedReadAt_loop, uncachedReads, RawRead.bytesRead, ex1, ex2]
    by_cases h1 : NS_FAILED (R.ReadAt s.mResource o n).1 = true
    · simp only [h1, if_true]
      refine ⟨by simp, ?_⟩
      intro pre e post h
      obtain ⟨rfl, rfl, rfl⟩ := singleton_eq_append_cons h
      simp [h1, hn0, ha0]
    · simp only [h1, Bool.false_eq_true, if_false]
      by_cases h2 : uint32_t ((R.ReadAt s.mResource o n).2.1.length : Int) = 0
      · simp only [h2, if_true]
        refine ⟨by simp, ?_⟩
        intro pre e post h
        obtain ⟨rfl, rfl, rfl⟩ := singleton_eq_append_cons h
        simp [h1, h2, hn0, RawRead.bytesRead]
      · simp only [h2, if_false]
        by_cases h3 : uint32_t ((n : Int) - (uint32_t ((R.ReadAt s.mResource o n).2.1.length : Int) : Int)) = 0
        · simp only [h3, if_true]
          refine ⟨by simp, ?_⟩
          intro pre e post h
          obtain ⟨rfl, rfl, rfl⟩ := singleton_eq_append_cons h
          simp [h1, h3, hn0, RawRead.bytesRead]
        · simp only [h3, if_false]
          by_cases h4 : int64_t (o + (uint32_t ((R.ReadAt s.mResource o n).2.1.length : Int) : Int)) < 0
          · simp only [h4, if_true]
            refine ⟨by simp, ?_⟩
            intro pre e post h
            obtain ⟨rfl, rfl, rfl⟩ := singleton_eq_append_cons h
            simp [h1, hn0, RawRead.bytesRead]
          · simp only [h4, if_false]
            obtain ⟨g1, g2, g3⟩ := loopFuel_advance ho hr h2 (uint32_t_lt _) h4 hf
            have hadv := int64_t_advance ho hr (uint32_t_lt _) h4
            have IH := ih (mResource_ReadAt R s o n).2.2
              (int64_t (o + (uint32_t ((R.ReadAt s.mResource o n).2.1.length : Int) : Int)))
              (store b p (R.ReadAt s.mResource o n).2.1)
              (p + uint32_t ((R.ReadAt s.mResource o n).2.1.length : Int))
              (uint32_t ((n : Int) - (uint32_t ((R.ReadAt s.mResource o n).2.1.length : Int) : Int)))
              (uint32_t ((a : Int) + (uint32_t ((R.ReadAt s.mResource o n).2.1.length : Int) : Int)))
              g1 g2 g3 (uint32_t_lt _) (uint32_t_lt _)
            simp only [ex3] at IH
            refine ⟨by rw [IH.1]; simp, ?_⟩
            intro pre e post h
            rcases cons_eq_append_cons h with ⟨rfl, rfl, rfl⟩ | ⟨pre2, rfl, h'⟩
            · simp [h1, h4, hn0, RawRead.bytesRead]
            · obtain ⟨⟨q1, q2⟩, q3, q4⟩ := IH.2 pre2 e post h'
              have hb := uint32_t_lt ((R.ReadAt s.mResource o n).2.1.length : Int)
              have e1 : uint32_t (((uint32_t ((a : Int) + (uint32_t ((R.ReadAt s.mResource o n).2.1.length : Int) : Int)) : Nat) : Int) + (bytesReadSum pre2 : Int)) = uint32_t ((a : Int) + ((uint32_t ((R.ReadAt s.mResource o n).2.1.length : Int) + bytesReadSum pre2 : Nat) : Int)) := by
                unfold uint32_t; omega
              have e2 : uint32_t (((uint32_t ((n : Int) - (uint32_t ((R.ReadAt s.mResource o n).2.1.length : Int) : Int)) : Nat) : Int) - (bytesReadSum pre2 : Int)) = uint32_t ((n : Int) - ((uint32_t ((R.ReadAt s.mResource o n).2.1.length : Int) + bytesReadSum pre2 : Nat) : Int)) := by
                unfold uint32_t; omega
              have e3 : uint32_t (((uint32_t ((a : Int) + (uint32_t ((R.ReadAt s.mResource o n).2.1.length : Int) : Int)) : Nat) : Int) + (bytesReadSum pre2 : Int) + (e.bytesRead : Int)) = uint32_t ((a : Int) + ((uint32_t ((R.ReadAt s.mResource o n).2.1.length : Int) + bytesReadSum pre2 : Nat) : Int) + (e.bytesRead : Int)) := by
                unfold uint32_t; omega
              simp only [bytesReadSum_cons, RawRead.bytesRead]
              refine ⟨⟨?_, ?_⟩, ?_, ?_⟩
              · rw [q1, hadv]; push_cast; ring
              · rw [q2, e2]
              · intro hf1
                obtain ⟨r1, r2, r3⟩ := q3 hf1
                exact ⟨r1, r2, by rw [r3, e1]⟩
              · intro hf1 hf2 hf3 hf4
                obtain ⟨r1, r2, r3⟩ := q4 hf1 hf2 hf3 hf4
                exact ⟨r1, r2, by rw [r3, e3]; rfl⟩

@[simp] theorem allBytes_nil : allBytes [] = [] := rfl

@[simp] theorem allBytes_cons (e : RawRead) (l : List RawRead) :
    allBytes (e :: l) = e.bytes ++ allBytes l := by
  simp [allBytes]

theorem allBytes_append (l1 l2 : List RawRead) :
    allBytes (l1 ++ l2) = allBytes l1 ++ allBytes l2 := by
  simp [allBytes]

theorem bytesReadSum_append (l1 l2 : List RawRead) :
    bytesReadSum (l1 ++ l2) = bytesReadSum l1 + bytesReadSum l2 := by
  simp [bytesReadSum]

theorem store_nil (b : Nat → Byte) (p : Nat) : store b p [] = b := by
  funext j
  simp [store]

/-- Two stores one right after the other are one store of the two lists. -/
theorem store_append (b : Nat → Byte) (p : Nat) (x y : List Byte) :
    store (store b p x) (p + x.length) y = store b p (x ++ y) := by
  funext j
  unfold store
  simp only [List.length_append]
  by_cases h1 : p + x.length ≤ j ∧ j < p + x.length + y.length
  · have h2 : p ≤ j ∧ j < p + (x.length + y.length) := by omega
    rw [if_pos h1, if_pos h2]
    have h3 : j - p = x.length + (j - (p + x.length)) := by omega
    rw [h3, List.getD_eq_getElem?_getD, List.getD_eq_getElem?_getD,
      List.getElem?_append_right (by omega)]
    congr 2
    omega
  · rw [if_neg h1]
    by_cases h2 : p ≤ j ∧ j < p + x.length
    · have h3 : p ≤ j ∧ j < p + (x.length + y.length) := by omega
      rw [if_pos h2, if_pos h3, List.getD_eq_getElem?_getD, List.getD_eq_getElem?_getD,
        List.getElem?_append_left (by omega)]
    · have h3 : ¬ (p ≤ j ∧ j < p + (x.length + y.length)) := by omega
      rw [if_neg h2, if_neg h3]

/-- The counts of the raw reads of `UncachedReadAt` on a resource that never
hands back more than asked for: each read asks for what the reads before it left
of the count. -/
theorem uncachedReads_counts (R : MediaResource ρ) (hR : NeverMore R) (f : Nat) :
    ∀ (r : ρ) (o : Int) (n : Nat), InUInt32 n →
      ∀ pre e post, uncachedReads R f r o n = pre ++ e :: post →
        bytesReadSum pre + e.aCount = n ∧ e.bytesRead = e.bytes.length ∧
          e.bytes.length ≤ e.aCount := by
  induction f with
  | zero =>
    intro r o n hn pre e post h
    simp [uncachedReads] at h
  | succ k ih =>
    intro r o n hn pre e post h
    have hle := hR r o n
    have hbr : uint32_t ((R.ReadAt r o n).2.1.length : Int) = (R.ReadAt r o n).2.1.length := by
      unfold InUInt32 at hn; unfold uint32_t; omega
    simp only [uncachedReads, RawRead.bytesRead] at h
    have base : ∀ pre e post,
        [(⟨o, n, (R.ReadAt r o n).1, (R.ReadAt r o n).2.1⟩ : RawRead)] = pre ++ e :: post →
        bytesReadSum pre + e.aCount = n ∧ e.bytesRead = e.bytes.length ∧
          e.bytes.length ≤ e.aCount := by
      intro pre e post h
      obtain ⟨rfl, rfl, rfl⟩ := singleton_eq_append_cons h
      exact ⟨by simp, hbr, hle⟩
    split at h
    · exact base _ _ _ h
    · split at h
      · exact base _ _ _ h
      · split at h
        · exact base _ _ _ h
        · split at h
          · exact base _ _ _ h
          · rcases cons_eq_append_cons h with ⟨rfl, rfl, rfl⟩ | ⟨pre2, rfl, h'⟩
            · exact ⟨by simp, hbr, hle⟩
            · obtain ⟨q1, q2, q3⟩ := ih _ _ _ (uint32_t_lt _) pre2 e post h'
              refine ⟨?_, q2, q3⟩
              simp only [bytesReadSum_cons, RawRead.bytesRead]
              rw [hbr] at q1 ⊢
              have : uint32_t ((n : Int) - ((R.ReadAt r o n).2.1.length : Int)) =
                  n - (R.ReadAt r o n).2.1.length := by
                unfold InUInt32 at hn; unfold uint32_t; omega
              rw [this] at q1
              omega

/-- The raw reads of `UncachedReadAt` and what it makes of a failing read and of
an offset that overflows, for every resource. -/
theorem UncachedReadAt_reads_spec (R : MediaResource ρ) (s : MediaResourceIndex ρ)
    (o : Int) (b : Nat → Byte) (p n : Nat) (ho : InInt64 o) (hn : InUInt32 n) :
    (UncachedReadAt R s o b p n).index.trace =
      s.trace ++ Event.UncachedReadAt o n :: readEvents (UncachedReadAt_reads R s.mResource o n) ∧
    ∀ pre e post, UncachedReadAt_reads R s.mResource o n = pre ++ e :: post →
      (NS_FAILED e.rv = true →
        post = [] ∧ (UncachedReadAt R s o b p n).rv = e.rv ∧
        (UncachedReadAt R s o b p n).aBytes = uint32_t (bytesReadSum pre) ∧
        (NeverMore R → (UncachedReadAt R s o b p n).aBytes = bytesReadSum pre)) ∧
      (NS_FAILED e.rv = false → e.bytesRead ≠ 0 → uint32_t (e.aCount - e.bytesRead) ≠ 0 →
        int64_t (e.aOffset + e.bytesRead) < 0 →
        post = [] ∧ (UncachedReadAt R s o b p n).rv = NS_ERROR_FAILURE ∧
        (UncachedReadAt R s o b p n).aBytes = uint32_t (bytesReadSum pre + e.bytesRead) ∧
        (NeverMore R →
          (UncachedReadAt R s o b p n).aBytes = bytesReadSum pre + e.bytesRead)) := by
  unfold UncachedReadAt UncachedReadAt_reads
  by_cases h1 : o < 0
  · simp [h1, emit]
  · by_cases h2 : n = 0
    · simp [h1, h2, emit]
    · have h3 : ¬ (o < 0 ∨ n = 0) := by omega
      simp only [h1, h2, h3, if_false, ne_eq, not_false_eq_true, if_true]
      obtain ⟨t1, t2⟩ := UncachedReadAt_loop_reads R (loopFuel o)
        (s.emit (Event.UncachedReadAt o n)) o b p n 0 (by omega) ho (Nat.le_refl _) hn
        (by decide)
      refine ⟨by rw [t1]; simp [emit], ?_⟩
      intro pre e post h
      have h' : uncachedReads R (loopFuel o) (s.emit (Event.UncachedReadAt o n)).mResource o n =
          pre ++ e :: post := h
      obtain ⟨_, q3, q4⟩ := t2 pre e post h'
      refine ⟨fun hf => ?_, fun hf1 hf2 hf3 hf4 => ?_⟩
      · obtain ⟨r1, r2, r3⟩ := q3 hf
        have r3' : (UncachedReadAt_loop R (loopFuel o) (s.emit (Event.UncachedReadAt o n)) o b
            p n 0).aBytes = uint32_t (bytesReadSum pre) := by
          rw [r3]; simp
        refine ⟨r1, r2, r3', fun hR => ?_⟩
        obtain ⟨c1, _, _⟩ := uncachedReads_counts R hR _ _ _ _ hn pre e post h
        rw [r3']
        unfold InUInt32 at hn
        unfold uint32_t
        omega
      · obtain ⟨r1, r2, r3⟩ := q4 hf1 hf2 hf3 hf4
        have r3' : (UncachedReadAt_loop R (loopFuel o) (s.emit (Event.UncachedReadAt o n)) o b
            p n 0).aBytes = uint32_t (bytesReadSum pre + e.bytesRead) := by
          rw [r3]; simp
        refine ⟨r1, r2, r3', fun hR => ?_⟩
        obtain ⟨c1, c2, c3⟩ := uncachedReads_counts R hR _ _ _ _ hn pre e post h
        rw [r3']
        unfold InUInt32 at hn
        unfold uint32_t
        omega

/-- C19: error propagation of `UncachedReadAt`, for every resource.  The raw
reads issued are those of `UncachedReadAt_reads`, in order.  If one of them
fails with a code, it is the last one, that code is returned as it is, and
`*aBytes` is the sum of the byte counts of the reads before it (as the
`uint32_t` that `*aBytes` is; the plain sum for a resource that never hands back
more than asked for).  If a read succeeds with bytes, more bytes are missing and
the offset advanced by the bytes just read is negative as an `int64_t`, it is
the last one, `NS_ERROR_FAILURE` is returned and `*aBytes` includes the bytes
just read. -/
theorem UncachedReadAt_error_propagation (R : MediaResource ρ) (s : MediaResourceIndex ρ)
    (o : Int) (b : Nat → Byte) (p n : Nat) (ho : InInt64 o) (hn : InUInt32 n) :
    (UncachedReadAt R s o b p n).index.trace =
      s.trace ++ Event.UncachedReadAt o n :: readEvents (UncachedReadAt_reads R s.mResource o n) ∧
    ∀ pre e post, UncachedReadAt_reads R s.mResource o n = pre ++ e :: post →
      (NS_FAILED e.rv = true →
        post = [] ∧ (UncachedReadAt R s o b p n).rv = e.rv ∧
        (UncachedReadAt R s o b p n).aBytes = uint32_t (bytesReadSum pre) ∧
        (NeverMore R → (UncachedReadAt R s o b p n).aBytes = bytesReadSum pre)) ∧
      (NS_FAILED e.rv = false → e.bytesRead ≠ 0 → uint32_t (e.aCount - e.bytesRead) ≠ 0 →
        int64_t (e.aOffset + e.bytesRead) < 0 →
        post = [] ∧ (UncachedReadAt R s o b p n).rv = NS_ERROR_FAILURE ∧
        (UncachedReadAt R s o b p n).aBytes = uint32_t (bytesReadSum pre + e.bytesRead) ∧
        (NeverMore R →
          (UncachedReadAt R s o b p n).aBytes = bytesReadSum pre + e.bytesRead)) :=
  UncachedReadAt_reads_spec R s o b p n ho hn

/-- Claim C19 on a resource that hands back 2 bytes at a time and fails from its
second read on: `UncachedReadAt(0, buf, 5)` issues two raw reads, the second
fails, and it returns that failure with 2 bytes; `UncachedReadAt(2^63 - 2, buf,
5)` issues one raw read, which hands back 2 bytes, and returns
`NS_ERROR_FAILURE` with those 2 bytes counted. -/
theorem UncachedReadAt_error_propagation_witness :
    (InInt64 0 ∧ InUInt32 5 ∧
      UncachedReadAt_reads (flakyResource 2 1 100) (0 : Nat) 0 5 =
        [⟨0, 5, NS_OK, [0, 1]⟩, ⟨2, 3, NS_ERROR_FAILURE, []⟩] ∧
      (UncachedReadAt (flakyResource 2 1 100) (init 16 0) 0 blankBuffer 0 5).rv =
        NS_ERROR_FAILURE ∧
      (UncachedReadAt (flakyResource 2 1 100) (init 16 0) 0 blankBuffer 0 5).aBytes = 2) ∧
    (InInt64 9223372036854775806 ∧
      UncachedReadAt_reads (flakyResource 2 1 100) (0 : Nat) 9223372036854775806 5 =
        [⟨9223372036854775806, 5, NS_OK, [254, 255]⟩] ∧
      (UncachedReadAt (flakyResource 2 1 100) (init 16 0) 9223372036854775806 blankBuffer 0
        5).rv = NS_ERROR_FAILURE ∧
      (UncachedReadAt (flakyResource 2 1 100) (init 16 0) 9223372036854775806 blankBuffer 0
        5).aBytes = 2) :=
  have h := ((UncachedReadAt_error_propagation (flakyResource 2 1 100) (init 16 0) 0
    blankBuffer 0 5 (by decide) (by decide)).2 [⟨0, 5, NS_OK, [0, 1]⟩]
    ⟨2, 3, NS_ERROR_FAILURE, []⟩ [] rfl).1 rfl
  have g := ((UncachedReadAt_error_propagation (flakyResource 2 1 100) (init 16 0)
    9223372036854775806 blankBuffer 0 5 (by decide) (by decide)).2 []
    ⟨9223372036854775806, 5, NS_OK, [254, 255]⟩ [] rfl).2 rfl (by decide) (by decide)
    (by decide)
  ⟨⟨by decide, by decide, rfl, h.2.1, by rw [h.2.2.1]; rfl⟩,
    ⟨by decide, rfl, g.2.1, by rw [g.2.2.1]; rfl⟩⟩

/-- The loop of `UncachedReadAt` on a resource that never hands back more than
asked for, when none of its raw reads fails and the range asked for lies inside
`int64_t`. -/
theorem UncachedReadAt_loop_success (R : MediaResource ρ) (hR : NeverMore R) (f : Nat) :
    ∀ (s : MediaResourceIndex ρ) (o : Int) (b : Nat → Byte) (p n a : Nat),
      0 ≤ o → InInt64 (o + n) → loopFuel o ≤ f → InUInt32 (a + n) →
      (∀ e ∈ uncachedReads R f s.mResource o n, NS_FAILED e.rv = false) →
      (UncachedReadAt_loop R f s o b p n a).rv = NS_OK ∧
      (UncachedReadAt_loop R f s o b p n a).aBytes =
        a + (allBytes (uncachedReads R f s.mResource o n)).length ∧
      (allBytes (uncachedReads R f s.mResource o n)).length ≤ n ∧
      (UncachedReadAt_loop R f s o b p n a).aBuffer =
        store b p (allBytes (uncachedReads R f s.mResource o n)) ∧
      (∀ pre e post, uncachedReads R f s.mResource o n = pre ++ e :: post →
        e.aOffset = o + (allBytes pre).length ∧ e.aCount = n - (allBytes pre).length) ∧
      ((allBytes (uncachedReads R f s.mResource o n)).length < n →
        ∃ pre e, uncachedReads R f s.mResource o n = pre ++ [e] ∧ e.bytes = []) := by
  induction f with
  | zero =>
    intro s o b p n a ho hr hf
    have : 0 < loopFuel o := by
      unfold InInt64 at hr
      exact loopFuel_pos (by omega)
    omega
  | succ k ih =>
    intro s o b p n a ho hr hf hn hall
    have hle := hR s.mResource o n
    have hbr : uint32_t ((R.ReadAt s.mResource o n).2.1.length : Int) =
        (R.ReadAt s.mResource o n).2.1.length := by
      unfold InUInt32 at hn; unfold uint32_t; omega
    have hro : InInt64 o := by unfold InInt64 at *; omega
    have ex1 : (mResource_ReadAt R s o n).1 = (R.ReadAt s.mResource o n).1 := rfl
    have ex2 : (mResource_ReadAt R s o n).2.1 = (R.ReadAt s.mResource o n).2.1 := rfl
    have ex3 : (mResource_ReadAt R s o n).2.2.mResource = (R.ReadAt s.mResource o n).2.2 := rfl
    simp only [UncachedReadAt_loop, uncachedReads, RawRead.bytesRead, ex1, ex2, hbr] at hall ⊢
    have hsub : uint32_t ((n : Int) - ((R.ReadAt s.mResource o n).2.1.length : Int)) =
        n - (R.ReadAt s.mResource o n).2.1.length := by
      unfold InUInt32 at hn; unfold uint32_t; omega
    have hadd : uint32_t ((a : Int) + ((R.ReadAt s.mResource o n).2.1.length : Int)) =
        a + (R.ReadAt s.mResource o n).2.1.length := by
      unfold InUInt32 at hn; unfold uint32_t; omega
    have hoff : int64_t (o + ((R.ReadAt s.mResource o n).2.1.length : Int)) =
        o + (R.ReadAt s.mResource o n).2.1.length := by
      unfold InInt64 at hr; unfold int64_t; omega
    simp only [hsub, hadd, hoff] at hall ⊢
    by_cases h1 : NS_FAILED (R.ReadAt s.mResource o n).1 = true
    · simp only [h1, if_true] at hall
      simp [h1] at hall
    · simp only [h1, Bool.false_eq_true, if_false] at hall ⊢
      by_cases h2 : (R.ReadAt s.mResource o n).2.1.length = 0
      · simp only [h2, if_true]
        have hnil : (R.ReadAt s.mResource o n).2.1 = [] := List.length_eq_zero.mp h2
        refine ⟨by trivial, by simp [h2], by simp [h2], by simp, ?_, ?_⟩
        · intro pre e post h
          obtain ⟨rfl, rfl, rfl⟩ := singleton_eq_append_cons h
          simp
        · intro _
          exact ⟨[], _, rfl, hnil⟩
      · simp only [h2, if_false] at hall ⊢
        by_cases h3 : n - (R.ReadAt s.mResource o n).2.1.length = 0
        · simp only [h3, if_true]
          have hlen : (R.ReadAt s.mResource o n).2.1.length = n := by omega
          refine ⟨by trivial, by simp, by simp [hlen], by simp, ?_, ?_⟩
          · intro pre e post h
            obtain ⟨rfl, rfl, rfl⟩ := singleton_eq_append_cons h
            simp
          · intro h
            simp [hlen] at h
        · simp only [h3, if_false] at hall ⊢
          have h4 : ¬ o + ((R.ReadAt s.mResource o n).2.1.length : Int) < 0 := by omega
          simp only [h4, if_false] at hall ⊢
          have IH := ih (mResource_ReadAt R s o n).2.2
            (o + ((R.ReadAt s.mResource o n).2.1.length : Int))
            (store b p (R.ReadAt s.mResource o n).2.1)
            (p + (R.ReadAt s.mResource o n).2.1.length)
            (n - (R.ReadAt s.mResource o n).2.1.length)
            (a + (R.ReadAt s.mResource o n).2.1.length)
            (by omega) (by unfold InInt64 at *; omega)
            (by unfold loopFuel at *; omega) (by unfold InUInt32 at *; omega)
            (by
              intro e he
              rw [ex3] at he
              exact hall e (List.mem_cons_of_mem _ he))
          simp only [ex3] at IH
          obtain ⟨i1, i2, i3, i4, i5, i6⟩ := IH
          refine ⟨i1, ?_, ?_, ?_, ?_, ?_⟩
          · rw [i2]; simp; omega
          · simp; omega
          · rw [i4, store_append]; simp
          · intro pre e post h
            rcases cons_eq_append_cons h with ⟨rfl, rfl, rfl⟩ | ⟨pre2, rfl, h'⟩
            · simp
            · obtain ⟨q1, q2⟩ := i5 pre2 e post h'
              rw [q1, q2]
              simp
              constructor
              · ring
              · omega
          · intro h
            simp at h
            obtain ⟨pre, e, hp, he⟩ := i6 (by omega)
            exact ⟨_ :: pre, e, by rw [hp]; rfl, he⟩

theorem bufferBytes_store (b : Nat → Byte) (p : Nat) (l : List Byte) :
    bufferBytes (store b p l) p l.length = l := by
  apply List.ext_getElem?
  intro i
  unfold bufferBytes store
  by_cases hi : i < l.length
  · simp only [List.getElem?_map, List.getElem?_range hi, Option.map_some']
    rw [if_pos (by omega), List.getD_eq_getElem?_getD, List.getElem?_eq_getElem hi]
    have h2 : p + i - p = i := by omega
    simp [h2, List.getElem?_eq_getElem hi]
  · have h1 : ((List.range l.length).map (fun j =>
        if p ≤ p + j ∧ p + j < p + l.length then l.getD (p + j - p) 0 else b (p + j)))[i]? =
        none := by
      apply List.getElem?_eq_none
      simp; omega
    have h2 : l[i]? = none := List.getElem?_eq_none (by omega)
    rw [h1, h2]

/-- C18: success of `UncachedReadAt`.  For an offset that is not negative, a
range `[aOffset, aOffset + aCount)` inside `int64_t` (the offset does not
overflow) and a resource that never hands back more than asked for: if none of
the raw reads issued fails, `UncachedReadAt` returns `NS_OK` with a byte count of
at most `aCount`; the raw reads issued are those of `UncachedReadAt_reads`, each
at the offset advanced by the bytes read before it and for the bytes still
missing; the buffer holds, from `aPos` on, the bytes they handed back, one read
after the other; the byte count is below `aCount` only if the last raw read, at
`aOffset` plus the byte count, handed back no byte; and for a count of 0 the
result is `NS_OK` with 0 bytes and no raw read. -/
theorem UncachedReadAt_success (R : MediaResource ρ) (hR : NeverMore R)
    (s : MediaResourceIndex ρ) (o : Int) (b : Nat → Byte) (p n : Nat)
    (ho : 0 ≤ o) (hr : InInt64 (o + n)) (hn : InUInt32 n)
    (hall : ∀ e ∈ UncachedReadAt_reads R s.mResource o n, NS_FAILED e.rv = false) :
    (UncachedReadAt R s o b p n).rv = NS_OK ∧
    (UncachedReadAt R s o b p n).aBytes ≤ n ∧
    (UncachedReadAt R s o b p n).index.trace =
      s.trace ++ Event.UncachedReadAt o n ::
        readEvents (UncachedReadAt_reads R s.mResource o n) ∧
    (∀ pre e post, UncachedReadAt_reads R s.mResource o n = pre ++ e :: post →
      e.aOffset = o + (allBytes pre).length ∧ e.aCount = n - (allBytes pre).length) ∧
    (UncachedReadAt R s o b p n).aBytes =
      (allBytes (UncachedReadAt_reads R s.mResource o n)).length ∧
    (UncachedReadAt R s o b p n).aBuffer =
      store b p (allBytes (UncachedReadAt_reads R s.mResource o n)) ∧
    bufferBytes (UncachedReadAt R s o b p n).aBuffer p (UncachedReadAt R s o b p n).aBytes =
      allBytes (UncachedReadAt_reads R s.mResource o n) ∧
    ((UncachedReadAt R s o b p n).aBytes < n →
      ∃ pre e, UncachedReadAt_reads R s.mResource o n = pre ++ [e] ∧ e.bytes = [] ∧
        e.aOffset = o + (UncachedReadAt R s o b p n).aBytes) ∧
    (n = 0 → (UncachedReadAt R s o b p n).aBytes = 0 ∧
      UncachedReadAt_reads R s.mResource o n = []) := by
  have hro : InInt64 o := by unfold InInt64 at *; omega
  have T := (UncachedReadAt_reads_spec R s o b p n hro hn).1
  have key : (UncachedReadAt R s o b p n).rv = NS_OK ∧
      (UncachedReadAt R s o b p n).aBytes =
        (allBytes (UncachedReadAt_reads R s.mResource o n)).length ∧
      (allBytes (UncachedReadAt_reads R s.mResource o n)).length ≤ n ∧
      (UncachedReadAt R s o b p n).aBuffer =
        store b p (allBytes (UncachedReadAt_reads R s.mResource o n)) ∧
      (∀ pre e post, UncachedReadAt_reads R s.mResource o n = pre ++ e :: post →
        e.aOffset = o + (allBytes pre).length ∧ e.aCount = n - (allBytes pre).length) ∧
      ((allBytes (UncachedReadAt_reads R s.mResource o n)).length < n →
        ∃ pre e, UncachedReadAt_reads R s.mResource o n = pre ++ [e] ∧ e.bytes = []) ∧
      (n = 0 → UncachedReadAt_reads R s.mResource o n = []) := by
    unfold UncachedReadAt UncachedReadAt_reads at *
    have h1 : ¬ o < 0 := by omega
    by_cases h2 : n = 0
    · simp [h1, h2, store_nil]
    · have h3 : ¬ (o < 0 ∨ n = 0) := by omega
      simp only [h1, h2, h3, if_false, ne_eq, not_false_eq_true, if_true] at hall ⊢
      obtain ⟨i1, i2, i3, i4, i5, i6⟩ := UncachedReadAt_loop_success R hR (loopFuel o)
        (s.emit (Event.UncachedReadAt o n)) o b p n 0 ho hr (Nat.le_refl _)
        (by unfold InUInt32 at *; omega) hall
      exact ⟨i1, by rw [i2]; simp [emit], i3, i4, i5, i6, fun h => h.elim⟩
  obtain ⟨k1, k2, k3, k4, k5, k6, k7⟩ := key
  refine ⟨k1, by omega, T, k5, k2, k4, ?_, ?_, ?_⟩
  · rw [k4, k2, bufferBytes_store]
  · intro h
    obtain ⟨pre, e, hp, he⟩ := k6 (by omega)
    refine ⟨pre, e, hp, he, ?_⟩
    have := (k5 pre e [] hp).1
    rw [this, k2, hp, allBytes_append]
    simp [he]
  · intro h
    have := k7 h
    exact ⟨by rw [k2, this]; rfl, this⟩

theorem dataResource_neverMore (data : List Byte) (chunk : Nat) (len : Int)
    (cde : Int → Int) : NeverMore (dataResource data chunk len cde) := by
  intro r o n
  simp only [dataResource]
  split
  · simp
  · rw [List.length_take]
    omega

/-- Claim C18 on the resource of the bytes `0, …, 99`, 40 at a time:
`UncachedReadAt(90, buf, 20)` issues a raw read of 20 bytes at 90, which hands
back 10, and one of 10 bytes at 100, which hands back none. -/
theorem UncachedReadAt_success_witness :
    (NeverMore (dataResource hundredBytes 40 100 (fun _ => 100)) ∧ (0 : Int) ≤ 90 ∧
      InInt64 (90 + (20 : Nat)) ∧ InUInt32 20 ∧
      ∀ e ∈ UncachedReadAt_reads (dataResource hundredBytes 40 100 (fun _ => 100)) () 90 20,
        NS_FAILED e.rv = false) ∧
    (UncachedReadAt_reads (dataResource hundredBytes 40 100 (fun _ => 100)) () 90 20).map
      (fun e => (e.aOffset, e.aCount, e.bytes.length)) = [(90, 20, 10), (100, 10, 0)] ∧
    (UncachedReadAt (dataResource hundredBytes 40 100 (fun _ => 100)) (init 16 ()) 90
      blankBuffer 0 20).rv = NS_OK ∧
    (UncachedReadAt (dataResource hundredBytes 40 100 (fun _ => 100)) (init 16 ()) 90
      blankBuffer 0 20).aBytes = 10 ∧
    bufferBytes (UncachedReadAt (dataResource hundredBytes 40 100 (fun _ => 100)) (init 16 ())
      90 blankBuffer 0 20).aBuffer 0 10 = [90, 91, 92, 93, 94, 95, 96, 97, 98, 99] :=
  have hall : ∀ e ∈ UncachedReadAt_reads (dataResource hundredBytes 40 100 (fun _ => 100)) ()
      90 20, NS_FAILED e.rv = false := by decide
  have h := UncachedReadAt_success (dataResource hundredBytes 40 100 (fun _ => 100))
    (dataResource_neverMore _ _ _ _) (init 16 ()) 90 blankBuffer 0 20 (by decide) (by decide)
    (by decide) hall
  have hb : (UncachedReadAt (dataResource hundredBytes 40 100 (fun _ => 100)) (init 16 ()) 90
      blankBuffer 0 20).aBytes = 10 := by rw [h.2.2.2.2.1]; rfl
  ⟨⟨dataResource_neverMore _ _ _ _, by decide, by decide, by decide, hall⟩, by rfl, h.1, hb,
    by rw [← hb, h.2.2.2.2.2.2.1]; rfl⟩

/-- The raw reads of the loop of `UncachedRangedReadAt` are those of
`uncachedRangedReads`, for every resource. -/
theorem UncachedRangedReadAt_loop_trace (R : MediaResource ρ) (x : Nat) (f : Nat) :
    ∀ (s : MediaResourceIndex ρ) (o : Int) (b : Nat → Byte) (p n a : Nat),
      0 ≤ o → InInt64 o → loopFuel o ≤ f →
      (UncachedRangedReadAt_loop R x f s o b p n a).index.trace =
        s.trace ++ readEvents (uncachedRangedReads R x f s.mResource o n) := by
  induction f with
  | zero =>
    intro s o b p n a ho hr hf
    have := loopFuel_pos (o := o) hr.2
    omega
  | succ k ih =>
    intro s o b p n a ho hr hf
    have ex1 : (mResource_ReadAt R s o n).1 = (R.ReadAt s.mResource o n).1 := rfl
    have ex2 : (mResource_ReadAt R s o n).2.1 = (R.ReadAt s.mResource o n).2.1 := rfl
    have ex3 : (mResource_ReadAt R s o n).2.2.mResource = (R.ReadAt s.mResource o n).2.2 := rfl
    simp only [UncachedRangedReadAt_loop, uncachedRangedReads, RawRead.bytesRead, ex1, ex2]
    by_cases h1 : NS_FAILED (R.ReadAt s.mResource o n).1 = true
    · simp [h1]
    · simp only [h1, Bool.false_eq_true, if_false]
      by_cases h2 : uint32_t ((R.ReadAt s.mResource o n).2.1.length : Int) = 0
      · simp [h2]
      · simp only [h2, if_false]
        by_cases h3 : uint32_t ((n : Int) -
            (uint32_t ((R.ReadAt s.mResource o n).2.1.length : Int) : Int)) ≤ x
        · simp [h3]
        · simp only [h3, if_false]
          by_cases h4 : int64_t (o +
              (uint32_t ((R.ReadAt s.mResource o n).2.1.length : Int) : Int)) < 0
          · simp [h4]
          · simp only [h4, if_false]
            obtain ⟨g1, g2, g3⟩ := loopFuel_advance ho hr h2 (uint32_t_lt _) h4 hf
            have IH := ih (mResource_ReadAt R s o n).2.2 _
              (store b p (R.ReadAt s.mResource o n).2.1)
              (p + uint32_t ((R.ReadAt s.mResource o n).2.1.length : Int))
              (uint32_t ((n : Int) - (uint32_t ((R.ReadAt s.mResource o n).2.1.length : Int) : Int)))
              (uint32_t ((a : Int) + (uint32_t ((R.ReadAt s.mResource o n).2.1.length : Int) : Int)))
              g1 g2 g3
            simp only [ex3] at IH
            rw [IH]
            simp

/-- The loop of `UncachedRangedReadAt` on a resource that never hands back more
than asked for, when none of its raw reads fails and the part of the range that
is required lies inside `int64_t`. -/
theorem UncachedRangedReadAt_loop_success (R : MediaResource ρ) (hR : NeverMore R) (x : Nat)
    (f : Nat) :
    ∀ (s : MediaResourceIndex ρ) (o : Int) (b : Nat → Byte) (p n a : Nat),
      0 ≤ o → InInt64 (o + ((n - x : Nat) : Int)) → loopFuel o ≤ f → InUInt32 (a + n) →
      (∀ e ∈ uncachedRangedReads R x f s.mResource o n, NS_FAILED e.rv = false) →
      (UncachedRangedReadAt_loop R x f s o b p n a).rv = NS_OK ∧
      (UncachedRangedReadAt_loop R x f s o b p n a).aBytes =
        a + (allBytes (uncachedRangedReads R x f s.mResource o n)).length ∧
      (allBytes (uncachedRangedReads R x f s.mResource o n)).length ≤ n ∧
      (UncachedRangedReadAt_loop R x f s o b p n a).aBuffer =
        store b p (allBytes (uncachedRangedReads R x f s.mResource o n)) ∧
      (∀ pre e post, uncachedRangedReads R x f s.mResource o n = pre ++ e :: post →
        e.aOffset = o + (allBytes pre).length ∧ e.aCount = n - (allBytes pre).length ∧
        (post ≠ [] → (allBytes pre).length + e.bytes.length + x < n)) ∧
      ((allBytes (uncachedRangedReads R x f s.mResource o n)).length + x < n →
        ∃ pre e, uncachedRangedReads R x f s.mResource o n = pre ++ [e] ∧ e.bytes = []) := by
  induction f with
  | zero =>
    intro s o b p n a ho hr hf
    have : 0 < loopFuel o := by
      unfold InInt64 at hr
      exact loopFuel_pos (by omega)
    omega
  | succ k ih =>
    intro s o b p n a ho hr hf hn hall
    have hle := hR s.mResource o n
    have hbr : uint32_t ((R.ReadAt s.mResource o n).2.1.length : Int) =
        (R.ReadAt s.mResource o n).2.1.length := by
      unfold InUInt32 at hn; unfold uint32_t; omega
    have ex1 : (mResource_ReadAt R s o n).1 = (R.ReadAt s.mResource o n).1 := rfl
    have ex2 : (mResource_ReadAt R s o n).2.1 = (R.ReadAt s.mResource o n).2.1 := rfl
    have ex3 : (mResource_ReadAt R s o n).2.2.mResource = (R.ReadAt s.mResource o n).2.2 := rfl
    simp only [UncachedRangedReadAt_loop, uncachedRangedReads, RawRead.bytesRead, ex1, ex2,
      hbr] at hall ⊢
    have hsub : uint32_t ((n : Int) - ((R.ReadAt s.mResource o n).2.1.length : Int)) =
        n - (R.ReadAt s.mResource o n).2.1.length := by
      unfold InUInt32 at hn; unfold uint32_t; omega
    have hadd : uint32_t ((a : Int) + ((R.ReadAt s.mResource o n).2.1.length : Int)) =
        a + (R.ReadAt s.mResource o n).2.1.length := by
      unfold InUInt32 at hn; unfold uint32_t; omega
    simp only [hsub, hadd] at hall ⊢
    by_cases h1 : NS_FAILED (R.ReadAt s.mResource o n).1 = true
    · simp only [h1, if_true] at hall
      simp [h1] at hall
    · simp only [h1, Bool.false_eq_true, if_false] at hall ⊢
      by_cases h2 : (R.ReadAt s.mResource o n).2.1.length = 0
      · simp only [h2, if_true]
        have hnil : (R.ReadAt s.mResource o n).2.1 = [] := List.length_eq_zero.mp h2
        refine ⟨by trivial, by simp [h2], by simp [h2], by simp, ?_, ?_⟩
        · intro pre e post h
          obtain ⟨rfl, rfl, rfl⟩ := singleton_eq_append_cons h
          simp
        · intro _
          exact ⟨[], _, rfl, hnil⟩
      · simp only [h2, if_false] at hall ⊢
        by_cases h3 : n - (R.ReadAt s.mResource o n).2.1.length ≤ x
        · simp only [h3, if_true]
          refine ⟨by trivial, by simp, by simp [hle], by simp, ?_, ?_⟩
          · intro pre e post h
            obtain ⟨rfl, rfl, rfl⟩ := singleton_eq_append_cons h
            simp
          · intro h
            simp at h
            omega
        · simp only [h3, if_false] at hall ⊢
          have hoff : int64_t (o + ((R.ReadAt s.mResource o n).2.1.length : Int)) =
              o + (R.ReadAt s.mResource o n).2.1.length := by
            unfold InInt64 at hr; unfold int64_t; omega
          simp only [hoff] at hall ⊢
          have h4 : ¬ o + ((R.ReadAt s.mResource o n).2.1.length : Int) < 0 := by omega
          simp only [h4, if_false] at hall ⊢
          have IH := ih (mResource_ReadAt R s o n).2.2
            (o + ((R.ReadAt s.mResource o n).2.1.length : Int))
            (store b p (R.ReadAt s.mResource o n).2.1)
            (p + (R.ReadAt s.mResource o n).2.1.length)
            (n - (R.ReadAt s.mResource o n).2.1.length)
            (a + (R.ReadAt s.mResource o n).2.1.length)
            (by omega) (by unfold InInt64 at *; omega)
            (by unfold loopFuel at *; omega) (by unfold InUInt32 at *; omega)
            (by
              intro e he
              rw [ex3] at he
              exact hall e (List.mem_cons_of_mem _ he))
          simp only [ex3] at IH
          obtain ⟨i1, i2, i3, i4, i5, i6⟩ := IH
          refine ⟨i1, ?_, ?_, ?_, ?_, ?_⟩
          · rw [i2]; simp; omega
          · simp; omega
          · rw [i4, store_append]; simp
          · intro pre e post h
            rcases cons_eq_append_cons h with ⟨rfl, rfl, rfl⟩ | ⟨pre2, rfl, h'⟩
            · simp
              intro _
              omega
            · obtain ⟨q1, q2, q3⟩ := i5 pre2 e post h'
              rw [q1, q2]
              simp
              refine ⟨by ring, by omega, fun hp => ?_⟩
              have := q3 hp
              omega
          · intro h
            simp at h
            obtain ⟨pre, e, hp, he⟩ := i6 (by omega)
            exact ⟨_ :: pre, e, by rw [hp]; rfl, he⟩

theorem trickleResource_neverMore (chunk : Nat) : NeverMore (trickleResource chunk) := by
  intro r o n
  simp only [trickleResource, List.length_map, List.length_range]
  omega

/-- C20 as stated fails: on a resource that never fails and hands back 2 bytes
at a time, `UncachedRangedReadAt(2^63 - 2, buf, 5, 0)` (offset not negative,
`5 + 0` a `uint32_t`) does not return success: after the first 2 bytes the
advanced offset is negative as an `int64_t`, and the overflow guard of lines
636-639 returns `NS_ERROR_FAILURE`. -/
theorem UncachedRangedReadAt_offset_overflow :
    NeverMore (trickleResource 2) ∧
    (∀ (r : Unit) (o : Int) (n : Nat), NS_FAILED ((trickleResource 2).ReadAt r o n).1 = false) ∧
    (0 : Int) ≤ 9223372036854775806 ∧ InUInt32 (5 + 0) ∧
    (UncachedRangedReadAt (trickleResource 2) (init 16 ()) 9223372036854775806 blankBuffer 0
      5 0).rv = NS_ERROR_FAILURE ∧
    NS_SUCCEEDED (UncachedRangedReadAt (trickleResource 2) (init 16 ()) 9223372036854775806
      blankBuffer 0 5 0).rv = false ∧
    (UncachedRangedReadAt (trickleResource 2) (init 16 ()) 9223372036854775806 blankBuffer 0
      5 0).aBytes = 2 :=
  ⟨trickleResource_neverMore 2, fun _ _ _ => rfl, by decide, by decide, by decide, by decide,
    by decide⟩

/-- C20, amended: the postcondition of `UncachedRangedReadAt`.  If the offset is
negative or `aRequestedCount + aExtraCount` is not a `uint32_t`, the result is
`NS_ERROR_ILLEGAL_VALUE` without any raw read.  Otherwise, for a resource that
never hands back more than asked for, when the required range `[aOffset,
aOffset + aRequestedCount)` lies inside `int64_t` and none of the raw reads
issued fails: the result is `NS_OK` with a byte count of at most
`aRequestedCount + aExtraCount`, which is at least `aRequestedCount` unless the
last raw read handed back no byte; the raw reads issued are those of
`UncachedRangedReadAt_reads`, each at the offset advanced by the bytes read
before it and for all the bytes still missing from `aRequestedCount +
aExtraCount`; a raw read is followed by another one only while the bytes read
so far are fewer than `aRequestedCount`; and the buffer holds, from `aPos` on,
the bytes handed back, one read after the other. -/
theorem UncachedRangedReadAt_postcondition (R : MediaResource ρ) (s : MediaResourceIndex ρ)
    (o : Int) (b : Nat → Byte) (p req extra : Nat) (hq : InUInt32 req) (hx : InUInt32 extra) :
    ((o < 0 ∨ ¬ InUInt32 (req + extra)) →
      (UncachedRangedReadAt R s o b p req extra).rv = NS_ERROR_ILLEGAL_VALUE ∧
      (UncachedRangedReadAt R s o b p req extra).aBytes = 0 ∧
      (UncachedRangedReadAt R s o b p req extra).aBuffer = b ∧
      (UncachedRangedReadAt R s o b p req extra).index.trace =
        s.trace ++ [Event.UncachedRangedReadAt o req extra]) ∧
    (NeverMore R → 0 ≤ o → InInt64 (o + req) → InUInt32 (req + extra) →
      (∀ e ∈ UncachedRangedReadAt_reads R s.mResource o req extra, NS_FAILED e.rv = false) →
      (UncachedRangedReadAt R s o b p req extra).rv = NS_OK ∧
      (UncachedRangedReadAt R s o b p req extra).aBytes ≤ req + extra ∧
      (req ≤ (UncachedRangedReadAt R s o b p req extra).aBytes ∨
        ∃ pre e, UncachedRangedReadAt_reads R s.mResource o req extra = pre ++ [e] ∧
          e.bytes = []) ∧
      (UncachedRangedReadAt R s o b p req extra).index.trace =
        s.trace ++ Event.UncachedRangedReadAt o req extra ::
          readEvents (UncachedRangedReadAt_reads R s.mResource o req extra) ∧
      (∀ pre e post, UncachedRangedReadAt_reads R s.mResource o req extra = pre ++ e :: post →
        e.aOffset = o + (allBytes pre).length ∧
        e.aCount = req + extra - (allBytes pre).length ∧
        (post ≠ [] → (allBytes pre).length + e.bytes.length < req)) ∧
      (UncachedRangedReadAt R s o b p req extra).aBytes =
        (allBytes (UncachedRangedReadAt_reads R s.mResource o req extra)).length ∧
      (UncachedRangedReadAt R s o b p req extra).aBuffer =
        store b p (allBytes (UncachedRangedReadAt_reads R s.mResource o req extra))) := by
  constructor
  · intro h
    have hc : o < 0 ∨ uint32_t ((req : Int) + (extra : Int)) < req := by
      rcases h with h | h
      · exact Or.inl h
      · right
        unfold InUInt32 at *
        unfold uint32_t
        omega
    unfold UncachedRangedReadAt
    simp [hc, emit]
  · intro hR ho hr hn hall
    have hsum : uint32_t ((req : Int) + (extra : Int)) = req + extra := by
      unfold InUInt32 at hn; unfold uint32_t; omega
    have hro : InInt64 o := by unfold InInt64 at *; omega
    have hno : ¬ o < 0 := by omega
    by_cases h2 : req + extra = 0
    · have hX : UncachedRangedReadAt R s o b p req extra =
          ⟨NS_OK, b, 0, s.emit (Event.UncachedRangedReadAt o req extra)⟩ := by
        unfold UncachedRangedReadAt
        simp only [hsum]
        rw [if_neg (by omega), if_neg (by omega)]
      have hL : UncachedRangedReadAt_reads R s.mResource o req extra = [] := by
        unfold UncachedRangedReadAt_reads
        simp only [hsum]
        rw [if_pos (Or.inr (Or.inr h2))]
      rw [hX, hL]
      simp [store_nil, emit]
      omega
    · have hX : UncachedRangedReadAt R s o b p req extra =
          UncachedRangedReadAt_loop R extra (loopFuel o)
            (s.emit (Event.UncachedRangedReadAt o req extra)) o b p (req + extra) 0 := by
        unfold UncachedRangedReadAt
        simp only [hsum]
        rw [if_neg (by omega), if_pos h2]
      have hL : UncachedRangedReadAt_reads R s.mResource o req extra =
          uncachedRangedReads R extra (loopFuel o) s.mResource o (req + extra) := by
        unfold UncachedRangedReadAt_reads
        simp only [hsum]
        rw [if_neg (by omega)]
      rw [hL] at hall
      rw [hX, hL]
      obtain ⟨i1, i2, i3, i4, i5, i6⟩ := UncachedRangedReadAt_loop_success R hR extra
        (loopFuel o) (s.emit (Event.UncachedRangedReadAt o req extra)) o b p (req + extra) 0 ho
        (by
          have : req + extra - extra = req := by omega
          rw [this]; exact hr)
        (Nat.le_refl _) (by unfold InUInt32 at *; omega) hall
      have T := UncachedRangedReadAt_loop_trace R extra (loopFuel o)
        (s.emit (Event.UncachedRangedReadAt o req extra)) o b p (req + extra) 0 ho hro
        (Nat.le_refl _)
      have hm : (s.emit (Event.UncachedRangedReadAt o req extra)).mResource = s.mResource := rfl
      rw [hm] at i2 i3 i4 i5 i6 T
      have i2' : (UncachedRangedReadAt_loop R extra (loopFuel o)
          (s.emit (Event.UncachedRangedReadAt o req extra)) o b p (req + extra) 0).aBytes =
          (allBytes (uncachedRangedReads R extra (loopFuel o) s.mResource o
            (req + extra))).length := by
        rw [i2]; simp
      refine ⟨i1, by rw [i2']; exact i3, ?_, by rw [T]; simp [emit], ?_, i2', i4⟩
      · by_cases hlt : (allBytes (uncachedRangedReads R extra (loopFuel o) s.mResource o
            (req + extra))).length < req
        · right
          exact i6 (by omega)
        · left
          rw [i2']
          omega
      · intro pre e post h
        obtain ⟨q1, q2, q3⟩ := i5 pre e post h
        exact ⟨q1, q2, fun hp => by have := q3 hp; omega⟩

/-- Claim C20 (amended) on a resource that hands back 2 bytes at a time:
`UncachedRangedReadAt(10, buf, 3, 5)` issues a raw read of 8 bytes at 10 and one
of 6 bytes at 12 and returns `NS_OK` with 4 bytes; with the counts `4294967295`
and `1` it returns `NS_ERROR_ILLEGAL_VALUE` without a raw read. -/
theorem UncachedRangedReadAt_postcondition_witness :
    (InUInt32 3 ∧ InUInt32 5 ∧ NeverMore (trickleResource 2) ∧ (0 : Int) ≤ 10 ∧
      InInt64 (10 + (3 : Nat)) ∧ InUInt32 (3 + 5) ∧
      ∀ e ∈ UncachedRangedReadAt_reads (trickleResource 2) () 10 3 5, NS_FAILED e.rv = false) ∧
    UncachedRangedReadAt_reads (trickleResource 2) () 10 3 5 =
      [⟨10, 8, NS_OK, [10, 11]⟩, ⟨12, 6, NS_OK, [12, 13]⟩] ∧
    (UncachedRangedReadAt (trickleResource 2) (init 16 ()) 10 blankBuffer 0 3 5).rv = NS_OK ∧
    (UncachedRangedReadAt (trickleResource 2) (init 16 ()) 10 blankBuffer 0 3 5).aBytes = 4 ∧
    (InUInt32 4294967295 ∧ InUInt32 1 ∧ ¬ InUInt32 (4294967295 + 1)) ∧
    (UncachedRangedReadAt (trickleResource 2) (init 16 ()) 10 blankBuffer 0 4294967295 1).rv =
      NS_ERROR_ILLEGAL_VALUE ∧
    (UncachedRangedReadAt (trickleResource 2) (init 16 ()) 10 blankBuffer 0 4294967295
      1).index.trace = [Event.UncachedRangedReadAt 10 4294967295 1] :=
  have hall : ∀ e ∈ UncachedRangedReadAt_reads (trickleResource 2) () 10 3 5,
      NS_FAILED e.rv = false := by decide
  have h := (UncachedRangedReadAt_postcondition (trickleResource 2) (init 16 ()) 10 blankBuffer
    0 3 5 (by decide) (by decide)).2 (trickleResource_neverMore 2) (by decide) (by decide)
    (by decide) hall
  have g := (UncachedRangedReadAt_postcondition (trickleResource 2) (init 16 ()) 10 blankBuffer
    0 4294967295 1 (by decide) (by decide)).1 (Or.inr (by decide))
  ⟨⟨by decide, by decide, trickleResource_neverMore 2, by decide, by decide, by decide, hall⟩,
    rfl, h.1, by rw [h.2.2.2.2.2.1]; rfl, ⟨by decide, by decide, by decide⟩, g.1, g.2.2.2⟩

/-! ## C11, C15, C16, C17: the batched fill of `CacheOrReadAt` and the middle-region step -/

@[simp] theorem emit_mResource (s : MediaResourceIndex ρ) (e : Event) :
    (s.emit e).mResource = s.mResource := rfl

@[simp] theorem MOZ_ASSERT_mResource (line : Nat) (c : Bool) (s : MediaResourceIndex ρ) :
    (MOZ_ASSERT line c s).mResource = s.mResource := by
  cases c <;> rfl

@[simp] theorem GetLength_mResource (R : MediaResource ρ) (s : MediaResourceIndex ρ) :
    (GetLength R s).2.mResource = (R.GetLength s.mResource).2 := rfl

@[simp] theorem GetLength_value (R : MediaResource ρ) (s : MediaResourceIndex ρ) :
    (GetLength R s).1 = (R.GetLength s.mResource).1 := rfl

@[simp] theorem mResource_GetCachedDataEnd_mResource (R : MediaResource ρ)
    (s : MediaResourceIndex ρ) (o : Int) :
    (mResource_GetCachedDataEnd R s o).2.mResource = (R.GetCachedDataEnd s.mResource o).2 := rfl

@[simp] theorem mResource_GetCachedDataEnd_value (R : MediaResource ρ)
    (s : MediaResourceIndex ρ) (o : Int) :
    (mResource_GetCachedDataEnd R s o).1 = (R.GetCachedDataEnd s.mResource o).1 := rfl

theorem Grows_refl (P : Event → Prop) (s : MediaResourceIndex ρ) : Grows P s s :=
  ⟨[], by simp, by simp⟩

theorem Grows_trans {P : Event → Prop} {s t u : MediaResourceIndex ρ} (h1 : Grows P s t)
    (h2 : Grows P t u) : Grows P s u := by
  obtain ⟨d1, e1, p1⟩ := h1
  obtain ⟨d2, e2, p2⟩ := h2
  refine ⟨d1 ++ d2, by rw [e2, e1, List.append_assoc], ?_⟩
  intro e he
  rcases List.mem_append.mp he with h | h
  · exact p1 e h
  · exact p2 e h

theorem Grows_same {P : Event → Prop} {s t u : MediaResourceIndex ρ} (h : u.trace = t.trace)
    (g : Grows P s t) : Grows P s u := by
  obtain ⟨d, e1, p1⟩ := g
  exact ⟨d, h.trans e1, p1⟩

theorem Grows_emit {P : Event → Prop} {s t : MediaResourceIndex ρ} {e : Event} (h : P e)
    (g : Grows P s t) : Grows P s (t.emit e) :=
  Grows_trans g ⟨[e], rfl, by simpa using h⟩

/-- An assertion that holds leaves no event. -/
theorem Grows_MOZ_ASSERT_of {P : Event → Prop} {s t : MediaResourceIndex ρ} (line : Nat)
    {c : Prop} [Decidable c] (h : c) (g : Grows P s t) :
    Grows P s (MOZ_ASSERT line (decide c) t) := by
  rw [MOZ_ASSERT_of line t h]
  exact g

/-- An assertion whose failure event satisfies `P`. -/
theorem Grows_MOZ_ASSERT {P : Event → Prop} {s t : MediaResourceIndex ρ} (line : Nat)
    (c : Bool) (h : P (Event.AssertFailed line)) (g : Grows P s t) :
    Grows P s (MOZ_ASSERT line c t) := by
  cases c
  · exact Grows_emit h g
  · exact g

theorem Grows_mResource_ReadAt {P : Event → Prop} {s t : MediaResourceIndex ρ}
    (R : MediaResource ρ) (o : Int) (n : Nat) (h : P (Event.ResourceReadAt o n))
    (g : Grows P s t) : Grows P s (mResource_ReadAt R t o n).2.2 :=
  Grows_trans g ⟨[Event.ResourceReadAt o n], rfl, by simpa using h⟩

theorem Grows_GetLength {P : Event → Prop} {s t : MediaResourceIndex ρ}
    (R : MediaResource ρ) (h : P Event.ResourceGetLength) (g : Grows P s t) :
    Grows P s (GetLength R t).2 :=
  Grows_trans g ⟨[Event.ResourceGetLength], rfl, by simpa using h⟩

theorem Grows_mResource_GetCachedDataEnd {P : Event → Prop} {s t : MediaResourceIndex ρ}
    (R : MediaResource ρ) (o : Int) (h : P (Event.ResourceGetCachedDataEnd o))
    (g : Grows P s t) : Grows P s (mResource_GetCachedDataEnd R t o).2 :=
  Grows_trans g ⟨[Event.ResourceGetCachedDataEnd o], rfl, by simpa using h⟩

theorem Grows_UncachedReadAt_loop {P : Event → Prop} (R : MediaResource ρ)
    (hP : ∀ o n, P (Event.ResourceReadAt o n)) (fuel : Nat) :
    ∀ {s t : MediaResourceIndex ρ} (o : Int) (b : Nat → Byte) (p n a : Nat),
      Grows P s t → Grows P s (UncachedReadAt_loop R fuel t o b p n a).index := by
  induction fuel with
  | zero => intro s t o b p n a g; exact g
  | succ k ih =>
    intro s t o b p n a g
    have g1 := Grows_mResource_ReadAt R o n (hP o n) g
    simp only [UncachedReadAt_loop]
    split
    · exact g1
    · split
      · exact g1
      · split
        · exact g1
        · split
          · exact g1
          · exact ih _ _ _ _ _ g1

theorem Grows_UncachedRangedReadAt_loop {P : Event → Prop} (R : MediaResource ρ)
    (hP : ∀ o n, P (Event.ResourceReadAt o n)) (x : Nat) (fuel : Nat) :
    ∀ {s t : MediaResourceIndex ρ} (o : Int) (b : Nat → Byte) (p n a : Nat),
      Grows P s t → Grows P s (UncachedRangedReadAt_loop R x fuel t o b p n a).index := by
  induction fuel with
  | zero => intro s t o b p n a g; exact g
  | succ k ih =>
    intro s t o b p n a g
    have g1 := Grows_mResource_ReadAt R o n (hP o n) g
    simp only [UncachedRangedReadAt_loop]
    split
    · exact g1
    · split
      · exact g1
      · split
        · exact g1
        · split
          · exact g1
          · exact ih _ _ _ _ _ g1

theorem Grows_UncachedReadAt {P : Event → Prop} {s t : MediaResourceIndex ρ}
    (R : MediaResource ρ) (hP : ∀ o n, P (Event.ResourceReadAt o n)) (o : Int)
    (b : Nat → Byte) (p n : Nat) (h : P (Event.UncachedReadAt o n)) (g : Grows P s t) :
    Grows P s (UncachedReadAt R t o b p n).index := by
  have g1 := Grows_emit h g
  unfold UncachedReadAt
  simp only []
  split
  · exact g1
  · split
    · exact Grows_UncachedReadAt_loop R hP _ _ _ _ _ _ g1
    · exact g1

theorem Grows_UncachedRangedReadAt {P : Event → Prop} {s t : MediaResourceIndex ρ}
    (R : MediaResource ρ) (hP : ∀ o n, P (Event.ResourceReadAt o n)) (o : Int)
    (b : Nat → Byte) (p n x : Nat) (h : P (Event.UncachedRangedReadAt o n x))
    (g : Grows P s t) : Grows P s (UncachedRangedReadAt R t o b p n x).index := by
  have g1 := Grows_emit h g
  unfold UncachedRangedReadAt
  simp only []
  split
  · exact g1
  · split
    · exact Grows_UncachedRangedReadAt_loop R hP x _ _ _ _ _ _ g1
    · exact g1

theorem Grows_CacheOrReadAt_fallback {P : Event → Prop} {s t : MediaResourceIndex ρ}
    (R : MediaResource ρ) (hP : ∀ o n, P (Event.ResourceReadAt o n)) (o : Int)
    (b : Nat → Byte) (p n a : Nat) (h : P (Event.UncachedReadAt o n)) (g : Grows P s t) :
    Grows P s (CacheOrReadAt_fallback R t o b p n a).index := by
  unfold CacheOrReadAt_fallback
  simp only []
  split <;> exact Grows_UncachedReadAt R hP o b p n h g

theorem Grows_newEvents {P : Event → Prop} {s t : MediaResourceIndex ρ} (g : Grows P s t) :
    ∀ e ∈ newEvents s t, P e := by
  obtain ⟨d, e1, p1⟩ := g
  unfold newEvents
  rw [e1]
  simpa using p1

/-- What the fallback of `CacheOrReadAt` returns, in terms of its
`UncachedReadAt`. -/
theorem CacheOrReadAt_fallback_eq (R : MediaResource ρ) (s : MediaResourceIndex ρ) (o : Int)
    (b : Nat → Byte) (p n a : Nat) :
    (CacheOrReadAt_fallback R s o b p n a).rv = (UncachedReadAt R s o b p n).rv ∧
    (CacheOrReadAt_fallback R s o b p n a).aBuffer = (UncachedReadAt R s o b p n).aBuffer ∧
    (CacheOrReadAt_fallback R s o b p n a).index = (UncachedReadAt R s o b p n).index ∧
    (CacheOrReadAt_fallback R s o b p n a).aBytes =
      (if NS_SUCCEEDED (UncachedReadAt R s o b p n).rv = true then
        uint32_t (a + (UncachedReadAt R s o b p n).aBytes)
      else a) := by
  unfold CacheOrReadAt_fallback
  simp only []
  split
  · exact ⟨rfl, rfl, rfl, rfl⟩
  · exact ⟨rfl, rfl, rfl, rfl⟩

theorem Grows_UncachedRangedReadAt_body {P : Event → Prop} (R : MediaResource ρ)
    (hP : ∀ o n, P (Event.ResourceReadAt o n)) (t : MediaResourceIndex ρ) (o : Int)
    (b : Nat → Byte) (p n x : Nat) :
    Grows P (t.emit (Event.UncachedRangedReadAt o n x))
      (UncachedRangedReadAt R t o b p n x).index := by
  have g1 := Grows_refl P (t.emit (Event.UncachedRangedReadAt o n x))
  unfold UncachedRangedReadAt
  simp only []
  split
  · exact g1
  · split
    · exact Grows_UncachedRangedReadAt_loop R hP x _ _ _ _ _ _ g1
    · exact g1

/-- The events of lines 448-534 of `CacheOrReadAt`: one entry into
`UncachedRangedReadAt`, with `aCount` required and `toRead - aCount` extra. -/
theorem CacheOrReadAt_ranged_events (R : MediaResource ρ) (s : MediaResourceIndex ρ) (o : Int)
    (b : Nat → Byte) (p n a : Nat) (cde : Int) :
    ∃ pre post, (CacheOrReadAt_ranged R s o b p n a cde).index.trace =
        s.trace ++ (pre ++ Event.UncachedRangedReadAt o n
          (uint32_t (((uint32_t (min (int64_t (cde - o))
            (uint32_t (s.mCacheBlockSize - s.IndexInCache o) : Int)) : Nat) : Int) - n)) ::
          post) ∧
      (∀ e ∈ pre, isUncachedRangedReadAt e = false) ∧
      ∀ e ∈ post, isUncachedRangedReadAt e = false := by
  have hP : ∀ (o : Int) (n : Nat),
      (fun e => isUncachedRangedReadAt e = false) (Event.ResourceReadAt o n) := fun _ _ => rfl
  have g0 : Grows (fun e => isUncachedRangedReadAt e = false) s
      (MOZ_ASSERT 454 (decide (uint32_t (min (int64_t (cde - o))
        (uint32_t (s.mCacheBlockSize - s.IndexInCache o) : Int)) ≥ n)) s) :=
    Grows_MOZ_ASSERT 454 _ rfl (Grows_refl _ s)
  obtain ⟨pre, hpre, ppre⟩ := g0
  have key : ∀ (X : Outcome ρ),
      Grows (fun e => isUncachedRangedReadAt e = false)
        (UncachedRangedReadAt R (MOZ_ASSERT 454 (decide (uint32_t (min (int64_t (cde - o))
          (uint32_t (s.mCacheBlockSize - s.IndexInCache o) : Int)) ≥ n)) s) o
          (MOZ_ASSERT 454 (decide (uint32_t (min (int64_t (cde - o))
          (uint32_t (s.mCacheBlockSize - s.IndexInCache o) : Int)) ≥ n)) s).mCachedBlock
          (s.IndexInCache o) n
          (uint32_t (((uint32_t (min (int64_t (cde - o))
            (uint32_t (s.mCacheBlockSize - s.IndexInCache o) : Int)) : Nat) : Int) - n))).index
        X.index →
      ∃ pre post, X.index.trace =
        s.trace ++ (pre ++ Event.UncachedRangedReadAt o n
          (uint32_t (((uint32_t (min (int64_t (cde - o))
            (uint32_t (s.mCacheBlockSize - s.IndexInCache o) : Int)) : Nat) : Int) - n)) ::
          post) ∧
      (∀ e ∈ pre, isUncachedRangedReadAt e = false) ∧
      ∀ e ∈ post, isUncachedRangedReadAt e = false := by
    intro X g
    obtain ⟨d1, h1, p1⟩ := Grows_trans (Grows_UncachedRangedReadAt_body R hP _ _ _ _ _ _) g
    refine ⟨pre, d1, ?_, ppre, p1⟩
    rw [h1, emit_trace, hpre]
    simp only [List.append_assoc, List.singleton_append]
  apply key
  unfold CacheOrReadAt_ranged
  simp only [MOZ_ASSERT_mCacheBlockSize]
  split
  · split
    · exact Grows_same rfl (Grows_refl _ _)
    · split
      · exact Grows_same rfl (Grows_refl _ _)
      · exact Grows_same rfl (Grows_refl _ _)
  · split
    · exact Grows_CacheOrReadAt_fallback R hP _ _ _ _ _ rfl (Grows_same rfl (Grows_refl _ _))
    · exact Grows_CacheOrReadAt_fallback R hP _ _ _ _ _ rfl (Grows_same rfl (Grows_refl _ _))

/-- The branches of `CacheOrReadAt` (lines 437-446), with the state at each. -/
theorem CacheOrReadAt_branches (R : MediaResource ρ) (self : MediaResourceIndex ρ) (o : Int)
    (b : Nat → Byte) (p n a : Nat) (P : Event → Prop) (hP1 : P (Event.CacheOrReadAt o n))
    (hP2 : (0 < n ∧ uint32_t (self.IndexInCache o + n) ≤ self.mCacheBlockSize) ∨
      ∀ line, P (Event.AssertFailed line)) (hP3 : P Event.ResourceGetLength)
    (hP4 : P (Event.ResourceGetCachedDataEnd o)) :
    ∃ s1 s2, SameMembers self s1 ∧ SameMembers self s2 ∧
      s1.mResource = (R.GetLength self.mResource).2 ∧
      s2.mResource = (R.GetCachedDataEnd (R.GetLength self.mResource).2 o).2 ∧
      Grows P self s1 ∧
      Grows P self s2 ∧
      CacheOrReadAt R self o b p n a =
        if (R.GetLength self.mResource).1 < 0 ∨
            (R.GetLength self.mResource).1 ≥ int64_t (o + n) then
          if (R.GetCachedDataEnd (R.GetLength self.mResource).2 o).1 ≥ int64_t (o + n) then
            CacheOrReadAt_ranged R s2 o b p n a
              (R.GetCachedDataEnd (R.GetLength self.mResource).2 o).1
          else CacheOrReadAt_fallback R s2 o b p n a
        else CacheOrReadAt_fallback R s1 o b p n a := by
  have key : ∀ (s0 : MediaResourceIndex ρ), SameMembers self s0 →
      s0.mResource = self.mResource →
      Grows P self s0 →
      ∃ s1 s2, SameMembers self s1 ∧ SameMembers self s2 ∧
        s1.mResource = (R.GetLength self.mResource).2 ∧
        s2.mResource = (R.GetCachedDataEnd (R.GetLength self.mResource).2 o).2 ∧
        Grows P self s1 ∧
        Grows P self s2 ∧
        (if (GetLength R s0).1 < 0 ∨ (GetLength R s0).1 ≥ int64_t (o + n) then
          if (mResource_GetCachedDataEnd R (GetLength R s0).2 o).1 ≥ int64_t (o + n) then
            CacheOrReadAt_ranged R (mResource_GetCachedDataEnd R (GetLength R s0).2 o).2 o b p
              n a (mResource_GetCachedDataEnd R (GetLength R s0).2 o).1
          else
            CacheOrReadAt_fallback R (mResource_GetCachedDataEnd R (GetLength R s0).2 o).2 o b
              p n a
        else CacheOrReadAt_fallback R (GetLength R s0).2 o b p n a) =
        if (R.GetLength self.mResource).1 < 0 ∨
            (R.GetLength self.mResource).1 ≥ int64_t (o + n) then
          if (R.GetCachedDataEnd (R.GetLength self.mResource).2 o).1 ≥ int64_t (o + n) then
            CacheOrReadAt_ranged R s2 o b p n a
              (R.GetCachedDataEnd (R.GetLength self.mResource).2 o).1
          else CacheOrReadAt_fallback R s2 o b p n a
        else CacheOrReadAt_fallback R s1 o b p n a := by
    intro s0 hm hr hg
    refine ⟨(GetLength R s0).2, (mResource_GetCachedDataEnd R (GetLength R s0).2 o).2,
      SameMembers_trans hm (SameMembers_GetLength R s0),
      SameMembers_trans (SameMembers_trans hm (SameMembers_GetLength R s0))
        (SameMembers_mResource_GetCachedDataEnd R _ o), ?_, ?_,
      Grows_GetLength R hP3 hg,
      Grows_mResource_GetCachedDataEnd R o hP4 (Grows_GetLength R hP3 hg), ?_⟩
    · simp [hr]
    · simp [hr]
    · simp only [GetLength_value, mResource_GetCachedDataEnd_value, GetLength_mResource, hr]
  exact key _
    (SameMembers_trans (SameMembers_trans (SameMembers_emit self _) (SameMembers_MOZ_ASSERT _ _ _))
      (SameMembers_MOZ_ASSERT _ _ _))
    (by simp)
    (by
      rcases hP2 with ⟨h1, h2⟩ | hP2
      · have e1 : MOZ_ASSERT 433 (decide (n > 0)) (self.emit (Event.CacheOrReadAt o n)) =
            self.emit (Event.CacheOrReadAt o n) := MOZ_ASSERT_of 433 _ h1
        rw [e1]
        exact Grows_MOZ_ASSERT_of 435 h2 (Grows_emit hP1 (Grows_refl _ self))
      · exact Grows_MOZ_ASSERT 435 _ (hP2 435)
          (Grows_MOZ_ASSERT 433 _ (hP2 433) (Grows_emit hP1 (Grows_refl _ self))))

/-- C16 as stated fails in the count: on a resource that hands back 2 bytes and
then fails, with a cached-data end of 0, `CacheOrReadAt(0, buf, 5)` issues no
ranged read and returns the failure of its `UncachedReadAt(0, buf, 5)`, but
adds nothing to `*aBytes`, while that `UncachedReadAt` reports 2 bytes. -/
theorem CacheOrReadAt_fallback_failure_count :
    ((scriptedResource [some 2] 0).GetCachedDataEnd
      ((scriptedResource [some 2] 0).GetLength 0).2 0).1 < 0 + (5 : Nat) ∧
    (UncachedReadAt (scriptedResource [some 2] 0) (init 16 0) 0 blankBuffer 0 5).rv =
      NS_ERROR_FAILURE ∧
    (UncachedReadAt (scriptedResource [some 2] 0) (init 16 0) 0 blankBuffer 0 5).aBytes = 2 ∧
    (CacheOrReadAt (scriptedResource [some 2] 0) (init 16 0) 0 blankBuffer 0 5 0).rv =
      NS_ERROR_FAILURE ∧
    (CacheOrReadAt (scriptedResource [some 2] 0) (init 16 0) 0 blankBuffer 0 5 0).aBytes = 0 ∧
    bufferBytes (CacheOrReadAt (scriptedResource [some 2] 0) (init 16 0) 0 blankBuffer 0 5
      0).aBuffer 0 2 = [0, 1] := by
  refine ⟨by decide, by decide, by decide, by decide, by decide, by decide⟩

/-- C16, amended: `CacheOrReadAt(aOffset, buf, aCount)` with `aOffset + aCount`
an `int64_t`, the length and the cached-data end being those the resource
reports to it.  If the length is known (not negative) and below `aOffset +
aCount`, or the cached-data end is below `aOffset + aCount`, no
`UncachedRangedReadAt` is issued, the cache members are unchanged, and the
result is that of `UncachedReadAt(aOffset, buf, aCount)` on the resource as the
queries left it: its status, its buffer, and its byte count added to `*aBytes`
when it succeeded (nothing is added when it failed).  Otherwise exactly one
`UncachedRangedReadAt` is issued, at `aOffset`, with `aCount` required; and for a
call inside the block (`IndexInCache(aOffset) + aCount ≤ mCacheBlockSize`, not
negative offset) the required and extra counts add up to the minimum of
`cachedDataEnd - aOffset` and `mCacheBlockSize - IndexInCache(aOffset)`. -/
theorem CacheOrReadAt_no_speculative_fill (R : MediaResource ρ) (self : MediaResourceIndex ρ)
    (o : Int) (b : Nat → Byte) (p n a : Nat) (hon : InInt64 (o + n)) :
    let len := (R.GetLength self.mResource).1
    let r1 := (R.GetLength self.mResource).2
    let cde := (R.GetCachedDataEnd r1 o).1
    let X := CacheOrReadAt R self o b p n a
    (((0 ≤ len ∧ len < o + n) ∨ cde < o + n) →
      ∃ s', SameMembers self s' ∧
        s'.mResource = (if 0 ≤ len ∧ len < o + n then r1 else (R.GetCachedDataEnd r1 o).2) ∧
        X.rv = (UncachedReadAt R s' o b p n).rv ∧
        X.aBuffer = (UncachedReadAt R s' o b p n).aBuffer ∧
        X.index = (UncachedReadAt R s' o b p n).index ∧
        X.aBytes = (if NS_SUCCEEDED (UncachedReadAt R s' o b p n).rv = true then
            uint32_t (a + (UncachedReadAt R s' o b p n).aBytes)
          else a) ∧
        SameMembers self X.index ∧
        ∀ e ∈ newEvents self X.index, isUncachedRangedReadAt e = false) ∧
    (¬ ((0 ≤ len ∧ len < o + n) ∨ cde < o + n) →
      ∃ pre extra post,
        newEvents self X.index = pre ++ Event.UncachedRangedReadAt o n extra :: post ∧
        (∀ e ∈ pre, isUncachedRangedReadAt e = false) ∧
        (∀ e ∈ post, isUncachedRangedReadAt e = false) ∧
        (0 ≤ o → InInt64 cde → InUInt32 self.mCacheBlockSize →
          self.IndexInCache o + n ≤ self.mCacheBlockSize →
          ((n + extra : Nat) : Int) =
            min (cde - o) ((self.mCacheBlockSize : Int) - self.IndexInCache o))) := by
  intro len r1 cde X
  obtain ⟨s1, s2, m1, m2, q1, q2, g1, g2, hX⟩ := CacheOrReadAt_branches R self o b p n a
    (fun e => isUncachedRangedReadAt e = false) rfl (Or.inr (fun _ => rfl)) rfl rfl
  have hi : int64_t (o + n) = o + n := int64_t_eq hon
  rw [hi] at hX
  have hPr : ∀ (o : Int) (n : Nat),
      (fun e => isUncachedRangedReadAt e = false) (Event.ResourceReadAt o n) := fun _ _ => rfl
  have fb : ∀ (s' : MediaResourceIndex ρ), SameMembers self s' →
      Grows (fun e => isUncachedRangedReadAt e = false) self s' →
      X = CacheOrReadAt_fallback R s' o b p n a →
      X.rv = (UncachedReadAt R s' o b p n).rv ∧
        X.aBuffer = (UncachedReadAt R s' o b p n).aBuffer ∧
        X.index = (UncachedReadAt R s' o b p n).index ∧
        X.aBytes = (if NS_SUCCEEDED (UncachedReadAt R s' o b p n).rv = true then
            uint32_t (a + (UncachedReadAt R s' o b p n).aBytes)
          else a) ∧
        SameMembers self X.index ∧
        ∀ e ∈ newEvents self X.index, isUncachedRangedReadAt e = false := by
    intro s' hm hg hx
    obtain ⟨f1, f2, f3, f4⟩ := CacheOrReadAt_fallback_eq R s' o b p n a
    rw [hx]
    refine ⟨f1, f2, f3, f4, ?_, ?_⟩
    · rw [f3]
      exact SameMembers_trans hm (UncachedReadAt_members R s' o b p n)
    · exact Grows_newEvents (Grows_CacheOrReadAt_fallback R hPr o b p n a rfl hg)
  constructor
  · intro h
    by_cases hA : 0 ≤ len ∧ len < o + n
    · have hc : ¬ ((R.GetLength self.mResource).1 < 0 ∨
          (R.GetLength self.mResource).1 ≥ o + n) := by
        show ¬ (len < 0 ∨ len ≥ o + n)
        omega
      rw [if_neg hc] at hX
      exact ⟨s1, m1, by rw [if_pos hA]; exact q1, fb s1 m1 g1 hX⟩
    · have hB : cde < o + n := by
        rcases h with h | h
        · exact absurd h hA
        · exact h
      have hc : (R.GetLength self.mResource).1 < 0 ∨
          (R.GetLength self.mResource).1 ≥ o + n := by
        show len < 0 ∨ len ≥ o + n
        omega
      have hd : ¬ ((R.GetCachedDataEnd (R.GetLength self.mResource).2 o).1 ≥ o + n) := by
        show ¬ (cde ≥ o + n)
        omega
      rw [if_pos hc, if_neg hd] at hX
      exact ⟨s2, m2, by rw [if_neg hA]; exact q2, fb s2 m2 g2 hX⟩
  · intro h
    have hc : (R.GetLength self.mResource).1 < 0 ∨
        (R.GetLength self.mResource).1 ≥ o + n := by
      show len < 0 ∨ len ≥ o + n
      omega
    have hd : (R.GetCachedDataEnd (R.GetLength self.mResource).2 o).1 ≥ o + n := by
      show cde ≥ o + n
      omega
    rw [if_pos hc, if_pos hd] at hX
    obtain ⟨pre, post, ht, hp1, hp2⟩ := CacheOrReadAt_ranged_events R s2 o b p n a
      (R.GetCachedDataEnd (R.GetLength self.mResource).2 o).1
    obtain ⟨d2, e2, pd2⟩ := g2
    refine ⟨d2 ++ pre,
      uint32_t (((uint32_t (min
        (int64_t ((R.GetCachedDataEnd (R.GetLength self.mResource).2 o).1 - o))
        (uint32_t (s2.mCacheBlockSize - s2.IndexInCache o) : Int)) : Nat) : Int) - n),
      post, ?_, ?_, hp2, ?_⟩
    · unfold newEvents
      show (CacheOrReadAt R self o b p n a).index.trace.drop self.trace.length = _
      rw [hX, ht, e2]
      simp
    · intro e he
      rcases List.mem_append.mp he with h1 | h1
      · exact pd2 e h1
      · exact hp1 e h1
    · intro ho hcde hcap hidx
      have hc2 : s2.mCacheBlockSize = self.mCacheBlockSize := m2.2.1
      have hi2 : s2.IndexInCache o = self.IndexInCache o := by
        unfold IndexInCache; rw [hc2]
      rw [hc2, hi2]
      have hd' : o + n ≤ cde := hd
      unfold InInt64 at hcde hon
      unfold InUInt32 at hcap
      have e1 : int64_t (cde - o) = cde - o := by unfold int64_t; omega
      have e2' : uint32_t ((self.mCacheBlockSize : Int) - (self.IndexInCache o : Int)) =
          self.mCacheBlockSize - self.IndexInCache o := by unfold uint32_t; omega
      rw [show (R.GetCachedDataEnd (R.GetLength self.mResource).2 o).1 = cde from rfl, e1, e2']
      rcases le_total (cde - o) ((self.mCacheBlockSize - self.IndexInCache o : Nat) : Int)
        with hm | hm
      · rw [min_eq_left hm]
        have e3 : uint32_t (cde - o) = (cde - o).toNat := by unfold uint32_t; omega
        rw [e3]
        have e4 : uint32_t ((((cde - o).toNat : Nat) : Int) - (n : Int)) =
            (cde - o).toNat - n := by unfold uint32_t; omega
        rw [e4, min_eq_left (by omega)]
        omega
      · rw [min_eq_right hm]
        have e3 : uint32_t (((self.mCacheBlockSize - self.IndexInCache o : Nat) : Int)) =
            self.mCacheBlockSize - self.IndexInCache o := by unfold uint32_t; omega
        rw [e3]
        have e4 : uint32_t ((((self.mCacheBlockSize - self.IndexInCache o : Nat) : Nat) : Int) -
            (n : Int)) = self.mCacheBlockSize - self.IndexInCache o - n := by
          unfold uint32_t; omega
        rw [e4, min_eq_right (by omega)]
        omega

/-- Claim C16 (amended) at the empty index with a 16-byte block: on a resource
with a cached-data end of 0, `CacheOrReadAt(0, buf, 5)` issues no ranged read and
leaves the cache members alone; on `streamResource`, `CacheOrReadAt(20, buf, 4)`
issues a ranged read whose counts add up to 12, the rest of the block. -/
theorem CacheOrReadAt_no_speculative_fill_witness :
    (InInt64 (0 + (5 : Nat)) ∧
      ((scriptedResource [some 2] 0).GetCachedDataEnd
        ((scriptedResource [some 2] 0).GetLength 0).2 0).1 < 0 + (5 : Nat)) ∧
    SameMembers (init 16 0)
      (CacheOrReadAt (scriptedResource [some 2] 0) (init 16 0) 0 blankBuffer 0 5 0).index ∧
    (∀ e ∈ newEvents (init 16 0)
        (CacheOrReadAt (scriptedResource [some 2] 0) (init 16 0) 0 blankBuffer 0 5 0).index,
      isUncachedRangedReadAt e = false) ∧
    InInt64 (20 + (4 : Nat)) ∧
    ∃ extra, Event.UncachedRangedReadAt 20 4 extra ∈
        newEvents (init 16 ()) (CacheOrReadAt streamResource (init 16 ()) 20 blankBuffer 0 4
          0).index ∧
      ((4 + extra : Nat) : Int) = 12 := by
  have h := (CacheOrReadAt_no_speculative_fill (scriptedResource [some 2] 0) (init 16 0) 0
    blankBuffer 0 5 0 (by decide)).1 (Or.inr (by decide))
  have g := (CacheOrReadAt_no_speculative_fill streamResource (init 16 ()) 20 blankBuffer 0 4
    0 (by decide)).2 (by decide)
  obtain ⟨s', _, _, _, _, _, _, h7, h8⟩ := h
  obtain ⟨pre, extra, post, g1, _, _, g4⟩ := g
  refine ⟨⟨by decide, by decide⟩, h7, h8, by decide, extra, ?_, ?_⟩
  · rw [g1]
    simp
  · have := g4 (by decide) (by decide) (by decide) (by decide)
    rw [this]
    decide

/-- On a resource that never hands back more than asked for, the loop of
`UncachedReadAt` adds at most `aCount` to `*aBytes`. -/
theorem UncachedReadAt_loop_le (R : MediaResource ρ) (hR : NeverMore R) (f : Nat) :
    ∀ (s : MediaResourceIndex ρ) (o : Int) (b : Nat → Byte) (p n a : Nat),
      InUInt32 (a + n) →
      a ≤ (UncachedReadAt_loop R f s o b p n a).aBytes ∧
      (UncachedReadAt_loop R f s o b p n a).aBytes ≤ a + n := by
  induction f with
  | zero => intro s o b p n a _; exact ⟨Nat.le_refl _, Nat.le_add_right _ _⟩
  | succ k ih =>
    intro s o b p n a hn
    have hle := hR s.mResource o n
    have ex2 : (mResource_ReadAt R s o n).2.1 = (R.ReadAt s.mResource o n).2.1 := rfl
    have hbr : uint32_t ((R.ReadAt s.mResource o n).2.1.length : Int) =
        (R.ReadAt s.mResource o n).2.1.length := by
      unfold InUInt32 at hn; unfold uint32_t; omega
    have hsub : uint32_t ((n : Int) - ((R.ReadAt s.mResource o n).2.1.length : Int)) =
        n - (R.ReadAt s.mResource o n).2.1.length := by
      unfold InUInt32 at hn; unfold uint32_t; omega
    have hadd : uint32_t ((a : Int) + ((R.ReadAt s.mResource o n).2.1.length : Int)) =
        a + (R.ReadAt s.mResource o n).2.1.length := by
      unfold InUInt32 at hn; unfold uint32_t; omega
    simp only [UncachedReadAt_loop, ex2, hbr, hsub, hadd]
    split
    · exact ⟨Nat.le_refl _, Nat.le_add_right _ _⟩
    · split
      · exact ⟨Nat.le_refl _, Nat.le_add_right _ _⟩
      · split
        · constructor <;> dsimp only <;> omega
        · split
          · constructor <;> dsimp only <;> omega
          · have := ih (mResource_ReadAt R s o n).2.2
              (int64_t (o + ((R.ReadAt s.mResource o n).2.1.length : Int)))
              (store b p (R.ReadAt s.mResource o n).2.1)
              (p + (R.ReadAt s.mResource o n).2.1.length)
              (n - (R.ReadAt s.mResource o n).2.1.length)
              (a + (R.ReadAt s.mResource o n).2.1.length)
              (by unfold InUInt32 at *; omega)
            omega

theorem UncachedReadAt_le (R : MediaResource ρ) (hR : NeverMore R) (s : MediaResourceIndex ρ)
    (o : Int) (b : Nat → Byte) (p n : Nat) (hn : InUInt32 n) :
    (UncachedReadAt R s o b p n).aBytes ≤ n := by
  unfold UncachedReadAt
  simp only []
  split
  · exact Nat.zero_le _
  · split
    · have := (UncachedReadAt_loop_le R hR (loopFuel o) (s.emit (Event.UncachedReadAt o n)) o b
        p n 0 (by simpa using hn)).2
      omega
    · exact Nat.zero_le _

/-- The same for the loop of `UncachedRangedReadAt`. -/
theorem UncachedRangedReadAt_loop_le (R : MediaResource ρ) (hR : NeverMore R) (x : Nat)
    (f : Nat) :
    ∀ (s : MediaResourceIndex ρ) (o : Int) (b : Nat → Byte) (p n a : Nat),
      InUInt32 (a + n) →
      a ≤ (UncachedRangedReadAt_loop R x f s o b p n a).aBytes ∧
      (UncachedRangedReadAt_loop R x f s o b p n a).aBytes ≤ a + n := by
  induction f with
  | zero => intro s o b p n a _; exact ⟨Nat.le_refl _, Nat.le_add_right _ _⟩
  | succ k ih =>
    intro s o b p n a hn
    have hle := hR s.mResource o n
    have ex2 : (mResource_ReadAt R s o n).2.1 = (R.ReadAt s.mResource o n).2.1 := rfl
    have hbr : uint32_t ((R.ReadAt s.mResource o n).2.1.length : Int) =
        (R.ReadAt s.mResource o n).2.1.length := by
      unfold InUInt32 at hn; unfold uint32_t; omega
    have hsub : uint32_t ((n : Int) - ((R.ReadAt s.mResource o n).2.1.length : Int)) =
        n - (R.ReadAt s.mResource o n).2.1.length := by
      unfold InUInt32 at hn; unfold uint32_t; omega
    have hadd : uint32_t ((a : Int) + ((R.ReadAt s.mResource o n).2.1.length : Int)) =
        a + (R.ReadAt s.mResource o n).2.1.length := by
      unfold InUInt32 at hn; unfold uint32_t; omega
    simp only [UncachedRangedReadAt_loop, ex2, hbr, hsub, hadd]
    split
    · exact ⟨Nat.le_refl _, Nat.le_add_right _ _⟩
    · split
      · exact ⟨Nat.le_refl _, Nat.le_add_right _ _⟩
      · split
        · constructor <;> dsimp only <;> omega
        · split
          · constructor <;> dsimp only <;> omega
          · have := ih (mResource_ReadAt R s o n).2.2
              (int64_t (o + ((R.ReadAt s.mResource o n).2.1.length : Int)))
              (store b p (R.ReadAt s.mResource o n).2.1)
              (p + (R.ReadAt s.mResource o n).2.1.length)
              (n - (R.ReadAt s.mResource o n).2.1.length)
              (a + (R.ReadAt s.mResource o n).2.1.length)
              (by unfold InUInt32 at *; omega)
            omega

theorem UncachedRangedReadAt_le (R : MediaResource ρ) (hR : NeverMore R)
    (s : MediaResourceIndex ρ) (o : Int) (b : Nat → Byte) (p n x : Nat)
    (hn : InUInt32 (n + x)) : (UncachedRangedReadAt R s o b p n x).aBytes ≤ n + x := by
  have hsum : uint32_t ((n : Int) + (x : Int)) = n + x := by
    unfold InUInt32 at hn; unfold uint32_t; omega
  unfold UncachedRangedReadAt
  simp only [hsum]
  split
  · exact Nat.zero_le _
  · split
    · have := (UncachedRangedReadAt_loop_le R hR x (loopFuel o)
        (s.emit (Event.UncachedRangedReadAt o n x)) o b p (n + x) 0 (by simpa using hn)).2
      omega
    · exact Nat.zero_le _

theorem cacheOrReads_of_Quiet {j : Nat} {s t : MediaResourceIndex ρ} (q : Quiet j s t) :
    cacheOrReads (newEvents s t) = 0 := by
  obtain ⟨d, h1, h2, _⟩ := q
  unfold cacheOrReads newEvents
  rw [h1]
  simpa using h2

/-- C17: the middle-region step of `ReadAt` (lines 368-423; `aBytes` is the
count of the bytes already copied), entered with `aOffset < lastBlockOffset`,
when the uncached read of `[aOffset, lastBlockOffset)` does not fail.  If it
hands back no byte, or fewer than `lastBlockOffset - aOffset`, the step returns
`NS_OK` with the bytes already copied plus those read, without an entry into
`CacheOrReadAt` and with the cache members as they were.  Otherwise the rest
goes to `CacheOrReadAt` on an index whose `mCachedBytes` is 0; for a resource
that never hands back more than asked for this is the case of a full read, and
the rest starts at `lastBlockOffset`.  `ReadAt` enters this step with no byte
copied when the cache has nothing of the request. -/
theorem ReadAt_middle_short_read (R : MediaResource ρ) (self : MediaResourceIndex ρ)
    (o : Int) (b : Nat → Byte) (p n a : Nat) (l : Int) (hlt : o < l) :
    let toRead := uint32_t (int64_t (l - o))
    let U := UncachedReadAt R
      (MOZ_ASSERT 376 (decide (toRead < n)) (MOZ_ASSERT 375 (decide (toRead > 0)) self))
      o b p toRead
    let X := ReadAt_beforeLastBlock R self o b p n a l
    (NS_FAILED U.rv = false →
      ((U.aBytes = 0 ∨ U.aBytes < toRead) →
        X.rv = NS_OK ∧ X.aBuffer = U.aBuffer ∧ X.index = U.index ∧
        X.aBytes = (if U.aBytes = 0 then a else uint32_t (a + U.aBytes)) ∧
        (InUInt32 (a + U.aBytes) → X.aBytes = a + U.aBytes) ∧
        cacheOrReads (newEvents self X.index) = 0 ∧
        SameMembers self X.index) ∧
      (¬ (U.aBytes = 0 ∨ U.aBytes < toRead) →
        (∃ s', s'.mCachedBytes = 0 ∧ s'.mCachedOffset = self.mCachedOffset ∧
          s'.mResource = U.index.mResource ∧
          X = CacheOrReadAt R s' (int64_t (o + U.aBytes)) U.aBuffer (p + U.aBytes)
            (uint32_t (n - U.aBytes)) (uint32_t (a + U.aBytes))) ∧
        (NeverMore R → U.aBytes = toRead ∧
          (0 ≤ o → InInt64 l → l - o < 4294967296 → int64_t (o + U.aBytes) = l)))) ∧
    (l = self.CacheOffsetContaining (int64_t (int64_t (o + n) - 1)) →
      self.mCacheBlockSize ≠ 0 → n ≠ 0 → ¬ (o < 0 ∨ int64_t (o + n) < o) →
      ¬ (self.mCachedBytes ≠ 0 ∧ int64_t (self.mCachedOffset + self.mCachedBytes) ≥ o ∧
        self.mCachedOffset < int64_t (o + n)) →
      ReadAt R self o b p n = ReadAt_beforeLastBlock R self o b p n 0 l) := by
  intro toRead U X
  constructor
  · intro hok
    have hX : X = if U.aBytes = 0 then ⟨NS_OK, U.aBuffer, a, U.index⟩
        else if U.aBytes < toRead then ⟨NS_OK, U.aBuffer, uint32_t (a + U.aBytes), U.index⟩
        else ReadAt_lastBlock R U.index (int64_t (o + U.aBytes)) U.aBuffer (p + U.aBytes)
          (uint32_t (n - U.aBytes)) (uint32_t (a + U.aBytes)) l := by
      show ReadAt_beforeLastBlock R self o b p n a l = _
      unfold ReadAt_beforeLastBlock
      simp only [hlt, if_true]
      have hok' : NS_FAILED U.rv = false := hok
      show (if NS_FAILED U.rv = true then _ else _) = _
      rw [hok']
      simp only [Bool.false_eq_true, if_false]
    have hq : Quiet 1 self U.index :=
      Quiet_UncachedReadAt R o b p toRead
        (Quiet_MOZ_ASSERT 376 _ (Quiet_MOZ_ASSERT 375 _ (Quiet_refl 0 self)))
    have hm : SameMembers self U.index :=
      SameMembers_trans (SameMembers_trans (SameMembers_MOZ_ASSERT 375 _ self)
        (SameMembers_MOZ_ASSERT 376 _ _)) (UncachedReadAt_members R _ o b p toRead)
    constructor
    · intro hs
      by_cases h0 : U.aBytes = 0
      · rw [if_pos h0] at hX
        rw [hX]
        refine ⟨rfl, rfl, rfl, by simp [h0], ?_, cacheOrReads_of_Quiet hq, hm⟩
        intro _
        simp [h0]
      · have h1 : U.aBytes < toRead := by
          rcases hs with h | h
          · exact absurd h h0
          · exact h
        rw [if_neg h0, if_pos h1] at hX
        rw [hX]
        refine ⟨rfl, rfl, rfl, by simp [h0], ?_, cacheOrReads_of_Quiet hq, hm⟩
        intro hu
        exact uint32_t_eq hu
    · intro hs
      have h0 : ¬ U.aBytes = 0 := fun h => hs (Or.inl h)
      have h1 : ¬ U.aBytes < toRead := fun h => hs (Or.inr h)
      rw [if_neg h0, if_neg h1] at hX
      constructor
      · refine ⟨{ (MOZ_ASSERT 420 (decide (uint32_t (n - U.aBytes) ≤
            (MOZ_ASSERT 419 (decide (int64_t (o + U.aBytes) = l)) U.index).mCacheBlockSize))
            (MOZ_ASSERT 419 (decide (int64_t (o + U.aBytes) = l)) U.index)) with
            mCachedBytes := 0 }, rfl, ?_, ?_, ?_⟩
        · simp only [MOZ_ASSERT_mCachedOffset]
          exact hm.2.2.1
        · simp
        · rw [hX]
          rfl
      · intro hR
        have hle : U.aBytes ≤ toRead := UncachedReadAt_le R hR _ o b p toRead (uint32_t_lt _)
        have heq : U.aBytes = toRead := by omega
        refine ⟨heq, fun ho hl hd => ?_⟩
        rw [heq]
        show int64_t (o + ((uint32_t (int64_t (l - o)) : Nat) : Int)) = l
        unfold InInt64 at hl
        unfold uint32_t int64_t
        omega
  · intro hl hc hn hv hcond
    unfold ReadAt
    rw [if_neg hc, if_neg hn]
    simp only []
    rw [if_neg hv, ← hl, if_neg hcond, if_neg (by omega)]

/-- Claim C17 on the resource of the bytes `0, …, 99` with a 16-byte block:
`ReadAt(90, buf, 40)` from the empty cache enters the middle-region step for
`[90, 128)`, whose uncached read ends after 10 bytes, and returns `NS_OK` with
10 bytes without an entry into `CacheOrReadAt`. -/
theorem ReadAt_middle_short_read_witness :
    ((90 : Int) < 128 ∧
      NS_FAILED (UncachedReadAt (dataResource hundredBytes 200 100 (fun _ => 100))
        (MOZ_ASSERT 376 (decide (uint32_t (int64_t (128 - 90)) < 40))
          (MOZ_ASSERT 375 (decide (uint32_t (int64_t (128 - 90)) > 0)) (init 16 ())))
        90 blankBuffer 0 (uint32_t (int64_t (128 - 90)))).rv = false ∧
      (UncachedReadAt (dataResource hundredBytes 200 100 (fun _ => 100))
        (MOZ_ASSERT 376 (decide (uint32_t (int64_t (128 - 90)) < 40))
          (MOZ_ASSERT 375 (decide (uint32_t (int64_t (128 - 90)) > 0)) (init 16 ())))
        90 blankBuffer 0 (uint32_t (int64_t (128 - 90)))).aBytes <
        uint32_t (int64_t (128 - 90))) ∧
    (ReadAt_beforeLastBlock (dataResource hundredBytes 200 100 (fun _ => 100)) (init 16 ()) 90
      blankBuffer 0 40 0 128).rv = NS_OK ∧
    (ReadAt_beforeLastBlock (dataResource hundredBytes 200 100 (fun _ => 100)) (init 16 ()) 90
      blankBuffer 0 40 0 128).aBytes = 10 ∧
    cacheOrReads (newEvents (init 16 ())
      (ReadAt_beforeLastBlock (dataResource hundredBytes 200 100 (fun _ => 100)) (init 16 ()) 90
        blankBuffer 0 40 0 128).index) = 0 ∧
    ReadAt (dataResource hundredBytes 200 100 (fun _ => 100)) (init 16 ()) 90 blankBuffer 0 40 =
      ReadAt_beforeLastBlock (dataResource hundredBytes 200 100 (fun _ => 100)) (init 16 ()) 90
        blankBuffer 0 40 0 128 :=
  have hok : NS_FAILED (UncachedReadAt (dataResource hundredBytes 200 100 (fun _ => 100))
        (MOZ_ASSERT 376 (decide (uint32_t (int64_t (128 - 90)) < 40))
          (MOZ_ASSERT 375 (decide (uint32_t (int64_t (128 - 90)) > 0)) (init 16 ())))
        90 blankBuffer 0 (uint32_t (int64_t (128 - 90)))).rv = false := by decide
  have hs : (UncachedReadAt (dataResource hundredBytes 200 100 (fun _ => 100))
        (MOZ_ASSERT 376 (decide (uint32_t (int64_t (128 - 90)) < 40))
          (MOZ_ASSERT 375 (decide (uint32_t (int64_t (128 - 90)) > 0)) (init 16 ())))
        90 blankBuffer 0 (uint32_t (int64_t (128 - 90)))).aBytes <
        uint32_t (int64_t (128 - 90)) := by decide
  have h := ReadAt_middle_short_read (dataResource hundredBytes 200 100 (fun _ => 100))
    (init 16 ()) 90 blankBuffer 0 40 0 128 (by decide)
  have h1 := (h.1 hok).1 (Or.inr hs)
  ⟨⟨by decide, hok, hs⟩, h1.1, by rw [h1.2.2.2.2.1 (by decide)]; decide, h1.2.2.2.2.2.1,
    h.2 (by decide) (by decide) (by decide) (by decide) (by decide)⟩

/-- Lines 459-513 of `CacheOrReadAt`: the ranged read succeeded with bytes. -/
theorem CacheOrReadAt_ranged_success (R : MediaResource ρ) (self : MediaResourceIndex ρ)
    (o : Int) (b : Nat → Byte) (p n a : Nat) (cde : Int) (r : Outcome ρ)
    (hr : r = UncachedRangedReadAt R
      (MOZ_ASSERT 454 (decide (uint32_t (min (int64_t (cde - o))
        (uint32_t (self.mCacheBlockSize - self.IndexInCache o) : Int)) ≥ n)) self) o
      self.mCachedBlock (self.IndexInCache o) n
      (uint32_t (((uint32_t (min (int64_t (cde - o))
        (uint32_t (self.mCacheBlockSize - self.IndexInCache o) : Int)) : Nat) : Int) - n)))
    (hs : NS_SUCCEEDED r.rv = true) (hn : r.aBytes ≠ 0) :
    (CacheOrReadAt_ranged R self o b p n a cde).rv = NS_OK ∧
    (CacheOrReadAt_ranged R self o b p n a cde).aBuffer =
      memcpy b p r.aBuffer (self.IndexInCache o) (min n r.aBytes) ∧
    (CacheOrReadAt_ranged R self o b p n a cde).aBytes = uint32_t (a + min n r.aBytes) ∧
    (CacheOrReadAt_ranged R self o b p n a cde).index.mCachedBlock = r.aBuffer ∧
    (CacheOrReadAt_ranged R self o b p n a cde).index.trace = r.index.trace ∧
    (int64_t (self.mCachedOffset + self.mCachedBytes) = o →
      (CacheOrReadAt_ranged R self o b p n a cde).index.mCachedOffset = self.mCachedOffset ∧
      (CacheOrReadAt_ranged R self o b p n a cde).index.mCachedBytes =
        uint32_t (self.mCachedBytes + r.aBytes)) ∧
    (int64_t (self.mCachedOffset + self.mCachedBytes) ≠ o →
      (CacheOrReadAt_ranged R self o b p n a cde).index.mCachedOffset = o ∧
      (CacheOrReadAt_ranged R self o b p n a cde).index.mCachedBytes = r.aBytes) := by
  have hO : r.index.mCachedOffset = self.mCachedOffset := by rw [hr]; simp
  have hK : r.index.mCachedBytes = self.mCachedBytes := by rw [hr]; simp
  unfold CacheOrReadAt_ranged
  simp only [MOZ_ASSERT_mCachedBlock]
  rw [← hr]
  simp only [hs, if_true, hn, if_false]
  by_cases ht : int64_t (self.mCachedOffset + self.mCachedBytes) = o
  · have ht' : int64_t (r.index.mCachedOffset + r.index.mCachedBytes) = o := by
      rw [hO, hK]; exact ht
    simp only [ht', ht, if_true, true_implies, ne_eq, not_true_eq_false, false_implies, and_true]
    exact ⟨trivial, trivial, trivial, trivial, trivial, hO, by rw [hK]⟩
  · have ht' : ¬ int64_t (r.index.mCachedOffset + r.index.mCachedBytes) = o := by
      rw [hO, hK]; exact ht
    simp only [ht', ht, if_false, false_implies, ne_eq, not_false_eq_true, true_implies, true_and]

/-- One ranged read on a resource whose reads succeed with everything asked
for. -/
theorem UncachedRangedReadAt_all (R : MediaResource ρ)
    (hok : ∀ (r : ρ) (o : Int) (n : Nat), (R.ReadAt r o n).1 = NS_OK)
    (hall : ∀ (r : ρ) (o : Int) (n : Nat), (R.ReadAt r o n).2.1.length = n)
    (s : MediaResourceIndex ρ) (o : Int) (b : Nat → Byte)
    (p k x : Nat) (ho : 0 ≤ o) (ho2 : InInt64 o) (hk : 0 < k) (hkx : InUInt32 (k + x)) :
    (UncachedRangedReadAt R s o b p k x).rv = NS_OK ∧
      (UncachedRangedReadAt R s o b p k x).aBytes = k + x ∧
      (UncachedRangedReadAt R s o b p k x).index.trace =
        s.trace ++ [Event.UncachedRangedReadAt o k x, Event.ResourceReadAt o (k + x)] ∧
      (UncachedRangedReadAt R s o b p k x).aBuffer =
        store b p (R.ReadAt s.mResource o (k + x)).2.1 := by
  unfold InInt64 at ho2
  unfold InUInt32 at hkx
  have e1 : uint32_t ((k : Int) + x) = k + x := by unfold uint32_t; omega
  have c1 : ¬ (o < 0 ∨ k + x < k) := by omega
  have c2 : k + x ≠ 0 := by omega
  obtain ⟨f, hf⟩ : ∃ f, loopFuel o = f + 1 := ⟨loopFuel o - 1, by unfold loopFuel; omega⟩
  have e2 : uint32_t ((0 : Nat) + (uint32_t ((k + x : Nat) : Int) : Int)) = k + x := by
    unfold uint32_t; omega
  have e3 : uint32_t (((k + x : Nat) : Int) - (uint32_t ((k + x : Nat) : Int) : Int)) = 0 := by
    unfold uint32_t; omega
  have e4 : uint32_t ((k + x : Nat) : Int) = k + x := by unfold uint32_t; omega
  unfold UncachedRangedReadAt
  simp only [e1, if_neg c1, c2, ne_eq, not_false_eq_true, if_true, hf, UncachedRangedReadAt_loop,
    mResource_ReadAt, hok, hall, NS_FAILED, e2, e3, e4]
  have e0 : uint32_t 0 = 0 := by decide
  simp [emit, e0, e1]

/-- With the cache at `[1000, 1100)` of a 200-byte block, `ReadAt(1100, buf, 50)`
goes straight to `CacheOrReadAt(1100, buf, 50)`. -/
theorem ReadAt_top_up_entry (R : MediaResource ρ) (self : MediaResourceIndex ρ)
    (b : Nat → Byte) (p : Nat) (hc : self.mCacheBlockSize = 200)
    (hB : self.mCachedOffset = 1000) (hk : self.mCachedBytes = 100) :
    ReadAt R self 1100 b p 50 = CacheOrReadAt R self 1100 b p 50 0 := by
  have e1 : int64_t (1100 + ((50 : Nat) : Int)) = 1150 := by decide
  have e2 : int64_t (1150 - 1) = 1149 := by decide
  have e3 : int64_t (1000 + ((100 : Nat) : Int)) = 1100 := by decide
  have e4 : self.CacheOffsetContaining 1149 = 1000 := by
    unfold CacheOffsetContaining; rw [hc]; decide
  have e5 : uint32_t (int64_t (1100 - 1100)) = 0 := by decide
  have e6 : int64_t (1100 - 1) = 1099 := by decide
  have e7 : int64_t (1000 + ((200 : Nat) : Int)) = 1200 := by decide
  unfold ReadAt
  rw [if_neg (by rw [hc]; decide), if_neg (by decide)]
  simp only [e1, e2, e4, hB, hk, e3]
  rw [if_neg (by decide), if_pos (by decide), if_neg (by decide)]
  unfold ReadAt_fromCache
  simp only [hB, hk, e3, e5, MOZ_ASSERT_mCachedOffset, MOZ_ASSERT_mCachedBytes]
  rw [MOZ_ASSERT_of 312 self (by decide)]
  simp only [hB, hk, e3, e5, Nat.min_zero, ne_eq, not_true_eq_false, if_false]
  unfold ReadAt_afterCache
  simp only [e6, hB, hk, e3, hc, e7, MOZ_ASSERT_mCacheBlockSize]
  rw [if_pos (by decide), MOZ_ASSERT_of 352 self (by decide), MOZ_ASSERT_of 353 self (by decide)]

theorem bufferBytes_memcpy_store (b blk : Nat → Byte) (p i n : Nat) (l : List Byte)
    (hn : n ≤ l.length) :
    bufferBytes (memcpy b p (store blk i l) i n) p n = l.take n := by
  apply List.ext_getElem?
  intro j
  unfold bufferBytes memcpy store
  by_cases hj : j < n
  · simp only [List.getElem?_map, List.getElem?_range hj, Option.map_some']
    rw [if_pos (by omega), if_pos (by omega), List.getD_eq_getElem?_getD,
      List.getElem?_take]
    have h2 : i + (p + j - p) - i = j := by omega
    rw [h2, if_pos hj, List.getElem?_eq_getElem (by omega)]
    rfl
  · have h1 : ((List.range n).map (fun j =>
        if p ≤ p + j ∧ p + j < p + n then
          (fun k => if i ≤ k ∧ k < i + l.length then l.getD (k - i) 0 else blk k)
            (i + (p + j - p))
        else b (p + j)))[j]? = none := by
      apply List.getElem?_eq_none
      simp; omega
    have h2 : (l.take n)[j]? = none := by
      apply List.getElem?_eq_none
      simp [List.length_take]; omega
    rw [h1, h2]

/-- The top-up scenario: with the cache at `[1000, 1100)` of a 200-byte block, a
resource whose reads succeed with everything asked for, whose cached-data end
for 1100 is 1500 and whose length is unknown or at least that. -/
theorem ReadAt_top_up_scenario (R : MediaResource ρ) (self : MediaResourceIndex ρ)
    (b : Nat → Byte) (p : Nat)
    (hok : ∀ (r : ρ) (o : Int) (n : Nat), (R.ReadAt r o n).1 = NS_OK)
    (hall : ∀ (r : ρ) (o : Int) (n : Nat), (R.ReadAt r o n).2.1.length = n)
    (hcde : ∀ (r : ρ), (R.GetCachedDataEnd r 1100).1 = 1500)
    (hlen : ∀ (r : ρ), (R.GetLength r).1 < 0 ∨ 1500 ≤ (R.GetLength r).1)
    (hc : self.mCacheBlockSize = 200) (hB : self.mCachedOffset = 1000)
    (hk : self.mCachedBytes = 100) :
    (ReadAt R self 1100 b p 50).rv = NS_OK ∧
    (ReadAt R self 1100 b p 50).aBytes = 50 ∧
    resourceReads (newEvents self (ReadAt R self 1100 b p 50).index) = 1 ∧
    (ReadAt R self 1100 b p 50).index.mCachedOffset = 1000 ∧
    (ReadAt R self 1100 b p 50).index.mCachedBytes = 200 ∧
    bufferBytes (ReadAt R self 1100 b p 50).aBuffer p 50 =
      ((R.ReadAt (R.GetCachedDataEnd (R.GetLength self.mResource).2 1100).2 1100 100).2.1).take
        50 := by
  rw [ReadAt_top_up_entry R self b p hc hB hk]
  obtain ⟨s1, s2, m1, m2, q1, q2, g1, g2, hX⟩ := CacheOrReadAt_branches R self 1100 b p 50 0
    (fun e => isResourceReadAt e = false) rfl (Or.inr (fun _ => rfl)) rfl rfl
  have e1 : int64_t (1100 + ((50 : Nat) : Int)) = 1150 := by decide
  rw [e1, hcde, if_pos (by have := hlen self.mResource; omega), if_pos (by decide)] at hX
  rw [hX]
  obtain ⟨n1, n2, n3, n4, n5⟩ := m2
  rw [hc] at n2
  rw [hB] at n3
  rw [hk] at n4
  have hidx : s2.IndexInCache 1100 = 100 := by
    unfold IndexInCache; rw [n2]; decide
  have htr : uint32_t (min (int64_t (1500 - 1100))
      ((uint32_t ((s2.mCacheBlockSize : Int) - (s2.IndexInCache 1100 : Int)) : Nat) : Int)) =
      100 := by
    rw [hidx, n2]; decide
  have hex : uint32_t (((100 : Nat) : Int) - ((50 : Nat) : Int)) = 50 := by decide
  have hrx : UncachedRangedReadAt R
      (MOZ_ASSERT 454 (decide (uint32_t (min (int64_t (1500 - 1100))
        (uint32_t (s2.mCacheBlockSize - s2.IndexInCache 1100) : Int)) ≥ 50)) s2) 1100
      s2.mCachedBlock (s2.IndexInCache 1100) 50
      (uint32_t (((uint32_t (min (int64_t (1500 - 1100))
        (uint32_t (s2.mCacheBlockSize - s2.IndexInCache 1100) : Int)) : Nat) : Int) -
        ((50 : Nat) : Int))) =
      UncachedRangedReadAt R s2 1100 s2.mCachedBlock 100 50 50 := by
    rw [htr, hex, hidx, MOZ_ASSERT_of 454 s2 (by decide)]
  obtain ⟨r1, r2, r3, r4⟩ := UncachedRangedReadAt_all R hok hall s2 1100 s2.mCachedBlock 100 50
    50 (by decide) (by decide) (by decide) (by decide)
  obtain ⟨A1, A2, A3, A4, A5, A6, A7⟩ := CacheOrReadAt_ranged_success R s2 1100 b p 50 0 1500 _
    hrx.symm (by rw [r1]; rfl) (by rw [r2]; decide)
  have ht : int64_t (s2.mCachedOffset + s2.mCachedBytes) = 1100 := by
    rw [n3, n4]; decide
  obtain ⟨B1, B2⟩ := A6 ht
  rw [r2] at A2 A3 B2
  refine ⟨A1, by rw [A3]; decide, ?_, by rw [B1, n3], by rw [B2, n4]; decide, ?_⟩
  · obtain ⟨d2, t2, pd2⟩ := g2
    unfold newEvents
    rw [A5, r3, t2]
    have hd2 : resourceReads d2 = 0 := by
      unfold resourceReads
      rw [List.countP_eq_zero]
      intro e he
      simpa using pd2 e he
    have hdrop : (self.trace ++ d2 ++
        [Event.UncachedRangedReadAt 1100 50 50, Event.ResourceReadAt 1100 (50 + 50)]).drop
        self.trace.length =
        d2 ++ [Event.UncachedRangedReadAt 1100 50 50, Event.ResourceReadAt 1100 (50 + 50)] := by
      simp
    rw [hdrop, resourceReads_append, hd2]
    rfl
  · rw [A2, r4, hidx, q2]
    exact bufferBytes_memcpy_store b s2.mCachedBlock p 100 50 _ (by rw [hall]; decide)

/-- C11: top-up versus fresh fill.  In lines 448-534 of `CacheOrReadAt`, which
it enters when it attempts the batched fill, let `r` be the result of the ranged
read, successful with `r.aBytes > 0` bytes (and let the sums involved be
representable: `mCachedOffset + mCachedBytes` in `int64_t`, `mCachedBytes +
r.aBytes` and `*aBytes + min(aCount, r.aBytes)` in `uint32_t`).  If
`mCachedOffset + mCachedBytes = aOffset` beforehand, `mCachedOffset` is unchanged
and `mCachedBytes` grows by exactly `r.aBytes`; otherwise `mCachedOffset =
aOffset` and `mCachedBytes = r.aBytes`.  In both cases `min(aCount, r.aBytes)`
bytes are copied from the cache block to the caller and `NS_OK` is returned.
The scenario: with the cache at `[1000, 1100)` of a 200-byte block, on a resource
whose reads succeed with everything asked for, whose cached-data end for 1100
is 1500 and whose length is unknown or at least that, `ReadAt(1100, buf, 50)`
issues one raw read, returns the 50 bytes asked for (the first 50 of that read)
and leaves the cache at `[1000, 1200)`, which extends past 1150. -/
theorem CacheOrReadAt_top_up_or_fresh_fill (R : MediaResource ρ)
    (self : MediaResourceIndex ρ) (o : Int) (b : Nat → Byte) (p n a : Nat) (cde : Int)
    (r : Outcome ρ)
    (hr : r = UncachedRangedReadAt R
      (MOZ_ASSERT 454 (decide (uint32_t (min (int64_t (cde - o))
        (uint32_t (self.mCacheBlockSize - self.IndexInCache o) : Int)) ≥ n)) self) o
      self.mCachedBlock (self.IndexInCache o) n
      (uint32_t (((uint32_t (min (int64_t (cde - o))
        (uint32_t (self.mCacheBlockSize - self.IndexInCache o) : Int)) : Nat) : Int) - n)))
    (hs : NS_SUCCEEDED r.rv = true) (hn : 0 < r.aBytes)
    (hend : InInt64 (self.mCachedOffset + self.mCachedBytes))
    (hsum : InUInt32 (self.mCachedBytes + r.aBytes))
    (ha : InUInt32 (a + min n r.aBytes)) :
    ((CacheOrReadAt_ranged R self o b p n a cde).rv = NS_OK ∧
      (CacheOrReadAt_ranged R self o b p n a cde).aBuffer =
        memcpy b p r.aBuffer (self.IndexInCache o) (min n r.aBytes) ∧
      (CacheOrReadAt_ranged R self o b p n a cde).aBytes = a + min n r.aBytes ∧
      (CacheOrReadAt_ranged R self o b p n a cde).index.mCachedBlock = r.aBuffer ∧
      (self.mCachedOffset + self.mCachedBytes = o →
        (CacheOrReadAt_ranged R self o b p n a cde).index.mCachedOffset = self.mCachedOffset ∧
        (CacheOrReadAt_ranged R self o b p n a cde).index.mCachedBytes =
          self.mCachedBytes + r.aBytes) ∧
      (self.mCachedOffset + self.mCachedBytes ≠ o →
        (CacheOrReadAt_ranged R self o b p n a cde).index.mCachedOffset = o ∧
        (CacheOrReadAt_ranged R self o b p n a cde).index.mCachedBytes = r.aBytes)) ∧
    ((∀ (x : ρ) (o : Int) (n : Nat), (R.ReadAt x o n).1 = NS_OK) →
      (∀ (x : ρ) (o : Int) (n : Nat), (R.ReadAt x o n).2.1.length = n) →
      (∀ (x : ρ), (R.GetCachedDataEnd x 1100).1 = 1500) →
      (∀ (x : ρ), (R.GetLength x).1 < 0 ∨ 1500 ≤ (R.GetLength x).1) →
      self.mCacheBlockSize = 200 → self.mCachedOffset = 1000 → self.mCachedBytes = 100 →
      (ReadAt R self 1100 b p 50).rv = NS_OK ∧
      (ReadAt R self 1100 b p 50).aBytes = 50 ∧
      resourceReads (newEvents self (ReadAt R self 1100 b p 50).index) = 1 ∧
      (ReadAt R self 1100 b p 50).index.mCachedOffset = 1000 ∧
      (ReadAt R self 1100 b p 50).index.mCachedBytes = 200 ∧
      (1150 : Int) < 1000 + (200 : Nat) ∧
      bufferBytes (ReadAt R self 1100 b p 50).aBuffer p 50 =
        ((R.ReadAt (R.GetCachedDataEnd (R.GetLength self.mResource).2 1100).2 1100
          100).2.1).take 50) := by
  constructor
  · obtain ⟨A1, A2, A3, A4, _, A6, A7⟩ := CacheOrReadAt_ranged_success R self o b p n a cde r hr
      hs (by omega)
    have hi : int64_t (self.mCachedOffset + self.mCachedBytes) =
        self.mCachedOffset + self.mCachedBytes := int64_t_eq hend
    rw [hi] at A6 A7
    refine ⟨A1, A2, ?_, A4, fun h => ?_, A7⟩
    · rw [A3]
      have := uint32_t_eq ha
      rw [← this]
      push_cast
      rfl
    · obtain ⟨B1, B2⟩ := A6 h
      refine ⟨B1, ?_⟩
      rw [B2]
      have := uint32_t_eq hsum
      rw [← this]
      push_cast
      rfl
  · intro hok hall hcde hlen hc hB hk
    obtain ⟨s1, s2, s3, s4, s5, s6⟩ := ReadAt_top_up_scenario R self b p hok hall hcde hlen hc
      hB hk
    exact ⟨s1, s2, s3, s4, s5, by decide, s6⟩

/-- Claim C11 at the cache `[1000, 1100)` of a 200-byte block on a resource
that hands back everything asked for and reports 1500 as its cached-data end:
the ranged read of the top-up at 1100 hands back 100 bytes, the cache becomes
`[1000, 1200)`, and `ReadAt(1100, buf, 50)` returns 50 bytes after one raw
read. -/
theorem CacheOrReadAt_top_up_or_fresh_fill_witness :
    (NS_SUCCEEDED (UncachedRangedReadAt (steadyResource 1500)
        (MOZ_ASSERT 454 (decide (uint32_t (min (int64_t (1500 - 1100))
          (uint32_t (topUpIndex.mCacheBlockSize - topUpIndex.IndexInCache 1100) : Int)) ≥ 50))
          topUpIndex) 1100 topUpIndex.mCachedBlock (topUpIndex.IndexInCache 1100) 50
        (uint32_t (((uint32_t (min (int64_t (1500 - 1100))
          (uint32_t (topUpIndex.mCacheBlockSize - topUpIndex.IndexInCache 1100) : Int)) : Nat)
          : Int) - (50 : Nat)))).rv = true ∧
      0 < (UncachedRangedReadAt (steadyResource 1500)
        (MOZ_ASSERT 454 (decide (uint32_t (min (int64_t (1500 - 1100))
          (uint32_t (topUpIndex.mCacheBlockSize - topUpIndex.IndexInCache 1100) : Int)) ≥ 50))
          topUpIndex) 1100 topUpIndex.mCachedBlock (topUpIndex.IndexInCache 1100) 50
        (uint32_t (((uint32_t (min (int64_t (1500 - 1100))
          (uint32_t (topUpIndex.mCacheBlockSize - topUpIndex.IndexInCache 1100) : Int)) : Nat)
          : Int) - (50 : Nat)))).aBytes ∧
      InInt64 (topUpIndex.mCachedOffset + topUpIndex.mCachedBytes) ∧
      topUpIndex.mCachedOffset + topUpIndex.mCachedBytes = 1100) ∧
    (CacheOrReadAt_ranged (steadyResource 1500) topUpIndex 1100 blankBuffer 0 50 0 1500).rv =
      NS_OK ∧
    (CacheOrReadAt_ranged (steadyResource 1500) topUpIndex 1100 blankBuffer 0 50 0
      1500).index.mCachedOffset = 1000 ∧
    (CacheOrReadAt_ranged (steadyResource 1500) topUpIndex 1100 blankBuffer 0 50 0
      1500).index.mCachedBytes = 200 ∧
    (ReadAt (steadyResource 1500) topUpIndex 1100 blankBuffer 0 50).aBytes = 50 ∧
    resourceReads (newEvents topUpIndex
      (ReadAt (steadyResource 1500) topUpIndex 1100 blankBuffer 0 50).index) = 1 ∧
    (ReadAt (steadyResource 1500) topUpIndex 1100 blankBuffer 0 50).index.mCachedBytes = 200 :=
  have hs : NS_SUCCEEDED (UncachedRangedReadAt (steadyResource 1500)
        (MOZ_ASSERT 454 (decide (uint32_t (min (int64_t (1500 - 1100))
          (uint32_t (topUpIndex.mCacheBlockSize - topUpIndex.IndexInCache 1100) : Int)) ≥ 50))
          topUpIndex) 1100 topUpIndex.mCachedBlock (topUpIndex.IndexInCache 1100) 50
        (uint32_t (((uint32_t (min (int64_t (1500 - 1100))
          (uint32_t (topUpIndex.mCacheBlockSize - topUpIndex.IndexInCache 1100) : Int)) : Nat)
          : Int) - (50 : Nat)))).rv = true := by decide
  have hn : 0 < (UncachedRangedReadAt (steadyResource 1500)
        (MOZ_ASSERT 454 (decide (uint32_t (min (int64_t (1500 - 1100))
          (uint32_t (topUpIndex.mCacheBlockSize - topUpIndex.IndexInCache 1100) : Int)) ≥ 50))
          topUpIndex) 1100 topUpIndex.mCachedBlock (topUpIndex.IndexInCache 1100) 50
        (uint32_t (((uint32_t (min (int64_t (1500 - 1100))
          (uint32_t (topUpIndex.mCacheBlockSize - topUpIndex.IndexInCache 1100) : Int)) : Nat)
          : Int) - (50 : Nat)))).aBytes := by decide
  have h := CacheOrReadAt_top_up_or_fresh_fill (steadyResource 1500) topUpIndex 1100 blankBuffer
    0 50 0 1500 _ rfl hs hn (by decide) (by decide) (by decide)
  have g := h.2 (fun _ _ _ => rfl) (fun _ _ _ => by simp [steadyResource]) (fun _ => rfl)
    (fun _ => Or.inl (show ((-1 : Int) < 0) by decide)) rfl rfl rfl
  ⟨⟨hs, hn, by decide, by decide⟩, h.1.1, (h.1.2.2.2.2.1 (by decide)).1,
    by rw [(h.1.2.2.2.2.1 (by decide)).2]; decide, g.2.1, g.2.2.1, g.2.2.2.2.1⟩

/-! ## C12, C13, C14: the cache bounds on any well-behaved resource -/

theorem Bounded_of_SameMembers {t u : MediaResourceIndex ρ} (h : SameMembers t u)
    (C : Bounded t) : Bounded u := by
  obtain ⟨m1, m2, m3, m4, _⟩ := h
  constructor
  · rw [m2]; exact C.cap_pos
  · rw [m2]; exact C.cap_u32
  · rw [m1]; exact C.cursor_i64
  · rw [m3]; exact C.off_nonneg
  · rw [m3, m4]; exact C.end_i64
  · rw [m2, m3, m4]; exact C.in_block

/-- The bounds of an index that differs from a bounded one in the cached range. -/
theorem Bounded_of_range {t u : MediaResourceIndex ρ} (C : Bounded t)
    (h1 : u.mCacheBlockSize = t.mCacheBlockSize) (h2 : u.mOffset = t.mOffset)
    (hnn : 0 ≤ u.mCachedOffset) (hend : InInt64 (u.mCachedOffset + u.mCachedBytes))
    (hblk : u.mCachedBytes ≠ 0 →
      u.mCachedOffset % (t.mCacheBlockSize : Int) + u.mCachedBytes ≤ t.mCacheBlockSize) :
    Bounded u := by
  constructor
  · rw [h1]; exact C.cap_pos
  · rw [h1]; exact C.cap_u32
  · rw [h2]; exact C.cursor_i64
  · exact hnn
  · exact hend
  · rw [h1]; exact hblk

theorem Bounded_IndexInCache {t : MediaResourceIndex ρ} (C : Bounded t) (o : Int) :
    t.IndexInCache o = (o % (t.mCacheBlockSize : Int)).toNat := by
  have := emod_bounds o C.cap_pos
  have := C.cap_u32
  unfold InUInt32 at this
  unfold IndexInCache uint32_t
  omega

theorem Bounded_invalidate {t u : MediaResourceIndex ρ} (C : Bounded t)
    (h1 : u.mCacheBlockSize = t.mCacheBlockSize) (h2 : u.mOffset = t.mOffset)
    (h3 : u.mCachedOffset = t.mCachedOffset) (h4 : u.mCachedBytes = 0) : Bounded u := by
  have := C.end_i64
  have := C.off_nonneg
  refine Bounded_of_range C h1 h2 (by rw [h3]; exact C.off_nonneg) ?_ (fun h => absurd h4 h)
  rw [h3, h4]
  unfold InInt64 at *
  omega

theorem Bounded_same {t u : MediaResourceIndex ρ} (C : Bounded t)
    (h1 : u.mCacheBlockSize = t.mCacheBlockSize) (h2 : u.mOffset = t.mOffset)
    (h3 : u.mCachedOffset = t.mCachedOffset) (h4 : u.mCachedBytes = t.mCachedBytes) :
    Bounded u := by
  constructor
  · rw [h1]; exact C.cap_pos
  · rw [h1]; exact C.cap_u32
  · rw [h2]; exact C.cursor_i64
  · rw [h3]; exact C.off_nonneg
  · rw [h3, h4]; exact C.end_i64
  · rw [h1, h3, h4]; exact C.in_block

/-- Lines 448-534 of `CacheOrReadAt` keep the cache bounds on a well-behaved
resource, and say where a cached range that is not empty starts afterwards. -/
theorem CacheOrReadAt_ranged_bounded {R : MediaResource ρ} (W : WellBehaved R)
    (t : MediaResourceIndex ρ) (o : Int) (b : Nat → Byte) (p n a : Nat) (e : Int) (c : Nat)
    (hc : t.mCacheBlockSize = c) (C : Bounded t)
    (hpre : t.mCachedBytes = 0 ∨ (t.mCachedOffset + t.mCachedBytes = o ∧
      o - o % (c : Int) ≤ t.mCachedOffset))
    (ho : 0 ≤ o) (hn : 0 < n) (hfit : o % (c : Int) + n ≤ c)
    (hend : InInt64 (o + n)) (he : InInt64 e) (hcov : o + n ≤ e) :
    Bounded (CacheOrReadAt_ranged R t o b p n a e).index ∧
    Grows (EventOK c) t (CacheOrReadAt_ranged R t o b p n a e).index ∧
    ((CacheOrReadAt_ranged R t o b p n a e).index.mCachedBytes ≠ 0 →
      (CacheOrReadAt_ranged R t o b p n a e).index.mCachedOffset = t.mCachedOffset ∨
      (t.mCachedBytes = 0 ∧ (CacheOrReadAt_ranged R t o b p n a e).index.mCachedOffset = o)) := by
  subst hc
  have hb := emod_bounds o C.cap_pos
  have hcap := C.cap_u32
  have hnn := C.off_nonneg
  have hei := C.end_i64
  unfold InUInt32 at hcap
  unfold InInt64 at hend he hei
  have hidx := Bounded_IndexInCache C o
  obtain ⟨T, hT, hT1, hT2, hT3⟩ : ∃ T : Nat,
      uint32_t (min (int64_t (e - o))
        ((uint32_t ((t.mCacheBlockSize : Int) -
          ((o % (t.mCacheBlockSize : Int)).toNat : Nat)) : Nat) : Int)) = T ∧
      n ≤ T ∧ o % (t.mCacheBlockSize : Int) + T ≤ t.mCacheBlockSize ∧ o + T ≤ e := by
    refine ⟨_, rfl, ?_, ?_, ?_⟩
    · unfold uint32_t int64_t; omega
    · unfold uint32_t int64_t; omega
    · unfold uint32_t int64_t; omega
  have hx : uint32_t ((T : Int) - n) = T - n := by unfold uint32_t; omega
  have hmem := SameMembers_trans (SameMembers_MOZ_ASSERT 454 (decide (T ≥ n)) t)
    (UncachedRangedReadAt_members R (MOZ_ASSERT 454 (decide (T ≥ n)) t) o t.mCachedBlock
      (o % (t.mCacheBlockSize : Int)).toNat n (T - n))
  have hle := UncachedRangedReadAt_le R W.read_le (MOZ_ASSERT 454 (decide (T ≥ n)) t) o
    t.mCachedBlock (o % (t.mCacheBlockSize : Int)).toNat n (T - n)
    (by unfold InUInt32; omega)
  have hev : EventOK t.mCacheBlockSize (Event.UncachedRangedReadAt o n (T - n)) := by
    refine ⟨ho, ?_⟩
    push_cast
    omega
  have hG : Grows (EventOK t.mCacheBlockSize) t
      (UncachedRangedReadAt R (MOZ_ASSERT 454 (decide (T ≥ n)) t) o t.mCachedBlock
        (o % (t.mCacheBlockSize : Int)).toNat n (T - n)).index :=
    Grows_UncachedRangedReadAt R (fun _ _ => trivial) o _ _ n (T - n) hev
      (Grows_MOZ_ASSERT_of 454 hT1 (Grows_refl _ t))
  unfold CacheOrReadAt_ranged
  simp only [hidx, hT, hx, MOZ_ASSERT_mCachedBlock]
  generalize UncachedRangedReadAt R (MOZ_ASSERT 454 (decide (T ≥ n)) t) o t.mCachedBlock
      (o % (t.mCacheBlockSize : Int)).toNat n (T - n) = r at hmem hle hG ⊢
  obtain ⟨m1, m2, m3, m4, m5⟩ := hmem
  have hfb : ∀ (u : MediaResourceIndex ρ), Bounded u → Grows (EventOK t.mCacheBlockSize) t u →
      (u.mCachedBytes ≠ 0 → u.mCachedOffset = t.mCachedOffset ∨
        (t.mCachedBytes = 0 ∧ u.mCachedOffset = o)) →
      Bounded (CacheOrReadAt_fallback R u o b p n a).index ∧
      Grows (EventOK t.mCacheBlockSize) t (CacheOrReadAt_fallback R u o b p n a).index ∧
      ((CacheOrReadAt_fallback R u o b p n a).index.mCachedBytes ≠ 0 →
        (CacheOrReadAt_fallback R u o b p n a).index.mCachedOffset = t.mCachedOffset ∨
        (t.mCachedBytes = 0 ∧
          (CacheOrReadAt_fallback R u o b p n a).index.mCachedOffset = o)) := by
    intro u Cu Gu hu
    obtain ⟨_, _, f3, _⟩ := CacheOrReadAt_fallback_eq R u o b p n a
    rw [f3]
    refine ⟨Bounded_of_SameMembers (UncachedReadAt_members R u o b p n) Cu,
      Grows_UncachedReadAt R (fun _ _ => trivial) o b p n trivial Gu, ?_⟩
    simpa using hu
  by_cases hs : NS_SUCCEEDED r.rv = true
  · simp only [hs, if_true]
    by_cases h0 : r.aBytes = 0
    · simp only [h0, if_true]
      refine ⟨Bounded_same C m2 m1 m3 m4, Grows_same rfl hG, ?_⟩
      intro _
      exact Or.inl m3
    · simp only [h0, if_false]
      by_cases ht : int64_t (r.index.mCachedOffset + r.index.mCachedBytes) = o
      · simp only [ht, if_true]
        rw [m3, m4] at ht
        by_cases hk : t.mCachedBytes = 0
        · have hBo : t.mCachedOffset = o := by
            rw [hk] at ht
            rw [← ht]; unfold int64_t; omega
          have e2 : uint32_t ((r.index.mCachedBytes : Int) + (r.aBytes : Int)) = r.aBytes := by
            rw [m4, hk]; unfold uint32_t; omega
          refine ⟨Bounded_of_range C m2 m1 (by simp only [m3]; exact hnn) ?_ ?_,
            Grows_same rfl hG, fun _ => Or.inl m3⟩
          · simp only [m3, e2, hBo]
            unfold InInt64; omega
          · intro _
            simp only [m3, e2, hBo]
            omega
        · rcases hpre with hpre | ⟨hp1, hp2⟩
          · exact absurd hpre hk
          · have hbl := C.in_block hk
            have hpos := emod_same_block hp2 (by omega) C.cap_pos
            have e2 : uint32_t ((r.index.mCachedBytes : Int) + (r.aBytes : Int)) =
                t.mCachedBytes + r.aBytes := by
              rw [m4]; unfold uint32_t; omega
            refine ⟨Bounded_of_range C m2 m1 (by simp only [m3]; exact hnn) ?_ ?_,
              Grows_same rfl hG, fun _ => Or.inl m3⟩
            · simp only [m3, e2]
              unfold InInt64; push_cast; omega
            · intro _
              simp only [m3, e2]
              push_cast
              omega
      · simp only [ht, if_false]
        rw [m3, m4] at ht
        refine ⟨Bounded_of_range C m2 m1 ho ?_ ?_, Grows_same rfl hG, ?_⟩
        · show InInt64 (o + (r.aBytes : Int))
          unfold InInt64; omega
        · intro _
          show o % (t.mCacheBlockSize : Int) + (r.aBytes : Int) ≤ _
          omega
        · intro _
          right
          refine ⟨?_, trivial⟩
          rcases hpre with hpre | ⟨hp1, _⟩
          · exact hpre
          · exfalso
            apply ht
            rw [hp1]
            unfold int64_t; omega
  · simp only [hs, Bool.false_eq_true, if_false]
    by_cases ht : int64_t (r.index.mCachedOffset + r.index.mCachedBytes) = o
    · simp only [ht, if_true]
      exact hfb _ (Bounded_same C m2 m1 m3 m4) (Grows_same rfl hG)
        (fun _ => Or.inl m3)
    · simp only [ht, if_false]
      exact hfb _ (Bounded_invalidate C m2 m1 m3 rfl) (Grows_same rfl hG)
        (fun h => absurd rfl h)

/-- `CacheOrReadAt`, called for a range inside one block with the cache empty or
ending at the offset in that block, keeps the cache bounds on a well-behaved
resource. -/
theorem CacheOrReadAt_bounded {R : MediaResource ρ} (W : WellBehaved R)
    (t : MediaResourceIndex ρ) (o : Int) (b : Nat → Byte) (p n a : Nat) (c : Nat)
    (hc : t.mCacheBlockSize = c) (C : Bounded t)
    (hpre : t.mCachedBytes = 0 ∨ (t.mCachedOffset + t.mCachedBytes = o ∧
      o - o % (c : Int) ≤ t.mCachedOffset))
    (ho : 0 ≤ o) (hn : 0 < n) (hfit : o % (c : Int) + n ≤ c) (hend : InInt64 (o + n)) :
    Bounded (CacheOrReadAt R t o b p n a).index ∧
    Grows (EventOK c) t (CacheOrReadAt R t o b p n a).index ∧
    ((CacheOrReadAt R t o b p n a).index.mCachedBytes ≠ 0 →
      (CacheOrReadAt R t o b p n a).index.mCachedOffset = t.mCachedOffset ∨
      (t.mCachedBytes = 0 ∧ (CacheOrReadAt R t o b p n a).index.mCachedOffset = o)) := by
  have hb := emod_bounds o C.cap_pos
  have hcap := C.cap_u32
  rw [hc] at hb hcap
  unfold InUInt32 at hcap
  have hidx := Bounded_IndexInCache C o
  rw [hc] at hidx
  have h435 : uint32_t (t.IndexInCache o + n) ≤ t.mCacheBlockSize := by
    rw [hidx, hc]
    unfold uint32_t
    omega
  obtain ⟨s1, s2, m1, m2, q1, q2, g1, g2, hX⟩ := CacheOrReadAt_branches R t o b p n a
    (EventOK c) ⟨ho, hn, hfit⟩ (Or.inl ⟨hn, h435⟩) trivial trivial
  have hi : int64_t (o + n) = o + n := int64_t_eq hend
  rw [hi] at hX
  have hfb : ∀ (u : MediaResourceIndex ρ), SameMembers t u → Grows (EventOK c) t u →
      Bounded (CacheOrReadAt_fallback R u o b p n a).index ∧
      Grows (EventOK c) t (CacheOrReadAt_fallback R u o b p n a).index ∧
      ((CacheOrReadAt_fallback R u o b p n a).index.mCachedBytes ≠ 0 →
        (CacheOrReadAt_fallback R u o b p n a).index.mCachedOffset = t.mCachedOffset ∨
        (t.mCachedBytes = 0 ∧
          (CacheOrReadAt_fallback R u o b p n a).index.mCachedOffset = o)) := by
    intro u mu Gu
    obtain ⟨_, _, f3, _⟩ := CacheOrReadAt_fallback_eq R u o b p n a
    rw [f3]
    have hm := SameMembers_trans mu (UncachedReadAt_members R u o b p n)
    exact ⟨Bounded_of_SameMembers hm C,
      Grows_UncachedReadAt R (fun _ _ => trivial) o b p n trivial Gu, fun _ => Or.inl hm.2.2.1⟩
  rw [hX]
  split
  · split
    · rename_i hcov
      obtain ⟨n1, n2, n3, n4, n5⟩ := m2
      obtain ⟨r1, r2, r3⟩ := CacheOrReadAt_ranged_bounded W s2 o b p n a
        (R.GetCachedDataEnd (R.GetLength t.mResource).2 o).1 c (by rw [n2]; exact hc)
        (Bounded_of_SameMembers ⟨n1, n2, n3, n4, n5⟩ C) (by rw [n3, n4]; exact hpre) ho hn hfit
        hend (W.cached_i64 _ _) hcov
      refine ⟨r1, Grows_trans g2 r2, ?_⟩
      rw [n3, n4] at r3
      exact r3
    · exact hfb s2 m2 g2
  · exact hfb s1 m1 g1

/-- The end of `ReadAt` (lines 418-423), at the start of the last block. -/
theorem ReadAt_lastBlock_bounded {R : MediaResource ρ} (W : WellBehaved R)
    (t : MediaResourceIndex ρ) (o : Int) (b : Nat → Byte) (p n a : Nat) (l : Int) (c : Nat)
    (hc : t.mCacheBlockSize = c) (C : Bounded t) (ho : 0 ≤ o) (hn : 0 < n)
    (hend : InInt64 (o + n)) (hl1 : l % (c : Int) = 0) (hl2 : o = l) (hl3 : n ≤ c) :
    Bounded (ReadAt_lastBlock R t o b p n a l).index ∧
    Grows (EventOK c) t (ReadAt_lastBlock R t o b p n a l).index ∧
    ((ReadAt_lastBlock R t o b p n a l).index.mCachedBytes ≠ 0 →
      (ReadAt_lastBlock R t o b p n a l).index.mCachedOffset = t.mCachedOffset ∨
      (ReadAt_lastBlock R t o b p n a l).index.mCachedOffset = l) := by
  unfold ReadAt_lastBlock
  have e1 : MOZ_ASSERT 419 (decide (o = l)) t = t := MOZ_ASSERT_of 419 t hl2
  simp only [e1]
  have e2 : MOZ_ASSERT 420 (decide (n ≤ t.mCacheBlockSize)) t = t :=
    MOZ_ASSERT_of 420 t (by rw [hc]; exact hl3)
  simp only [e2]
  obtain ⟨r1, r2, r3⟩ := CacheOrReadAt_bounded W { t with mCachedBytes := 0 } o b p n a c hc
    (Bounded_invalidate C rfl rfl rfl rfl) (Or.inl rfl) ho hn
    (by rw [hl2, hl1]; omega) hend
  refine ⟨r1, Grows_trans (Grows_same rfl (Grows_refl _ t)) r2, fun h => ?_⟩
  rcases r3 h with h1 | ⟨_, h1⟩
  · exact Or.inl h1
  · exact Or.inr (h1.trans hl2)

/-- Lines 368-423 of `ReadAt`, entered at or before the start of the last
block. -/
theorem ReadAt_beforeLastBlock_bounded {R : MediaResource ρ} (W : WellBehaved R)
    (t : MediaResourceIndex ρ) (o : Int) (b : Nat → Byte) (p n a : Nat) (l : Int) (c : Nat)
    (hc : t.mCacheBlockSize = c) (C : Bounded t) (ho : 0 ≤ o) (hn : 0 < n)
    (hnu : InUInt32 n) (hend : InInt64 (o + n)) (hl1 : l % (c : Int) = 0) (hl2 : o ≤ l)
    (hl3 : l < o + n) (hl4 : o + n ≤ l + c) :
    Bounded (ReadAt_beforeLastBlock R t o b p n a l).index ∧
    Grows (EventOK c) t (ReadAt_beforeLastBlock R t o b p n a l).index ∧
    ((ReadAt_beforeLastBlock R t o b p n a l).index.mCachedBytes ≠ 0 →
      (ReadAt_beforeLastBlock R t o b p n a l).index.mCachedOffset = t.mCachedOffset ∨
      (ReadAt_beforeLastBlock R t o b p n a l).index.mCachedOffset = l) := by
  unfold InUInt32 at hnu
  have hend' := hend
  unfold InInt64 at hend'
  unfold ReadAt_beforeLastBlock
  by_cases hlt : o < l
  · simp only [hlt, if_true]
    obtain ⟨T, hT, hT1⟩ : ∃ T : Nat, uint32_t (int64_t (l - o)) = T ∧ (T : Int) = l - o := by
      refine ⟨_, rfl, ?_⟩
      unfold uint32_t int64_t; omega
    simp only [hT]
    have e1 : MOZ_ASSERT 375 (decide (T > 0)) t = t := MOZ_ASSERT_of 375 t (by omega)
    simp only [e1]
    have e2 : MOZ_ASSERT 376 (decide (T < n)) t = t := MOZ_ASSERT_of 376 t (by omega)
    simp only [e2]
    have hm := UncachedReadAt_members R t o b p T
    have hle := UncachedReadAt_le R W.read_le t o b p T (by unfold InUInt32; omega)
    have hG : Grows (EventOK c) t (UncachedReadAt R t o b p T).index :=
      Grows_UncachedReadAt R (fun _ _ => trivial) o b p T trivial (Grows_refl _ t)
    have hstay : Bounded (UncachedReadAt R t o b p T).index ∧
        Grows (EventOK c) t (UncachedReadAt R t o b p T).index ∧
        ((UncachedReadAt R t o b p T).index.mCachedBytes ≠ 0 →
          (UncachedReadAt R t o b p T).index.mCachedOffset = t.mCachedOffset ∨
          (UncachedReadAt R t o b p T).index.mCachedOffset = l) :=
      ⟨Bounded_of_SameMembers hm C, hG, fun _ => Or.inl hm.2.2.1⟩
    generalize UncachedReadAt R t o b p T = U at hm hle hG hstay ⊢
    split
    · exact hstay
    · split
      · exact hstay
      · split
        · exact hstay
        · rename_i h1 h2 h3
          have hfull : U.aBytes = T := by omega
          have e3 : int64_t (o + (U.aBytes : Int)) = l := by
            rw [hfull]; unfold int64_t; omega
          have e4 : uint32_t ((n : Int) - (U.aBytes : Int)) = n - T := by
            rw [hfull]; unfold uint32_t; omega
          simp only [e3, e4]
          obtain ⟨r1, r2, r3⟩ := ReadAt_lastBlock_bounded W U.index l U.aBuffer (p + U.aBytes)
            (n - T) (uint32_t ((a : Int) + (U.aBytes : Int))) l c (by rw [hm.2.1]; exact hc)
            (Bounded_of_SameMembers hm C) (by omega) (by omega)
            (by unfold InInt64; omega) hl1 rfl (by omega)
          refine ⟨r1, Grows_trans hG r2, fun h => ?_⟩
          rcases r3 h with h4 | h4
          · exact Or.inl (h4.trans hm.2.2.1)
          · exact Or.inr h4
  · simp only [hlt, if_false]
    exact ReadAt_lastBlock_bounded W t o b p n a l c hc C ho hn hend hl1 (by omega) (by omega)

/-- Lines 349-359 of `ReadAt`, entered at the end of a cached range that is not
empty.  The assertion of line 353 is the one that may fail, when
`lastBlockOffset + mCacheBlockSize` is no `int64_t`. -/
theorem ReadAt_afterCache_bounded {R : MediaResource ρ} (W : WellBehaved R)
    (t : MediaResourceIndex ρ) (o : Int) (b : Nat → Byte) (p n a : Nat) (E l : Int) (c : Nat)
    (hc : t.mCacheBlockSize = c) (C : Bounded t) (hk : t.mCachedBytes ≠ 0)
    (hoe : o = t.mCachedOffset + t.mCachedBytes) (hn : 0 < n) (hnu : InUInt32 n)
    (hend : InInt64 (o + n)) (hl1 : l % (c : Int) = 0) (hl3 : l < o + n)
    (hl4 : o + n ≤ l + c) :
    Bounded (ReadAt_afterCache R t o b p n a E l).index ∧
    Grows (EventOK c) t (ReadAt_afterCache R t o b p n a E l).index ∧
    ((ReadAt_afterCache R t o b p n a E l).index.mCachedBytes ≠ 0 →
      (ReadAt_afterCache R t o b p n a E l).index.mCachedOffset = t.mCachedOffset ∨
      ((ReadAt_afterCache R t o b p n a E l).index.mCachedOffset = l ∧ o ≤ l)) := by
  have hnn := C.off_nonneg
  have hei := C.end_i64
  have hbl := C.in_block hk
  have hcp := C.cap_pos
  rw [hc] at hbl hcp
  have hend' := hend
  unfold InInt64 at hend' hei
  have ho : 0 ≤ o := by omega
  have e1 : int64_t (o - 1) = o - 1 := by unfold int64_t; omega
  unfold ReadAt_afterCache
  simp only [e1]
  by_cases htop : o - 1 ≥ l
  · simp only [htop, if_true]
    have e2 : MOZ_ASSERT 352 (decide (o = int64_t (t.mCachedOffset + t.mCachedBytes))) t = t :=
      MOZ_ASSERT_of 352 t (by rw [hoe]; unfold int64_t; omega)
    simp only [e2]
    have hG : Grows (EventOK c) t
        (MOZ_ASSERT 353 (decide (E ≤ int64_t (l + t.mCacheBlockSize))) t) :=
      Grows_MOZ_ASSERT 353 _ rfl (Grows_refl _ t)
    have hm := SameMembers_MOZ_ASSERT 353 (decide (E ≤ int64_t (l + t.mCacheBlockSize))) t
    generalize MOZ_ASSERT 353 (decide (E ≤ int64_t (l + t.mCacheBlockSize))) t = u at hG hm ⊢
    obtain ⟨n1, n2, n3, n4, n5⟩ := hm
    have hbB := emod_bounds t.mCachedOffset hcp
    have hA : (o - 1) - (o - 1) % (c : Int) = t.mCachedOffset - t.mCachedOffset % (c : Int) :=
      alignDown_eq (alignDown_emod t.mCachedOffset c) (by omega) (by omega)
    have hL : (o - 1) - (o - 1) % (c : Int) = l := alignDown_eq hl1 (by omega) (by omega)
    have hpos : o % (c : Int) = o - l := emod_of_block hl1 (by omega) (by omega)
    obtain ⟨r1, r2, r3⟩ := CacheOrReadAt_bounded W u o b p n a c (by rw [n2]; exact hc)
      (Bounded_of_SameMembers ⟨n1, n2, n3, n4, n5⟩ C)
      (Or.inr ⟨by rw [n3, n4]; exact hoe.symm, by rw [n3]; omega⟩) ho hn (by omega) hend
    refine ⟨r1, Grows_trans hG r2, fun h => ?_⟩
    rcases r3 h with h1 | ⟨h1, _⟩
    · exact Or.inl (h1.trans n3)
    · rw [n4] at h1
      exact absurd h1 hk
  · simp only [htop, if_false]
    have e2 : MOZ_ASSERT 358 (decide (o ≤ l)) t = t := MOZ_ASSERT_of 358 t (by omega)
    simp only [e2]
    obtain ⟨r1, r2, r3⟩ := ReadAt_beforeLastBlock_bounded W t o b p n a l c hc C ho hn hnu hend
      hl1 (by omega) hl3 hl4
    refine ⟨r1, r2, fun h => ?_⟩
    rcases r3 h with h1 | h1
    · exact Or.inl h1
    · exact Or.inr ⟨h1, by omega⟩

/-- Lines 312-359 of `ReadAt`, entered inside a cached range that is not empty
or at its end. -/
theorem ReadAt_fromCache_bounded {R : MediaResource ρ} (W : WellBehaved R)
    (t : MediaResourceIndex ρ) (o : Int) (b : Nat → Byte) (p n a : Nat) (E l : Int) (c : Nat)
    (hc : t.mCacheBlockSize = c) (C : Bounded t) (hk : t.mCachedBytes ≠ 0)
    (h1 : t.mCachedOffset ≤ o) (h2 : o ≤ t.mCachedOffset + t.mCachedBytes) (hn : 0 < n)
    (hnu : InUInt32 n) (hend : InInt64 (o + n)) (hl1 : l % (c : Int) = 0) (hl3 : l < o + n)
    (hl4 : o + n ≤ l + c) :
    Bounded (ReadAt_fromCache R t o b p n a E l).index ∧
    Grows (EventOK c) t (ReadAt_fromCache R t o b p n a E l).index ∧
    ((ReadAt_fromCache R t o b p n a E l).index.mCachedBytes ≠ 0 →
      (ReadAt_fromCache R t o b p n a E l).index.mCachedOffset = t.mCachedOffset ∨
      ((ReadAt_fromCache R t o b p n a E l).index.mCachedOffset = l ∧ o ≤ l)) := by
  have hnn := C.off_nonneg
  have hei := C.end_i64
  have hbl := C.in_block hk
  have hcp := C.cap_pos
  have hcu := C.cap_u32
  have hbB := emod_bounds t.mCachedOffset hcp
  unfold InUInt32 at hnu hcu
  have hend' := hend
  unfold InInt64 at hend' hei
  unfold ReadAt_fromCache
  have e1 : MOZ_ASSERT 312 (decide (o ≥ t.mCachedOffset)) t = t := MOZ_ASSERT_of 312 t h1
  simp only [e1]
  obtain ⟨K, hK, hK1⟩ : ∃ K : Nat,
      uint32_t (int64_t (int64_t (t.mCachedOffset + t.mCachedBytes) - o)) = K ∧
      (K : Int) = t.mCachedOffset + t.mCachedBytes - o := by
    refine ⟨_, rfl, ?_⟩
    unfold uint32_t int64_t; omega
  simp only [hK]
  by_cases hz : min n K = 0
  · have hK0 : K = 0 := by omega
    simp only [hz, ne_eq, not_true_eq_false, if_false]
    exact ReadAt_afterCache_bounded W t o b p n a E l c hc C hk (by omega) hn
      (by unfold InUInt32; omega) hend hl1 hl3 hl4
  · simp only [hz, ne_eq, not_false_eq_true, if_true]
    have e2 : uint32_t ((n : Int) - ((min n K : Nat) : Int)) = n - min n K := by
      unfold uint32_t; omega
    simp only [e2]
    by_cases hd : n - min n K = 0
    · simp only [hd, if_true]
      exact ⟨C, Grows_refl _ t, fun _ => Or.inl trivial⟩
    · simp only [hd, if_false]
      have hmin : min n K = K := by omega
      have e3 : int64_t (o + ((min n K : Nat) : Int)) = o + K := by
        rw [hmin]; unfold int64_t; omega
      simp only [e3]
      rw [hmin]
      obtain ⟨r1, r2, r3⟩ := ReadAt_afterCache_bounded W t (o + K) _ (p + K) (n - K) _ E l c hc
        C hk (by omega) (by omega) (by unfold InUInt32; omega) (by unfold InInt64; omega) hl1
        (by omega) (by omega)
      refine ⟨r1, r2, fun h => ?_⟩
      rcases r3 h with h1 | h1
      · exact Or.inl h1
      · exact Or.inr ⟨h1.1, by omega⟩

/-- `ReadAt` with arguments of the C++ types keeps the cache bounds on a
well-behaved resource; its events are as they have to be; and a cached range
that is not empty afterwards starts where it started before, or at the offset
of the request when that lies in the last block of the request, or else at
the start of that block. -/
theorem ReadAt_bounded {R : MediaResource ρ} (W : WellBehaved R) (t : MediaResourceIndex ρ)
    (o : Int) (b : Nat → Byte) (p n : Nat) (c : Nat) (hc : t.mCacheBlockSize = c)
    (C : Bounded t) (ho : InInt64 o) (hnu : InUInt32 n) :
    Bounded (ReadAt R t o b p n).index ∧
    Grows (EventOK c) t (ReadAt R t o b p n).index ∧
    ((ReadAt R t o b p n).index.mCachedBytes ≠ 0 →
      (ReadAt R t o b p n).index.mCachedOffset = t.mCachedOffset ∨
      (o + n - 1 - (o + n - 1) % (c : Int) ≤ o ∧
        (ReadAt R t o b p n).index.mCachedOffset = o) ∨
      (o < o + n - 1 - (o + n - 1) % (c : Int) ∧
        (ReadAt R t o b p n).index.mCachedOffset = o + n - 1 - (o + n - 1) % (c : Int) ∧
        (ReadAt R t o b p n).index.mCachedOffset % (c : Int) = 0)) := by
  have hnn := C.off_nonneg
  have hei := C.end_i64
  have hcp := C.cap_pos
  have hcu := C.cap_u32
  have hc0 : t.mCacheBlockSize ≠ 0 := by omega
  rw [hc] at hcp hcu
  have hnu' := hnu
  unfold InUInt32 at hnu' hcu
  have ho' := ho
  unfold InInt64 at ho' hei
  have hstay : Bounded t ∧ Grows (EventOK c) t t ∧
      (t.mCachedBytes ≠ 0 → t.mCachedOffset = t.mCachedOffset ∨
        (o + n - 1 - (o + n - 1) % (c : Int) ≤ o ∧ t.mCachedOffset = o) ∨
        (o < o + n - 1 - (o + n - 1) % (c : Int) ∧
          t.mCachedOffset = o + n - 1 - (o + n - 1) % (c : Int) ∧
          t.mCachedOffset % (c : Int) = 0)) :=
    ⟨C, Grows_refl _ t, fun _ => Or.inl rfl⟩
  unfold ReadAt
  rw [if_neg hc0]
  by_cases hz : n = 0
  · rw [if_pos hz]
    exact hstay
  · rw [if_neg hz]
    simp only []
    by_cases hv : o < 0 ∨ int64_t (o + n) < o
    · rw [if_pos hv]
      exact hstay
    · rw [if_neg hv]
      have hE : int64_t (o + n) = o + n := by
        unfold int64_t at hv ⊢; omega
      have hend : InInt64 (o + n) := by
        unfold InInt64; unfold int64_t at hv; omega
      have hend' := hend
      unfold InInt64 at hend'
      have hE1 : int64_t (o + n - 1) = o + n - 1 := by unfold int64_t; omega
      have hbE := emod_bounds (o + n - 1) hcp
      obtain ⟨l, hl, hl1, hl3, hl4, hl5⟩ : ∃ l : Int,
          t.CacheOffsetContaining (o + n - 1) = l ∧ l % (c : Int) = 0 ∧ l < o + n ∧
          o + n ≤ l + c ∧ l = o + n - 1 - (o + n - 1) % (c : Int) := by
        refine ⟨_, rfl, ?_, ?_, ?_, ?_⟩
        · unfold CacheOffsetContaining; rw [hc]; exact alignDown_emod _ _
        · unfold CacheOffsetContaining; rw [hc]; omega
        · unfold CacheOffsetContaining; rw [hc]; omega
        · unfold CacheOffsetContaining; rw [hc]
      simp only [hE, hE1, hl]
      have hBE : int64_t (t.mCachedOffset + t.mCachedBytes) =
          t.mCachedOffset + t.mCachedBytes := by unfold int64_t; omega
      simp only [hBE]
      by_cases hcond : t.mCachedBytes ≠ 0 ∧ t.mCachedOffset + t.mCachedBytes ≥ o ∧
          t.mCachedOffset < o + n
      · rw [if_pos hcond]
        obtain ⟨hk, hc1, hc2⟩ := hcond
        by_cases hgap : o < t.mCachedOffset
        · rw [if_pos hgap]
          obtain ⟨T, hT, hT1⟩ : ∃ T : Nat, uint32_t (int64_t (t.mCachedOffset - o)) = T ∧
              (T : Int) = t.mCachedOffset - o := by
            refine ⟨_, rfl, ?_⟩
            unfold uint32_t int64_t; omega
          simp only [hT]
          have e1 : MOZ_ASSERT 275 (decide (T > 0)) t = t := MOZ_ASSERT_of 275 t (by omega)
          simp only [e1]
          have e2 : MOZ_ASSERT 276 (decide (T < n)) t = t := MOZ_ASSERT_of 276 t (by omega)
          simp only [e2]
          have hm := UncachedReadAt_members R t o b p T
          have hle := UncachedReadAt_le R W.read_le t o b p T (by unfold InUInt32; omega)
          have hG : Grows (EventOK c) t (UncachedReadAt R t o b p T).index :=
            Grows_UncachedReadAt R (fun _ _ => trivial) o b p T trivial (Grows_refl _ t)
          generalize UncachedReadAt R t o b p T = U at hm hle hG ⊢
          have hstayU : Bounded U.index ∧ Grows (EventOK c) t U.index ∧
              (U.index.mCachedBytes ≠ 0 → U.index.mCachedOffset = t.mCachedOffset ∨
                (o + n - 1 - (o + n - 1) % (c : Int) ≤ o ∧ U.index.mCachedOffset = o) ∨
                (o < o + n - 1 - (o + n - 1) % (c : Int) ∧
                  U.index.mCachedOffset = o + n - 1 - (o + n - 1) % (c : Int) ∧
                  U.index.mCachedOffset % (c : Int) = 0)) :=
            ⟨Bounded_of_SameMembers hm C, hG, fun _ => Or.inl hm.2.2.1⟩
          split
          · exact hstayU
          · split
            · exact hstayU
            · rename_i h1 h2
              have hfull : U.aBytes = T := by omega
              have e3 : int64_t (o + (U.aBytes : Int)) = t.mCachedOffset := by
                rw [hfull]; unfold int64_t; omega
              have e4 : uint32_t ((n : Int) - (U.aBytes : Int)) = n - T := by
                rw [hfull]; unfold uint32_t; omega
              simp only [e3, e4]
              have e5 : MOZ_ASSERT 310 (decide (t.mCachedOffset = U.index.mCachedOffset))
                  U.index = U.index := MOZ_ASSERT_of 310 U.index hm.2.2.1.symm
              simp only [e5]
              obtain ⟨r1, r2, r3⟩ := ReadAt_fromCache_bounded W U.index t.mCachedOffset
                U.aBuffer (p + U.aBytes) (n - T) U.aBytes (o + n) l c
                (by rw [hm.2.1]; exact hc) (Bounded_of_SameMembers hm C)
                (by rw [hm.2.2.2.1]; exact hk) (by rw [hm.2.2.1])
                (by rw [hm.2.2.1, hm.2.2.2.1]; omega) (by omega) (by unfold InUInt32; omega)
                (by unfold InInt64; omega) hl1 (by omega) (by omega)
              refine ⟨r1, Grows_trans hG r2, fun h => ?_⟩
              rcases r3 h with h4 | ⟨h4, h5⟩
              · exact Or.inl (h4.trans hm.2.2.1)
              · exact Or.inr (Or.inr ⟨by omega, h4.trans hl5, by rw [h4]; exact hl1⟩)
        · rw [if_neg hgap]
          obtain ⟨r1, r2, r3⟩ := ReadAt_fromCache_bounded W t o b p n 0 (o + n) l c hc C hk
            (by omega) (by omega) (by omega) hnu hend hl1 hl3 hl4
          refine ⟨r1, r2, fun h => ?_⟩
          rcases r3 h with h4 | ⟨h4, h5⟩
          · exact Or.inl h4
          · by_cases h6 : o < l
            · exact Or.inr (Or.inr ⟨by omega, h4.trans hl5, by rw [h4]; exact hl1⟩)
            · exact Or.inr (Or.inl ⟨by omega, by omega⟩)
      · rw [if_neg hcond]
        by_cases hlast : o ≥ l
        · rw [if_pos hlast]
          have hpos : o % (c : Int) = o - l := emod_of_block hl1 hlast (by omega)
          obtain ⟨r1, r2, r3⟩ := CacheOrReadAt_bounded W { t with mCachedBytes := 0 } o b p n 0
            c hc (Bounded_invalidate C rfl rfl rfl rfl) (Or.inl rfl) (by omega) (by omega)
            (by omega) hend
          refine ⟨r1, Grows_trans (Grows_same rfl (Grows_refl _ t)) r2, fun h => ?_⟩
          rcases r3 h with h4 | ⟨_, h4⟩
          · exact Or.inl h4
          · exact Or.inr (Or.inl ⟨by omega, h4⟩)
        · rw [if_neg hlast]
          obtain ⟨r1, r2, r3⟩ := ReadAt_beforeLastBlock_bounded W t o b p n 0 l c hc C
            (by omega) (by omega) hnu hend hl1 (by omega) hl3 hl4
          refine ⟨r1, r2, fun h => ?_⟩
          rcases r3 h with h4 | h4
          · exact Or.inl h4
          · exact Or.inr (Or.inr ⟨by omega, h4.trans hl5, by rw [h4]; exact hl1⟩)

theorem Sound_of_Grows {c : Nat} {t u : MediaResourceIndex ρ} (S : Sound c t)
    (hb : Bounded u) (hc : u.mCacheBlockSize = c) (hg : Grows (EventOK c) t u) :
    Sound c u := by
  obtain ⟨d, hd, pd⟩ := hg
  refine ⟨hb, hc, ?_⟩
  intro e he
  rw [hd] at he
  rcases List.mem_append.mp he with h | h
  · exact S.2.2 e h
  · exact pd e h

theorem Bounded_cursor {t u : MediaResourceIndex ρ} (C : Bounded t)
    (h1 : u.mCacheBlockSize = t.mCacheBlockSize) (h3 : u.mCachedOffset = t.mCachedOffset)
    (h4 : u.mCachedBytes = t.mCachedBytes) (h2 : InInt64 u.mOffset) : Bounded u := by
  constructor
  · rw [h1]; exact C.cap_pos
  · rw [h1]; exact C.cap_u32
  · exact h2
  · rw [h3]; exact C.off_nonneg
  · rw [h3, h4]; exact C.end_i64
  · rw [h1, h3, h4]; exact C.in_block

theorem Sound_init (c : Nat) (r0 : ρ) (hc : 0 < c) (hc2 : InUInt32 c) :
    Sound c (init c r0) := by
  refine ⟨⟨hc, hc2, ?_, Int.le_refl 0, ?_, fun h => absurd rfl h⟩, rfl, ?_⟩
  · unfold InInt64; simp [init]
  · unfold InInt64; simp [init]
  · intro e he
    simp [init] at he

theorem ReadAt_sound {R : MediaResource ρ} (W : WellBehaved R) {c : Nat}
    (t : MediaResourceIndex ρ) (o : Int) (b : Nat → Byte) (p n : Nat) (S : Sound c t)
    (ho : InInt64 o) (hn : InUInt32 n) : Sound c (ReadAt R t o b p n).index := by
  obtain ⟨r1, r2, _⟩ := ReadAt_bounded W t o b p n c S.2.1 S.1 ho hn
  exact Sound_of_Grows S r1 (by rw [ReadAt_mCacheBlockSize]; exact S.2.1) r2

theorem Read_sound {R : MediaResource ρ} (W : WellBehaved R) {c : Nat}
    (t : MediaResourceIndex ρ) (b : Nat → Byte) (p n : Nat) (S : Sound c t)
    (hn : InUInt32 n) : Sound c (Read R t b p n).index := by
  have SR := ReadAt_sound W t t.mOffset b p n S S.1.cursor_i64 hn
  unfold Read
  simp only []
  split
  · exact SR
  · refine ⟨Bounded_cursor SR.1 rfl rfl rfl ?_, SR.2.1, SR.2.2⟩
    simp only []
    split
    · decide
    · exact InInt64_int64_t _

theorem Seek_sound {R : MediaResource ρ} {c : Nat} (t : MediaResourceIndex ρ) (w o : Int)
    (S : Sound c t) (ho : InInt64 o) : Sound c (Seek R t w o).2 := by
  have hG : Sound c (mResource_GetLength R t).2 :=
    Sound_of_Grows S (Bounded_of_SameMembers (SameMembers_mResource_GetLength R t) S.1) S.2.1
      ⟨[Event.ResourceGetLength], rfl, by intro e he; simp at he; rw [he]; trivial⟩
  have hG2 : Sound c (mResource_GetLength R (mResource_GetLength R t).2).2 :=
    Sound_of_Grows hG (Bounded_of_SameMembers (SameMembers_mResource_GetLength R _) hG.1) hG.2.1
      ⟨[Event.ResourceGetLength], rfl, by intro e he; simp at he; rw [he]; trivial⟩
  have hcur : ∀ (u : MediaResourceIndex ρ) (x : Int), Sound c u → InInt64 x →
      Sound c { u with mOffset := x } :=
    fun u x Su hx => ⟨Bounded_cursor Su.1 rfl rfl rfl hx, Su.2.1, Su.2.2⟩
  unfold Seek
  simp only [Seek_finish_eq]
  repeat' split
  all_goals first
    | exact S
    | exact hG
    | exact hG2
    | exact hcur _ _ S ho
    | exact hcur _ _ S (InInt64_int64_t _)
    | exact hcur _ _ hG2 (InInt64_int64_t _)

/-- Every state the index can be in, on a well-behaved resource with a capacity
that is a positive `uint32_t`, is sound. -/
theorem Reachable_sound {R : MediaResource ρ} (W : WellBehaved R) {c : Nat} {r0 : ρ}
    (hc : 0 < c) (hc2 : InUInt32 c) {t : MediaResourceIndex ρ} (h : Reachable R c r0 t) :
    Sound c t := by
  induction h with
  | init => exact Sound_init c r0 hc hc2
  | Read t b p n _ hn ih => exact Read_sound W t b p n ih hn
  | ReadAt t o b p n _ ho hn ih => exact ReadAt_sound W t o b p n ih ho hn
  | Seek t w o _ ho ih => exact Seek_sound t w o ih ho

theorem streamResource_wellBehaved : WellBehaved streamResource where
  read_le := by
    intro r o n
    simp [streamResource]
  cached_i64 := by
    intro r o
    show InInt64 9223372036854775807
    decide

theorem steadyResource_wellBehaved (cde : Int) (h : InInt64 cde) :
    WellBehaved (steadyResource cde) where
  read_le := by
    intro r o n
    simp [steadyResource]
  cached_i64 := fun _ _ => h

/-- C13 as stated fails: with a 16-byte block, `ReadAt(20, buf, 4)` from the
initial, empty cache (`mCachedOffset + mCachedBytes = 0`, not the offset 20, so
the fill is a fresh one, lines 495-510) leaves the cache at `[20, 32)`: not
empty, and `mCachedOffset = 20` is not a multiple of 16. -/
theorem fresh_fill_unaligned :
    Reachable streamResource 16 ()
      (ReadAt streamResource (init 16 ()) 20 blankBuffer 0 4).index ∧
    (init 16 ()).mCachedBytes = 0 ∧
    int64_t ((init 16 ()).mCachedOffset + (0 : Nat)) ≠ 20 ∧
    (ReadAt streamResource (init 16 ()) 20 blankBuffer 0 4).index.trace =
      [Event.CacheOrReadAt 20 4, Event.ResourceGetLength, Event.ResourceGetCachedDataEnd 20,
        Event.UncachedRangedReadAt 20 4 8, Event.ResourceReadAt 20 12] ∧
    (ReadAt streamResource (init 16 ()) 20 blankBuffer 0 4).index.mCachedBytes = 12 ∧
    (ReadAt streamResource (init 16 ()) 20 blankBuffer 0 4).index.mCachedOffset = 20 ∧
    (ReadAt streamResource (init 16 ()) 20 blankBuffer 0 4).index.mCachedOffset % 16 = 4 :=
  ⟨Reachable.ReadAt _ 20 blankBuffer 0 4 Reachable.init (by decide) (by decide), rfl,
    by decide, by decide, by decide, by decide, by decide⟩

/-- C13, amended: where a fill starts.  For a capacity `c` that is a positive
`uint32_t`, a well-behaved resource, a reachable state and a `ReadAt(aOffset,
buf, aCount)` with arguments of the C++ types: a cached range that is not empty
lies inside one capacity-aligned block, before the call and after it, and if
the cache is not empty after the call, `mCachedOffset` is what it was before
the call (the cache was kept or topped up), or it is the start of a fresh
fill: `aOffset` itself when the request starts inside its last block
(`lastBlockOffset ≤ aOffset`; not a multiple of the capacity in general), and
otherwise (`aOffset < lastBlockOffset`) `lastBlockOffset`, a multiple of the
capacity. -/
theorem ReadAt_fill_offset {R : MediaResource ρ} (W : WellBehaved R) {c : Nat} {r0 : ρ}
    (hc : 0 < c) (hc2 : InUInt32 c) {t : MediaResourceIndex ρ} (h : Reachable R c r0 t)
    (o : Int) (b : Nat → Byte) (p n : Nat) (ho : InInt64 o) (hn : InUInt32 n)
    (hk : (ReadAt R t o b p n).index.mCachedBytes ≠ 0) :
    (t.mCachedBytes ≠ 0 → t.mCachedOffset % (c : Int) + t.mCachedBytes ≤ c) ∧
    (ReadAt R t o b p n).index.mCachedOffset % (c : Int) +
      (ReadAt R t o b p n).index.mCachedBytes ≤ c ∧
    ((ReadAt R t o b p n).index.mCachedOffset = t.mCachedOffset ∨
      (t.CacheOffsetContaining (o + n - 1) ≤ o ∧
        (ReadAt R t o b p n).index.mCachedOffset = o) ∨
      (o < t.CacheOffsetContaining (o + n - 1) ∧
        (ReadAt R t o b p n).index.mCachedOffset = t.CacheOffsetContaining (o + n - 1) ∧
        (ReadAt R t o b p n).index.mCachedOffset % (c : Int) = 0)) := by
  obtain ⟨B, hcap, _⟩ := Reachable_sound W hc hc2 h
  obtain ⟨r1, _, r3⟩ := ReadAt_bounded W t o b p n c hcap B ho hn
  refine ⟨?_, ?_, ?_⟩
  · intro hk0
    have := B.in_block hk0
    rw [hcap] at this
    exact this
  · have := r1.in_block hk
    rw [ReadAt_mCacheBlockSize, hcap] at this
    exact this
  · unfold CacheOffsetContaining
    rw [hcap]
    exact r3 hk

/-- Claim C13 (amended) from the initial state with a 16-byte block: the fill
of `ReadAt(20, buf, 4)`, a request inside one block, starts at the offset 20 of
the request; the fill of `ReadAt(10, buf, 10)`, a request that starts before its
last block, starts at the start 16 of that block. -/
theorem ReadAt_fill_offset_witness :
    (WellBehaved streamResource ∧ 0 < 16 ∧ InUInt32 16 ∧
      Reachable streamResource 16 () (init 16 ()) ∧ InInt64 20 ∧ InUInt32 4 ∧
      (ReadAt streamResource (init 16 ()) 20 blankBuffer 0 4).index.mCachedBytes ≠ 0) ∧
    (ReadAt streamResource (init 16 ()) 20 blankBuffer 0 4).index.mCachedOffset %
        ((16 : Nat) : Int) +
      (ReadAt streamResource (init 16 ()) 20 blankBuffer 0 4).index.mCachedBytes ≤
        ((16 : Nat) : Int) ∧
    (init 16 ()).CacheOffsetContaining (20 + (4 : Nat) - 1) = 16 ∧
    (ReadAt streamResource (init 16 ()) 20 blankBuffer 0 4).index.mCachedOffset = 20 ∧
    (init 16 ()).CacheOffsetContaining (10 + (10 : Nat) - 1) = 16 ∧
    (ReadAt streamResource (init 16 ()) 10 blankBuffer 0 10).index.mCachedBytes = 16 ∧
    (ReadAt streamResource (init 16 ()) 10 blankBuffer 0 10).index.mCachedOffset = 16 :=
  have hk : (ReadAt streamResource (init 16 ()) 20 blankBuffer 0 4).index.mCachedBytes ≠ 0 := by
    decide
  have h := ReadAt_fill_offset streamResource_wellBehaved (by decide) (by decide)
    Reachable.init 20 blankBuffer 0 4 (by decide) (by decide) hk
  ⟨⟨streamResource_wellBehaved, by decide, by decide, Reachable.init, by decide, by decide, hk⟩,
    h.2.1, by decide, by decide, by decide, by decide, by decide⟩

/-- C14 fails at line 353: with a 16-byte block, on a resource that hands back
every byte asked for and reports `2^63 - 10` as its cached-data end, after
`ReadAt(2^63 - 12, buf, 2)` (cache `[2^63 - 12, 2^63 - 10)`) the request
`ReadAt(2^63 - 10, buf, 4)` goes to the top-up of line 354 with
`lastBlockOffset = 2^63 - 16`.  The call is as it has to be (`aCount = 4 > 0`,
`IndexInCache(aOffset) + aCount = 10 ≤ 16`, `aOffset` is the end of the cached
range), but the assertion `endOffset <= lastBlockOffset + mCacheBlockSize` of
line 353 computes `2^63`, which is no `int64_t`: in wraparound arithmetic the
sum is `-2^63` and the assertion fails. -/
theorem ReadAt_assertion_353 :
    WellBehaved (steadyResource 9223372036854775798) ∧
    Reachable (steadyResource 9223372036854775798) 16 ()
      (ReadAt (steadyResource 9223372036854775798) (init 16 ()) 9223372036854775796
        blankBuffer 0 2).index ∧
    InInt64 9223372036854775798 ∧ InUInt32 4 ∧ InInt64 (9223372036854775798 + (4 : Nat)) ∧
    (ReadAt (steadyResource 9223372036854775798) (init 16 ()) 9223372036854775796
      blankBuffer 0 2).index.mCachedOffset = 9223372036854775796 ∧
    (ReadAt (steadyResource 9223372036854775798) (init 16 ()) 9223372036854775796
      blankBuffer 0 2).index.mCachedBytes = 2 ∧
    (ReadAt (steadyResource 9223372036854775798) (init 16 ()) 9223372036854775796
      blankBuffer 0 2).index.CacheOffsetContaining (9223372036854775798 + 4 - 1) =
      9223372036854775792 ∧
    int64_t (9223372036854775792 + (16 : Nat)) = -9223372036854775808 ∧
    newEvents
      (ReadAt (steadyResource 9223372036854775798) (init 16 ()) 9223372036854775796
        blankBuffer 0 2).index
      (ReadAt (steadyResource 9223372036854775798)
        (ReadAt (steadyResource 9223372036854775798) (init 16 ()) 9223372036854775796
          blankBuffer 0 2).index
        9223372036854775798 blankBuffer 0 4).index =
      [Event.AssertFailed 353, Event.CacheOrReadAt 9223372036854775798 4,
        Event.ResourceGetLength, Event.ResourceGetCachedDataEnd 9223372036854775798,
        Event.UncachedReadAt 9223372036854775798 4,
        Event.ResourceReadAt 9223372036854775798 4] :=
  ⟨steadyResource_wellBehaved _ (by decide),
    Reachable.ReadAt _ 9223372036854775796 blankBuffer 0 2 Reachable.init (by decide)
      (by decide),
    by decide, by decide, by decide, by decide, by decide, by decide, by decide, by decide⟩

/-- What holds of claim C14: on a well-behaved resource, in every reachable
state, every entry into `CacheOrReadAt` so far had a count above 0 that fits
into the block of its offset, and no assertion other than the one of line 353
has failed (so `aOffset` was the end of the cached range at every top-up, line
352, and `toRead ≥ aCount` at every ranged read, line 454). -/
theorem Reachable_call_sites {R : MediaResource ρ} (W : WellBehaved R) {c : Nat} {r0 : ρ}
    (hc : 0 < c) (hc2 : InUInt32 c) {t : MediaResourceIndex ρ} (h : Reachable R c r0 t) :
    (∀ (o : Int) (n : Nat), Event.CacheOrReadAt o n ∈ t.trace →
      0 < n ∧ t.IndexInCache o + n ≤ c) ∧
    (∀ line : Nat, Event.AssertFailed line ∈ t.trace → line = 353) := by
  obtain ⟨B, hcap, hev⟩ := Reachable_sound W hc hc2 h
  constructor
  · intro o n hmem
    obtain ⟨ho, hn, hfit⟩ := hev _ hmem
    have hio := Bounded_IndexInCache B o
    rw [hcap] at hio
    have hbo := emod_bounds o hc
    rw [hio]
    exact ⟨hn, by omega⟩
  · intro line hmem
    exact hev _ hmem

/-! ## The calls of `CacheOrReadAt` that `ReadAt` makes -/

theorem TailCall_step {R : MediaResource ρ} {t U : MediaResourceIndex ρ} {X : Outcome ρ}
    (hm : SameMembers t U) (hG : Grows (fun e => isCacheOrReadAt e = false) t U)
    (h : TailCall R U X) : TailCall R t X := by
  rcases h with g | ⟨u, o, b, p, n, a, hX, e1, e2, e3, e4⟩
  · exact Or.inl (Grows_trans hG g)
  · refine Or.inr ⟨u, o, b, p, n, a, hX, e1.trans hm.2.1, e2.trans hm.2.2.1,
      e3.trans hm.2.2.2.2, ?_⟩
    rcases e4 with e4 | ⟨e4, e5, e6⟩
    · exact Or.inl e4
    · exact Or.inr ⟨e4.trans hm.2.2.2.1, by rw [← hm.2.2.2.1]; exact e5, e6⟩

/-- The end of `ReadAt` (lines 418-423): the cache is invalidated, then
`CacheOrReadAt` is called and its outcome returned. -/
theorem ReadAt_lastBlock_tail (R : MediaResource ρ) (t : MediaResourceIndex ρ) (o : Int)
    (b : Nat → Byte) (p n a : Nat) (l : Int) (hl2 : o = l) (hl3 : n ≤ t.mCacheBlockSize) :
    TailCall R t (ReadAt_lastBlock R t o b p n a l) := by
  unfold ReadAt_lastBlock
  have e1 : MOZ_ASSERT 419 (decide (o = l)) t = t := MOZ_ASSERT_of 419 t hl2
  simp only [e1]
  have e2 : MOZ_ASSERT 420 (decide (n ≤ t.mCacheBlockSize)) t = t := MOZ_ASSERT_of 420 t hl3
  simp only [e2]
  exact Or.inr ⟨{ t with mCachedBytes := 0 }, o, b, p, n, a, rfl, rfl, rfl, rfl, Or.inl rfl⟩

/-- Lines 368-423 of `ReadAt`, entered at or before the start of the last
block. -/
theorem ReadAt_beforeLastBlock_tail {R : MediaResource ρ} (W : WellBehaved R)
    (t : MediaResourceIndex ρ) (o : Int) (b : Nat → Byte) (p n a : Nat) (l : Int) (c : Nat)
    (hc : t.mCacheBlockSize = c) (ho : 0 ≤ o) (hn : 0 < n)
    (hnu : InUInt32 n) (hend : InInt64 (o + n)) (hl2 : o ≤ l)
    (hl3 : l < o + n) (hl4 : o + n ≤ l + c) :
    TailCall R t (ReadAt_beforeLastBlock R t o b p n a l) := by
  unfold InUInt32 at hnu
  have hend' := hend
  unfold InInt64 at hend'
  unfold ReadAt_beforeLastBlock
  by_cases hlt : o < l
  · simp only [hlt, if_true]
    obtain ⟨T, hT, hT1⟩ : ∃ T : Nat, uint32_t (int64_t (l - o)) = T ∧ (T : Int) = l - o := by
      refine ⟨_, rfl, ?_⟩
      unfold uint32_t int64_t; omega
    simp only [hT]
    have e1 : MOZ_ASSERT 375 (decide (T > 0)) t = t := MOZ_ASSERT_of 375 t (by omega)
    simp only [e1]
    have e2 : MOZ_ASSERT 376 (decide (T < n)) t = t := MOZ_ASSERT_of 376 t (by omega)
    simp only [e2]
    have hm := UncachedReadAt_members R t o b p T
    have hle := UncachedReadAt_le R W.read_le t o b p T (by unfold InUInt32; omega)
    have hG : Grows (fun e => isCacheOrReadAt e = false) t (UncachedReadAt R t o b p T).index :=
      Grows_UncachedReadAt (P := fun e => isCacheOrReadAt e = false) R (fun _ _ => rfl) o b p T
        rfl (Grows_refl _ t)
    generalize UncachedReadAt R t o b p T = U at hm hle hG ⊢
    split
    · exact Or.inl hG
    · split
      · exact Or.inl hG
      · split
        · exact Or.inl hG
        · rename_i h1 h2 h3
          have hfull : U.aBytes = T := by omega
          have e3 : int64_t (o + (U.aBytes : Int)) = l := by
            rw [hfull]; unfold int64_t; omega
          have e4 : uint32_t ((n : Int) - (U.aBytes : Int)) = n - T := by
            rw [hfull]; unfold uint32_t; omega
          simp only [e3, e4]
          exact TailCall_step hm hG (ReadAt_lastBlock_tail R U.index l U.aBuffer (p + U.aBytes)
            (n - T) (uint32_t ((a : Int) + (U.aBytes : Int))) l rfl
            (by rw [hm.2.1, hc]; omega))
  · simp only [hlt, if_false]
    exact ReadAt_lastBlock_tail R t o b p n a l (by omega) (by rw [hc]; omega)

/-- Lines 349-359 of `ReadAt`, entered at the end of a cached range that is not
empty: the top-up of line 354 is asked for at an offset in the block of the
cached range. -/
theorem ReadAt_afterCache_tail {R : MediaResource ρ} (W : WellBehaved R)
    (t : MediaResourceIndex ρ) (o : Int) (b : Nat → Byte) (p n a : Nat) (E l : Int) (c : Nat)
    (hc : t.mCacheBlockSize = c) (C : Bounded t) (hk : t.mCachedBytes ≠ 0)
    (hoe : o = t.mCachedOffset + t.mCachedBytes) (hn : 0 < n) (hnu : InUInt32 n)
    (hend : InInt64 (o + n)) (hl1 : l % (c : Int) = 0) (hl3 : l < o + n)
    (hl4 : o + n ≤ l + c) :
    TailCall R t (ReadAt_afterCache R t o b p n a E l) := by
  have hnn := C.off_nonneg
  have hei := C.end_i64
  have hbl := C.in_block hk
  have hcp := C.cap_pos
  rw [hc] at hbl hcp
  have hend' := hend
  unfold InInt64 at hend' hei
  have ho : 0 ≤ o := by omega
  have e1 : int64_t (o - 1) = o - 1 := by unfold int64_t; omega
  unfold ReadAt_afterCache
  simp only [e1]
  by_cases htop : o - 1 ≥ l
  · simp only [htop, if_true]
    have e2 : MOZ_ASSERT 352 (decide (o = int64_t (t.mCachedOffset + t.mCachedBytes))) t = t :=
      MOZ_ASSERT_of 352 t (by rw [hoe]; unfold int64_t; omega)
    simp only [e2]
    have hm := SameMembers_MOZ_ASSERT 353 (decide (E ≤ int64_t (l + t.mCacheBlockSize))) t
    generalize MOZ_ASSERT 353 (decide (E ≤ int64_t (l + t.mCacheBlockSize))) t = u at hm ⊢
    obtain ⟨n1, n2, n3, n4, n5⟩ := hm
    have hbB := emod_bounds t.mCachedOffset hcp
    have hbO := emod_bounds o hcp
    have hA : (o - 1) - (o - 1) % (c : Int) = t.mCachedOffset - t.mCachedOffset % (c : Int) :=
      alignDown_eq (alignDown_emod t.mCachedOffset c) (by omega) (by omega)
    have hL : (o - 1) - (o - 1) % (c : Int) = l := alignDown_eq hl1 (by omega) (by omega)
    have hpos : o % (c : Int) = o - l := emod_of_block hl1 (by omega) (by omega)
    have Bu : Bounded u := Bounded_of_SameMembers ⟨n1, n2, n3, n4, n5⟩ C
    refine Or.inr ⟨u, o, b, p, n, a, rfl, n2, n3, n5, Or.inr ⟨n4, hk, ?_, ?_⟩⟩
    · rw [n3, n4, hoe]; unfold int64_t; omega
    · rw [Bounded_IndexInCache Bu, Bounded_IndexInCache Bu, n2, n3, n4, hc]
      omega
  · simp only [htop, if_false]
    have e2 : MOZ_ASSERT 358 (decide (o ≤ l)) t = t := MOZ_ASSERT_of 358 t (by omega)
    simp only [e2]
    exact ReadAt_beforeLastBlock_tail W t o b p n a l c hc ho hn hnu hend (by omega) hl3 hl4

/-- Lines 312-359 of `ReadAt`, entered inside a cached range that is not empty
or at its end. -/
theorem ReadAt_fromCache_tail {R : MediaResource ρ} (W : WellBehaved R)
    (t : MediaResourceIndex ρ) (o : Int) (b : Nat → Byte) (p n a : Nat) (E l : Int) (c : Nat)
    (hc : t.mCacheBlockSize = c) (C : Bounded t) (hk : t.mCachedBytes ≠ 0)
    (h1 : t.mCachedOffset ≤ o) (h2 : o ≤ t.mCachedOffset + t.mCachedBytes) (hn : 0 < n)
    (hnu : InUInt32 n) (hend : InInt64 (o + n)) (hl1 : l % (c : Int) = 0) (hl3 : l < o + n)
    (hl4 : o + n ≤ l + c) :
    TailCall R t (ReadAt_fromCache R t o b p n a E l) := by
  have hnn := C.off_nonneg
  have hei := C.end_i64
  have hbl := C.in_block hk
  have hcp := C.cap_pos
  have hcu := C.cap_u32
  have hbB := emod_bounds t.mCachedOffset hcp
  unfold InUInt32 at hnu hcu
  have hend' := hend
  unfold InInt64 at hend' hei
  unfold ReadAt_fromCache
  have e1 : MOZ_ASSERT 312 (decide (o ≥ t.mCachedOffset)) t = t := MOZ_ASSERT_of 312 t h1
  simp only [e1]
  obtain ⟨K, hK, hK1⟩ : ∃ K : Nat,
      uint32_t (int64_t (int64_t (t.mCachedOffset + t.mCachedBytes) - o)) = K ∧
      (K : Int) = t.mCachedOffset + t.mCachedBytes - o := by
    refine ⟨_, rfl, ?_⟩
    unfold uint32_t int64_t; omega
  simp only [hK]
  by_cases hz : min n K = 0
  · have hK0 : K = 0 := by omega
    simp only [hz, ne_eq, not_true_eq_false, if_false]
    exact ReadAt_afterCache_tail W t o b p n a E l c hc C hk (by omega) hn
      (by unfold InUInt32; omega) hend hl1 hl3 hl4
  · simp only [hz, ne_eq, not_false_eq_true, if_true]
    have e2 : uint32_t ((n : Int) - ((min n K : Nat) : Int)) = n - min n K := by
      unfold uint32_t; omega
    simp only [e2]
    by_cases hd : n - min n K = 0
    · simp only [hd, if_true]
      exact Or.inl (Grows_refl _ t)
    · simp only [hd, if_false]
      have hmin : min n K = K := by omega
      have e3 : int64_t (o + ((min n K : Nat) : Int)) = o + K := by
        rw [hmin]; unfold int64_t; omega
      simp only [e3]
      rw [hmin]
      exact ReadAt_afterCache_tail W t (o + K) _ (p + K) (n - K) _ E l c hc C hk
        (by omega) (by omega) (by unfold InUInt32; omega) (by unfold InInt64; omega) hl1
        (by omega) (by omega)

/-- `ReadAt` with arguments of the C++ types, from a state with the cache
bounds, on a well-behaved resource: either it makes no call of `CacheOrReadAt`,
or it returns what its call of `CacheOrReadAt` returns, and that call is entered
with the cache invalidated or at the end of the cached range inside its
block. -/
theorem ReadAt_tail {R : MediaResource ρ} (W : WellBehaved R) (t : MediaResourceIndex ρ)
    (o : Int) (b : Nat → Byte) (p n : Nat) (c : Nat) (hc : t.mCacheBlockSize = c)
    (C : Bounded t) (ho : InInt64 o) (hnu : InUInt32 n) :
    TailCall R t (ReadAt R t o b p n) := by
  have hnn := C.off_nonneg
  have hei := C.end_i64
  have hcp := C.cap_pos
  have hcu := C.cap_u32
  have hc0 : t.mCacheBlockSize ≠ 0 := by omega
  rw [hc] at hcp hcu
  have hnu' := hnu
  unfold InUInt32 at hnu' hcu
  have ho' := ho
  unfold InInt64 at ho' hei
  have hstay : Grows (fun e => isCacheOrReadAt e = false) t t := Grows_refl _ t
  unfold ReadAt
  rw [if_neg hc0]
  by_cases hz : n = 0
  · rw [if_pos hz]
    exact Or.inl hstay
  · rw [if_neg hz]
    simp only []
    by_cases hv : o < 0 ∨ int64_t (o + n) < o
    · rw [if_pos hv]
      exact Or.inl hstay
    · rw [if_neg hv]
      have hE : int64_t (o + n) = o + n := by
        unfold int64_t at hv ⊢; omega
      have hend : InInt64 (o + n) := by
        unfold InInt64; unfold int64_t at hv; omega
      have hend' := hend
      unfold InInt64 at hend'
      have hE1 : int64_t (o + n - 1) = o + n - 1 := by unfold int64_t; omega
      have hbE := emod_bounds (o + n - 1) hcp
      obtain ⟨l, hl, hl1, hl3, hl4⟩ : ∃ l : Int,
          t.CacheOffsetContaining (o + n - 1) = l ∧ l % (c : Int) = 0 ∧ l < o + n ∧
          o + n ≤ l + c := by
        refine ⟨_, rfl, ?_, ?_, ?_⟩
        · unfold CacheOffsetContaining; rw [hc]; exact alignDown_emod _ _
        · unfold CacheOffsetContaining; rw [hc]; omega
        · unfold CacheOffsetContaining; rw [hc]; omega
      simp only [hE, hE1, hl]
      have hBE : int64_t (t.mCachedOffset + t.mCachedBytes) =
          t.mCachedOffset + t.mCachedBytes := by unfold int64_t; omega
      simp only [hBE]
      by_cases hcond : t.mCachedBytes ≠ 0 ∧ t.mCachedOffset + t.mCachedBytes ≥ o ∧
          t.mCachedOffset < o + n
      · rw [if_pos hcond]
        obtain ⟨hk, hc1, hc2⟩ := hcond
        by_cases hgap : o < t.mCachedOffset
        · rw [if_pos hgap]
          obtain ⟨T, hT, hT1⟩ : ∃ T : Nat, uint32_t (int64_t (t.mCachedOffset - o)) = T ∧
              (T : Int) = t.mCachedOffset - o := by
            refine ⟨_, rfl, ?_⟩
            unfold uint32_t int64_t; omega
          simp only [hT]
          have e1 : MOZ_ASSERT 275 (decide (T > 0)) t = t := MOZ_ASSERT_of 275 t (by omega)
          simp only [e1]
          have e2 : MOZ_ASSERT 276 (decide (T < n)) t = t := MOZ_ASSERT_of 276 t (by omega)
          simp only [e2]
          have hm := UncachedReadAt_members R t o b p T
          have hle := UncachedReadAt_le R W.read_le t o b p T (by unfold InUInt32; omega)
          have hG : Grows (fun e => isCacheOrReadAt e = false) t
              (UncachedReadAt R t o b p T).index :=
            Grows_UncachedReadAt (P := fun e => isCacheOrReadAt e = false) R (fun _ _ => rfl) o b
              p T rfl (Grows_refl _ t)
          generalize UncachedReadAt R t o b p T = U at hm hle hG ⊢
          split
          · exact Or.inl hG
          · split
            · exact Or.inl hG
            · rename_i h1 h2
              have hfull : U.aBytes = T := by omega
              have e3 : int64_t (o + (U.aBytes : Int)) = t.mCachedOffset := by
                rw [hfull]; unfold int64_t; omega
              have e4 : uint32_t ((n : Int) - (U.aBytes : Int)) = n - T := by
                rw [hfull]; unfold uint32_t; omega
              simp only [e3, e4]
              have e5 : MOZ_ASSERT 310 (decide (t.mCachedOffset = U.index.mCachedOffset))
                  U.index = U.index := MOZ_ASSERT_of 310 U.index hm.2.2.1.symm
              simp only [e5]
              exact TailCall_step hm hG (ReadAt_fromCache_tail W U.index t.mCachedOffset
                U.aBuffer (p + U.aBytes) (n - T) U.aBytes (o + n) l c
                (by rw [hm.2.1]; exact hc) (Bounded_of_SameMembers hm C)
                (by rw [hm.2.2.2.1]; exact hk) (by rw [hm.2.2.1])
                (by rw [hm.2.2.1, hm.2.2.2.1]; omega) (by omega) (by unfold InUInt32; omega)
                (by unfold InInt64; omega) hl1 (by omega) (by omega))
        · rw [if_neg hgap]
          exact ReadAt_fromCache_tail W t o b p n 0 (o + n) l c hc C hk
            (by omega) (by omega) (by omega) hnu hend hl1 hl3 hl4
      · rw [if_neg hcond]
        by_cases hlast : o ≥ l
        · rw [if_pos hlast]
          exact Or.inr ⟨{ t with mCachedBytes := 0 }, o, b, p, n, 0, rfl, rfl, rfl, rfl,
            Or.inl rfl⟩
        · rw [if_neg hlast]
          exact ReadAt_beforeLastBlock_tail W t o b p n 0 l c hc (by omega) (by omega) hnu hend
            (by omega) hl3 hl4

/-- Every call of `CacheOrReadAt` that `ReadAt` makes in a reachable state, on a
well-behaved resource with a capacity that is a positive `uint32_t`: `ReadAt`
either makes none, or returns what its one call returns, and that call is
entered with the cache invalidated (`mCachedBytes = 0`), or, for the top-up of
line 354, with the cache as it was, ending at the offset of the call, and with
`IndexInCache(mCachedOffset) + mCachedBytes = IndexInCache(aOffset)`: the ranged
read of a top-up writes to the cache block after the cached bytes. -/
theorem ReadAt_CacheOrReadAt_entry {R : MediaResource ρ} (W : WellBehaved R) {c : Nat}
    {r0 : ρ} (hc : 0 < c) (hc2 : InUInt32 c) {t : MediaResourceIndex ρ}
    (h : Reachable R c r0 t) (o : Int) (b : Nat → Byte) (p n : Nat) (ho : InInt64 o)
    (hn : InUInt32 n) :
    (∀ e ∈ newEvents t (ReadAt R t o b p n).index, isCacheOrReadAt e = false) ∨
    ∃ (u : MediaResourceIndex ρ) (aOffset : Int) (aBuffer : Nat → Byte)
      (aPos aCount aBytes : Nat),
      ReadAt R t o b p n = CacheOrReadAt R u aOffset aBuffer aPos aCount aBytes ∧
      u.mCacheBlockSize = t.mCacheBlockSize ∧ u.mCachedOffset = t.mCachedOffset ∧
      u.mCachedBlock = t.mCachedBlock ∧
      (u.mCachedBytes = 0 ∨
        (u.mCachedBytes = t.mCachedBytes ∧ t.mCachedBytes ≠ 0 ∧
          int64_t (u.mCachedOffset + u.mCachedBytes) = aOffset ∧
          u.IndexInCache u.mCachedOffset + u.mCachedBytes = u.IndexInCache aOffset)) := by
  obtain ⟨B, hcap, _⟩ := Reachable_sound W hc hc2 h
  rcases ReadAt_tail W t o b p n c hcap B ho hn with g | g
  · exact Or.inl (Grows_newEvents g)
  · exact Or.inr g

/-! ## The cursor invariant and the termination of the retry loops -/

theorem Read_cursor (R : MediaResource ρ) (t : MediaResourceIndex ρ) (b : Nat → Byte)
    (p n : Nat) (h0 : 0 ≤ t.mOffset) (h1 : InInt64 t.mOffset) :
    0 ≤ (Read R t b p n).index.mOffset ∧ InInt64 (Read R t b p n).index.mOffset := by
  unfold Read
  simp only []
  split
  · rw [ReadAt_mOffset]
    exact ⟨h0, h1⟩
  · simp only []
    split
    · exact ⟨Int.le_refl 0, by decide⟩
    · rename_i h
      exact ⟨by omega, InInt64_int64_t _⟩

theorem Seek_cursor (R : MediaResource ρ) (t : MediaResourceIndex ρ) (w o : Int)
    (h0 : 0 ≤ t.mOffset) (h1 : InInt64 t.mOffset) (ho : InInt64 o) :
    0 ≤ (Seek R t w o).2.mOffset ∧ InInt64 (Seek R t w o).2.mOffset := by
  unfold Seek
  simp only [Seek_finish_eq]
  repeat' split
  all_goals first
    | exact ⟨h0, h1⟩
    | (rename_i h; exact ⟨by simpa using h, ho⟩)
    | (rename_i h; exact ⟨by simpa using h, InInt64_int64_t _⟩)

/-- C21: the cursor invariant, with `int64_t` arithmetic as wraparound.  For
every resource, whatever it does, and every capacity, in every state reached
from the initial one (cursor 0) by calls of `Read`, `ReadAt` and `Seek` with
arguments of the C++ types, the cursor `mOffset` is not negative (and an
`int64_t`).  `ReadAt` never changes the cursor, in any state, and neither do
`CacheOrReadAt`, `UncachedReadAt`, `UncachedRangedReadAt` and `GetLength`: `Read`
and `Seek` are the only operations that do, and `Seek` can in every reachable
state. -/
theorem cursor_invariant (R : MediaResource ρ) (c : Nat) (r0 : ρ) {t : MediaResourceIndex ρ}
    (h : Reachable R c r0 t) :
    (0 ≤ t.mOffset ∧ InInt64 t.mOffset) ∧
    (∀ (s : MediaResourceIndex ρ) (o : Int) (b : Nat → Byte) (p n : Nat),
      (ReadAt R s o b p n).index.mOffset = s.mOffset) ∧
    (∀ (s : MediaResourceIndex ρ) (o : Int) (b : Nat → Byte) (p n a : Nat),
      (CacheOrReadAt R s o b p n a).index.mOffset = s.mOffset) ∧
    (∀ (s : MediaResourceIndex ρ) (o : Int) (b : Nat → Byte) (p n : Nat),
      (UncachedReadAt R s o b p n).index.mOffset = s.mOffset) ∧
    (∀ (s : MediaResourceIndex ρ) (o : Int) (b : Nat → Byte) (p n x : Nat),
      (UncachedRangedReadAt R s o b p n x).index.mOffset = s.mOffset) ∧
    (∀ (s : MediaResourceIndex ρ), (GetLength R s).2.mOffset = s.mOffset) ∧
    (Seek R t SEEK_SET (t.mOffset + 1)).2.mOffset ≠ t.mOffset := by
  have inv : 0 ≤ t.mOffset ∧ InInt64 t.mOffset := by
    induction h with
    | init => exact ⟨Int.le_refl 0, by unfold InInt64; simp [init]⟩
    | Read t b p n _ _ ih => exact Read_cursor R t b p n ih.1 ih.2
    | ReadAt t o b p n _ _ _ ih =>
      rw [ReadAt_mOffset]
      exact ih
    | Seek t w o _ ho ih => exact Seek_cursor R t w o ih.1 ih.2 ho
  refine ⟨inv, fun s o b p n => ReadAt_mOffset R s o b p n,
    fun s o b p n a => CacheOrReadAt_mOffset R s o b p n a,
    fun s o b p n => UncachedReadAt_mOffset R s o b p n,
    fun s o b p n x => UncachedRangedReadAt_mOffset R s o b p n x,
    fun s => GetLength_mOffset R s, ?_⟩
  have hs : Seek R t SEEK_SET (t.mOffset + 1) =
      (NS_OK, { t with mOffset := t.mOffset + 1 }) := by
    unfold Seek
    rw [if_pos rfl, Seek_finish_eq, if_neg (by have := inv.1; omega)]
  rw [hs]
  show t.mOffset + 1 ≠ t.mOffset
  omega

/-- Claim C21 on `streamResource` with a 16-byte block: `Read` of 4 bytes moves
the cursor from 0 to 4, `Seek(SEEK_CUR, 6)` moves it to 10, and a `ReadAt` there
leaves it at 10. -/
theorem cursor_invariant_witness :
    Reachable streamResource 16 ()
      (Seek streamResource (Read streamResource (init 16 ()) blankBuffer 0 4).index SEEK_CUR
        6).2 ∧
    (0 ≤ (Seek streamResource (Read streamResource (init 16 ()) blankBuffer 0 4).index SEEK_CUR
        6).2.mOffset ∧
      InInt64 (Seek streamResource (Read streamResource (init 16 ()) blankBuffer 0 4).index
        SEEK_CUR 6).2.mOffset) ∧
    (Read streamResource (init 16 ()) blankBuffer 0 4).index.mOffset = 4 ∧
    (Seek streamResource (Read streamResource (init 16 ()) blankBuffer 0 4).index SEEK_CUR
      6).2.mOffset = 10 ∧
    (ReadAt streamResource
      (Seek streamResource (Read streamResource (init 16 ()) blankBuffer 0 4).index SEEK_CUR
        6).2 20 blankBuffer 0 4).index.mOffset = 10 :=
  have hr : Reachable streamResource 16 ()
      (Seek streamResource (Read streamResource (init 16 ()) blankBuffer 0 4).index SEEK_CUR
        6).2 :=
    Reachable.Seek _ SEEK_CUR 6 (Reachable.Read _ blankBuffer 0 4 Reachable.init (by decide))
      (by decide)
  have h := cursor_invariant streamResource 16 () hr
  ⟨hr, h.1, by decide, by decide, by rw [h.2.1]; decide⟩

theorem cons_eq_append_two {α : Type} {x e e2 : α} {l pre post : List α}
    (h : x :: l = pre ++ e :: e2 :: post) :
    (pre = [] ∧ e = x ∧ l = e2 :: post) ∨ ∃ pre2, pre = x :: pre2 ∧ l = pre2 ++ e :: e2 :: post := by
  cases pre with
  | nil => simp at h; exact Or.inl ⟨rfl, h.1.symm, h.2⟩
  | cons y ys => simp at h; exact Or.inr ⟨ys, by rw [h.1], h.2⟩

/-- The raw reads of `UncachedReadAt` on a resource that never hands back more
than asked for: there are at most `aCount` of them (one for a count of 0, which
`UncachedReadAt` does not enter the loop with), the first asks for `aCount`, and
each further one asks for less than the one before. -/
theorem uncachedReads_decreasing (R : MediaResource ρ) (hR : NeverMore R) (f : Nat) :
    ∀ (r : ρ) (o : Int) (n : Nat), InUInt32 n →
      (uncachedReads R f r o n).length ≤ max n 1 ∧
      (∀ e post, uncachedReads R f r o n = e :: post → e.aCount = n) ∧
      (∀ pre e e2 post, uncachedReads R f r o n = pre ++ e :: e2 :: post →
        e2.aCount < e.aCount) := by
  induction f with
  | zero =>
    intro r o n _
    simp [uncachedReads]
  | succ k ih =>
    intro r o n hn
    have hle := hR r o n
    have hbr : uint32_t ((R.ReadAt r o n).2.1.length : Int) = (R.ReadAt r o n).2.1.length := by
      unfold InUInt32 at hn; unfold uint32_t; omega
    have hsub : uint32_t ((n : Int) - ((R.ReadAt r o n).2.1.length : Int)) =
        n - (R.ReadAt r o n).2.1.length := by
      unfold InUInt32 at hn; unfold uint32_t; omega
    simp only [uncachedReads, RawRead.bytesRead, hbr, hsub]
    have base : ([(⟨o, n, (R.ReadAt r o n).1, (R.ReadAt r o n).2.1⟩ : RawRead)].length ≤
          max n 1) ∧
        (∀ e post, [(⟨o, n, (R.ReadAt r o n).1, (R.ReadAt r o n).2.1⟩ : RawRead)] = e :: post →
          e.aCount = n) ∧
        (∀ pre e e2 post,
          [(⟨o, n, (R.ReadAt r o n).1, (R.ReadAt r o n).2.1⟩ : RawRead)] =
            pre ++ e :: e2 :: post → e2.aCount < e.aCount) := by
      refine ⟨by simp, ?_, ?_⟩
      · intro e post h
        simp at h
        rw [← h.1]
      · intro pre e e2 post h
        have := congrArg List.length h
        simp at this
        omega
    split
    · exact base
    · split
      · exact base
      · split
        · exact base
        · split
          · exact base
          · rename_i h1 h2 h3 h4
            obtain ⟨i1, i2, i3⟩ := ih (R.ReadAt r o n).2.2
              (int64_t (o + ((R.ReadAt r o n).2.1.length : Int)))
              (n - (R.ReadAt r o n).2.1.length) (by unfold InUInt32 at *; omega)
            refine ⟨?_, ?_, ?_⟩
            · simp only [List.length_cons]
              omega
            · intro e post h
              simp at h
              rw [← h.1]
            · intro pre e e2 post h
              rcases cons_eq_append_two h with ⟨_, rfl, h'⟩ | ⟨pre2, _, h'⟩
              · have := i2 e2 post h'
                show e2.aCount < n
                omega
              · exact i3 pre2 e e2 post h'

/-- The same for the raw reads of `UncachedRangedReadAt`, which aim at `count`
bytes and stop once no more than `aExtraCount` are missing: there are at most
`count - aExtraCount` of them, and at least room for one. -/
theorem uncachedRangedReads_decreasing (R : MediaResource ρ) (hR : NeverMore R) (x : Nat)
    (f : Nat) :
    ∀ (r : ρ) (o : Int) (n : Nat), InUInt32 n →
      (uncachedRangedReads R x f r o n).length ≤ max (n - x) 1 ∧
      (∀ e post, uncachedRangedReads R x f r o n = e :: post → e.aCount = n) ∧
      (∀ pre e e2 post, uncachedRangedReads R x f r o n = pre ++ e :: e2 :: post →
        e2.aCount < e.aCount) := by
  induction f with
  | zero =>
    intro r o n _
    simp [uncachedRangedReads]
  | succ k ih =>
    intro r o n hn
    have hle := hR r o n
    have hbr : uint32_t ((R.ReadAt r o n).2.1.length : Int) = (R.ReadAt r o n).2.1.length := by
      unfold InUInt32 at hn; unfold uint32_t; omega
    have hsub : uint32_t ((n : Int) - ((R.ReadAt r o n).2.1.length : Int)) =
        n - (R.ReadAt r o n).2.1.length := by
      unfold InUInt32 at hn; unfold uint32_t; omega
    simp only [uncachedRangedReads, RawRead.bytesRead, hbr, hsub]
    have base : ([(⟨o, n, (R.ReadAt r o n).1, (R.ReadAt r o n).2.1⟩ : RawRead)].length ≤
          max (n - x) 1) ∧
        (∀ e post, [(⟨o, n, (R.ReadAt r o n).1, (R.ReadAt r o n).2.1⟩ : RawRead)] = e :: post →
          e.aCount = n) ∧
        (∀ pre e e2 post,
          [(⟨o, n, (R.ReadAt r o n).1, (R.ReadAt r o n).2.1⟩ : RawRead)] =
            pre ++ e :: e2 :: post → e2.aCount < e.aCount) := by
      refine ⟨by simp, ?_, ?_⟩
      · intro e post h
        simp at h
        rw [← h.1]
      · intro pre e e2 post h
        have := congrArg List.length h
        simp at this
        omega
    split
    · exact base
    · split
      · exact base
      · split
        · exact base
        · split
          · exact base
          · rename_i h1 h2 h3 h4
            obtain ⟨i1, i2, i3⟩ := ih (R.ReadAt r o n).2.2
              (int64_t (o + ((R.ReadAt r o n).2.1.length : Int)))
              (n - (R.ReadAt r o n).2.1.length) (by unfold InUInt32 at *; omega)
            refine ⟨?_, ?_, ?_⟩
            · simp only [List.length_cons]
              omega
            · intro e post h
              simp at h
              rw [← h.1]
            · intro pre e e2 post h
              rcases cons_eq_append_two h with ⟨_, rfl, h'⟩ | ⟨pre2, _, h'⟩
              · have := i2 e2 post h'
                show e2.aCount < n
                omega
              · exact i3 pre2 e e2 post h'

/-- On a resource that never hands back more than asked for, a bound of `aCount`
iterations (of 1 for a count of 0) is never used up by the loop of
`UncachedReadAt`: any two bounds at least that large give the same outcome.
(Each iteration that continues leaves a smaller, non-zero count.) -/
theorem UncachedReadAt_loop_count_fuel (R : MediaResource ρ) (hR : NeverMore R) (f1 : Nat) :
    ∀ (f2 : Nat) (s : MediaResourceIndex ρ) (o : Int) (b : Nat → Byte) (p n a : Nat),
      InUInt32 n → max n 1 ≤ f1 → max n 1 ≤ f2 →
      UncachedReadAt_loop R f1 s o b p n a = UncachedReadAt_loop R f2 s o b p n a := by
  induction f1 with
  | zero =>
    intro f2 s o b p n a _ h1 _
    omega
  | succ k ih =>
    intro f2 s o b p n a hn h1 h2
    cases f2 with
    | zero => omega
    | succ k2 =>
      have hle : (mResource_ReadAt R s o n).2.1.length ≤ n := hR s.mResource o n
      have hbr : uint32_t ((mResource_ReadAt R s o n).2.1.length : Int) =
          (mResource_ReadAt R s o n).2.1.length := by
        unfold InUInt32 at hn; unfold uint32_t; omega
      have hsub : uint32_t ((n : Int) - ((mResource_ReadAt R s o n).2.1.length : Int)) =
          n - (mResource_ReadAt R s o n).2.1.length := by
        unfold InUInt32 at hn; unfold uint32_t; omega
      simp only [UncachedReadAt_loop, hbr, hsub]
      split
      · rfl
      · split
        · rfl
        · split
          · rfl
          · split
            · rfl
            · exact ih k2 _ _ _ _ _ _ (by unfold InUInt32 at *; omega) (by omega) (by omega)

/-- The same for the loop of `UncachedRangedReadAt`, with a bound of
`count - aExtraCount` iterations (of 1 when that is 0). -/
theorem UncachedRangedReadAt_loop_count_fuel (R : MediaResource ρ) (hR : NeverMore R)
    (x : Nat) (f1 : Nat) :
    ∀ (f2 : Nat) (s : MediaResourceIndex ρ) (o : Int) (b : Nat → Byte) (p n a : Nat),
      InUInt32 n → max (n - x) 1 ≤ f1 → max (n - x) 1 ≤ f2 →
      UncachedRangedReadAt_loop R x f1 s o b p n a =
        UncachedRangedReadAt_loop R x f2 s o b p n a := by
  induction f1 with
  | zero =>
    intro f2 s o b p n a _ h1 _
    omega
  | succ k ih =>
    intro f2 s o b p n a hn h1 h2
    cases f2 with
    | zero => omega
    | succ k2 =>
      have hle : (mResource_ReadAt R s o n).2.1.length ≤ n := hR s.mResource o n
      have hbr : uint32_t ((mResource_ReadAt R s o n).2.1.length : Int) =
          (mResource_ReadAt R s o n).2.1.length := by
        unfold InUInt32 at hn; unfold uint32_t; omega
      have hsub : uint32_t ((n : Int) - ((mResource_ReadAt R s o n).2.1.length : Int)) =
          n - (mResource_ReadAt R s o n).2.1.length := by
        unfold InUInt32 at hn; unfold uint32_t; omega
      simp only [UncachedRangedReadAt_loop, hbr, hsub]
      split
      · rfl
      · split
        · rfl
        · split
          · rfl
          · split
            · rfl
            · exact ih k2 _ _ _ _ _ _ (by unfold InUInt32 at *; omega) (by omega) (by omega)

/-- The loop of `UncachedReadAt` run with any bound of at least `aCount`
iterations gives the outcome of `UncachedReadAt`. -/
theorem UncachedReadAt_count_fuel (R : MediaResource ρ) (hR : NeverMore R)
    (s : MediaResourceIndex ρ) (o : Int) (b : Nat → Byte) (p n : Nat) (ho : InInt64 o)
    (hn : InUInt32 n) (h0 : 0 ≤ o) (hn0 : n ≠ 0) (f : Nat) (hf : n ≤ f) :
    UncachedReadAt_loop R f (s.emit (Event.UncachedReadAt o n)) o b p n 0 =
      UncachedReadAt R s o b p n := by
  have hX : UncachedReadAt R s o b p n =
      UncachedReadAt_loop R (loopFuel o) (s.emit (Event.UncachedReadAt o n)) o b p n 0 := by
    unfold UncachedReadAt
    simp only []
    rw [if_neg (by omega), if_pos hn0]
  rw [hX]
  by_cases h : loopFuel o ≤ f
  · exact UncachedReadAt_loop_fuel R f _ _ _ _ _ _ _ h0 ho h (Nat.le_refl _)
  · exact UncachedReadAt_loop_count_fuel R hR f _ _ _ _ _ _ _ hn (by omega) (by omega)

/-- The loop of `UncachedRangedReadAt` run with any bound of at least
`max(aRequestedCount, 1)` iterations gives the outcome of
`UncachedRangedReadAt`. -/
theorem UncachedRangedReadAt_count_fuel (R : MediaResource ρ) (hR : NeverMore R)
    (s : MediaResourceIndex ρ) (o : Int) (b : Nat → Byte) (p req extra : Nat) (ho : InInt64 o)
    (h0 : 0 ≤ o) (hs : InUInt32 (req + extra)) (hn0 : req + extra ≠ 0) (f : Nat)
    (hf : max req 1 ≤ f) :
    UncachedRangedReadAt_loop R extra f (s.emit (Event.UncachedRangedReadAt o req extra)) o b p
        (req + extra) 0 =
      UncachedRangedReadAt R s o b p req extra := by
  have hsum : uint32_t ((req : Int) + (extra : Int)) = req + extra := by
    unfold InUInt32 at hs; unfold uint32_t; omega
  have hX : UncachedRangedReadAt R s o b p req extra =
      UncachedRangedReadAt_loop R extra (loopFuel o)
        (s.emit (Event.UncachedRangedReadAt o req extra)) o b p (req + extra) 0 := by
    unfold UncachedRangedReadAt
    simp only [hsum]
    rw [if_neg (by omega), if_pos hn0]
  rw [hX]
  by_cases h : loopFuel o ≤ f
  · exact UncachedRangedReadAt_loop_fuel R extra f _ _ _ _ _ _ _ h0 ho h (Nat.le_refl _)
  · exact UncachedRangedReadAt_loop_count_fuel R hR extra f _ _ _ _ _ _ _ hs (by omega)
      (by omega)

theorem resourceReads_readEvents (l : List RawRead) :
    resourceReads (readEvents l) = l.length := by
  induction l with
  | nil => rfl
  | cons e l ih =>
    rw [readEvents_cons, resourceReads_cons, ih]
    rfl

/-- The trace of `UncachedRangedReadAt`: the entry, then the raw reads of
`UncachedRangedReadAt_reads`. -/
theorem UncachedRangedReadAt_reads_trace (R : MediaResource ρ) (s : MediaResourceIndex ρ)
    (o : Int) (b : Nat → Byte) (p req extra : Nat) (ho : InInt64 o) :
    (UncachedRangedReadAt R s o b p req extra).index.trace =
      s.trace ++ Event.UncachedRangedReadAt o req extra ::
        readEvents (UncachedRangedReadAt_reads R s.mResource o req extra) := by
  unfold UncachedRangedReadAt UncachedRangedReadAt_reads
  simp only []
  by_cases h1 : o < 0 ∨ uint32_t ((req : Int) + (extra : Int)) < req
  · have h1' : o < 0 ∨ uint32_t ((req : Int) + (extra : Int)) < req ∨
        uint32_t ((req : Int) + (extra : Int)) = 0 := by
      rcases h1 with h | h
      · exact Or.inl h
      · exact Or.inr (Or.inl h)
    rw [if_pos h1, if_pos h1']
    simp [emit]
  · rw [if_neg h1]
    by_cases h2 : uint32_t ((req : Int) + (extra : Int)) = 0
    · rw [if_neg (by simpa using h2), if_pos (Or.inr (Or.inr h2))]
      simp [emit]
    · rw [if_pos h2, if_neg (by
        rintro (h | h | h)
        · exact h1 (Or.inl h)
        · exact h1 (Or.inr h)
        · exact h2 h)]
      rw [UncachedRangedReadAt_loop_trace R extra (loopFuel o) _ o b p _ 0 (by omega) ho
        (Nat.le_refl _)]
      simp [emit]

/-- C22: the retry loops terminate.  On a resource whose raw reads never hand
back more bytes than asked for, for an `int64_t` offset and a `uint32_t` count:
`UncachedReadAt(o, buf, n)` makes the raw reads of `UncachedReadAt_reads` and no
others, at most `n` of them (so none for `n = 0`), and its loop run with any
bound of at least `n` iterations gives the outcome of `UncachedReadAt`;
`UncachedRangedReadAt(o, buf, req, extra)` makes the raw reads of
`UncachedRangedReadAt_reads` and no others, at most `max(req, 1)` of them and
none when `req + extra` is 0 as a `uint32_t`, and its loop run with any bound of
at least `max(req, 1)` iterations gives the outcome of `UncachedRangedReadAt`.
In both, each raw read after the first asks for strictly fewer bytes than the
one before: every iteration that continues has decreased the remaining count. -/
theorem retry_loops_terminate (R : MediaResource ρ) (hR : NeverMore R)
    (s : MediaResourceIndex ρ) (o : Int) (b : Nat → Byte) (p n req extra : Nat)
    (ho : InInt64 o) (hn : InUInt32 n) :
    ((UncachedReadAt R s o b p n).index.trace =
        s.trace ++ Event.UncachedReadAt o n :: readEvents (UncachedReadAt_reads R s.mResource o n) ∧
      (UncachedReadAt_reads R s.mResource o n).length ≤ n ∧
      resourceReads ((UncachedReadAt R s o b p n).index.trace.drop s.trace.length) ≤ n ∧
      (∀ f, n ≤ f → 0 ≤ o → n ≠ 0 →
        UncachedReadAt_loop R f (s.emit (Event.UncachedReadAt o n)) o b p n 0 =
          UncachedReadAt R s o b p n) ∧
      (∀ pre e e2 post, UncachedReadAt_reads R s.mResource o n = pre ++ e :: e2 :: post →
        e2.aCount < e.aCount)) ∧
    ((UncachedRangedReadAt R s o b p req extra).index.trace =
        s.trace ++ Event.UncachedRangedReadAt o req extra ::
          readEvents (UncachedRangedReadAt_reads R s.mResource o req extra) ∧
      (UncachedRangedReadAt_reads R s.mResource o req extra).length ≤ max req 1 ∧
      (uint32_t (req + extra) = 0 → UncachedRangedReadAt_reads R s.mResource o req extra = []) ∧
      resourceReads ((UncachedRangedReadAt R s o b p req extra).index.trace.drop s.trace.length) ≤
        max req 1 ∧
      (uint32_t (req + extra) = 0 →
        resourceReads
          ((UncachedRangedReadAt R s o b p req extra).index.trace.drop s.trace.length) = 0) ∧
      (∀ f, max req 1 ≤ f → 0 ≤ o → InUInt32 (req + extra) → req + extra ≠ 0 →
        UncachedRangedReadAt_loop R extra f (s.emit (Event.UncachedRangedReadAt o req extra)) o b
            p (req + extra) 0 =
          UncachedRangedReadAt R s o b p req extra) ∧
      (∀ pre e e2 post,
        UncachedRangedReadAt_reads R s.mResource o req extra = pre ++ e :: e2 :: post →
        e2.aCount < e.aCount)) := by
  have hdrop : ∀ (e : Event) (d : List Event), isResourceReadAt e = false →
      resourceReads ((s.trace ++ e :: d).drop s.trace.length) = resourceReads d := by
    intro e d he
    rw [List.drop_left, resourceReads_cons, he]
    rfl
  constructor
  · have ht := (UncachedReadAt_reads_spec R s o b p n ho hn).1
    have hlen : (UncachedReadAt_reads R s.mResource o n).length ≤ n := by
      unfold UncachedReadAt_reads
      split
      · exact Nat.zero_le _
      · rename_i h
        have := (uncachedReads_decreasing R hR (loopFuel o) s.mResource o n hn).1
        omega
    refine ⟨ht, hlen, ?_, ?_, ?_⟩
    · rw [ht, hdrop (Event.UncachedReadAt o n) _ rfl, resourceReads_readEvents]
      exact hlen
    · intro f hf h0 hn0
      exact UncachedReadAt_count_fuel R hR s o b p n ho hn h0 hn0 f hf
    · intro pre e e2 post h
      unfold UncachedReadAt_reads at h
      split at h
      · exact absurd (congrArg List.length h) (by simp; omega)
      · exact (uncachedReads_decreasing R hR (loopFuel o) s.mResource o n hn).2.2 pre e e2 post h
  · have ht := UncachedRangedReadAt_reads_trace R s o b p req extra ho
    have hc : InUInt32 (uint32_t ((req : Int) + (extra : Int))) := by
      unfold InUInt32; exact uint32_t_lt _
    have hcle : uint32_t ((req : Int) + (extra : Int)) ≤ req + extra := by
      unfold uint32_t; omega
    have hlen : (UncachedRangedReadAt_reads R s.mResource o req extra).length ≤ max req 1 := by
      unfold UncachedRangedReadAt_reads
      split
      · simp
      · rename_i h
        have := (uncachedRangedReads_decreasing R hR extra (loopFuel o) s.mResource o _ hc).1
        omega
    have hzero : uint32_t ((req : Int) + (extra : Int)) = 0 →
        UncachedRangedReadAt_reads R s.mResource o req extra = [] := by
      intro h
      unfold UncachedRangedReadAt_reads
      rw [if_pos (Or.inr (Or.inr h))]
    refine ⟨ht, hlen, hzero, ?_, ?_, ?_, ?_⟩
    · rw [ht, hdrop (Event.UncachedRangedReadAt o req extra) _ rfl, resourceReads_readEvents]
      exact hlen
    · intro h
      rw [ht, hdrop (Event.UncachedRangedReadAt o req extra) _ rfl, resourceReads_readEvents,
        hzero h]
      rfl
    · intro f hf h0 hs hn0
      exact UncachedRangedReadAt_count_fuel R hR s o b p req extra ho h0 hs hn0 f hf
    · intro pre e e2 post h
      unfold UncachedRangedReadAt_reads at h
      split at h
      · exact absurd (congrArg List.length h) (by simp; omega)
      · exact (uncachedRangedReads_decreasing R hR extra (loopFuel o) s.mResource o _ hc).2.2
          pre e e2 post h

/-- Claim C22 on a resource that hands back 2 bytes at a time: `UncachedReadAt`
of 5 bytes at offset 10 makes 3 raw reads, asking for 5, 3 and 1 bytes, and 5
iterations of its loop give its outcome; `UncachedRangedReadAt` of 3 required
and 5 extra bytes makes 2 raw reads, asking for 8 and 6 bytes, and 3 iterations
of its loop give its outcome. -/
theorem retry_loops_terminate_witness :
    (NeverMore (trickleResource 2) ∧ InInt64 10 ∧ InUInt32 5) ∧
    UncachedReadAt_reads (trickleResource 2) () 10 5 =
      [⟨10, 5, NS_OK, [10, 11]⟩, ⟨12, 3, NS_OK, [12, 13]⟩, ⟨14, 1, NS_OK, [14]⟩] ∧
    resourceReads ((UncachedReadAt (trickleResource 2) (init 16 ()) 10 blankBuffer 0
      5).index.trace.drop (init 16 ()).trace.length) ≤ 5 ∧
    UncachedReadAt_loop (trickleResource 2) 5 ((init 16 ()).emit (Event.UncachedReadAt 10 5)) 10
        blankBuffer 0 5 0 =
      UncachedReadAt (trickleResource 2) (init 16 ()) 10 blankBuffer 0 5 ∧
    UncachedRangedReadAt_reads (trickleResource 2) () 10 3 5 =
      [⟨10, 8, NS_OK, [10, 11]⟩, ⟨12, 6, NS_OK, [12, 13]⟩] ∧
    resourceReads ((UncachedRangedReadAt (trickleResource 2) (init 16 ()) 10 blankBuffer 0 3
      5).index.trace.drop (init 16 ()).trace.length) ≤ max 3 1 ∧
    UncachedRangedReadAt_loop (trickleResource 2) 5 3
        ((init 16 ()).emit (Event.UncachedRangedReadAt 10 3 5)) 10 blankBuffer 0 (3 + 5) 0 =
      UncachedRangedReadAt (trickleResource 2) (init 16 ()) 10 blankBuffer 0 3 5 :=
  have h := retry_loops_terminate (trickleResource 2) (trickleResource_neverMore 2) (init 16 ())
    10 blankBuffer 0 5 3 5 (by decide) (by decide)
  ⟨⟨trickleResource_neverMore 2, by decide, by decide⟩,
    rfl, h.1.2.2.1, h.1.2.2.2.1 5 (Nat.le_refl 5) (by decide) (by decide),
    rfl, h.2.2.2.2.1,
    h.2.2.2.2.2.2.1 3 (by decide) (by decide) (by decide) (by decide)⟩


end MediaResourceIndex

end mozilla
